import Mathlib

/-!
# spe_ed server: the round engine of `game.go`

A shallow embedding of `Game.RunGame` (initialisation, action collection,
action phase, movement, crash adjudication, end of match) and of the helpers
`invalidatePlayer`, `checkEndRound` and `checkEndGame`.

Conventions of the embedding.

* `Game.Players` is a Go `map[int]*Player`; it is a function
  `Nat → Option Player`.  Every `for i := range g.Players` ranges over the
  keys in an unspecified order, so each such loop takes the list of keys in
  the order in which they are visited as an argument.
* `Game.Cells` is `[][]int8`, allocated by `RunGame` with `Height` rows of
  `Width` cells; it is a function of the row `y` and the column `x`, and an
  index expression `g.Cells[y][x]` is in range exactly when
  `0 ≤ y < Height` and `0 ≤ x < Width`.  Reads that the source does not guard
  (`readCell`) return `none` outside that range, where Go panics.
* `playerAnswer` and `playerChannel` are slices of length `PlayersPerGame`,
  indexed by `id - 1`; they are functions of the slot index.  A channel slot
  is `true` when the channel is not `nil`.
* Go `int` is 64 bit; positions, speeds and step counters stay far below
  that range and are `Int`.  The conversion `int8(i)` is explicit.
-/

namespace SpeEd

/-! ## Constants -/

/-- FieldMaxSize contains the maximum size of the field. -/
def FieldMaxSize : Int := 80
/-- FieldMinSize contains the minimum size of the field. -/
def FieldMinSize : Int := 40
/-- PlayersPerGame contains the maximum number of players allowed in the game. -/
def PlayersPerGame : Nat := 6
/-- MaxSpeed holds the maximum speed. -/
def MaxSpeed : Int := 10
/-- HolesEachStep holds after how many steps a hole might occur. -/
def HolesEachStep : Int := 6
/-- HoleSpeed contains the minimum speed needed for a hole. -/
def HoleSpeed : Int := 3

/-- The four direction constants `DirectionUp`, `DirectionDown`,
`DirectionLeft`, `DirectionRight` of `player.go`; the engine never assigns
another value to `Player.Direction`. -/
inductive Direction where
  | up
  | down
  | left
  | right
deriving DecidableEq, Repr

/-- Modelled from the spec: the action constant `ActionTurnLeft`; the file
that declares the action constants and `IsValidAction` is not among the
sources, the spec gives the five strings. -/
def ActionTurnLeft : String := "turn_left"
/-- Modelled from the spec: the action constant `ActionTurnRight`. -/
def ActionTurnRight : String := "turn_right"
/-- Modelled from the spec: the action constant `ActionFaster`. -/
def ActionFaster : String := "speed_up"
/-- Modelled from the spec: the action constant `ActionSlower`. -/
def ActionSlower : String := "slow_down"
/-- Modelled from the spec: the action constant `ActionNOOP`. -/
def ActionNOOP : String := "change_nothing"

/-- Modelled from the spec: the action validator `IsValidAction`, which
"accepts exactly those five strings"; its source file is missing. -/
def IsValidAction (a : String) : Bool :=
  a == ActionTurnLeft || a == ActionTurnRight || a == ActionFaster ||
    a == ActionSlower || a == ActionNOOP

/-! ## Data model -/

/-- The fields of `Player` the engine computes with. -/
structure Player where
  X : Int
  Y : Int
  Direction : Direction
  Speed : Int
  Active : Bool
  stepCounter : Int
  /-- The field `Input` is a channel; `true` when it is not `nil`. -/
  Input : Bool
deriving DecidableEq, Repr

/-- The fields of `Game` the engine computes with. -/
structure Game where
  Width : Int
  Height : Int
  Cells : Int → Int → Int
  Players : Nat → Option Player
  MaxPlayer : Nat
  numberPlayer : Nat
  playerAnswer : Nat → String
  playerChannel : Nat → Bool
  /-- The field `You`: the recipient of a broadcast, 0 otherwise. -/
  You : Nat := 0
  /-- The field `Running`. -/
  Running : Bool := false

/-- The Go conversion `int8(i)` of an `int`. -/
def int8 (i : Int) : Int := (i + 128) % 256 - 128

/-- The assignment `g.Cells[y][x] = v`. -/
def setCell (cells : Int → Int → Int) (y x v : Int) : Int → Int → Int :=
  fun y' x' => if y' = y ∧ x' = x then v else cells y' x'

/-- The guard `x < 0 || x >= Width || y < 0 || y >= Height` of the movement
loop, negated: the position is a cell of the grid. -/
def inGrid (W H x y : Int) : Bool :=
  !(decide (x < 0) || decide (x ≥ W) || decide (y < 0) || decide (y ≥ H))

/-- An unguarded read `g.Cells[y][x]`: `none` where the index is out of range. -/
def readCell (W H : Int) (cells : Int → Int → Int) (y x : Int) : Option Int :=
  if 0 ≤ y ∧ y < H ∧ 0 ≤ x ∧ x < W then some (cells y x) else none

/-! ## invalidatePlayer -/

/-- The method `Game.invalidatePlayer`: nothing if `p` is not a key of the map, else the
player is set inactive and its channel slot is set to `nil`. -/
def invalidatePlayer (g : Game) (p : Nat) : Game :=
  match g.Players p with
  | none => g
  | some pl =>
    { g with
      Players := Function.update g.Players p (some { pl with Active := false })
      playerChannel := Function.update g.playerChannel (p - 1) false }

/-! ## Process Actions -/

/-- The rotation table of the `ActionTurnLeft` case. -/
def TurnLeft : Direction → Direction
  | .left => .down
  | .right => .up
  | .up => .left
  | .down => .right

/-- The rotation table of the `ActionTurnRight` case. -/
def TurnRight : Direction → Direction
  | .left => .up
  | .right => .down
  | .up => .right
  | .down => .left

/-- The assignment of a new record to `g.Players[i]`. -/
def setPlayer (g : Game) (i : Nat) (p : Player) : Game :=
  { g with Players := Function.update g.Players i (some p) }

/-- The body of the "Process Actions" loop for the key `i`: a switch on
`g.playerAnswer[i-1]`. -/
def processAction (g : Game) (i : Nat) : Game :=
  match g.Players i with
  | none => g
  | some p =>
    let a := g.playerAnswer (i - 1)
    if a = "" then invalidatePlayer g i
    else if a = ActionTurnLeft then
      setPlayer g i { p with Direction := TurnLeft p.Direction }
    else if a = ActionTurnRight then
      setPlayer g i { p with Direction := TurnRight p.Direction }
    else if a = ActionFaster then
      let g1 := setPlayer g i { p with Speed := p.Speed + 1 }
      if p.Speed + 1 > MaxSpeed then invalidatePlayer g1 i else g1
    else if a = ActionSlower then
      let g1 := setPlayer g i { p with Speed := p.Speed - 1 }
      if p.Speed - 1 < 1 then invalidatePlayer g1 i else g1
    else if a = ActionNOOP then g
    else invalidatePlayer g i

/-- The "Process Actions" loop, visiting the keys in the order `o`. -/
def processActions (o : List Nat) (g : Game) : Game :=
  o.foldl processAction g

/-! ## Do Movement -/

/-- The closure `dostep` selected by the direction. -/
def dostep : Direction → Int → Int → Int × Int
  | .up, x, y => (x, y - 1)
  | .down, x, y => (x, y + 1)
  | .left, x, y => (x - 1, y)
  | .right, x, y => (x + 1, y)

/-- The hole test
`Speed >= HoleSpeed && stepCounter%HolesEachStep == 0 && s != 0 && s != Speed-1`
(Go `%` is the truncating remainder). -/
def isHole (speed stepCounter s : Int) : Bool :=
  decide (speed ≥ HoleSpeed) && decide (Int.tmod stepCounter HolesEachStep = 0) &&
    decide (s ≠ 0) && decide (s ≠ speed - 1)

/-- The variables the movement loop of one player changes: the grid, the
player's position and its active flag. -/
structure MoveState where
  Cells : Int → Int → Int
  X : Int
  Y : Int
  Active : Bool

/-- The loop `for s := 0; s < Speed; s++` of "Do Movement" for player `i`,
with `n` iterations left and loop counter `s`.  The off-grid branch
invalidates and breaks, the hole branch continues without writing, otherwise
the cell gets -1 if it is not empty and `int8(i)` if it is. -/
def moveLoop (W H : Int) (i : Nat) (d : Direction) (speed stepCounter : Int) :
    Nat → Int → MoveState → MoveState
  | 0, _, st => st
  | n + 1, s, st =>
    let x := (dostep d st.X st.Y).1
    let y := (dostep d st.X st.Y).2
    if x < 0 ∨ x ≥ W ∨ y < 0 ∨ y ≥ H then
      { st with X := x, Y := y, Active := false }
    else if isHole speed stepCounter s then
      moveLoop W H i d speed stepCounter n (s + 1) { st with X := x, Y := y }
    else
      moveLoop W H i d speed stepCounter n (s + 1)
        { st with
          Cells := setCell st.Cells y x (if st.Cells y x ≠ 0 then -1 else int8 i)
          X := x
          Y := y }

/-- The body of the "Do Movement" loop for the key `i`: inactive players are
skipped, the step counter is incremented, the player is moved `Speed` times. -/
def movePlayer (g : Game) (i : Nat) : Game :=
  match g.Players i with
  | none => g
  | some p =>
    if p.Active = false then g
    else
      let st := moveLoop g.Width g.Height i p.Direction p.Speed (p.stepCounter + 1)
        p.Speed.toNat 0 ⟨g.Cells, p.X, p.Y, true⟩
      let g1 : Game :=
        { g with
          Cells := st.Cells
          Players := Function.update g.Players i
            (some { p with X := st.X, Y := st.Y, stepCounter := p.stepCounter + 1 }) }
      if st.Active then g1 else invalidatePlayer g1 i

/-- The "Do Movement" loop, visiting the keys in the order `o`. -/
def doMovement (o : List Nat) (g : Game) : Game :=
  o.foldl movePlayer g

/-! ## Check crash -/

/-- The closure `dostepback` selected by the direction. -/
def dostepback : Direction → Int → Int → Int × Int
  | .up, x, y => (x, y + 1)
  | .down, x, y => (x, y - 1)
  | .left, x, y => (x + 1, y)
  | .right, x, y => (x - 1, y)

/-- The loop `for s := 0; s < Speed; s++` of "Check crash", with `n`
iterations left, loop counter `s` and the cursor `(backX, backY)`: `some true`
if the player is invalidated, `some false` if the loop runs to its end, `none`
if a read `g.Cells[backY][backX]` is out of range. -/
def crashLoop (W H : Int) (cells : Int → Int → Int) (d : Direction)
    (speed stepCounter : Int) : Nat → Int → Int → Int → Option Bool
  | 0, _, _, _ => some false
  | n + 1, s, backX, backY =>
    match readCell W H cells backY backX with
    | none => none
    | some v =>
      if v = -1 ∧ isHole speed stepCounter s = false then some true
      else
        crashLoop W H cells d speed stepCounter n (s + 1)
          (dostepback d backX backY).1 (dostepback d backX backY).2

/-- The body of the "Check crash" loop for the key `i`. -/
def checkCrash (g : Game) (i : Nat) : Option Game :=
  match g.Players i with
  | none => some g
  | some p =>
    if p.Active = false then some g
    else
      match crashLoop g.Width g.Height g.Cells p.Direction p.Speed p.stepCounter
          p.Speed.toNat 0 p.X p.Y with
      | none => none
      | some true => some (invalidatePlayer g i)
      | some false => some g

/-- The "Check crash" loop, visiting the keys in the order `o`. -/
def checkCrashes : List Nat → Game → Option Game
  | [], g => some g
  | i :: o, g =>
    match checkCrash g i with
    | none => none
    | some g1 => checkCrashes o g1

/-! ## End of match -/

/-- The counter `numberActive` of `checkEndGame`, the keys being `o`. -/
def numberActive (o : List Nat) (g : Game) : Nat :=
  (o.filter fun i => match g.Players i with
    | some p => p.Active
    | none => false).length

/-- The method `Game.checkEndGame`: only one or no player is active. -/
def checkEndGame (o : List Nat) (g : Game) : Bool :=
  decide (numberActive o g ≤ 1)

/-- The winner loop at the end of `RunGame`: the first active player in
visiting order, -1 if there is none. -/
def winner : List Nat → Game → Int
  | [], _ => -1
  | i :: o, g =>
    match g.Players i with
    | some p => if p.Active then (i : Int) else winner o g
    | none => winner o g

/-! ## Action collection -/

/-- One message taken by the input `select`: the player whose channel fired
and the received value, `none` when the channel was closed (`!ok`). -/
structure Input where
  player : Nat
  value : Option String

/-- The method `Game.checkEndRound`: no slot has a channel and an empty answer. -/
def checkEndRound (g : Game) : Bool :=
  (List.range PlayersPerGame).all fun i =>
    !(g.playerChannel i && decide (g.playerAnswer i = ""))

/-- One `case a, ok := <-g.playerChannel[player-1]` of the input `select`,
up to the test of `checkEndRound`. -/
def receive (g : Game) (player : Nat) (v : Option String) : Game :=
  match v with
  | none => invalidatePlayer g player
  | some a =>
    if a = "" ∨ g.playerAnswer (player - 1) ≠ "" ∨ IsValidAction a = false then
      invalidatePlayer g player
    else
      { g with playerAnswer := Function.update g.playerAnswer (player - 1) a }

/-- The loop `innerGame` over the messages that arrive before the extended
deadline, in arrival order; the end of the list is `ctx.Done()`.  A `nil`
channel is never selected, so a message for a slot without a channel does not
occur and is passed over. -/
def collect : List Input → Game → Game
  | [], g => g
  | e :: es, g =>
    if g.playerChannel (e.player - 1) = false then collect es g
    else
      let g1 := receive g e.player e.value
      if checkEndRound g1 then g1 else collect es g1

/-! ## The round loop -/

/-- What one round takes from outside: the messages that arrive, and the
order in which each `range g.Players` visits the keys. -/
structure RoundInput where
  inputs : List Input
  actionOrder : List Nat
  moveOrder : List Nat
  crashOrder : List Nat
  endOrder : List Nat

/-- One iteration of the loop `mainGame` up to "Check crash": the answers are
reset, collected, applied, the players are moved and the crashes adjudicated.
`none` when a grid read is out of range. -/
def runRound (r : RoundInput) (g : Game) : Option Game :=
  checkCrashes r.crashOrder
    (doMovement r.moveOrder
      (processActions r.actionOrder
        (collect r.inputs { g with playerAnswer := fun _ => "" })))

/-- The loop `mainGame`: rounds are run until `checkEndGame` holds.  Each
round consumes one `RoundInput`; `none` when the list is used up before the
game has ended, or when a round fails. -/
def mainGame : List RoundInput → Game → Option Game
  | [], _ => none
  | r :: rs, g =>
    match runRound r g with
    | none => none
    | some g1 => if checkEndGame r.endOrder g1 then some g1 else mainGame rs g1

/-- The part of `RunGame` from the label `mainGame` on: the rounds, then the
winner loop visiting the keys in the order `wo`. -/
def runFrom (rounds : List RoundInput) (wo : List Nat) (g : Game) : Option Int :=
  match mainGame rounds g with
  | none => none
  | some g1 => some (winner wo g1)

/-! ## Initialisation -/

/-- The random draws of the initialisation. -/
structure InitRandom where
  /-- The value `rand.Intn(PlayersPerGame-1)` of `setMaxPlayer`. -/
  maxPlayer : Nat
  /-- The value `rand.Intn(FieldMaxSize-FieldMinSize)` for the width. -/
  width : Int
  /-- The value `rand.Intn(FieldMaxSize-FieldMinSize)` for the height. -/
  height : Int
  /-- The order in which `range g.Players` visits the keys. -/
  order : List Nat
  /-- The value `rand.Intn(quarterWidth)` drawn for player `i`. -/
  offX : Nat → Int
  /-- The value `rand.Intn(quarterHeight)` drawn for player `i`. -/
  offY : Nat → Int

/-- The method `Game.setMaxPlayer`. -/
def setMaxPlayer (draw : Nat) (g : Game) : Game :=
  if g.MaxPlayer = 0 then { g with MaxPlayer := draw + 2 } else g

/-- The `switch quarterNum` of the initialisation: the origin `(x, y)` of the
region. -/
def quarterOrigin (quarterWidth quarterHeight : Int) : Nat → Int × Int
  | 0 => (0, 0)
  | 1 => (quarterWidth, 0)
  | 2 => (quarterWidth * 2, 0)
  | 3 => (quarterWidth * 3, 0)
  | 4 => (0, quarterHeight)
  | 5 => (quarterWidth, quarterHeight)
  | 6 => (quarterWidth * 2, quarterHeight)
  | 7 => (quarterWidth, quarterHeight * 3)
  | _ => (0, 0)

/-- The `switch` that chooses the initial direction from the position. -/
def initDirection (W H X Y : Int) : Direction :=
  if X > Int.tdiv W 2 ∧ Y > Int.tdiv H 2 then .up
  else if X ≤ Int.tdiv W 2 ∧ Y > Int.tdiv H 2 then .right
  else if X > Int.tdiv W 2 ∧ Y ≤ Int.tdiv H 2 then .left
  else if X ≤ Int.tdiv W 2 ∧ Y ≤ Int.tdiv H 2 then .down
  else .up

/-- The loop "Initialise players" over the keys in visiting order, with the
counter `quarterNum`.  `none` when the write `g.Cells[Y][X] = int8(i)` is out
of range. -/
def initPlayers (r : InitRandom) : List Nat → Nat → Game → Option Game
  | [], _, g => some g
  | i :: o, quarterNum, g =>
    match g.Players i with
    | none => initPlayers r o quarterNum g
    | some p =>
      let q := quarterOrigin (Int.tdiv g.Width 4) (Int.tdiv g.Height 2) quarterNum
      let X := q.1 + r.offX i
      let Y := q.2 + r.offY i
      if 0 ≤ Y ∧ Y < g.Height ∧ 0 ≤ X ∧ X < g.Width then
        initPlayers r o (quarterNum + 1)
          { g with
            Cells := setCell g.Cells Y X (int8 i)
            Players := Function.update g.Players i
              (some { p with
                Speed := 1
                Active := true
                X := X
                Y := Y
                Direction := initDirection g.Width g.Height X Y }) }
      else none

/-- The initialisation of `RunGame` after the player check: the board, the
players, the channels, and `Running = true`. -/
def initialise (r : InitRandom) (g : Game) : Option Game :=
  match initPlayers r r.order 0
      { g with
        Width := r.width + FieldMinSize + 1
        Height := r.height + FieldMinSize + 1
        Cells := fun _ _ => 0 } with
  | none => none
  | some g1 =>
    some { g1 with
      playerChannel := fun s =>
        decide (s < g1.numberPlayer) &&
          (match g1.Players (s + 1) with
            | some p => p.Input
            | none => false)
      Running := true }

/-- The method `Game.RunGame`: -100 (with the error "not enough player") when the game is
not full, else initialisation, the rounds and the winner. -/
def RunGame (r : InitRandom) (rounds : List RoundInput) (wo : List Nat) (g : Game) :
    Option Int :=
  let g0 := setMaxPlayer r.maxPlayer g
  if g0.numberPlayer ≠ g0.MaxPlayer then some (-100)
  else
    match initialise r g0 with
    | none => none
    | some g1 => runFrom rounds wo g1

/-! ## Characterisations of the loops

Closed descriptions of what each loop does to one player record and to the
grid; the lemmas below relate them to the loops above. -/

/-- The effect of the switch of "Process Actions" on the record of a player
whose answer is `a`. -/
def actPlayer (a : String) (p : Player) : Player :=
  if a = "" then { p with Active := false }
  else if a = ActionTurnLeft then { p with Direction := TurnLeft p.Direction }
  else if a = ActionTurnRight then { p with Direction := TurnRight p.Direction }
  else if a = ActionFaster then
    { p with
      Speed := p.Speed + 1
      Active := if p.Speed + 1 > MaxSpeed then false else p.Active }
  else if a = ActionSlower then
    { p with
      Speed := p.Speed - 1
      Active := if p.Speed - 1 < 1 then false else p.Active }
  else if a = ActionNOOP then p
  else { p with Active := false }

/-- The displacement of one `dostep`. -/
def dvec : Direction → Int × Int
  | .up => (0, -1)
  | .down => (0, 1)
  | .left => (-1, 0)
  | .right => (1, 0)

/-- One write of the movement loop by player `i` to the cell `(c.1, c.2)`
(row, column): -1 if the cell is not empty, `int8(i)` if it is. -/
def mark (i : Nat) (cells : Int → Int → Int) (c : Int × Int) : Int → Int → Int :=
  setCell cells c.1 c.2 (if cells c.1 c.2 ≠ 0 then -1 else int8 i)

/-- One write tagged with the player that makes it. -/
def markBy (cells : Int → Int → Int) (w : Nat × Int × Int) : Int → Int → Int :=
  mark w.1 cells w.2

/-- The cells (row, column) the movement loop writes, in order, started with
`n` iterations left at loop counter `s` and position `(x, y)`. -/
def moveWrites (W H : Int) (d : Direction) (speed stepCounter : Int) :
    Nat → Int → Int → Int → List (Int × Int)
  | 0, _, _, _ => []
  | n + 1, s, x, y =>
    let x1 := (dostep d x y).1
    let y1 := (dostep d x y).2
    if x1 < 0 ∨ x1 ≥ W ∨ y1 < 0 ∨ y1 ≥ H then []
    else if isHole speed stepCounter s then
      moveWrites W H d speed stepCounter n (s + 1) x1 y1
    else (y1, x1) :: moveWrites W H d speed stepCounter n (s + 1) x1 y1

/-- Where the movement loop ends, started with `n` iterations left at
`(x, y)`, and whether it ran to its end without leaving the grid. -/
def moveEnd (W H : Int) (d : Direction) : Nat → Int → Int → Int × Int × Bool
  | 0, x, y => (x, y, true)
  | n + 1, x, y =>
    let x1 := (dostep d x y).1
    let y1 := (dostep d x y).2
    if x1 < 0 ∨ x1 ≥ W ∨ y1 < 0 ∨ y1 ≥ H then (x1, y1, false)
    else moveEnd W H d n x1 y1

/-- The record of a player after the body of "Do Movement". -/
def movedPlayer (W H : Int) (p : Player) : Player :=
  if p.Active = false then p
  else
    { p with
      X := (moveEnd W H p.Direction p.Speed.toNat p.X p.Y).1
      Y := (moveEnd W H p.Direction p.Speed.toNat p.X p.Y).2.1
      stepCounter := p.stepCounter + 1
      Active := (moveEnd W H p.Direction p.Speed.toNat p.X p.Y).2.2 }

/-- The cells the body of "Do Movement" writes for the key `i`. -/
def playerWrites (g : Game) (i : Nat) : List (Int × Int) :=
  match g.Players i with
  | none => []
  | some p =>
    if p.Active = false then []
    else
      moveWrites g.Width g.Height p.Direction p.Speed (p.stepCounter + 1)
        p.Speed.toNat 0 p.X p.Y

/-- All writes of the "Do Movement" loop in the order `o`, each tagged with
its player. -/
def allWrites (o : List Nat) (g : Game) : List (Nat × Int × Int) :=
  o.flatMap fun i => (playerWrites g i).map fun c => (i, c)

/-- Whether the retrace of "Check crash" meets a -1 at a backward index that
is not a hole index. -/
def retraceHit (cells : Int → Int → Int) (p : Player) : Bool :=
  (List.range p.Speed.toNat).any fun k =>
    decide (cells (p.Y - k * (dvec p.Direction).2) (p.X - k * (dvec p.Direction).1) = -1) &&
      !isHole p.Speed p.stepCounter k

/-- The record of a player after the body of "Check crash". -/
def crashedPlayer (cells : Int → Int → Int) (p : Player) : Player :=
  if p.Active && retraceHit cells p then { p with Active := false } else p

/-- Every one of the first `n` steps from `(x, y)` in direction `d` leads to
a cell of the grid. -/
def pathIn (W H : Int) (d : Direction) (x y : Int) (n : Nat) : Prop :=
  ∀ k : Nat, k < n → inGrid W H (x + (k + 1) * (dvec d).1) (y + (k + 1) * (dvec d).2) = true

/-- Every one of the `n` cells the retrace of "Check crash" reads, starting
at `(x, y)` and stepping against the direction `d`, is a cell of the grid. -/
def retraceIn (W H : Int) (d : Direction) (x y : Int) (n : Nat) : Prop :=
  ∀ k : Nat, k < n → inGrid W H (x - k * (dvec d).1) (y - k * (dvec d).2) = true

/-- Two players at speed 1 on a 40x41 grid, player 1 at (10,20) facing right,
player 2 at (12,20) facing left, the cell (11,20) between them empty. -/
def sideOn : Game where
  Width := 40
  Height := 41
  Cells := fun y x => if y = 20 ∧ x = 10 then 1 else if y = 20 ∧ x = 12 then 2 else 0
  Players := fun i =>
    if i = 1 then some ⟨10, 20, .right, 1, true, 0, true⟩
    else if i = 2 then some ⟨12, 20, .left, 1, true, 0, true⟩
    else none
  MaxPlayer := 2
  numberPlayer := 2
  playerAnswer := fun _ => ActionNOOP
  playerChannel := fun s => decide (s < 2)

/-- The "immediate head-on collision" scenario: a 40x41 grid, player 1 at
(10,20) facing right, player 2 at (11,20) facing left, both at speed 1. -/
def headOn : Game where
  Width := 40
  Height := 41
  Cells := fun y x => if y = 20 ∧ x = 10 then 1 else if y = 20 ∧ x = 11 then 2 else 0
  Players := fun i =>
    if i = 1 then some ⟨10, 20, .right, 1, true, 0, true⟩
    else if i = 2 then some ⟨11, 20, .left, 1, true, 0, true⟩
    else none
  MaxPlayer := 2
  numberPlayer := 2
  playerAnswer := fun _ => ""
  playerChannel := fun s => decide (s < 2)

/-- A round in which players 1 and 2 both answer `change_nothing`. -/
def noopRound : RoundInput where
  inputs := [⟨1, some ActionNOOP⟩, ⟨2, some ActionNOOP⟩]
  actionOrder := [1, 2]
  moveOrder := [1, 2]
  crashOrder := [1, 2]
  endOrder := [1, 2]

/-- The game `sideOn` with player 1 at the maximal speed and every answer
slot holding `speed_up`. -/
def fastGame : Game :=
  { setPlayer sideOn 1 ⟨10, 20, .right, 10, true, 0, true⟩ with
    playerAnswer := fun _ => ActionFaster }

/-- The "hole skip" scenario: one player at (5,5) facing right with speed 3
and step counter 5, a trail of another id on the cell (7,5). -/
def holeSkip : Game where
  Width := 40
  Height := 41
  Cells := fun y x => if y = 5 ∧ x = 5 then 1 else if y = 5 ∧ x = 7 then 2 else 0
  Players := fun i => if i = 1 then some ⟨5, 5, .right, 3, true, 5, true⟩ else none
  MaxPlayer := 2
  numberPlayer := 2
  playerAnswer := fun _ => ActionNOOP
  playerChannel := fun s => decide (s < 1)

/-! ## Runs of the engine -/

/-- The list `o` holds the keys of `g.Players`, each once: a possible order
of `range g.Players`. -/
def keysOf (g : Game) (o : List Nat) : Prop :=
  o.Nodup ∧ ∀ i, i ∈ o ↔ (g.Players i).isSome = true

/-- A game as `RunGame` gets it when `IsReady` holds: `AddPlayer` has stored
`MaxPlayer` players under the keys `1 .. numberPlayer`, and `setMaxPlayer` has
chosen `MaxPlayer` between 2 and `PlayersPerGame`. -/
def validLobby (g : Game) : Prop :=
  2 ≤ g.MaxPlayer ∧ g.MaxPlayer ≤ PlayersPerGame ∧ g.numberPlayer = g.MaxPlayer ∧
    ∀ i, (g.Players i).isSome = true ↔ 1 ≤ i ∧ i ≤ g.numberPlayer

/-- The random draws of the initialisation are values `rand.Intn` can return
and the order is an order of the keys. -/
def validInit (r : InitRandom) (g : Game) : Prop :=
  0 ≤ r.width ∧ r.width < FieldMaxSize - FieldMinSize ∧
  0 ≤ r.height ∧ r.height < FieldMaxSize - FieldMinSize ∧
  keysOf g r.order ∧
  ∀ i, 0 ≤ r.offX i ∧ r.offX i < Int.tdiv (r.width + FieldMinSize + 1) 4 ∧
    0 ≤ r.offY i ∧ r.offY i < Int.tdiv (r.height + FieldMinSize + 1) 2

/-- Each loop of the round visits the keys of the map, each once. -/
def validRound (r : RoundInput) (g : Game) : Prop :=
  keysOf g r.actionOrder ∧ keysOf g r.moveOrder ∧ keysOf g r.crashOrder ∧
    keysOf g r.endOrder

/-- The states in which `RunGame` begins a round: the state after the
initialisation, and the state after a round after which `checkEndGame` was
false. -/
inductive RoundStart : Game → Prop
  | init (g0 g1 : Game) (r : InitRandom) :
      validLobby g0 → validInit r g0 → initialise r g0 = some g1 → RoundStart g1
  | next (g g1 : Game) (r : RoundInput) :
      RoundStart g → validRound r g → runRound r g = some g1 →
      checkEndGame r.endOrder g1 = false → RoundStart g1

/-- The states of `RunGame` between rounds: after the initialisation and
after every complete round. -/
inductive Reachable : Game → Prop
  | start (g : Game) : RoundStart g → Reachable g
  | round (g g1 : Game) (r : RoundInput) :
      RoundStart g → validRound r g → runRound r g = some g1 → Reachable g1

/-- The rounds of the list are run one after the other, `checkEndGame` being
false after each of them: the state in which the loop `mainGame` goes on. -/
def continues : List RoundInput → Game → Option Game
  | [], g => some g
  | r :: rs, g =>
    match runRound r g with
    | none => none
    | some g1 => if checkEndGame r.endOrder g1 then none else continues rs g1

/-- The invariant of the round loop: the keys are player ids, and an active
player has a speed in `[1, MaxSpeed]` and stands on a cell of the grid that
holds its id. -/
def Inv (g : Game) : Prop :=
  (∀ i, (g.Players i).isSome = true → 1 ≤ i ∧ i ≤ PlayersPerGame) ∧
  ∀ i p, g.Players i = some p → p.Active = true →
    1 ≤ p.Speed ∧ p.Speed ≤ MaxSpeed ∧ inGrid g.Width g.Height p.X p.Y = true ∧
      g.Cells p.Y p.X = i

/-- The cell `(x, y)` lies in the region number `k` of the initialisation:
`quarterWidth` cells to the right of and `quarterHeight` cells below its
origin. -/
def inQuarter (qw qh : Int) (k : Nat) (x y : Int) : Prop :=
  (quarterOrigin qw qh k).1 ≤ x ∧ x < (quarterOrigin qw qh k).1 + qw ∧
    (quarterOrigin qw qh k).2 ≤ y ∧ y < (quarterOrigin qw qh k).2 + qh

/-- The record `b` is the record `a`, possibly set inactive. -/
def dropped (a b : Option Player) : Prop :=
  b = a ∨ b = a.map fun p => { p with Active := false }

/-! ## A concrete run -/

/-- A full lobby of two fresh players, as `AddPlayer` leaves it. -/
def lobby2 : Game where
  Width := 0
  Height := 0
  Cells := fun _ _ => 0
  Players := fun i =>
    if i = 1 then some ⟨0, 0, .up, 0, false, 0, true⟩
    else if i = 2 then some ⟨0, 0, .up, 0, false, 0, true⟩
    else none
  MaxPlayer := 2
  numberPlayer := 2
  playerAnswer := fun _ => ""
  playerChannel := fun _ => false

/-- Draws of the initialisation: a 41x41 board, the players visited in the
order 1, 2, player 1 placed at (9,5) and player 2 at (10,5). -/
def draw2 : InitRandom where
  maxPlayer := 0
  width := 0
  height := 0
  order := [1, 2]
  offX := fun i => if i = 1 then 9 else 0
  offY := fun _ => 5

/-- The state after the initialisation of `lobby2` with the draws `draw2`. -/
def started2 : Game :=
  match initialise draw2 lobby2 with
  | some g => g
  | none => lobby2

/-- A first round: player 1 answers `turn_left`, player 2 `change_nothing`. -/
def round2 : RoundInput where
  inputs := [⟨1, some ActionTurnLeft⟩, ⟨2, some ActionNOOP⟩]
  actionOrder := [1, 2]
  moveOrder := [1, 2]
  crashOrder := [1, 2]
  endOrder := [1, 2]

/-- The state after the round `round2` from `started2`. -/
def after2 : Game :=
  match runRound round2 started2 with
  | some g => g
  | none => started2

/-- Draws of the initialisation that place player 1 at (9,5) and player 2 at
(12,5) on a 41x41 board. -/
def drawHeadOn : InitRandom where
  maxPlayer := 0
  width := 0
  height := 0
  order := [1, 2]
  offX := fun i => if i = 1 then 9 else 2
  offY := fun _ => 5

/-- A round in which player 1 answers `turn_left` and player 2 `turn_right`:
from the placement `drawHeadOn` they then face each other on (10,5) and
(11,5). -/
def turnRound : RoundInput where
  inputs := [⟨2, some ActionTurnRight⟩, ⟨1, some ActionTurnLeft⟩]
  actionOrder := [2, 1]
  moveOrder := [1, 2]
  crashOrder := [2, 1]
  endOrder := [1, 2]

/-- The game `sideOn` in which player 1 has sent nothing: its answer slot is
empty, the slot of player 2 holds `change_nothing`. -/
def silentGame : Game :=
  { sideOn with playerAnswer := fun s => if s = 0 then "" else ActionNOOP }

/-! ## The lookahead bots: progress and revert -/

/-- The revert record of the lookahead bots.  The types `superSnailAIRevert`
(ai_superrandom.go), `jumpAIRevert` (ai_jump.go) and `supersnailAIRevert`
(ai_supersnail.go) have the same fields; an element of `Cells` is the pair
`(X, Y)`. -/
structure Revert where
  X : Int
  Y : Int
  Speed : Int
  stepCounter : Int
  Direction : Direction
  Cells : List (Int × Int)
deriving DecidableEq, Repr

/-- The variables the stepping loop of `progress` changes: the grid, the
position of the player, the cells recorded in the revert record and the local
`jump` of `JumpAI.progress`. -/
structure Lookahead where
  Cells : Int → Int → Int
  X : Int
  Y : Int
  rCells : List (Int × Int)
  jump : Bool

/-- The loop `for s := 0; s < p.Speed; s++` of `SuperRandomAI.progress` and of
`SuperSnailAI.progress` (the same text), with `n` iterations left and loop
counter `s`; the Boolean is `false` where the loop returns `false`. -/
def progressLoop (W H : Int) (d : Direction) (speed stepCounter : Int) :
    Nat → Int → Lookahead → Bool × Lookahead
  | 0, _, st => (true, st)
  | n + 1, s, st =>
    let x := (dostep d st.X st.Y).1
    let y := (dostep d st.X st.Y).2
    if x < 0 ∨ x ≥ W ∨ y < 0 ∨ y ≥ H then (false, { st with X := x, Y := y })
    else if isHole speed stepCounter s then
      progressLoop W H d speed stepCounter n (s + 1) { st with X := x, Y := y }
    else if st.Cells y x ≠ 0 then (false, { st with X := x, Y := y })
    else
      progressLoop W H d speed stepCounter n (s + 1)
        { st with
          Cells := setCell st.Cells y x (-33)
          X := x
          Y := y
          rCells := st.rCells ++ [(x, y)] }

/-- The loop of `JumpAI.progress`: in the hole branch a non-empty cell sets
`jump`. -/
def jumpLoop (W H : Int) (d : Direction) (speed stepCounter : Int) :
    Nat → Int → Lookahead → Bool × Lookahead
  | 0, _, st => (true, st)
  | n + 1, s, st =>
    let x := (dostep d st.X st.Y).1
    let y := (dostep d st.X st.Y).2
    if x < 0 ∨ x ≥ W ∨ y < 0 ∨ y ≥ H then (false, { st with X := x, Y := y })
    else if isHole speed stepCounter s then
      jumpLoop W H d speed stepCounter n (s + 1)
        { st with X := x, Y := y, jump := if st.Cells y x ≠ 0 then true else st.jump }
    else if st.Cells y x ≠ 0 then (false, { st with X := x, Y := y })
    else
      jumpLoop W H d speed stepCounter n (s + 1)
        { st with
          Cells := setCell st.Cells y x (-33)
          X := x
          Y := y
          rCells := st.rCells ++ [(x, y)] }

/-- What the stepping loop keeps: every recorded cell is a cell of the grid,
and writing 0 to the recorded cells gives the grid the loop started from. -/
def loopKeeps (W H : Int) (st l : Lookahead) : Prop :=
  (∀ c ∈ l.rCells, c ∈ st.rCells ∨ inGrid W H c.1 c.2 = true) ∧
    ∀ y x, (if (x, y) ∈ l.rCells then 0 else l.Cells y x) =
      (if (x, y) ∈ st.rCells then 0 else st.Cells y x)

/-- The `switch command` of `progress`: the record of the player after it and
whether the function goes on (`false`: it has returned).  The two rotation
tables are those of the engine; `abortEmpty` is the `case ""` that only
`SuperSnailAI.progress` has. -/
def botSwitch (abortEmpty : Bool) (command : String) (p : Player) : Bool × Player :=
  if command = ActionTurnLeft then (true, { p with Direction := TurnLeft p.Direction })
  else if command = ActionTurnRight then (true, { p with Direction := TurnRight p.Direction })
  else if command = ActionFaster then
    (!decide (p.Speed + 1 > MaxSpeed), { p with Speed := p.Speed + 1 })
  else if command = ActionSlower then
    (!decide (p.Speed - 1 < 1), { p with Speed := p.Speed - 1 })
  else if command = ActionNOOP then (true, p)
  else if command = "" then (!abortEmpty, p)
  else (true, p)

/-- The record `r` as `progress` builds it before the switch. -/
def Revert.ofPlayer (p : Player) : Revert :=
  ⟨p.X, p.Y, p.Speed, p.stepCounter, p.Direction, []⟩

/-- The game after the stepping loop of `progress` for `player`. -/
def afterLoop (g : Game) (player : Nat) (p : Player) (l : Lookahead) : Game :=
  { setPlayer g player { p with X := l.X, Y := l.Y } with Cells := l.Cells }

/-- The method `SuperRandomAI.progress`: `none` where it panics (`player` is
no key of the map, or `make` gets the negative capacity `p.Speed`), else the
result, the revert record and the game it leaves. -/
def SuperRandomAI.progress (g : Game) (player : Nat) (command : String) :
    Option (Bool × Revert × Game) :=
  match g.Players player with
  | none => none
  | some p =>
    if p.Speed < 0 then none
    else
      let r := Revert.ofPlayer p
      let sw := botSwitch false command p
      if sw.1 = false then some (false, r, setPlayer g player sw.2)
      else
        let p1 := { sw.2 with stepCounter := sw.2.stepCounter + 1 }
        let l := progressLoop g.Width g.Height p1.Direction p1.Speed p1.stepCounter
          p1.Speed.toNat 0 ⟨g.Cells, p1.X, p1.Y, [], false⟩
        some (l.1, { r with Cells := l.2.rCells }, afterLoop g player p1 l.2)

/-- The method `SuperSnailAI.progress`: as `SuperRandomAI.progress`, with the
`case ""` that returns `false` at once. -/
def SuperSnailAI.progress (g : Game) (player : Nat) (command : String) :
    Option (Bool × Revert × Game) :=
  match g.Players player with
  | none => none
  | some p =>
    if p.Speed < 0 then none
    else
      let r := Revert.ofPlayer p
      let sw := botSwitch true command p
      if sw.1 = false then some (false, r, setPlayer g player sw.2)
      else
        let p1 := { sw.2 with stepCounter := sw.2.stepCounter + 1 }
        let l := progressLoop g.Width g.Height p1.Direction p1.Speed p1.stepCounter
          p1.Speed.toNat 0 ⟨g.Cells, p1.X, p1.Y, [], false⟩
        some (l.1, { r with Cells := l.2.rCells }, afterLoop g player p1 l.2)

/-- The constant `jumpAIprogressNormal`. -/
def jumpAIprogressNormal : Int := 0
/-- The constant `jumpAIprogressJump`. -/
def jumpAIprogressJump : Int := 1
/-- The constant `jumpAIprogressCrash`. -/
def jumpAIprogressCrash : Int := 2

/-- The method `JumpAI.progress`: the result is one of `jumpAIprogressNormal`,
`jumpAIprogressJump`, `jumpAIprogressCrash`. -/
def JumpAI.progress (g : Game) (player : Nat) (command : String) :
    Option (Int × Revert × Game) :=
  match g.Players player with
  | none => none
  | some p =>
    if p.Speed < 0 then none
    else
      let r := Revert.ofPlayer p
      let sw := botSwitch false command p
      if sw.1 = false then some (jumpAIprogressCrash, r, setPlayer g player sw.2)
      else
        let p1 := { sw.2 with stepCounter := sw.2.stepCounter + 1 }
        let l := jumpLoop g.Width g.Height p1.Direction p1.Speed p1.stepCounter
          p1.Speed.toNat 0 ⟨g.Cells, p1.X, p1.Y, [], false⟩
        some (if l.1 = false then jumpAIprogressCrash
            else if l.2.jump then jumpAIprogressJump else jumpAIprogressNormal,
          { r with Cells := l.2.rCells }, afterLoop g player p1 l.2)

/-- The loop `for i := range r.Cells` of `revert`, writing 0 to every recorded
cell: `none` where an index is out of range. -/
def clearCells (W H : Int) : List (Int × Int) → (Int → Int → Int) → Option (Int → Int → Int)
  | [], cells => some cells
  | c :: rest, cells =>
    if inGrid W H c.1 c.2 then clearCells W H rest (setCell cells c.2 c.1 0) else none

/-- The body shared by `SuperRandomAI.revert`, `JumpAI.revert` and
`SuperSnailAI.revert` (the same text in the three files): the five fields of
the player are assigned from the record, then the recorded cells get 0. -/
def revertWith (g : Game) (player : Nat) (r : Revert) : Option Game :=
  match g.Players player with
  | none => none
  | some p =>
    match clearCells g.Width g.Height r.Cells g.Cells with
    | none => none
    | some cells =>
      some { setPlayer g player
          { p with
            X := r.X
            Y := r.Y
            Speed := r.Speed
            stepCounter := r.stepCounter
            Direction := r.Direction } with Cells := cells }

/-- The method `SuperRandomAI.revert`. -/
def SuperRandomAI.revert (g : Game) (player : Nat) (r : Revert) : Option Game :=
  revertWith g player r

/-- The method `JumpAI.revert`. -/
def JumpAI.revert (g : Game) (player : Nat) (r : Revert) : Option Game :=
  revertWith g player r

/-- The method `SuperSnailAI.revert`. -/
def SuperSnailAI.revert (g : Game) (player : Nat) (r : Revert) : Option Game :=
  revertWith g player r

/-- The constant `superRandomAIPathLength`, the depth `GetState` passes to
`getLength`. -/
def superRandomAIPathLength : Int := HolesEachStep * 2

/-- The list `actions` of `SuperRandomAI.getLength`: the three actions, then
`slow_down` if the own speed is above 1 and `speed_up` if it is below 5. -/
def getLengthActions (speed : Int) : List String :=
  [ActionTurnLeft, ActionTurnRight, ActionNOOP] ++
    (if speed > 1 then [ActionSlower] else []) ++ (if speed < 5 then [ActionFaster] else [])

/-- The loop `for i := range actions` of `SuperRandomAI.getLength`, `max`
already decremented, `found` the best length so far and `inner` the
recursive call `sr.getLength(max, g)`.  The `break` leaves the loop before
the call of `revert` at the end of the body. -/
def getLengthLoop (inner : Game → Option (Int × Game)) (max : Int) :
    List String → Int → Game → Option (Int × Game)
  | [], found, g => some (found, g)
  | a :: rest, found, g =>
    match SuperRandomAI.progress g g.You a with
    | none => none
    | some (result, r, g1) =>
      if result then
        match inner g1 with
        | none => none
        | some (len, g2) =>
          if 1 + len > found then
            if 1 + len - 1 = max then some (1 + len, g2)
            else
              match SuperRandomAI.revert g2 g2.You r with
              | none => none
              | some g3 => getLengthLoop inner max rest (1 + len) g3
          else
            match SuperRandomAI.revert g2 g2.You r with
            | none => none
            | some g3 => getLengthLoop inner max rest found g3
      else
        match SuperRandomAI.revert g1 g1.You r with
        | none => none
        | some g3 => getLengthLoop inner max rest found g3

/-- The method `SuperRandomAI.getLength` with `fuel` bounding the depth of
the recursion: the length found and the game it leaves, `none` on a panic or
when the fuel is used up. -/
def getLengthFuel : Nat → Int → Game → Option (Int × Game)
  | 0, max, g => if max - 1 < 0 then some (0, g) else none
  | fuel + 1, max, g =>
    if max - 1 < 0 then some (0, g)
    else
      match g.Players g.You with
      | none => none
      | some p =>
        getLengthLoop (getLengthFuel fuel (max - 1)) (max - 1) (getLengthActions p.Speed) 0 g

/-- The method `SuperRandomAI.getLength`: the recursion is at most `max`
deep. -/
def SuperRandomAI.getLength (max : Int) (g : Game) : Option (Int × Game) :=
  getLengthFuel max.toNat max g

/-- A state shown to the bot (player 1): it stands on (5,5) facing right with
speed 1 and step counter 0; player 2 stands far away on (30,30); the grid is
empty but for the two cells the players stand on. -/
def alone : Game where
  Width := 40
  Height := 41
  Cells := fun y x => if y = 5 ∧ x = 5 then 1 else if y = 30 ∧ x = 30 then 2 else 0
  Players := fun i =>
    if i = 1 then some ⟨5, 5, .right, 1, true, 0, false⟩
    else if i = 2 then some ⟨30, 30, .left, 1, true, 0, false⟩
    else none
  MaxPlayer := 0
  numberPlayer := 0
  playerAnswer := fun _ => ""
  playerChannel := fun _ => false
  You := 1
  Running := true

/-! ## MetaAI and JumpingLargestFreeAI: the block for an own speed above 1 -/

/-- The loop `for i := 0; i < n; i++` of a check: one step, then
`possible = false` if the position is off the grid or its cell is not empty. -/
def checkLoop (g : Game) (step : Int → Int → Int × Int) : Nat → Int → Int → Bool
  | 0, _, _ => true
  | n + 1, x, y =>
    let x1 := (step x y).1
    let y1 := (step x y).2
    if x1 < 0 ∨ x1 ≥ g.Width ∨ y1 < 0 ∨ y1 ≥ g.Height ∨ g.Cells y1 x1 ≠ 0 then false
    else checkLoop g step n x1 y1

/-- The `switch` under the comment "Check turn_left": the step the check
walks, by the direction of the player. -/
def checkLeftStep : Direction → Int → Int → Int × Int
  | .left, x, y => (x, y - 1)
  | .right, x, y => (x, y + 1)
  | .down, x, y => (x - 1, y)
  | .up, x, y => (x + 1, y)

/-- The `switch` under the comment "Check turn_right". -/
def checkRightStep : Direction → Int → Int → Int × Int
  | .right, x, y => (x, y - 1)
  | .left, x, y => (x, y + 1)
  | .up, x, y => (x - 1, y)
  | .down, x, y => (x + 1, y)

/-- The block `if g.Players[g.You].Speed > 1 { ... }` of `MetaAI.GetState`
(the same text is the branch `else if g.Players[g.You].Speed > 1` of
`JumpingLargestFreeAI.GetState`): the action it sends. -/
def speedBlock (g : Game) (p : Player) : String :=
  if checkLoop g (dostep p.Direction) (p.Speed - 1).toNat p.X p.Y then ActionSlower
  else if checkLoop g (checkLeftStep p.Direction) p.Speed.toNat p.X p.Y then ActionTurnLeft
  else if checkLoop g (checkRightStep p.Direction) p.Speed.toNat p.X p.Y then ActionTurnRight
  else ActionSlower

/-- The method `MetaAI.GetState` up to the choice of a sub-policy. `channel`
is `meta.i != nil`, `subPolicy` is `meta.ai != nil` after the random reset.
The result is `none` on a panic, `some none` where no action is sent by this
code (no channel, game not running, or the state is handed to a sub-policy)
and `some (some a)` where the block for a speed above 1 sends `a`. -/
def MetaAI.GetState (channel subPolicy : Bool) (g : Game) : Option (Option String) :=
  if channel = false then some none
  else if g.Running = false then some none
  else if subPolicy then some none
  else
    match g.Players g.You with
    | none => none
    | some p => if p.Speed > 1 then some (some (speedBlock g p)) else some none

/-- A state shown to the bot (player 1): it stands on (5,5) facing up with
speed 2; player 2 has come over (5,4) and (4,4) to (4,5), where it stands
facing down; the cells (6,5) and (7,5) are empty. -/
def turnTrap : Game where
  Width := 40
  Height := 41
  Cells := fun y x =>
    if y = 5 ∧ x = 5 then 1
    else if y = 4 ∧ x = 5 then 2
    else if y = 4 ∧ x = 4 then 2
    else if y = 5 ∧ x = 4 then 2
    else 0
  Players := fun i =>
    if i = 1 then some ⟨5, 5, .up, 2, true, 2, false⟩
    else if i = 2 then some ⟨4, 5, .down, 1, true, 2, false⟩
    else none
  MaxPlayer := 0
  numberPlayer := 0
  playerAnswer := fun _ => ""
  playerChannel := fun _ => false
  You := 1
  Running := true

/-! ## RandomAISlow -/

/-- Modelled from the spec: the return codes `randomAINoCrash`,
`randomAIMaybeCrash` and `randomAISureCrash` of `willCrash`; they are declared
in ai_random.go, which is not among the sources.  The spec names the three
outcomes "does not crash", "maybe crashes" and the remaining sure crash. -/
inductive CrashClass where
  | randomAINoCrash
  | randomAIMaybeCrash
  | randomAISureCrash
deriving DecidableEq, Repr

/-- A guarded write of -100: nothing where the position is off the grid. -/
def deadCell (W H : Int) (cells : Int → Int → Int) (x y : Int) : Int → Int → Int :=
  if x < 0 ∨ x ≥ W ∨ y < 0 ∨ y ≥ H then cells else setCell cells y x (-100)

/-- The loop `for i := 1; i <= Speed+1; i++` of "Fill potential dead zones"
around the position `(px, py)`, with `n` iterations left. -/
def deadLoop (W H px py : Int) : Nat → Int → (Int → Int → Int) → Int → Int → Int
  | 0, _, cells => cells
  | n + 1, i, cells =>
    deadLoop W H px py n (i + 1)
      (deadCell W H (deadCell W H (deadCell W H (deadCell W H cells (px + i) py) (px - i) py)
        px (py + i)) px (py - i))

/-- The body of the loop `for k := range g.Players` of "Fill potential dead
zones". -/
def deadZone (g : Game) (k : Nat) : Game :=
  if k = g.You then g
  else
    match g.Players k with
    | none => g
    | some q =>
      if q.Active = false then g
      else { g with Cells := deadLoop g.Width g.Height q.X q.Y (q.Speed + 1).toNat 1 g.Cells }

/-- The loop "Fill potential dead zones" over the keys in the order `order`. -/
def fillDeadZones (order : List Nat) (g : Game) : Game :=
  order.foldl deadZone g

/-- The loop `for s := 0; s < Speed; s++` of `RandomAISlow.willCrash`, with
`n` iterations left, loop counter `s` and the position `(x, y)`. -/
def crashScan (W H : Int) (cells : Int → Int → Int) (d : Direction) (speed stepCounter : Int) :
    Nat → Int → Int → Int → CrashClass
  | 0, _, _, _ => .randomAINoCrash
  | n + 1, s, x, y =>
    let x1 := (dostep d x y).1
    let y1 := (dostep d x y).2
    if x1 < 0 ∨ x1 ≥ W ∨ y1 < 0 ∨ y1 ≥ H then .randomAISureCrash
    else if isHole speed (stepCounter + 1) s then
      crashScan W H cells d speed stepCounter n (s + 1) x1 y1
    else if cells y1 x1 = -100 then .randomAIMaybeCrash
    else if cells y1 x1 ≠ 0 then .randomAISureCrash
    else crashScan W H cells d speed stepCounter n (s + 1) x1 y1

/-- The method `RandomAISlow.willCrash`: the code it returns and the game it
leaves; the deferred function assigns the old position again.  The result is
`none` where `g.You` is no key of the map. -/
def RandomAISlow.willCrash (g : Game) : Option (CrashClass × Game) :=
  match g.Players g.You with
  | none => none
  | some p =>
    some (crashScan g.Width g.Height g.Cells p.Direction p.Speed p.stepCounter
        p.Speed.toNat 0 p.X p.Y,
      setPlayer g g.You { p with X := p.X, Y := p.Y })

/-- The switch "do action" of `RandomAISlow.GetState`: the record after it and
whether the body goes on (`false`: the `continue` after a speed change that
was taken back). -/
def doCandidate (a : String) (p : Player) : Bool × Player :=
  if a = ActionTurnLeft then (true, { p with Direction := TurnLeft p.Direction })
  else if a = ActionTurnRight then (true, { p with Direction := TurnRight p.Direction })
  else if a = ActionFaster then
    if p.Speed + 1 > MaxSpeed then (false, p) else (true, { p with Speed := p.Speed + 1 })
  else if a = ActionSlower then
    if p.Speed - 1 < 1 then (false, p) else (true, { p with Speed := p.Speed - 1 })
  else (true, p)

/-- The switch "undo action" of `RandomAISlow.GetState`. -/
def undoCandidate (a : String) (p : Player) : Player :=
  if a = ActionTurnLeft then { p with Direction := TurnRight p.Direction }
  else if a = ActionTurnRight then { p with Direction := TurnLeft p.Direction }
  else if a = ActionFaster then { p with Speed := p.Speed - 1 }
  else if a = ActionSlower then { p with Speed := p.Speed + 1 }
  else p

/-- The loop "test actions" of `RandomAISlow.GetState` and the two sends
after it; `first` is `actions[0]`, `fallback` the variable `fallbackAction`.
The result is the action sent, `none` on a panic. -/
def testActions (first : String) : List String → String → Game → Option String
  | [], fallback, _ => some (if fallback ≠ "" then fallback else first)
  | a :: rest, fallback, g =>
    match g.Players g.You with
    | none => none
    | some p =>
      if (doCandidate a p).1 = false then testActions first rest fallback g
      else
        match RandomAISlow.willCrash (setPlayer g g.You (doCandidate a p).2) with
        | none => none
        | some (code, g1) =>
          if code = .randomAINoCrash then some a
          else
            match g1.Players g1.You with
            | none => none
            | some p1 =>
              testActions first rest (if code = .randomAIMaybeCrash then a else fallback)
                (setPlayer g1 g1.You (undoCandidate a p1))

/-- The list `actions` of `RandomAISlow.GetState` before the shuffle. -/
def randomSlowActions : List String :=
  [ActionTurnLeft, ActionTurnRight, ActionNOOP, ActionNOOP, ActionNOOP, ActionNOOP,
    ActionNOOP, ActionNOOP, ActionNOOP, ActionNOOP]

/-- The method `RandomAISlow.GetState`: `channel` is `r.i != nil`, `order` the
order in which the map is visited and `actions` the list after
`rand.Shuffle`.  The result is `none` on a panic, `some none` where nothing is
sent and `some (some a)` where `a` is sent. -/
def RandomAISlow.GetState (channel : Bool) (order : List Nat) (actions : List String)
    (g : Game) : Option (Option String) :=
  if channel = false then some none
  else if g.Running = false then some none
  else
    match actions with
    | [] => none
    | first :: _ => (testActions first actions "" (fillDeadZones order g)).map some

/-- The class `willCrash` gives the candidate `a` on the game `g` (after the
dead zones are filled): the candidate is applied, then `willCrash` is
called. -/
def classify (g : Game) (a : String) : Option CrashClass :=
  match g.Players g.You with
  | none => none
  | some p => (RandomAISlow.willCrash (setPlayer g g.You (doCandidate a p).2)).map fun r => r.1

/-- The choice rule in the words of the specification: the first candidate
classified as no crash; else the first classified as maybe crash; else the
first candidate. -/
def firstRule (g : Game) (actions : List String) : Option String :=
  match actions.find? (fun a => classify g a = some .randomAINoCrash) with
  | some a => some a
  | none =>
    match actions.find? (fun a => classify g a = some .randomAIMaybeCrash) with
    | some a => some a
    | none => actions.head?

/-- The choice rule with the last candidate classified as maybe crash. -/
def lastRule (g : Game) (actions : List String) : Option String :=
  match actions.find? (fun a => classify g a = some .randomAINoCrash) with
  | some a => some a
  | none =>
    match (actions.filter (fun a => classify g a = some .randomAIMaybeCrash)).getLast? with
    | some a => some a
    | none => actions.head?

/-- A state shown to the bot (player 1): it stands on (5,5) facing up with
speed 1, the active player 2 stands on (4,4) with speed 1, and the cell (6,5)
holds a trail. -/
def deadEnd : Game where
  Width := 40
  Height := 41
  Cells := fun y x =>
    if y = 5 ∧ x = 5 then 1
    else if y = 4 ∧ x = 4 then 2
    else if y = 5 ∧ x = 6 then 2
    else 0
  Players := fun i =>
    if i = 1 then some ⟨5, 5, .up, 1, true, 3, false⟩
    else if i = 2 then some ⟨4, 4, .down, 1, true, 3, false⟩
    else none
  MaxPlayer := 0
  numberPlayer := 0
  playerAnswer := fun _ => ""
  playerChannel := fun _ => false
  You := 1
  Running := true

/-! ## MirrorAI -/

/-- The fields `target`, `targetSpeed` and `targetDirection` of the type
`MirrorAI`; the direction is `none` for the zero value `""`. -/
structure MirrorAI where
  target : Nat
  targetSpeed : Int
  targetDirection : Option Direction
deriving DecidableEq, Repr

/-- The `switch m.targetDirection` of the case "Turning": the action for the
stored direction `old` and the direction `new` the target has now. -/
def mirrorTurn (old : Option Direction) (new : Direction) : String :=
  match old with
  | some .up =>
    if new = .left then ActionTurnLeft else if new = .right then ActionTurnRight else ActionNOOP
  | some .down =>
    if new = .right then ActionTurnLeft else if new = .left then ActionTurnRight else ActionNOOP
  | some .left =>
    if new = .down then ActionTurnLeft else if new = .up then ActionTurnRight else ActionNOOP
  | some .right =>
    if new = .up then ActionTurnLeft else if new = .down then ActionTurnRight else ActionNOOP
  | none => ActionNOOP

/-- The part "Mirror target" of `MirrorAI.GetState`: the `switch` over speed
and direction of the target `t`, for the own record `me`; the new state of
the bot and the action it sends. -/
def mirrorTarget (m : MirrorAI) (me t : Player) : MirrorAI × String :=
  if t.Speed > m.targetSpeed then
    ({ m with targetSpeed := t.Speed }, if me.Speed < 10 then ActionFaster else ActionNOOP)
  else if t.Speed < m.targetSpeed then
    ({ m with targetSpeed := t.Speed }, if me.Speed > 1 then ActionSlower else ActionNOOP)
  else if some t.Direction ≠ m.targetDirection then
    ({ m with targetDirection := some t.Direction }, mirrorTurn m.targetDirection t.Direction)
  else (m, ActionNOOP)

/-- The method `MirrorAI.GetState`.  `channel` is `m.i != nil`, `order` the
order in which the map is visited when a target is looked for and `pick` the
value of `rand.Intn`.  The result is `none` on a panic (a key that is not in
the map, or no other active player to choose from), else the new state of
the bot and the action sent, if one is sent. -/
def MirrorAI.GetState (m : MirrorAI) (channel : Bool) (order : List Nat) (pick : Nat)
    (g : Game) : Option (MirrorAI × Option String) :=
  if channel = false then some (m, none)
  else if g.Running = false then some (m, none)
  else
    match g.Players g.You with
    | none => none
    | some me =>
      if me.Active = false then some (m, none)
      else
        let stillActive : Option MirrorAI :=
          if m.target ≠ 0 then
            match g.Players m.target with
            | none => none
            | some t => if t.Active = false then some { m with target := 0 } else some m
          else some m
        match stillActive with
        | none => none
        | some m1 =>
          if m1.target = 0 then
            let player := order.filter fun k =>
              decide (k ≠ g.You) && ((g.Players k).map fun q => q.Active) == some true
            if pick < player.length then
              match g.Players (player.getD pick 0) with
              | none => none
              | some t =>
                some ({ target := player.getD pick 0, targetSpeed := t.Speed,
                        targetDirection := some t.Direction }, some ActionNOOP)
            else none
          else
            match g.Players m1.target with
            | none => none
            | some t => some ((mirrorTarget m1 me t).1, some (mirrorTarget m1 me t).2)

/-- The game `sideOn` as it is shown to player 1 while the game runs. -/
def mirrorGame : Game :=
  { sideOn with You := 1, Running := true }

/-! ## PublicCopy: games and players as objects on a heap -/

/-- All fields of the Go type `Player`.  An interface, channel or pointer
field holds a handle, `none` for `nil`; a mutex field holds whether it is
locked, `workerOnce` whether it has run. -/
structure PlayerObj where
  X : Int
  Y : Int
  Direction : String
  Speed : Int
  Active : Bool
  Name : String
  stepCounter : Int
  underlyingAI : Option Nat
  realName : String
  api : String
  apiReleased : Bool
  inputLock : Bool
  Input : Option Nat
  writerLock : Bool
  ws : Option Nat
  wsclosed : Bool
  workerOnce : Bool
deriving DecidableEq, Repr

/-- All fields of the Go type `Game`.  `Cells` is the slice of rows, each row
given by the address of its array; `Players` maps an id to the address of a
`Player` record. -/
structure GameObj where
  Width : Int
  Height : Int
  Cells : List Nat
  Players : Nat → Option Nat
  You : Int
  Running : Bool
  Deadline : String
  l : Bool
  log : Option Nat
  MaxPlayer : Int
  numberPlayer : Int
  playerAnswer : List String
  playerChannel : List (Option Nat)

/-- The heap: the row arrays and the `Player` records by address, and the
next address `make` or `&Player{...}` hands out. -/
structure Heap where
  rows : Nat → Option (List Int)
  players : Nat → Option PlayerObj
  next : Nat

/-- The allocation `make([]int8, len(r))` followed by `copy`: a new row
array with the content `r`. -/
def allocRow (h : Heap) (r : List Int) : Heap × Nat :=
  ({ h with rows := Function.update h.rows h.next (some r), next := h.next + 1 }, h.next)

/-- The allocation `&Player{...}` of a new record. -/
def allocPlayer (h : Heap) (p : PlayerObj) : Heap × Nat :=
  ({ h with players := Function.update h.players h.next (some p), next := h.next + 1 }, h.next)

/-- The composite literal `&Player{X: ..., Y: ..., Direction: ..., Speed: ...,
Active: ..., Name: ..., stepCounter: ...}` of `PublicCopy`: the fields it does
not name have their zero value. -/
def publicPlayer (p : PlayerObj) : PlayerObj where
  X := p.X
  Y := p.Y
  Direction := p.Direction
  Speed := p.Speed
  Active := p.Active
  Name := p.Name
  stepCounter := p.stepCounter
  underlyingAI := none
  realName := ""
  api := ""
  apiReleased := false
  inputLock := false
  Input := none
  writerLock := false
  ws := none
  wsclosed := false
  workerOnce := false

/-- The loop `for i := range g.Cells` of `PublicCopy` over the rows still to
copy: the heap after it and the addresses of the new rows; `none` where a row
is not on the heap. -/
def copyRows : Heap → List Nat → Option (Heap × List Nat)
  | h, [] => some (h, [])
  | h, a :: rest =>
    match h.rows a with
    | none => none
    | some r =>
      match copyRows (allocRow h r).1 rest with
      | none => none
      | some (h1, cs) => some (h1, (allocRow h r).2 :: cs)

/-- The loop `for k := range g.Players` of `PublicCopy` over the keys still to
visit, `m` the new map so far; `none` where a pointer of the map cannot be
dereferenced. -/
def copyPlayers (g : GameObj) : List Nat → Heap → (Nat → Option Nat) →
    Option (Heap × (Nat → Option Nat))
  | [], h, m => some (h, m)
  | k :: rest, h, m =>
    match g.Players k with
    | none => copyPlayers g rest h m
    | some a =>
      match h.players a with
      | none => none
      | some p =>
        copyPlayers g rest (allocPlayer h (publicPlayer p)).1
          (Function.update m k (some (allocPlayer h (publicPlayer p)).2))

/-- The method `Game.PublicCopy`, the map visited in the order `order`: the
heap after it and the new game. -/
def PublicCopy (order : List Nat) (h : Heap) (g : GameObj) : Option (Heap × GameObj) :=
  match copyRows h g.Cells with
  | none => none
  | some (h1, cells) =>
    match copyPlayers g order h1 (fun _ => none) with
    | none => none
    | some (h2, players) =>
      some (h2,
        { Width := g.Width
          Height := g.Height
          Cells := cells
          Players := players
          You := g.You
          Running := g.Running
          Deadline := g.Deadline
          l := false
          log := none
          MaxPlayer := 0
          numberPlayer := 0
          playerAnswer := []
          playerChannel := [] })

/-- The grid of a game read through a heap: the content of every row. -/
def gridOf (h : Heap) (g : GameObj) : List (Option (List Int)) :=
  g.Cells.map h.rows

/-- The record of the player `k` of a game read through a heap. -/
def playerOf (h : Heap) (g : GameObj) (k : Nat) : Option PlayerObj :=
  (g.Players k).bind h.players

/-- Nothing is stored at or above the next free address. -/
def Heap.wf (h : Heap) : Prop :=
  ∀ a, h.next ≤ a → h.rows a = none ∧ h.players a = none

/-- A game whose rows and player records are on the heap, with `order` an
order of the keys of its map. -/
def GameObj.wf (h : Heap) (g : GameObj) (order : List Nat) : Prop :=
  h.wf ∧ (∀ a ∈ g.Cells, (h.rows a).isSome = true) ∧
    (∀ k a, g.Players k = some a → (h.players a).isSome = true) ∧
    order.Nodup ∧ ∀ k, k ∈ order ↔ (g.Players k).isSome = true

/-- A mutation of a game by its holder: the assignment `g.Cells[i][j] = v`,
or the assignment of `f` applied to the record to `*g.Players[k]` (any change
of any fields). -/
inductive Mutation where
  | cell (i j : Nat) (v : Int)
  | player (k : Nat) (f : PlayerObj → PlayerObj)

/-- The heap after one mutation of the game `c`; a mutation that would panic
(an index out of range, a key that is not in the map) changes nothing. -/
def mutate (c : GameObj) (h : Heap) : Mutation → Heap
  | .cell i j v =>
    match c.Cells.get? i with
    | none => h
    | some a =>
      match h.rows a with
      | none => h
      | some r => if j < r.length then { h with rows := Function.update h.rows a (some (r.set j v)) } else h
  | .player k f =>
    match c.Players k with
    | none => h
    | some a =>
      match h.players a with
      | none => h
      | some p => { h with players := Function.update h.players a (some (f p)) }

/-- The heap after a sequence of mutations of the game `c`. -/
def mutateAll (c : GameObj) (ms : List Mutation) (h : Heap) : Heap :=
  ms.foldl (mutate c) h

/-- A heap with a 2x3 grid (rows at the addresses 0 and 1) and two player
records (at the addresses 2 and 3). -/
def heap2 : Heap where
  rows := fun a => if a = 0 then some [1, 0, 0] else if a = 1 then some [0, 0, 2] else none
  players := fun a =>
    if a = 2 then
      some ⟨0, 0, "right", 1, true, "Anna", 4, some 7, "anna", "key-1", true, false, some 8,
        false, some 9, false, true⟩
    else if a = 3 then
      some ⟨2, 1, "left", 1, true, "Bert", 4, none, "bert", "key-2", false, false, some 10,
        false, some 11, false, true⟩
    else none
  next := 4

/-- The engine's game on the heap `heap2`. -/
def game2 : GameObj where
  Width := 3
  Height := 2
  Cells := [0, 1]
  Players := fun k => if k = 1 then some 2 else if k = 2 then some 3 else none
  You := 1
  Running := true
  Deadline := "2021-01-01T00:00:10Z"
  l := true
  log := some 12
  MaxPlayer := 2
  numberPlayer := 2
  playerAnswer := ["", ""]
  playerChannel := [some 13, some 14]

/-- Two mutations by the holder of a copy: 5 is written to the cell (1,0),
and player 1 is moved to x = 9 and renamed. -/
def scribble : List Mutation :=
  [.cell 0 1 5, .player 1 fun p => { p with X := 9, Name := "x" }]

/-! ## The registry of AIs and the pool (ai.go) -/

/-- A value of the type `AINewFunc`, given by a handle; `nil` is `none` where
the type is used in an `Option`. -/
abbrev AINewFunc := Nat

/-- An element of `aiArray`: the closure
`func() (AI, string) { return f(), GlobalPseudonym.Get(p) }` with the factory
`f` and the string `p` it has captured. -/
structure PoolEntry where
  f : AINewFunc
  p : String
deriving DecidableEq, Repr

/-- The function `RegisterAI` on the map `aiMap`: the error it returns (`none`
for `nil`) and the map after the call. -/
def RegisterAI (name : String) (makeai : Option AINewFunc) (aiMap : String → Option AINewFunc) :
    Option String × (String → Option AINewFunc) :=
  if (aiMap name).isSome then (some ("ai name " ++ name ++ " already registered"), aiMap)
  else
    match makeai with
    | none => (some "AINewFunc must not be nil", aiMap)
    | some f => (none, Function.update aiMap name (some f))

/-- The loop `for i := range ais` of `UpdateAIPool` over the names still to
visit, with the map `counter` and the slice `a` built so far: the error of
the early return, or the slice at the end. -/
def poolLoop (aiMap : String → Option AINewFunc) :
    List String → (String → Nat) → List PoolEntry → Except String (List PoolEntry)
  | [], _, a => .ok a
  | n :: rest, counter, a =>
    match aiMap n with
    | none => .error ("ai name " ++ n ++ " not known")
    | some f =>
      poolLoop aiMap rest (Function.update counter n (counter n + 1))
        (a ++ [⟨f, "AI-" ++ n ++ "-" ++ toString (counter n + 1)⟩])

/-- The function `UpdateAIPool` on the map `aiMap` and the pool `aiArray`:
the error it returns and the pool after the call. -/
def UpdateAIPool (ais : List String) (aiMap : String → Option AINewFunc)
    (aiArray : List PoolEntry) : Option String × List PoolEntry :=
  if ais.length < PlayersPerGame then
    (some "at least 6 ai names must be included (including repetitions", aiArray)
  else
    match poolLoop aiMap ais (fun _ => 0) [] with
    | .error e => (some e, aiArray)
    | .ok a => (none, a)

/-- The loop `for i := range r` of `GetAI`, with `n` iterations left at the
index `i`: `r[i]` is what the closure `aiArray[selectArray[i]]` returns, given
here by the closure; `none` where an index is out of range. -/
def drawLoop (aiArray : List PoolEntry) (selectArray : List Nat) :
    Nat → Nat → Option (List PoolEntry)
  | 0, _ => some []
  | n + 1, i =>
    match selectArray.get? i with
    | none => none
    | some j =>
      match aiArray.get? j with
      | none => none
      | some e => (drawLoop aiArray selectArray n (i + 1)).map fun r => e :: r

/-- The function `GetAI`: `selectArray` is the slice after `rand.Shuffle`.
The result is `none` where the function panics (`num` above the size of the
pool, or `make` called with the negative length `num`), else the slice
returned and the pool after the call. -/
def GetAI (num : Int) (selectArray : List Nat) (aiArray : List PoolEntry) :
    Option (List PoolEntry × List PoolEntry) :=
  if num > aiArray.length then none
  else if num < 0 then none
  else (drawLoop aiArray selectArray num.toNat 0).map fun r => (r, aiArray)

/-- A registry with the names "A" and "B". -/
def registry2 : String → Option AINewFunc :=
  fun n => if n = "A" then some 1 else if n = "B" then some 2 else none

/-- A pool of six entries made from `registry2`. -/
def pool6 : List PoolEntry :=
  [⟨1, "AI-A-1"⟩, ⟨2, "AI-B-1"⟩, ⟨1, "AI-A-2"⟩, ⟨1, "AI-A-3"⟩, ⟨2, "AI-B-2"⟩, ⟨2, "AI-B-3"⟩]

/-! ## Filling a game: AddPlayer, IsReady, MissingPlayer -/

/-- The error value `ErrFullGame`. -/
def ErrFullGame : String := "full game"

/-- The value `new(Game)`: every field has its zero value. -/
def newGame : Game where
  Width := 0
  Height := 0
  Cells := fun _ _ => 0
  Players := fun _ => none
  MaxPlayer := 0
  numberPlayer := 0
  playerAnswer := fun _ => ""
  playerChannel := fun _ => false

/-- The method `Game.AddPlayer`: the error it returns (`none` for `nil`) and
the game after the call; `draw` is the value `rand.Intn(PlayersPerGame-1)` that
`setMaxPlayer` uses if `MaxPlayer` is 0. -/
def AddPlayer (draw : Nat) (g : Game) (p : Player) : Option String × Game :=
  let g1 := setMaxPlayer draw g
  if g1.numberPlayer = g1.MaxPlayer then (some ErrFullGame, g1)
  else
    (none,
      { g1 with
        numberPlayer := g1.numberPlayer + 1
        Players := Function.update g1.Players (g1.numberPlayer + 1) (some p) })

/-- The method `Game.IsReady`: its result and the game after the call. -/
def IsReady (draw : Nat) (g : Game) : Bool × Game :=
  (decide ((setMaxPlayer draw g).numberPlayer = (setMaxPlayer draw g).MaxPlayer),
    setMaxPlayer draw g)

/-- The method `Game.MissingPlayer`: its result and the game after the
call. -/
def MissingPlayer (draw : Nat) (g : Game) : Int × Game :=
  let g1 := setMaxPlayer draw g
  let r : Int := (g1.MaxPlayer : Int) - (g1.numberPlayer : Int)
  (if r < 0 then 0 else r, g1)

/-- A sequence of calls of `AddPlayer`, the k-th with the draw `draws k`: the
errors returned, in order, and the game after the calls. -/
def addPlayers (draws : Nat → Nat) : List Player → Nat → Game → List (Option String) × Game
  | [], _, g => ([], g)
  | p :: rest, k, g =>
    ((AddPlayer (draws k) g p).1 :: (addPlayers draws rest (k + 1) (AddPlayer (draws k) g p).2).1,
      (addPlayers draws rest (k + 1) (AddPlayer (draws k) g p).2).2)

/-! ## The matchmaker: endpoint and gameStarterWorker -/

/-- The variable `currentGame` (`none` for `nil`) and the games handed to
`go RunGame`, in order. -/
structure Matchmaker where
  currentGame : Option Game
  started : List Game

/-- What a step of the matchmaker did besides changing the state: whether a
call of `AddPlayer` on the open lobby returned `ErrFullGame`, the arguments
of the calls of `GetAI`, in order, and the number of passes of the padding
loop. -/
structure StepLog where
  full : Bool
  requested : List Int
  passes : Nat
deriving DecidableEq, Repr

/-- The last statement of `endpoint`: a ready lobby is started and
`currentGame` becomes `nil`. -/
def startIfReady (draw : Nat) (started : List Game) (g : Game) : Matchmaker :=
  if (IsReady draw g).1 then { currentGame := none, started := started ++ [(IsReady draw g).2] }
  else { currentGame := some (IsReady draw g).2, started := started }

/-- The part "Attach to game" of `endpoint` for the new player `p`, under
`currentGameLock`; `d k` is the draw for the k-th call that reaches
`setMaxPlayer`. -/
def attach (d : Nat → Nat) (p : Player) (s : Matchmaker) : Matchmaker × StepLog :=
  let g0 := match s.currentGame with
    | none => newGame
    | some g => g
  let a := AddPlayer (d 0) g0 p
  if a.1 = some ErrFullGame then
    if (IsReady (d 1) a.2).1 then
      let b := AddPlayer (d 2) newGame p
      if b.1.isSome then
        ({ currentGame := some b.2, started := s.started ++ [(IsReady (d 1) a.2).2] },
          ⟨true, [], 0⟩)
      else (startIfReady (d 3) (s.started ++ [(IsReady (d 1) a.2).2]) b.2, ⟨true, [], 0⟩)
    else ({ currentGame := some (IsReady (d 1) a.2).2, started := s.started }, ⟨true, [], 0⟩)
  else (startIfReady (d 3) s.started a.2, ⟨false, [], 0⟩)

/-- The player `gameStarterWorker` makes for a bot: a new `Player` with the
fields `realName`, `underlyingAI` and `Input` set. -/
def botPlayer : Player := ⟨0, 0, .up, 0, false, 0, true⟩

/-- The loop `for i := range ais` of the padding: one `AddPlayer` for each
bot, its result ignored. -/
def addBots (draw : Nat) : List PoolEntry → Game → Game
  | [], g => g
  | _ :: rest, g => addBots draw rest (AddPlayer draw g botPlayer).2

/-- The loop `for !currentGame.IsReady()` of `gameStarterWorker` with `fuel`
passes left: the game when the loop is left, the arguments of `GetAI` and the
number of passes; `none` where `GetAI` panics or the fuel is used up.  The
shuffle of the k-th call of `GetAI` is `sel k`. -/
def padLoop (pool : List PoolEntry) (sel : Nat → List Nat) (d : Nat → Nat) :
    Nat → Nat → Game → Option (Game × List Int × Nat)
  | 0, k, g => if (IsReady (d k) g).1 then some ((IsReady (d k) g).2, [], 0) else none
  | fuel + 1, k, g =>
    if (IsReady (d k) g).1 then some ((IsReady (d k) g).2, [], 0)
    else
      match GetAI (MissingPlayer (d k) (IsReady (d k) g).2).1 (sel k) pool with
      | none => none
      | some (ais, _) =>
        match padLoop pool sel d fuel (k + 1)
            (addBots (d k) ais (MissingPlayer (d k) (IsReady (d k) g).2).2) with
        | none => none
        | some (g1, req, n) =>
          some (g1, (MissingPlayer (d k) (IsReady (d k) g).2).1 :: req, n + 1)

/-- One pass of the loop of `gameStarterWorker` after the sleep, under
`currentGameLock`; `timeout` is `time.Now().Sub(newGameTime) > maxWaitTime`. -/
def tick (pool : List PoolEntry) (sel : Nat → List Nat) (d : Nat → Nat) (fuel : Nat)
    (timeout : Bool) (s : Matchmaker) : Option (Matchmaker × StepLog) :=
  match s.currentGame with
  | none => some (s, ⟨false, [], 0⟩)
  | some g =>
    if timeout then
      match padLoop pool sel d fuel 0 g with
      | none => none
      | some (g1, req, n) =>
        some ({ currentGame := none, started := s.started ++ [g1] }, ⟨false, req, n⟩)
    else some (s, ⟨false, [], 0⟩)

/-- The draws are values `rand.Intn(PlayersPerGame-1)` can return. -/
def validDraws (d : Nat → Nat) : Prop := ∀ k, d k < PlayersPerGame - 1

/-- Every slice is an outcome of the shuffle of the positions of the
pool. -/
def validShuffles (pool : List PoolEntry) (sel : Nat → List Nat) : Prop :=
  ∀ k, (sel k).Perm (List.range pool.length)

/-- The states of the matchmaker when `currentGameLock` is released: the
initial state, and the state after "Attach to game" or after a pass of
`gameStarterWorker`. -/
inductive Lobby (pool : List PoolEntry) : Matchmaker → Prop
  | init : Lobby pool ⟨none, []⟩
  | attach (s : Matchmaker) (d : Nat → Nat) (p : Player) :
      Lobby pool s → validDraws d → Lobby pool (attach d p s).1
  | tick (s s1 : Matchmaker) (sel : Nat → List Nat) (d : Nat → Nat) (fuel : Nat)
      (timeout : Bool) (l : StepLog) :
      Lobby pool s → validDraws d → validShuffles pool sel →
      tick pool sel d fuel timeout s = some (s1, l) → Lobby pool s1

/-- The open lobby is absent, or it holds at least one and fewer than
`MaxPlayer` players, `MaxPlayer` being at most `PlayersPerGame`. -/
def lobbyInv (s : Matchmaker) : Prop :=
  ∀ g, s.currentGame = some g →
    1 ≤ g.numberPlayer ∧ g.numberPlayer < g.MaxPlayer ∧ g.MaxPlayer ≤ PlayersPerGame

/-! ## API keys (keys.go) and their release by a player (player.go) -/

/-- The constant `KeyOK`. -/
def KeyOK : Int := 0
/-- The constant `KeyRateLimit`. -/
def KeyRateLimit : Int := 1
/-- The constant `KeyInvalid`. -/
def KeyInvalid : Int := 2
/-- NumberAllowedGames contains the number of games a key can participate in. -/
def NumberAllowedGames : Int := 1

/-- The body of the loop `for s.Scan()` of `InitKeys` for one line of the
file; `strings.HasPrefix(text, "#")` compares the first characters. -/
def initKey (keymap : String → Option Int) (text : String) : String → Option Int :=
  if text.length = 0 then keymap
  else if List.isPrefixOf "#".data text.data then keymap
  else Function.update keymap text (some NumberAllowedGames)

/-- The function `InitKeys` on the lines of the file. -/
def InitKeys (lines : List String) (keymap : String → Option Int) : String → Option Int :=
  lines.foldl initKey keymap

/-- The function `ClaimKey`: its result and the map `keymap` after the
call. -/
def ClaimKey (key : String) (keymap : String → Option Int) : Int × (String → Option Int) :=
  if key = "" then (KeyInvalid, keymap)
  else
    match keymap key with
    | none => (KeyInvalid, keymap)
    | some available =>
      if available = 0 then (KeyRateLimit, keymap)
      else (KeyOK, Function.update keymap key (some (available - 1)))

/-- The function `ReleaseKey`: the map `keymap` after the call. -/
def ReleaseKey (key : String) (keymap : String → Option Int) : String → Option Int :=
  if key = "" then keymap
  else
    match keymap key with
    | none => keymap
    | some available => Function.update keymap key (some (available + 1))

/-- A call of `ClaimKey` or of `ReleaseKey`. -/
inductive KeyOp where
  | claim (key : String)
  | release (key : String)
deriving DecidableEq, Repr

/-- The map `keymap`, and for every key the number of its claims that
returned `KeyOK` and have not been released. -/
structure KeyState where
  keymap : String → Option Int
  claimed : String → Nat

/-- One call on a state. -/
def keyStep (s : KeyState) : KeyOp → KeyState
  | .claim key =>
    ⟨(ClaimKey key s.keymap).2,
      if (ClaimKey key s.keymap).1 = KeyOK then
        Function.update s.claimed key (s.claimed key + 1)
      else s.claimed⟩
  | .release key => ⟨ReleaseKey key s.keymap, Function.update s.claimed key (s.claimed key - 1)⟩

/-- A sequence of calls on a state. -/
def runKeys (ops : List KeyOp) (s : KeyState) : KeyState :=
  ops.foldl keyStep s

/-- Every `ReleaseKey(key)` of the sequence follows a successful
`ClaimKey(key)` that has not been released before. -/
def matched : List KeyOp → KeyState → Bool
  | [], _ => true
  | .claim key :: rest, s => matched rest (keyStep s (.claim key))
  | .release key :: rest, s => decide (0 < s.claimed key) && matched rest (keyStep s (.release key))

/-- The invariant of matched sequences: the empty key is not in the map, a
key that is not in the map has no claim, and for a key in the map the count is
not negative and adds up to `NumberAllowedGames` with the number of its
claims not yet released. -/
def keyInv (s : KeyState) : Prop :=
  s.keymap "" = none ∧ (∀ k, s.keymap k = none → s.claimed k = 0) ∧
    ∀ k v, s.keymap k = some v → v + s.claimed k = NumberAllowedGames ∧ 0 ≤ v

/-- The method `Player.ReleaseAPI` on the map `keymap` and the player. -/
def ReleaseAPI (keymap : String → Option Int) (p : PlayerObj) :
    (String → Option Int) × PlayerObj :=
  if p.apiReleased = false ∧ p.api ≠ "" then
    (ReleaseKey p.api keymap, { p with apiReleased := true })
  else (keymap, p)

/-- The method `Player.Close` together with the call `go p.ReleaseAPI()` it
starts, which runs once `Close` has given up `writerLock`. -/
def Close (keymap : String → Option Int) (p : PlayerObj) :
    (String → Option Int) × PlayerObj :=
  if p.ws = none then (keymap, { p with underlyingAI := none })
  else ReleaseAPI keymap { p with underlyingAI := none, wsclosed := true, ws := none }

/-- The key map after `InitKeys` on a file with a comment line, an empty line
and the keys "alpha" and "beta". -/
def keys2 : String → Option Int :=
  InitKeys ["# keys", "alpha", "", "beta"] (fun _ => none)

/-- A connected player with the key "alpha". -/
def anna : PlayerObj :=
  ⟨0, 0, "right", 1, true, "Anna", 4, none, "anna", "alpha", false, false, some 8, false,
    some 9, false, true⟩

/-! ## The deadline of a round -/

/-- The constant `RoundTimeoutMin` (seconds). -/
def RoundTimeoutMin : Int := 5
/-- The constant `RoundTimeoutMax` (seconds). -/
def RoundTimeoutMax : Int := 15
/-- The constant `RoundTimeoutGrace` (seconds). -/
def RoundTimeoutGrace : Int := 2
/-- The constant `time.Second`, a `time.Duration` in nanoseconds. -/
def Second : Int := 1000000000

/-- The line `timeout := rand.Intn(RoundTimeoutMax-RoundTimeoutMin+1) +
RoundTimeoutMin` for the value `draw` of `rand.Intn`. -/
def roundTimeout (draw : Int) : Int := draw + RoundTimeoutMin

/-- The line `deadline := time.Now().Add(time.Duration(timeout) *
time.Second).UTC()`: instants are nanoseconds on the clock, `now` is the
reading `time.Now()`. -/
def roundDeadline (now timeout : Int) : Int := now + timeout * Second

/-- The call `deadline.Format(time.RFC3339)`: the layout `time.RFC3339` has
no fraction of a second, so the string is the instant cut down to its whole
second; for instants in UTC the strings are ordered as these seconds are.
The string is represented by the count of whole seconds. -/
def formatRFC3339 (t : Int) : Int := t / Second

/-- The line `deadline = deadline.Add(time.Duration(RoundTimeoutGrace) *
time.Second)`: the instant at which `ctx.Done()` fires. -/
def extendedDeadline (deadline : Int) : Int := deadline + RoundTimeoutGrace * Second

/-- A message taken by the input `select`, with the instant at which it is
received. -/
structure TimedInput where
  time : Int
  player : Nat
  value : Option String

/-- The loop `innerGame` on the clock: the messages are taken in the order of
the list as long as they are received before `limit`, the instant at which
`ctx.Done()` fires; the result is the instant at which the loop is left (the
instant of the message after which `checkEndRound` holds, else `limit`) and
the game it leaves. -/
def collectUntil (limit : Int) : List TimedInput → Game → Int × Game
  | [], g => (limit, g)
  | e :: es, g =>
    if e.time ≥ limit then (limit, g)
    else if g.playerChannel (e.player - 1) = false then collectUntil limit es g
    else
      let g1 := receive g e.player e.value
      if checkEndRound g1 then (e.time, g1) else collectUntil limit es g1

/-- What one round takes from outside as far as the clock is concerned: the
reading `time.Now()` at its start, the value of `rand.Intn` and the messages
that arrive. -/
structure RoundClock where
  now : Int
  draw : Int
  inputs : List TimedInput

/-- The value written to `g.Deadline` and broadcast by `sendState`: the
deadline in the layout `time.RFC3339`, with a resolution of one second. -/
def broadcastDeadline (c : RoundClock) : Int :=
  formatRFC3339 (roundDeadline c.now (roundTimeout c.draw))

/-- The instant at which the loop `innerGame` of the round is left. -/
def roundLeft (c : RoundClock) (g : Game) : Int :=
  (collectUntil (extendedDeadline (roundDeadline c.now (roundTimeout c.draw))) c.inputs
    { g with playerAnswer := fun _ => "" }).1

/-- The readings of two consecutive rounds on a clock that never goes
backwards: the draws are values `rand.Intn` can return, the messages of the
first round are received after its start, and the second round reads the
clock after the loop `innerGame` of the first was left. -/
@[reducible] def consecutive (c0 c1 : RoundClock) (g : Game) : Prop :=
  (0 ≤ c0.draw ∧ c0.draw < RoundTimeoutMax - RoundTimeoutMin + 1) ∧
  (0 ≤ c1.draw ∧ c1.draw < RoundTimeoutMax - RoundTimeoutMin + 1) ∧
  (∀ e ∈ c0.inputs, c0.now ≤ e.time) ∧ roundLeft c0 g ≤ c1.now

/-- A round of the game `sideOn` that starts at the instant 0 with the
timeout 15; both players answer `change_nothing` after one second. -/
def quickRound : RoundClock where
  now := 0
  draw := 10
  inputs := [⟨1000000000, 1, some ActionNOOP⟩, ⟨1000000000, 2, some ActionNOOP⟩]

/-- The round after `quickRound`: it starts after one second with the
timeout 5. -/
def shortRound : RoundClock where
  now := 1000000000
  draw := 0
  inputs := []

/-- A round of the game `sideOn` in which nobody answers. -/
def silentRound : RoundClock where
  now := 0
  draw := 10
  inputs := []

/-- A round that starts when `silentRound` has run to its extended deadline,
with the timeout 5. -/
def lateRound : RoundClock where
  now := 17000000000
  draw := 0
  inputs := []

/-- A round of the game `sideOn` that starts at the instant 0.9 s with the
timeout 5; both players answer `change_nothing` at 0.92 s. -/
def earlyRound : RoundClock where
  now := 900000000
  draw := 0
  inputs := [⟨920000000, 1, some ActionNOOP⟩, ⟨920000000, 2, some ActionNOOP⟩]

/-- A round that starts 0.05 s after `earlyRound`, with the timeout 5. -/
def soonRound : RoundClock where
  now := 950000000
  draw := 0
  inputs := []

/-! ## JumpAI: plans -/

/-- The `switch plan[i]` of `JumpAI.executePlan` on the locals `direction` and
`speed`: whether the function goes on (`false`: it has returned `false`), and
the two locals after it.  An unknown action is logged and changes nothing. -/
def planSwitch (command : String) (direction : Direction) (speed : Int) :
    Bool × Direction × Int :=
  if command = ActionTurnLeft then (true, TurnLeft direction, speed)
  else if command = ActionTurnRight then (true, TurnRight direction, speed)
  else if command = ActionFaster then (!decide (speed + 1 > MaxSpeed), direction, speed + 1)
  else if command = ActionSlower then (!decide (speed - 1 < 1), direction, speed - 1)
  else (true, direction, speed)

/-- The loop `for i := range plan` of `JumpAI.executePlan` on the locals `sc`,
`direction`, `speed` and, in the record, the grid, `x`, `y`, `revert` and
`jump`; the inner loop `for s := 0; s < speed; s++` has the text of the loop
of `JumpAI.progress`.  The Boolean is the value returned. -/
def planLoop (W H : Int) : List String → Int → Direction → Int → Lookahead → Bool × Lookahead
  | [], _, _, _, st => (st.jump, st)
  | a :: plan, sc, direction, speed, st =>
    let sw := planSwitch a direction speed
    if sw.1 = false then (false, st)
    else
      let l := jumpLoop W H sw.2.1 sw.2.2 (sc + 1) sw.2.2.toNat 0 st
      if l.1 = false then (false, l.2) else planLoop W H plan (sc + 1) sw.2.1 sw.2.2 l.2

/-- The method `JumpAI.executePlan`: the value returned and the game after the
deferred loop that writes 0 to the cells of `revert`; `none` where it panics
(`g.You` is no key of the map, or an index is out of range). -/
def JumpAI.executePlan (g : Game) (plan : List String) : Option (Bool × Game) :=
  match g.Players g.You with
  | none => none
  | some p =>
    let l := planLoop g.Width g.Height plan p.stepCounter p.Direction p.Speed
      ⟨g.Cells, p.X, p.Y, [], false⟩
    match clearCells g.Width g.Height l.2.rCells l.2.Cells with
    | none => none
    | some cells => some (l.1, { g with Cells := cells })

/-- The loop `for i := range actions` of `JumpAI.findPlan`, `length` already
decremented; `sub` is the recursive call `j.findPlan(length, g)`.  The number
is the count of shuffles done so far.  The result is the plan (`none` for
`nil`), the count of shuffles and the game the call leaves; `none` on a
panic. -/
def findPlanLoop (sub : Nat → Game → Option (Option (List String) × Nat × Game)) :
    List String → Nat → Game → Option (Option (List String) × Nat × Game)
  | [], k, g => some (none, k, g)
  | a :: rest, k, g =>
    match JumpAI.progress g g.You a with
    | none => none
    | some (result, r, g1) =>
      if result = jumpAIprogressCrash then
        match JumpAI.revert g1 g1.You r with
        | none => none
        | some g2 => findPlanLoop sub rest k g2
      else if result = jumpAIprogressNormal then
        match sub k g1 with
        | none => none
        | some (plan, k1, g2) =>
          match JumpAI.revert g2 g2.You r with
          | none => none
          | some g3 =>
            match plan with
            | none => findPlanLoop sub rest k1 g3
            | some pl => some (some (a :: pl), k1, g3)
      else if result = jumpAIprogressJump then
        match JumpAI.revert g1 g1.You r with
        | none => none
        | some g2 => some (some [a], k, g2)
      else findPlanLoop sub rest k g1

/-- The method `JumpAI.findPlan` for a `length` that is a natural number; the
`k`-th call of `j.r.Shuffle` leaves the list `shuffle k` in `actions`. -/
def findPlanN (shuffle : Nat → List String) :
    Nat → Nat → Game → Option (Option (List String) × Nat × Game)
  | 0, k, g => some (none, k, g)
  | n + 1, k, g => findPlanLoop (findPlanN shuffle n) (shuffle k) (k + 1) g

/-- The method `JumpAI.findPlan`: for `length - 1 < 0` it returns `nil`
without a shuffle. -/
def JumpAI.findPlan (shuffle : Nat → List String) (length : Int) (k : Nat) (g : Game) :
    Option (Option (List String) × Nat × Game) :=
  findPlanN shuffle length.toNat k g

/-- The `length` that `JumpAI.GetState` passes to `findPlan` for the step
counter `sc` of the bot (Go `%` is the truncating remainder). -/
def jumpPlanLength (sc : Int) : Int := HolesEachStep - Int.tmod sc HolesEachStep

/-- A state shown to the bot (player 1): it stands on (5,5) facing right with
speed 3 and step counter 5; the cell (7,5) holds a trail. -/
def jumpGame : Game where
  Width := 40
  Height := 41
  Cells := fun y x => if y = 5 ∧ x = 5 then 1 else if y = 5 ∧ x = 7 then 2 else 0
  Players := fun i => if i = 1 then some ⟨5, 5, .right, 3, true, 5, false⟩ else none
  MaxPlayer := 0
  numberPlayer := 0
  playerAnswer := fun _ => ""
  playerChannel := fun _ => false
  You := 1
  Running := true

/-- Shuffles that always leave the same order in `actions`. -/
def sameShuffle : Nat → List String :=
  fun _ => [ActionTurnLeft, ActionNOOP, ActionSlower, ActionFaster, ActionTurnRight]

/-! ## SuperSnailAI -/

/-- The cell `(x, y)` passes the test `nextX >= 0 && nextX < g.Width && nextY
>= 0 && nextY < g.Height && g.Cells[nextY][nextX] == 0`. -/
def freeCell (g : Game) (c : Int × Int) : Bool :=
  decide (c.1 ≥ 0) && decide (c.1 < g.Width) && decide (c.2 ≥ 0) && decide (c.2 < g.Height) &&
    decide (g.Cells c.2 c.1 = 0)

/-- The `switch` of `getSnailAction` that selects the cell to the right of
the heading. -/
def cellRight : Direction → Int → Int → Int × Int
  | .up, x, y => (x + 1, y)
  | .down, x, y => (x - 1, y)
  | .left, x, y => (x, y - 1)
  | .right, x, y => (x, y + 1)

/-- The `switch` of `getSnailAction` that selects the cell ahead. -/
def cellAhead : Direction → Int → Int → Int × Int
  | .up, x, y => (x, y - 1)
  | .down, x, y => (x, y + 1)
  | .left, x, y => (x - 1, y)
  | .right, x, y => (x + 1, y)

/-- The `switch` of `getSnailAction` that selects the cell to the left of the
heading. -/
def cellLeft : Direction → Int → Int → Int × Int
  | .up, x, y => (x - 1, y)
  | .down, x, y => (x + 1, y)
  | .left, x, y => (x, y + 1)
  | .right, x, y => (x, y - 1)

/-- The method `SuperSnailAI.getSnailAction`, `side` being the field
`s.direction` (`DirectionLeft` or `DirectionRight` once `GetState` has chosen
it): three candidate cells are tested in turn, and the empty action is
returned when none is free.  `none` where `g.You` is no key of the map. -/
def getSnailAction (side : Direction) (g : Game) : Option String :=
  match g.Players g.You with
  | none => none
  | some p =>
    if side = .left then
      if freeCell g (cellRight p.Direction p.X p.Y) then some ActionTurnRight
      else if freeCell g (cellAhead p.Direction p.X p.Y) then some ActionNOOP
      else if freeCell g (cellLeft p.Direction p.X p.Y) then some ActionTurnLeft
      else some ""
    else if side = .right then
      if freeCell g (cellLeft p.Direction p.X p.Y) then some ActionTurnLeft
      else if freeCell g (cellAhead p.Direction p.X p.Y) then some ActionNOOP
      else if freeCell g (cellRight p.Direction p.X p.Y) then some ActionTurnRight
      else some ""
    else some ""

/-- The loop of `revertStack` from the top of the stack down: the list holds
the records in the order in which they are reverted. -/
def revertAll (player : Nat) : List Revert → Game → Option Game
  | [], g => some g
  | r :: rs, g =>
    match SuperSnailAI.revert g player r with
    | none => none
    | some g1 => revertAll player rs g1

/-- The method `SuperSnailAI.revertStack`: the records are reverted from the
last to the first. -/
def revertStack (g : Game) (player : Nat) (rs : List Revert) : Option Game :=
  revertAll player rs.reverse g

/-- The method `SuperSnailAI.isInSmallArea`: at most one of the four
neighbours of the recipient is off the grid or empty.  `none` where `g.You` is
no key of the map. -/
def isInSmallArea (g : Game) : Option Bool :=
  match g.Players g.You with
  | none => none
  | some p =>
    let test := [(p.X + 1, p.Y), (p.X - 1, p.Y), (p.X, p.Y + 1), (p.X, p.Y - 1)]
    let count := (test.filter fun c =>
      if c.1 < 0 ∨ c.1 ≥ g.Width ∨ c.2 < 0 ∨ c.2 ≥ g.Height then true
      else decide (g.Cells c.2 c.1 = 0)).length
    some (decide (count ≤ 1))

/-- The inner loop `for { ... }` of `SuperSnailAI.GetState`, with `fuel`
bounding the number of iterations: the game, `newTest` and `revert` when the
loop is left; `none` on a panic or when the fuel is used up. -/
def snailLoop (side : Direction) : Nat → Game → Nat → List Revert →
    Option (Game × Nat × List Revert)
  | 0, _, _, _ => none
  | fuel + 1, g, newTest, revert =>
    match getSnailAction side g with
    | none => none
    | some a =>
      match SuperSnailAI.progress g g.You a with
      | none => none
      | some (alive, r, g1) =>
        if alive = false then some (g1, newTest, revert ++ [r])
        else snailLoop side fuel g1 (newTest + 1) (revert ++ [r])

/-- The loop `for a := range action` of `SuperSnailAI.GetState`: the value of
`snailaction` after it. -/
def tryActions (side : Direction) (fuel : Nat) :
    List String → Game → List Revert → Nat → String → Option String
  | [], _, _, _, snailaction => some snailaction
  | a :: rest, g, revert, test, snailaction =>
    match revertStack g g.You revert with
    | none => none
    | some g0 =>
      match SuperSnailAI.progress g0 g0.You a with
      | none => none
      | some (alive, r, g1) =>
        if alive = false then tryActions side fuel rest g1 [r] test snailaction
        else
          match snailLoop side fuel g1 1 [r] with
          | none => none
          | some (g2, newTest, revert2) =>
            if newTest > test then tryActions side fuel rest g2 revert2 newTest a
            else tryActions side fuel rest g2 revert2 test snailaction

/-- The method `SuperSnailAI.GetState` once `s.direction` is chosen: `channel`
is `s.i != nil`; the result is the action offered to the channel, if one is
offered; `none` on a panic or when the fuel of an inner loop is used up. -/
def SuperSnailAI.GetState (channel : Bool) (side : Direction) (fuel : Nat) (g : Game) :
    Option (Option String) :=
  if channel = false then some none
  else if g.Running = false then some none
  else
    match getSnailAction side g with
    | none => none
    | some snailaction =>
      if snailaction ≠ "" then
        match SuperSnailAI.progress g g.You snailaction with
        | none => none
        | some (_, r, g1) =>
          match isInSmallArea g1 with
          | none => none
          | some small =>
            if small = false then some (some snailaction)
            else
              (tryActions side fuel [ActionNOOP, ActionTurnLeft, ActionTurnRight] g1 [r] 0
                snailaction).map some
      else some (some ActionNOOP)

/-- The cells of a grid of width `W` and height `H`, as pairs `(x, y)`. -/
def gridCells (W H : Int) : List (Int × Int) :=
  (List.range H.toNat).flatMap fun (y : Nat) =>
    (List.range W.toNat).map fun (x : Nat) => (Int.ofNat x, Int.ofNat y)

/-- The number of cells of a grid of width `W` and height `H` that hold 0. -/
def emptyCount (W H : Int) (cells : Int → Int → Int) : Nat :=
  (gridCells W H).countP fun c => decide (cells c.2 c.1 = 0)

/-- The number of empty cells of the grid. -/
def emptyCells (g : Game) : Nat :=
  emptyCount g.Width g.Height g.Cells

/-- A state shown to the bot (player 1) on a 4x3 grid: it stands on (0,0)
facing right with speed 1; the cell (1,0) holds a trail. -/
def snailGame : Game where
  Width := 4
  Height := 3
  Cells := fun y x => if y = 0 ∧ x = 0 then 1 else if y = 0 ∧ x = 1 then 2 else 0
  Players := fun i => if i = 1 then some ⟨0, 0, .right, 1, true, 0, false⟩ else none
  MaxPlayer := 0
  numberPlayer := 0
  playerAnswer := fun _ => ""
  playerChannel := fun _ => false
  You := 1
  Running := true

/-! ## JumpingLargestFreeAI: the flood fill -/

/-- The four positions `(x-1, y)`, `(x+1, y)`, `(x, y-1)`, `(x, y+1)` in the
order in which `freeSpaceConnectedInternal` and `freeSpaceConnected` visit
them. -/
def neighbours (c : Int × Int) : List (Int × Int) :=
  [(c.1 - 1, c.2), (c.1 + 1, c.2), (c.1, c.2 - 1), (c.1, c.2 + 1)]

/-- A run of consecutive calls `current = jlf.freeSpaceConnectedInternal(x',
y', cutoff, current, g)`, one for each position of the list; `f` is the
method applied to the position, `current` and the slice. -/
def visitAll (f : Int → Int → Int → (Int → Bool) → Option (Int × (Int → Bool))) :
    List (Int × Int) → Int → (Int → Bool) → Option (Int × (Int → Bool))
  | [], current, vis => some (current, vis)
  | p :: ps, current, vis =>
    match f p.1 p.2 current vis with
    | none => none
    | some (c1, v1) => visitAll f ps c1 v1

/-- The method `freeSpaceConnectedInternal`, with `fuel` bounding the depth
of the recursion; `vis` is the slice `jlf.freeCountingSlice`, indexed by
`y*g.Width + x`.  The result is the value returned and the slice the call
leaves; `none` when the fuel is used up. -/
def freeSpaceConnectedInternal (W H : Int) (cells : Int → Int → Int) (cutoff : Int) :
    Nat → Int → Int → Int → (Int → Bool) → Option (Int × (Int → Bool))
  | 0, _, _, _, _ => none
  | fuel + 1, x, y, current, vis =>
    if cutoff ≠ -1 ∧ current > cutoff then some (current, vis)
    else if x < 0 ∨ x ≥ W ∨ y < 0 ∨ y ≥ H then some (current, vis)
    else if vis (y * W + x) = true then some (current, vis)
    else if cells y x ≠ 0 then some (current, Function.update vis (y * W + x) true)
    else
      visitAll (freeSpaceConnectedInternal W H cells cutoff fuel) (neighbours (x, y))
        (current + 1) (Function.update vis (y * W + x) true)

/-- The method `JumpingLargestFreeAI.freeSpaceConnected`: the slice is
cleared (or made, which panics for a negative length), then the position and
its four neighbours are visited.  The game is only read. -/
def JumpingLargestFreeAI.freeSpaceConnected (fuel : Nat) (x y cutoff : Int) (g : Game) :
    Option Int :=
  if g.Height * g.Width < 0 then none
  else
    (visitAll (freeSpaceConnectedInternal g.Width g.Height g.Cells cutoff fuel)
      ((x, y) :: neighbours (x, y)) 0 (fun _ => false)).map fun r => r.1

/-- The cell `b` is an empty cell of the grid next to `a`. -/
def stepTo (g : Game) (a b : Int × Int) : Prop :=
  freeCell g b = true ∧ b ∈ neighbours a

/-- The cell `c` is an empty cell that is 4-connected through empty cells to
`(x, y)` or to one of its four neighbours: there is a chain of empty cells,
each next to the one before, from one of the five positions to `c`. -/
def connectedFree (g : Game) (x y : Int) (c : Int × Int) : Prop :=
  ∃ s ∈ (x, y) :: neighbours (x, y),
    freeCell g s = true ∧ Relation.ReflTransGen (stepTo g) s c

/-- The cell `c` is marked in the slice. -/
def seen (W : Int) (vis : Int → Bool) (c : Int × Int) : Prop :=
  vis (c.2 * W + c.1) = true

/-- The number of cells of the grid that are not marked in the slice. -/
def unseenCount (W H : Int) (vis : Int → Bool) : Nat :=
  (gridCells W H).countP fun c => !vis (c.2 * W + c.1)

/-- What a run of calls started at the positions `roots` does, from the
counter `c0` and the slice `v0` to the counter `c1` and the slice `v1`: marks
are only added; the counter grows by the number of empty cells that are newly
marked; each of these is linked to an empty root by a chain of empty cells,
and its neighbours on the grid are marked; the roots on the grid are
marked. -/
def floodSpec (g : Game) (roots : List (Int × Int)) (c0 : Int) (v0 : Int → Bool) (c1 : Int)
    (v1 : Int → Bool) : Prop :=
  (∀ i, v0 i = true → v1 i = true) ∧
  (∃ L : List (Int × Int), L.Nodup ∧
    (∀ c, c ∈ L ↔ (freeCell g c = true ∧ seen g.Width v1 c ∧ ¬ seen g.Width v0 c)) ∧
    c1 = c0 + L.length) ∧
  (∀ c, freeCell g c = true → seen g.Width v1 c → ¬ seen g.Width v0 c →
    (∃ s ∈ roots, freeCell g s = true ∧ Relation.ReflTransGen (stepTo g) s c) ∧
    ∀ b ∈ neighbours c, inGrid g.Width g.Height b.1 b.2 = true → seen g.Width v1 b) ∧
  ∀ s ∈ roots, inGrid g.Width g.Height s.1 s.2 = true → seen g.Width v1 s

/-- A 4x3 grid with a wall in column 2: the cells (2,0), (2,1), (2,2) hold a
trail, the bot (player 1) stands on (0,0). -/
def wallGame : Game where
  Width := 4
  Height := 3
  Cells := fun y x => if x = 2 then 2 else if y = 0 ∧ x = 0 then 1 else 0
  Players := fun i => if i = 1 then some ⟨0, 0, .right, 1, true, 0, false⟩ else none
  MaxPlayer := 0
  numberPlayer := 0
  playerAnswer := fun _ => ""
  playerChannel := fun _ => false
  You := 1
  Running := true

/-! ## JumpingLargestFreeAI: the dispatch -/

/-- The constant `JumpingLargestFreeAIJumpAtLessThanFree`. -/
def JumpingLargestFreeAIJumpAtLessThanFree : Int := 50

/-- The method `JumpingLargestFreeAI.GetState`.  `channel` is `jlf.i != nil`
and `fuel` bounds the depth of the flood fill.  The result is `none` on a
panic or when the fuel is used up, `some none` where no action is sent by this
code (no channel, game not running, recipient not active, or the state is
handed to `jlf.jump` or to `jlf.largestfree`) and `some (some a)` where the
branch `else if g.Players[g.You].Speed > 1` sends `a`. -/
def JumpingLargestFreeAI.GetState (channel : Bool) (fuel : Nat) (g : Game) :
    Option (Option String) :=
  if channel = false then some none
  else if g.Running = false then some none
  else
    match g.Players g.You with
    | none => none
    | some p =>
      if p.Active = false then some none
      else
        match JumpingLargestFreeAI.freeSpaceConnected fuel p.X p.Y
            (JumpingLargestFreeAIJumpAtLessThanFree + 1) g with
        | none => none
        | some free =>
          if free < JumpingLargestFreeAIJumpAtLessThanFree then some none
          else if p.Speed > 1 then some (some (speedBlock g p))
          else some none

/-- The engine's game behind `turnTrap` in the round the bot answers: the
answer slot of player 1 holds what `JumpingLargestFreeAI.GetState` sends on
`turnTrap`, player 2 answers `change_nothing`. -/
def turnTrapRound : Game :=
  { turnTrap with
    playerAnswer := fun s =>
      if s = 0 then ((JumpingLargestFreeAI.GetState true 1641 turnTrap).getD none).getD ""
      else ActionNOOP
    playerChannel := fun s => decide (s < 2) }

/-! ## Lemmas: invalidatePlayer and the action phase -/

theorem invalidatePlayer_Players (g : Game) (p j : Nat) :
    (invalidatePlayer g p).Players j =
      if j = p then (g.Players p).map (fun pl => { pl with Active := false })
      else g.Players j := by
  unfold invalidatePlayer
  cases h : g.Players p with
  | none => by_cases hj : j = p <;> simp [hj, h]
  | some pl => by_cases hj : j = p <;> simp [hj, Function.update]

theorem invalidatePlayer_frame (g : Game) (p : Nat) :
    (invalidatePlayer g p).Width = g.Width ∧ (invalidatePlayer g p).Height = g.Height ∧
    (invalidatePlayer g p).Cells = g.Cells ∧
    (invalidatePlayer g p).playerAnswer = g.playerAnswer ∧
    (invalidatePlayer g p).MaxPlayer = g.MaxPlayer ∧
    (invalidatePlayer g p).numberPlayer = g.numberPlayer := by
  unfold invalidatePlayer
  cases g.Players p <;> simp

theorem processAction_Players (g : Game) (i j : Nat) :
    (processAction g i).Players j =
      if j = i then (g.Players i).map (actPlayer (g.playerAnswer (i - 1)))
      else g.Players j := by
  unfold processAction
  cases h : g.Players i with
  | none => by_cases hj : j = i <;> simp [hj, h]
  | some p =>
    by_cases hj : j = i
    · subst hj
      simp only [if_true, Option.map_some']
      unfold actPlayer
      split_ifs <;> simp [invalidatePlayer_Players, setPlayer, h, Function.update]
    · simp only [hj, if_false]
      split_ifs <;> simp [invalidatePlayer_Players, setPlayer, h, Function.update, hj]

theorem processAction_frame (g : Game) (i : Nat) :
    (processAction g i).Width = g.Width ∧ (processAction g i).Height = g.Height ∧
    (processAction g i).Cells = g.Cells ∧
    (processAction g i).playerAnswer = g.playerAnswer ∧
    (processAction g i).MaxPlayer = g.MaxPlayer ∧
    (processAction g i).numberPlayer = g.numberPlayer := by
  unfold processAction
  cases h : g.Players i with
  | none => simp
  | some p =>
    simp only []
    split_ifs <;> simp [invalidatePlayer_frame, setPlayer]

theorem processActions_frame (o : List Nat) (g : Game) :
    (processActions o g).Width = g.Width ∧ (processActions o g).Height = g.Height ∧
    (processActions o g).Cells = g.Cells ∧
    (processActions o g).playerAnswer = g.playerAnswer ∧
    (processActions o g).MaxPlayer = g.MaxPlayer ∧
    (processActions o g).numberPlayer = g.numberPlayer := by
  induction o generalizing g with
  | nil => simp [processActions]
  | cons i o ih =>
    have h1 := ih (processAction g i)
    have h2 := processAction_frame g i
    simp only [processActions, List.foldl_cons] at h1 ⊢
    refine ⟨h1.1.trans h2.1, h1.2.1.trans h2.2.1, h1.2.2.1.trans h2.2.2.1,
      h1.2.2.2.1.trans h2.2.2.2.1, h1.2.2.2.2.1.trans h2.2.2.2.2.1,
      h1.2.2.2.2.2.trans h2.2.2.2.2.2⟩

theorem processActions_Players (o : List Nat) (hnd : o.Nodup) (g : Game) (j : Nat) :
    (processActions o g).Players j =
      if j ∈ o then (g.Players j).map (actPlayer (g.playerAnswer (j - 1)))
      else g.Players j := by
  induction o generalizing g with
  | nil => simp [processActions]
  | cons i o ih =>
    have hno : i ∉ o := (List.nodup_cons.mp hnd).1
    have h1 := ih (List.nodup_cons.mp hnd).2 (processAction g i)
    simp only [processActions, List.foldl_cons] at h1 ⊢
    rw [h1, (processAction_frame g i).2.2.2.1, processAction_Players]
    by_cases hj : j = i
    · subst hj
      simp [hno]
    · by_cases hjo : j ∈ o <;> simp [hj, hjo]

theorem dostep_eq (d : Direction) (x y : Int) :
    dostep d x y = (x + (dvec d).1, y + (dvec d).2) := by
  cases d <;> simp [dostep, dvec, Int.sub_eq_add_neg]

theorem dostepback_eq (d : Direction) (x y : Int) :
    dostepback d x y = (x - (dvec d).1, y - (dvec d).2) := by
  cases d <;> simp [dostepback, dvec]

theorem inGrid_iff (W H x y : Int) :
    inGrid W H x y = true ↔ 0 ≤ x ∧ x < W ∧ 0 ≤ y ∧ y < H := by
  simp only [inGrid, Bool.not_eq_true', Bool.or_eq_false_iff, decide_eq_false_iff_not]
  omega

theorem out_iff (W H x y : Int) :
    (x < 0 ∨ x ≥ W ∨ y < 0 ∨ y ≥ H) ↔ inGrid W H x y = false := by
  rw [← Bool.not_eq_true, inGrid_iff]
  omega

theorem moveLoop_eq (W H : Int) (i : Nat) (d : Direction) (speed sc : Int) (n : Nat)
    (s : Int) (st : MoveState) :
    moveLoop W H i d speed sc n s st =
      { Cells := (moveWrites W H d speed sc n s st.X st.Y).foldl (mark i) st.Cells
        X := (moveEnd W H d n st.X st.Y).1
        Y := (moveEnd W H d n st.X st.Y).2.1
        Active := st.Active && (moveEnd W H d n st.X st.Y).2.2 } := by
  induction n generalizing s st with
  | zero => simp [moveLoop, moveWrites, moveEnd]
  | succ n ih =>
    simp only [moveLoop, moveWrites, moveEnd]
    split_ifs
    · simp
    · rw [ih]
    · rw [ih]; simp [mark, *]
    · rw [ih]; simp [mark, *]

theorem moveEnd_of_pathIn (W H : Int) (d : Direction) (n : Nat) (x y : Int)
    (h : pathIn W H d x y n) :
    moveEnd W H d n x y = (x + n * (dvec d).1, y + n * (dvec d).2, true) := by
  induction n generalizing x y with
  | zero => simp [moveEnd]
  | succ n ih =>
    have h0 := h 0 (Nat.succ_pos n)
    simp only [moveEnd, dostep_eq]
    have hin : inGrid W H (x + (dvec d).1) (y + (dvec d).2) = true := by simpa using h0
    rw [if_neg (by rw [out_iff, hin]; simp)]
    rw [ih]
    · simp only [Prod.mk.injEq, and_true]
      push_cast
      constructor <;> ring
    · intro k hk
      have := h (k + 1) (Nat.succ_lt_succ hk)
      push_cast at this ⊢
      rw [← this]
      congr 1 <;> ring

theorem pathIn_of_moveEnd (W H : Int) (d : Direction) (n : Nat) (x y : Int)
    (h : (moveEnd W H d n x y).2.2 = true) : pathIn W H d x y n := by
  induction n generalizing x y with
  | zero => intro k hk; omega
  | succ n ih =>
    simp only [moveEnd, dostep_eq] at h
    by_cases h1 : x + (dvec d).1 < 0 ∨ x + (dvec d).1 ≥ W ∨ y + (dvec d).2 < 0 ∨ y + (dvec d).2 ≥ H
    · rw [if_pos h1] at h
      exact absurd h (by simp)
    · rw [if_neg h1] at h
      have hin : inGrid W H (x + (dvec d).1) (y + (dvec d).2) = true := by
        rw [out_iff] at h1; simpa using h1
      intro k hk
      cases k with
      | zero => simpa using hin
      | succ k =>
        have := ih _ _ h k (by omega)
        push_cast at this ⊢
        rw [← this]
        congr 1 <;> ring

theorem moveEnd_active_iff (W H : Int) (d : Direction) (n : Nat) (x y : Int) :
    (moveEnd W H d n x y).2.2 = true ↔ pathIn W H d x y n :=
  ⟨pathIn_of_moveEnd W H d n x y, fun h => by rw [moveEnd_of_pathIn W H d n x y h]⟩

theorem pathIn_mono (W H : Int) (d : Direction) (x y : Int) (m n : Nat) (hmn : m ≤ n)
    (h : pathIn W H d x y n) : pathIn W H d x y m :=
  fun k hk => h k (lt_of_lt_of_le hk hmn)

theorem mem_moveWrites (W H : Int) (d : Direction) (speed sc : Int) (n : Nat)
    (s x y cy cx : Int) :
    (cy, cx) ∈ moveWrites W H d speed sc n s x y ↔
      ∃ k : Nat, k < n ∧ cx = x + (k + 1) * (dvec d).1 ∧ cy = y + (k + 1) * (dvec d).2 ∧
        isHole speed sc (s + k) = false ∧ pathIn W H d x y (k + 1) := by
  induction n generalizing s x y with
  | zero => simp [moveWrites]
  | succ n ih =>
    simp only [moveWrites, dostep_eq]
    have shift : ∀ k : Nat, pathIn W H d x y (k + 1 + 1) ↔
        inGrid W H (x + (dvec d).1) (y + (dvec d).2) = true ∧
          pathIn W H d (x + (dvec d).1) (y + (dvec d).2) (k + 1) := by
      intro k
      constructor
      · intro h
        refine ⟨by simpa using h 0 (by omega), fun j hj => ?_⟩
        have := h (j + 1) (by omega)
        push_cast at this ⊢
        rw [← this]
        congr 1 <;> ring
      · intro h j hj
        cases j with
        | zero => simpa using h.1
        | succ j =>
          have := h.2 j (by omega)
          push_cast at this ⊢
          rw [← this]
          congr 1 <;> ring
    have first : ∀ k : Nat, pathIn W H d x y (k + 1) →
        inGrid W H (x + (dvec d).1) (y + (dvec d).2) = true := by
      intro k h
      simpa using h 0 (by omega)
    split_ifs with h1 h2
    · rw [out_iff] at h1
      simp only [List.not_mem_nil, false_iff, not_exists, not_and]
      intro k _ _ _ _ hp
      rw [first k hp] at h1
      exact absurd h1 (by simp)
    · have hin : inGrid W H (x + (dvec d).1) (y + (dvec d).2) = true := by
        rw [out_iff] at h1; simpa using h1
      rw [ih]
      constructor
      · rintro ⟨k, hk, hx, hy, hh, hp⟩
        refine ⟨k + 1, by omega, ?_, ?_, ?_, (shift k).2 ⟨hin, hp⟩⟩
        · rw [hx]; push_cast; ring
        · rw [hy]; push_cast; ring
        · rw [← hh]; congr 1; push_cast; ring
      · rintro ⟨k, hk, hx, hy, hh, hp⟩
        cases k with
        | zero => simp [h2] at hh
        | succ k =>
          refine ⟨k, by omega, ?_, ?_, ?_, ((shift k).1 hp).2⟩
          · rw [hx]; push_cast; ring
          · rw [hy]; push_cast; ring
          · rw [← hh]; congr 1; push_cast; ring
    · have hin : inGrid W H (x + (dvec d).1) (y + (dvec d).2) = true := by
        rw [out_iff] at h1; simpa using h1
      rw [List.mem_cons, ih]
      constructor
      · rintro (heq | ⟨k, hk, hx, hy, hh, hp⟩)
        · simp only [Prod.mk.injEq] at heq
          refine ⟨0, by omega, by simpa using heq.2, by simpa using heq.1, by simpa using h2, ?_⟩
          intro j hj
          have : j = 0 := by omega
          subst this
          simpa using hin
        · refine ⟨k + 1, by omega, ?_, ?_, ?_, (shift k).2 ⟨hin, hp⟩⟩
          · rw [hx]; push_cast; ring
          · rw [hy]; push_cast; ring
          · rw [← hh]; congr 1; push_cast; ring
      · rintro ⟨k, hk, hx, hy, hh, hp⟩
        cases k with
        | zero =>
          left
          simp only [Prod.mk.injEq]
          constructor
          · simpa using hy
          · simpa using hx
        | succ k =>
          right
          refine ⟨k, by omega, ?_, ?_, ?_, ((shift k).1 hp).2⟩
          · rw [hx]; push_cast; ring
          · rw [hy]; push_cast; ring
          · rw [← hh]; congr 1; push_cast; ring

/-! ## Lemmas: the movement phase -/

theorem movePlayer_Players (g : Game) (i j : Nat) :
    (movePlayer g i).Players j =
      if j = i then (g.Players i).map (movedPlayer g.Width g.Height) else g.Players j := by
  unfold movePlayer
  cases h : g.Players i with
  | none => by_cases hj : j = i <;> simp [hj, h]
  | some p =>
    simp only [moveLoop_eq, Bool.true_and, Option.map_some']
    by_cases ha : p.Active = false
    · by_cases hj : j = i <;> simp [ha, hj, h, movedPlayer]
    · simp only [ha, if_false]
      by_cases he : (moveEnd g.Width g.Height p.Direction p.Speed.toNat p.X p.Y).2.2 = true
      · by_cases hj : j = i
        · simp [he, hj, movedPlayer, ha, Function.update]
        · simp [he, hj, Function.update]
      · by_cases hj : j = i
        · simp [he, hj, movedPlayer, ha, Function.update, invalidatePlayer_Players]
        · simp [he, hj, Function.update, invalidatePlayer_Players]

theorem movePlayer_Cells (g : Game) (i : Nat) :
    (movePlayer g i).Cells = (playerWrites g i).foldl (mark i) g.Cells := by
  unfold movePlayer playerWrites
  cases h : g.Players i with
  | none => simp
  | some p =>
    simp only [moveLoop_eq, Bool.true_and]
    by_cases ha : p.Active = false
    · simp [ha]
    · simp only [ha, if_false]
      split_ifs <;> simp [(invalidatePlayer_frame _ _).2.2.1]

theorem movePlayer_frame (g : Game) (i : Nat) :
    (movePlayer g i).Width = g.Width ∧ (movePlayer g i).Height = g.Height ∧
    (movePlayer g i).playerAnswer = g.playerAnswer ∧
    (movePlayer g i).MaxPlayer = g.MaxPlayer ∧
    (movePlayer g i).numberPlayer = g.numberPlayer := by
  unfold movePlayer
  cases h : g.Players i with
  | none => simp
  | some p =>
    simp only []
    split_ifs <;> simp [invalidatePlayer_frame]

theorem doMovement_frame (o : List Nat) (g : Game) :
    (doMovement o g).Width = g.Width ∧ (doMovement o g).Height = g.Height ∧
    (doMovement o g).playerAnswer = g.playerAnswer ∧
    (doMovement o g).MaxPlayer = g.MaxPlayer ∧
    (doMovement o g).numberPlayer = g.numberPlayer := by
  induction o generalizing g with
  | nil => simp [doMovement]
  | cons i o ih =>
    have h1 := ih (movePlayer g i)
    have h2 := movePlayer_frame g i
    simp only [doMovement, List.foldl_cons] at h1 ⊢
    exact ⟨h1.1.trans h2.1, h1.2.1.trans h2.2.1, h1.2.2.1.trans h2.2.2.1,
      h1.2.2.2.1.trans h2.2.2.2.1, h1.2.2.2.2.trans h2.2.2.2.2⟩

theorem doMovement_Players (o : List Nat) (hnd : o.Nodup) (g : Game) (j : Nat) :
    (doMovement o g).Players j =
      if j ∈ o then (g.Players j).map (movedPlayer g.Width g.Height) else g.Players j := by
  induction o generalizing g with
  | nil => simp [doMovement]
  | cons i o ih =>
    have hno : i ∉ o := (List.nodup_cons.mp hnd).1
    have h1 := ih (List.nodup_cons.mp hnd).2 (movePlayer g i)
    simp only [doMovement, List.foldl_cons] at h1 ⊢
    rw [h1, (movePlayer_frame g i).1, (movePlayer_frame g i).2.1, movePlayer_Players]
    by_cases hj : j = i
    · subst hj
      simp [hno]
    · by_cases hjo : j ∈ o <;> simp [hj, hjo]

theorem playerWrites_congr (g g1 : Game) (i : Nat) (hW : g1.Width = g.Width)
    (hH : g1.Height = g.Height) (hP : g1.Players i = g.Players i) :
    playerWrites g1 i = playerWrites g i := by
  unfold playerWrites
  rw [hW, hH, hP]

theorem allWrites_congr (o : List Nat) (g g1 : Game) (hW : g1.Width = g.Width)
    (hH : g1.Height = g.Height) (hP : ∀ i ∈ o, g1.Players i = g.Players i) :
    allWrites o g1 = allWrites o g := by
  induction o with
  | nil => simp [allWrites]
  | cons i o ih =>
    have := ih (fun j hj => hP j (List.mem_cons_of_mem _ hj))
    simp only [allWrites, List.flatMap_cons] at this ⊢
    rw [this, playerWrites_congr g g1 i hW hH (hP i (List.mem_cons_self _ _))]

theorem doMovement_Cells (o : List Nat) (hnd : o.Nodup) (g : Game) :
    (doMovement o g).Cells = (allWrites o g).foldl markBy g.Cells := by
  induction o generalizing g with
  | nil => simp [doMovement, allWrites]
  | cons i o ih =>
    have hno : i ∉ o := (List.nodup_cons.mp hnd).1
    have h1 := ih (List.nodup_cons.mp hnd).2 (movePlayer g i)
    simp only [doMovement, List.foldl_cons] at h1 ⊢
    rw [h1, movePlayer_Cells]
    have hc : allWrites o (movePlayer g i) = allWrites o g := by
      apply allWrites_congr _ _ _ (movePlayer_frame g i).1 (movePlayer_frame g i).2.1
      intro j hj
      rw [movePlayer_Players, if_neg]
      rintro rfl
      exact hno hj
    rw [hc]
    simp only [allWrites, List.flatMap_cons, List.foldl_append, List.foldl_map]
    rfl

theorem mem_allWrites (o : List Nat) (g : Game) (i : Nat) (c : Int × Int) :
    (i, c) ∈ allWrites o g ↔ i ∈ o ∧ c ∈ playerWrites g i := by
  simp only [allWrites, List.mem_flatMap, List.mem_map, Prod.mk.injEq]
  constructor
  · rintro ⟨j, hj, c1, hc1, rfl, rfl⟩
    exact ⟨hj, hc1⟩
  · rintro ⟨hi, hc⟩
    exact ⟨i, hi, c, hc, rfl, rfl⟩

/-! ## Lemmas: sequences of writes -/

theorem markBy_other (cells : Int → Int → Int) (w : Nat × Int × Int) (y x : Int)
    (h : w.2 ≠ (y, x)) : markBy cells w y x = cells y x := by
  unfold markBy mark setCell
  have : ¬ (y = w.2.1 ∧ x = w.2.2) := by
    rintro ⟨h1, h2⟩
    exact h (by rw [h1, h2])
  simp [this]

theorem markBy_hit (cells : Int → Int → Int) (i : Nat) (y x : Int) :
    markBy cells (i, y, x) y x = if cells y x ≠ 0 then -1 else int8 i := by
  simp [markBy, mark, setCell]

/-- A cell no write is aimed at keeps its value. -/
theorem writes_untouched (ws : List (Nat × Int × Int)) (cells : Int → Int → Int) (y x : Int)
    (h : ∀ w ∈ ws, w.2 ≠ (y, x)) : ws.foldl markBy cells y x = cells y x := by
  induction ws generalizing cells with
  | nil => rfl
  | cons w ws ih =>
    rw [List.foldl_cons, ih _ (fun w1 hw1 => h w1 (List.mem_cons_of_mem _ hw1)),
      markBy_other _ _ _ _ (h w (List.mem_cons_self _ _))]

/-- A cell holding -1 keeps it. -/
theorem writes_neg_one (ws : List (Nat × Int × Int)) (cells : Int → Int → Int) (y x : Int)
    (h : cells y x = -1) : ws.foldl markBy cells y x = -1 := by
  induction ws generalizing cells with
  | nil => exact h
  | cons w ws ih =>
    rw [List.foldl_cons]
    apply ih
    by_cases hw : w.2 = (y, x)
    · obtain ⟨i, c⟩ := w
      simp only at hw
      subst hw
      rw [markBy_hit, h]
      simp
    · rw [markBy_other _ _ _ _ hw, h]

/-- A cell that is not empty keeps its value or becomes -1. -/
theorem writes_nonzero (ws : List (Nat × Int × Int)) (cells : Int → Int → Int) (y x : Int)
    (h : cells y x ≠ 0) :
    ws.foldl markBy cells y x = cells y x ∨ ws.foldl markBy cells y x = -1 := by
  induction ws generalizing cells with
  | nil => exact Or.inl rfl
  | cons w ws ih =>
    rw [List.foldl_cons]
    by_cases hw : w.2 = (y, x)
    · right
      apply writes_neg_one
      obtain ⟨i, c⟩ := w
      simp only at hw
      subst hw
      rw [markBy_hit]
      simp [h]
    · have := ih (markBy cells w) (by rw [markBy_other _ _ _ _ hw]; exact h)
      rw [markBy_other _ _ _ _ hw] at this
      exact this

/-- A write to a cell that is not empty leaves -1 in it. -/
theorem writes_hit_nonzero (ws : List (Nat × Int × Int)) (cells : Int → Int → Int)
    (i : Nat) (y x : Int) (h : cells y x ≠ 0) (hw : (i, y, x) ∈ ws) :
    ws.foldl markBy cells y x = -1 := by
  induction ws generalizing cells with
  | nil => simp at hw
  | cons w ws ih =>
    rw [List.foldl_cons]
    by_cases hwc : w.2 = (y, x)
    · apply writes_neg_one
      obtain ⟨j, c⟩ := w
      simp only at hwc
      subst hwc
      rw [markBy_hit]
      simp [h]
    · rcases List.mem_cons.mp hw with heq | hmem
      · exact absurd (by rw [← heq]) hwc
      · exact ih _ (by rw [markBy_other _ _ _ _ hwc]; exact h) hmem

/-- After a write by a player whose `int8` id is not 0 the cell holds -1 or
that id. -/
theorem writes_hit (ws : List (Nat × Int × Int)) (cells : Int → Int → Int)
    (i : Nat) (y x : Int) (hi : int8 i ≠ 0) (hw : (i, y, x) ∈ ws) :
    ws.foldl markBy cells y x = -1 ∨ ws.foldl markBy cells y x = int8 i := by
  induction ws generalizing cells with
  | nil => simp at hw
  | cons w ws ih =>
    rw [List.foldl_cons]
    rcases List.mem_cons.mp hw with heq | hmem
    · subst heq
      have hv : markBy cells (i, y, x) y x = -1 ∨ markBy cells (i, y, x) y x = int8 i := by
        rw [markBy_hit]
        split_ifs <;> simp
      have hnz : markBy cells (i, y, x) y x ≠ 0 := by
        rcases hv with h1 | h1 <;> rw [h1]
        · decide
        · exact hi
      rcases writes_nonzero ws _ y x hnz with h2 | h2
      · rw [h2]; exact hv
      · exact Or.inl h2
    · exact ih _ hmem

/-- Two writes to one cell, the first by a player whose `int8` id is not 0,
leave -1 in it. -/
theorem writes_twice (ws1 ws2 : List (Nat × Int × Int)) (cells : Int → Int → Int)
    (i j : Nat) (y x : Int) (hi : int8 i ≠ 0) (h1 : (i, y, x) ∈ ws1) (h2 : (j, y, x) ∈ ws2) :
    (ws1 ++ ws2).foldl markBy cells y x = -1 := by
  rw [List.foldl_append]
  apply writes_hit_nonzero _ _ j y x _ h2
  rcases writes_hit ws1 cells i y x hi h1 with h | h <;> rw [h]
  · decide
  · exact hi

/-! ## Lemmas: the crash phase -/

theorem readCell_inGrid (W H : Int) (cells : Int → Int → Int) (y x : Int)
    (h : inGrid W H x y = true) : readCell W H cells y x = some (cells y x) := by
  rw [inGrid_iff] at h
  unfold readCell
  rw [if_pos]
  omega

theorem crashLoop_eq (W H : Int) (cells : Int → Int → Int) (d : Direction)
    (speed sc : Int) (n : Nat) (s bx by_ : Int) (h : retraceIn W H d bx by_ n) :
    crashLoop W H cells d speed sc n s bx by_ =
      some ((List.range n).any fun k =>
        decide (cells (by_ - k * (dvec d).2) (bx - k * (dvec d).1) = -1) &&
          !isHole speed sc (s + k)) := by
  induction n generalizing s bx by_ with
  | zero => simp [crashLoop]
  | succ n ih =>
    have h0 : inGrid W H bx by_ = true := by simpa using h 0 (Nat.succ_pos n)
    have hrest : retraceIn W H d (bx - (dvec d).1) (by_ - (dvec d).2) n := by
      intro k hk
      have := h (k + 1) (Nat.succ_lt_succ hk)
      push_cast at this
      rw [← this]
      congr 1 <;> ring
    simp only [crashLoop, readCell_inGrid W H cells by_ bx h0, dostepback_eq]
    rw [List.range_succ_eq_map, List.any_cons, List.any_map]
    by_cases hv : cells by_ bx = -1 ∧ isHole speed sc s = false
    · rw [if_pos hv]
      simp [hv.1, hv.2]
    · rw [if_neg hv, ih _ _ _ hrest]
      congr 1
      have hfirst : (decide (cells (by_ - ((0 : Nat) : Int) * (dvec d).2)
          (bx - ((0 : Nat) : Int) * (dvec d).1) = -1) &&
            !isHole speed sc (s + ((0 : Nat) : Int))) = false := by
        simp only [Nat.cast_zero, zero_mul, sub_zero, add_zero]
        by_cases h1 : cells by_ bx = -1
        · have : isHole speed sc s = true := by
            by_contra hc
            exact hv ⟨h1, by simpa using hc⟩
          simp [this]
        · simp [h1]
      rw [hfirst, Bool.false_or]
      congr 1
      funext k
      simp only [Function.comp, Nat.succ_eq_add_one]
      push_cast
      have e1 : by_ - (dvec d).2 - k * (dvec d).2 = by_ - (k + 1) * (dvec d).2 := by ring
      have e2 : bx - (dvec d).1 - k * (dvec d).1 = bx - (k + 1) * (dvec d).1 := by ring
      have e3 : s + 1 + (k : Int) = s + (k + 1) := by ring
      rw [e1, e2, e3]

theorem checkCrash_eq (g : Game) (i : Nat)
    (h : ∀ p, g.Players i = some p → p.Active = true →
      retraceIn g.Width g.Height p.Direction p.X p.Y p.Speed.toNat) :
    ∃ g1, checkCrash g i = some g1 ∧ g1.Width = g.Width ∧ g1.Height = g.Height ∧
      g1.Cells = g.Cells ∧ g1.playerAnswer = g.playerAnswer ∧
      ∀ j, g1.Players j =
        if j = i then (g.Players i).map (crashedPlayer g.Cells) else g.Players j := by
  unfold checkCrash
  cases hp : g.Players i with
  | none =>
    refine ⟨g, rfl, rfl, rfl, rfl, rfl, fun j => ?_⟩
    by_cases hj : j = i <;> simp [hj, hp]
  | some p =>
    by_cases ha : p.Active = false
    · refine ⟨g, by simp [ha], rfl, rfl, rfl, rfl, fun j => ?_⟩
      by_cases hj : j = i <;> simp [hj, hp, crashedPlayer, ha]
    · have ha1 : p.Active = true := by simpa using ha
      simp only [ha, if_false]
      rw [crashLoop_eq _ _ _ _ _ _ _ _ _ _ (h p hp ha1)]
      have hr : ((List.range p.Speed.toNat).any fun k =>
          decide (g.Cells (p.Y - k * (dvec p.Direction).2) (p.X - k * (dvec p.Direction).1) = -1) &&
            !isHole p.Speed p.stepCounter (0 + k)) = retraceHit g.Cells p := by
        simp [retraceHit]
      rw [hr]
      cases hh : retraceHit g.Cells p with
      | true =>
        refine ⟨invalidatePlayer g i, rfl, (invalidatePlayer_frame g i).1,
          (invalidatePlayer_frame g i).2.1, (invalidatePlayer_frame g i).2.2.1,
          (invalidatePlayer_frame g i).2.2.2.1, fun j => ?_⟩
        rw [invalidatePlayer_Players]
        by_cases hj : j = i <;> simp [hj, hp, crashedPlayer, ha1, hh]
      | false =>
        refine ⟨g, rfl, rfl, rfl, rfl, rfl, fun j => ?_⟩
        by_cases hj : j = i <;> simp [hj, hp, crashedPlayer, ha1, hh]

theorem checkCrashes_eq (o : List Nat) (hnd : o.Nodup) (g : Game)
    (h : ∀ i ∈ o, ∀ p, g.Players i = some p → p.Active = true →
      retraceIn g.Width g.Height p.Direction p.X p.Y p.Speed.toNat) :
    ∃ g1, checkCrashes o g = some g1 ∧ g1.Width = g.Width ∧ g1.Height = g.Height ∧
      g1.Cells = g.Cells ∧ g1.playerAnswer = g.playerAnswer ∧
      ∀ j, g1.Players j =
        if j ∈ o then (g.Players j).map (crashedPlayer g.Cells) else g.Players j := by
  induction o generalizing g with
  | nil => exact ⟨g, rfl, rfl, rfl, rfl, rfl, fun j => by simp⟩
  | cons i o ih =>
    have hno : i ∉ o := (List.nodup_cons.mp hnd).1
    obtain ⟨g1, e1, w1, h1, c1, a1, p1⟩ := checkCrash_eq g i (h i (List.mem_cons_self _ _))
    have hne : ∀ j ∈ o, j ≠ i := fun j hj hji => hno (hji ▸ hj)
    obtain ⟨g2, e2, w2, h2, c2, a2, p2⟩ := ih (List.nodup_cons.mp hnd).2 g1 (by
      intro j hj p hp hact
      rw [p1, if_neg (hne j hj)] at hp
      rw [w1, h1]
      exact h j (List.mem_cons_of_mem _ hj) p hp hact)
    refine ⟨g2, by simp [checkCrashes, e1, e2], w2.trans w1, h2.trans h1, c2.trans c1,
      a2.trans a1, fun j => ?_⟩
    rw [p2, p1, c1]
    by_cases hj : j = i
    · subst hj
      simp [hno]
    · by_cases hjo : j ∈ o <;> simp [hj, hjo]

/-! ## Lemmas: a moved player and its retrace -/

theorem int8_id (i : Nat) (h1 : 1 ≤ i) (h2 : i ≤ PlayersPerGame) : int8 i = i := by
  unfold int8
  unfold PlayersPerGame at h2
  omega

theorem int8_id_ne_zero (i : Nat) (h1 : 1 ≤ i) (h2 : i ≤ PlayersPerGame) : int8 i ≠ 0 := by
  rw [int8_id i h1 h2]
  omega

theorem isHole_reverse (speed sc s : Int) :
    isHole speed sc (speed - 1 - s) = isHole speed sc s := by
  unfold isHole
  have e1 : decide (speed - 1 - s ≠ 0) = decide (s ≠ speed - 1) := by
    apply decide_eq_decide.mpr
    constructor <;> intro h <;> omega
  have e2 : decide (speed - 1 - s ≠ speed - 1) = decide (s ≠ 0) := by
    apply decide_eq_decide.mpr
    constructor <;> intro h <;> omega
  rw [e1, e2, Bool.and_assoc, Bool.and_assoc, Bool.and_assoc, Bool.and_assoc,
    Bool.and_comm (decide (s ≠ speed - 1))]

theorem isHole_first (speed sc : Int) : isHole speed sc 0 = false := by
  simp [isHole]

theorem isHole_last (speed sc : Int) : isHole speed sc (speed - 1) = false := by
  simp [isHole]

/-- The record of a player that is active after "Do Movement". -/
theorem movedPlayer_active (W H : Int) (p : Player)
    (h : (movedPlayer W H p).Active = true) :
    p.Active = true ∧ pathIn W H p.Direction p.X p.Y p.Speed.toNat ∧
      movedPlayer W H p =
        { p with
          X := p.X + p.Speed.toNat * (dvec p.Direction).1
          Y := p.Y + p.Speed.toNat * (dvec p.Direction).2
          stepCounter := p.stepCounter + 1 } := by
  unfold movedPlayer at h ⊢
  by_cases ha : p.Active = false
  · rw [if_pos ha] at h
    rw [ha] at h
    exact absurd h (by simp)
  · have ha1 : p.Active = true := by simpa using ha
    rw [if_neg ha] at h ⊢
    simp only at h
    have hin := pathIn_of_moveEnd _ _ _ _ _ _ h
    refine ⟨ha1, hin, ?_⟩
    rw [moveEnd_of_pathIn _ _ _ _ _ _ hin]
    simp [ha1]

theorem movedPlayer_inactive (W H : Int) (p : Player)
    (h : ¬ pathIn W H p.Direction p.X p.Y p.Speed.toNat) :
    (movedPlayer W H p).Active = false := by
  by_contra hc
  exact h (movedPlayer_active W H p (by simpa using hc)).2.1

theorem movedPlayer_of_pathIn (W H : Int) (p : Player) (ha : p.Active = true)
    (hin : pathIn W H p.Direction p.X p.Y p.Speed.toNat) :
    movedPlayer W H p =
      { p with
        X := p.X + p.Speed.toNat * (dvec p.Direction).1
        Y := p.Y + p.Speed.toNat * (dvec p.Direction).2
        stepCounter := p.stepCounter + 1 } := by
  apply (movedPlayer_active W H p _).2.2
  unfold movedPlayer
  rw [if_neg (by simp [ha]), moveEnd_of_pathIn _ _ _ _ _ _ hin]

/-- The retrace of a player that is active after "Do Movement" stays on the
grid. -/
theorem movedPlayer_retraceIn (W H : Int) (p : Player)
    (h : (movedPlayer W H p).Active = true) :
    retraceIn W H (movedPlayer W H p).Direction (movedPlayer W H p).X (movedPlayer W H p).Y
      (movedPlayer W H p).Speed.toNat := by
  obtain ⟨_, hin, he⟩ := movedPlayer_active W H p h
  rw [he]
  simp only
  intro k hk
  have := hin (p.Speed.toNat - 1 - k) (by omega)
  rw [← this]
  have hc : ((p.Speed.toNat - 1 - k : Nat) : Int) = (p.Speed.toNat : Int) - 1 - k := by omega
  rw [hc]
  congr 1 <;> ring

/-- The verdict of the retrace for a player that is active after "Do
Movement", in terms of its path: it meets a -1 at a sub-step that is not a
hole sub-step. -/
theorem retraceHit_moved (W H : Int) (cells : Int → Int → Int) (p : Player)
    (h : (movedPlayer W H p).Active = true) :
    retraceHit cells (movedPlayer W H p) = true ↔
      ∃ s : Nat, s < p.Speed.toNat ∧
        cells (p.Y + (s + 1) * (dvec p.Direction).2) (p.X + (s + 1) * (dvec p.Direction).1) = -1 ∧
        isHole p.Speed (p.stepCounter + 1) s = false := by
  obtain ⟨_, hin, he⟩ := movedPlayer_active W H p h
  rw [he]
  simp only [retraceHit, List.any_eq_true, List.mem_range, Bool.and_eq_true, decide_eq_true_eq,
    Bool.not_eq_true']
  constructor
  · rintro ⟨k, hk, hc, hh⟩
    have hsp : (p.Speed.toNat : Int) = p.Speed := by omega
    refine ⟨p.Speed.toNat - 1 - k, by omega, ?_, ?_⟩
    · rw [← hc]
      have hcast : ((p.Speed.toNat - 1 - k : Nat) : Int) = (p.Speed.toNat : Int) - 1 - k := by
        omega
      rw [hcast]
      congr 1 <;> ring
    · rw [← hh, ← isHole_reverse p.Speed _ k]
      congr 1
      omega
  · rintro ⟨s, hs, hc, hh⟩
    have hsp : (p.Speed.toNat : Int) = p.Speed := by omega
    refine ⟨p.Speed.toNat - 1 - s, by omega, ?_, ?_⟩
    · rw [← hc]
      have hcast : ((p.Speed.toNat - 1 - s : Nat) : Int) = (p.Speed.toNat : Int) - 1 - s := by
        omega
      rw [hcast]
      congr 1 <;> ring
    · rw [← hh, ← isHole_reverse p.Speed _ s]
      congr 1
      omega

/-! ## Lemmas: movement followed by crash adjudication -/

/-- The state after "Do Movement" and "Check crash": the crash loop reads
only cells of the grid, the grid is the one the writes leave, and each player
record is moved and then adjudicated. -/
theorem moveCrash_eq (mo co : List Nat) (hmo : mo.Nodup) (hco : co.Nodup)
    (hsub : ∀ i ∈ co, i ∈ mo) (g : Game) :
    ∃ g1, checkCrashes co (doMovement mo g) = some g1 ∧
      g1.Width = g.Width ∧ g1.Height = g.Height ∧
      g1.Cells = (allWrites mo g).foldl markBy g.Cells ∧
      g1.playerAnswer = g.playerAnswer ∧
      ∀ j, g1.Players j =
        if j ∈ co then
          (g.Players j).map fun p =>
            crashedPlayer ((allWrites mo g).foldl markBy g.Cells) (movedPlayer g.Width g.Height p)
        else if j ∈ mo then (g.Players j).map (movedPlayer g.Width g.Height)
        else g.Players j := by
  obtain ⟨g1, e, w, h, c, a, pl⟩ := checkCrashes_eq co hco (doMovement mo g) (by
    intro i hi p hp hact
    rw [doMovement_Players mo hmo, if_pos (hsub i hi)] at hp
    rw [(doMovement_frame mo g).1, (doMovement_frame mo g).2.1]
    cases hq : g.Players i with
    | none => simp [hq] at hp
    | some q =>
      simp only [hq, Option.map_some', Option.some.injEq] at hp
      subst hp
      exact movedPlayer_retraceIn _ _ q hact)
  refine ⟨g1, e, w.trans (doMovement_frame mo g).1, h.trans (doMovement_frame mo g).2.1,
    c.trans (doMovement_Cells mo hmo g), a.trans (doMovement_frame mo g).2.2.1, fun j => ?_⟩
  rw [pl, doMovement_Players mo hmo, doMovement_Cells mo hmo]
  by_cases hj : j ∈ co
  · simp only [hj, hsub j hj, if_true, Option.map_map]
    rfl
  · simp [hj]

theorem crashedPlayer_eq (cells : Int → Int → Int) (p : Player) :
    crashedPlayer cells p = { p with Active := p.Active && !retraceHit cells p } := by
  unfold crashedPlayer
  cases ha : p.Active <;> cases hh : retraceHit cells p <;> simp [ha]
  all_goals (cases p; simp_all)

/-- On a straight line between two cells of the grid every cell is a cell of
the grid. -/
theorem pathIn_of_endpoints (W H : Int) (d : Direction) (x y : Int) (s : Nat)
    (h0 : inGrid W H x y = true)
    (h1 : inGrid W H (x + (s + 1) * (dvec d).1) (y + (s + 1) * (dvec d).2) = true) :
    pathIn W H d x y (s + 1) := by
  intro k hk
  rw [inGrid_iff] at h0 h1 ⊢
  have hk1 : (k : Int) ≤ s := by omega
  cases d <;> simp only [dvec] at h1 ⊢ <;> omega

theorem mem_playerWrites (g : Game) (i : Nat) (p : Player) (hp : g.Players i = some p)
    (ha : p.Active = true) (y x : Int) :
    (y, x) ∈ playerWrites g i ↔
      ∃ s : Nat, s < p.Speed.toNat ∧ x = p.X + (s + 1) * (dvec p.Direction).1 ∧
        y = p.Y + (s + 1) * (dvec p.Direction).2 ∧
        isHole p.Speed (p.stepCounter + 1) s = false ∧
        pathIn g.Width g.Height p.Direction p.X p.Y (s + 1) := by
  unfold playerWrites
  rw [hp]
  simp only [ha, Bool.true_eq_false, if_false]
  rw [mem_moveWrites]
  simp

/-- Two writes by players with non-zero `int8` ids to one cell leave -1. -/
theorem writes_two (ws : List (Nat × Int × Int)) (cells : Int → Int → Int)
    (i j : Nat) (y x : Int) (hij : i ≠ j) (hi : int8 i ≠ 0) (hj : int8 j ≠ 0)
    (h1 : (i, y, x) ∈ ws) (h2 : (j, y, x) ∈ ws) :
    ws.foldl markBy cells y x = -1 := by
  induction ws generalizing cells with
  | nil => simp at h1
  | cons w ws ih =>
    rcases List.mem_cons.mp h1 with e1 | m1
    · rcases List.mem_cons.mp h2 with e2 | m2
      · rw [← e1] at e2
        simp only [Prod.mk.injEq] at e2
        exact absurd e2.1.symm hij
      · have := writes_twice [w] ws cells i j y x hi (by rw [e1]; simp) m2
        simpa using this
    · rcases List.mem_cons.mp h2 with e2 | m2
      · have := writes_twice [w] ws cells j i y x hj (by rw [e2]; simp) m1
        simpa using this
      · rw [List.foldl_cons]
        exact ih _ m1 m2

/-- A player one of whose non-hole sub-steps ends on a cell holding -1 after
the movement phase is inactive after the crash phase. -/
theorem crashed_of_hit (W H : Int) (cells : Int → Int → Int) (p : Player) (s : Nat)
    (hs : s < p.Speed.toNat)
    (hc : cells (p.Y + (s + 1) * (dvec p.Direction).2)
      (p.X + (s + 1) * (dvec p.Direction).1) = -1)
    (hh : isHole p.Speed (p.stepCounter + 1) s = false) :
    (crashedPlayer cells (movedPlayer W H p)).Active = false := by
  rw [crashedPlayer_eq]
  simp only
  cases ha : (movedPlayer W H p).Active with
  | false => simp
  | true =>
    have := (retraceHit_moved W H cells p ha).2 ⟨s, hs, hc, hh⟩
    simp [this]

/-- C5: the two rotation tables of the action phase are mutually inverse,
`TurnLeft (TurnRight d) = d` and `TurnRight (TurnLeft d) = d`, and processing
`turn_left` and then `turn_right` for a player, with no movement in between,
leaves its direction as it was. -/
theorem turn_tables_inverse (d : Direction) (g : Game) (i : Nat) :
    TurnLeft (TurnRight d) = d ∧ TurnRight (TurnLeft d) = d ∧
      ((processAction
          { processAction { g with playerAnswer := fun _ => ActionTurnLeft } i with
            playerAnswer := fun _ => ActionTurnRight } i).Players i).map (fun p => p.Direction) =
        (g.Players i).map (fun p => p.Direction) := by
  refine ⟨by cases d <;> rfl, by cases d <;> rfl, ?_⟩
  rw [processAction_Players, if_pos rfl]
  simp only
  rw [processAction_Players, if_pos rfl]
  cases g.Players i with
  | none => rfl
  | some p =>
    have h1 : ActionTurnLeft ≠ "" := by decide
    have h2 : ActionTurnRight ≠ "" := by decide
    have h3 : ActionTurnRight ≠ ActionTurnLeft := by decide
    simp only [Option.map_some', actPlayer, h1, h2, h3, if_false, if_true]
    cases p.Direction <;> rfl

/-- C4: in the action phase, for a player that is active with speed in
`[1, MaxSpeed]`: `speed_up` raises the speed by exactly 1 and leaves the player
inactive if and only if the speed was `MaxSpeed`; `slow_down` lowers the speed
by exactly 1 and leaves the player inactive if and only if the speed was 1. -/
theorem speed_actions (g : Game) (o : List Nat) (i : Nat) (p : Player)
    (ho : o.Nodup) (hi : i ∈ o) (hp : g.Players i = some p) (ha : p.Active = true)
    (h1 : 1 ≤ p.Speed) (h2 : p.Speed ≤ MaxSpeed) :
    (g.playerAnswer (i - 1) = ActionFaster →
      ∃ p1, (processActions o g).Players i = some p1 ∧ p1.Speed = p.Speed + 1 ∧
        (p1.Active = false ↔ p.Speed = MaxSpeed)) ∧
    (g.playerAnswer (i - 1) = ActionSlower →
      ∃ p1, (processActions o g).Players i = some p1 ∧ p1.Speed = p.Speed - 1 ∧
        (p1.Active = false ↔ p.Speed = 1)) := by
  rw [processActions_Players o ho, if_pos hi, hp]
  unfold MaxSpeed at h2 ⊢
  constructor
  · intro hf
    have e1 : ActionFaster ≠ "" := by decide
    have e2 : ActionFaster ≠ ActionTurnLeft := by decide
    have e3 : ActionFaster ≠ ActionTurnRight := by decide
    refine ⟨_, rfl, ?_, ?_⟩
    · simp [actPlayer, hf, e1, e2, e3]
    · simp only [actPlayer, hf, e1, e2, e3, if_false, if_true, ha, MaxSpeed]
      split_ifs with hc
      · simp; omega
      · simp; omega
  · intro hf
    have e1 : ActionSlower ≠ "" := by decide
    have e2 : ActionSlower ≠ ActionTurnLeft := by decide
    have e3 : ActionSlower ≠ ActionTurnRight := by decide
    have e4 : ActionSlower ≠ ActionFaster := by decide
    refine ⟨_, rfl, ?_, ?_⟩
    · simp [actPlayer, hf, e1, e2, e3, e4]
    · simp only [actPlayer, hf, e1, e2, e3, e4, if_false, if_true, ha]
      split_ifs with hc
      · simp; omega
      · simp; omega

/-- C1: in the movement phase followed by the crash adjudication, when two
distinct active players both enter one cell of the grid at sub-steps that are
not hole sub-steps, then for every order in which the players are moved and
every order in which they are adjudicated the cell holds -1 and both players
are inactive afterwards (whatever the cell held before, in particular when it
was empty). -/
theorem same_cell_collision (g : Game) (mo co : List Nat) (i j : Nat) (p q : Player)
    (s t : Nat) (x y : Int)
    (hmo : mo.Nodup) (hco : co.Perm mo)
    (hij : i ≠ j) (hi : i ∈ mo) (hj : j ∈ mo)
    (hi1 : 1 ≤ i ∧ i ≤ PlayersPerGame) (hj1 : 1 ≤ j ∧ j ≤ PlayersPerGame)
    (hp : g.Players i = some p) (hq : g.Players j = some q)
    (hpa : p.Active = true) (hqa : q.Active = true)
    (hpg : inGrid g.Width g.Height p.X p.Y = true)
    (hqg : inGrid g.Width g.Height q.X q.Y = true)
    (hcg : inGrid g.Width g.Height x y = true)
    (hs : s < p.Speed.toNat) (ht : t < q.Speed.toNat)
    (hpx : x = p.X + (s + 1) * (dvec p.Direction).1)
    (hpy : y = p.Y + (s + 1) * (dvec p.Direction).2)
    (hqx : x = q.X + (t + 1) * (dvec q.Direction).1)
    (hqy : y = q.Y + (t + 1) * (dvec q.Direction).2)
    (hph : isHole p.Speed (p.stepCounter + 1) s = false)
    (hqh : isHole q.Speed (q.stepCounter + 1) t = false) :
    ∃ g1, checkCrashes co (doMovement mo g) = some g1 ∧ g1.Cells y x = -1 ∧
      (∃ p1, g1.Players i = some p1 ∧ p1.Active = false) ∧
      (∃ q1, g1.Players j = some q1 ∧ q1.Active = false) := by
  obtain ⟨g1, e, _, _, c, _, pl⟩ :=
    moveCrash_eq mo co hmo (hco.nodup_iff.2 hmo) (fun k hk => hco.mem_iff.1 hk) g
  have wi : (i, y, x) ∈ allWrites mo g := by
    rw [mem_allWrites]
    refine ⟨hi, (mem_playerWrites g i p hp hpa y x).2 ⟨s, hs, hpx, hpy, hph, ?_⟩⟩
    exact pathIn_of_endpoints _ _ _ _ _ _ hpg (by rw [← hpx, ← hpy]; exact hcg)
  have wj : (j, y, x) ∈ allWrites mo g := by
    rw [mem_allWrites]
    refine ⟨hj, (mem_playerWrites g j q hq hqa y x).2 ⟨t, ht, hqx, hqy, hqh, ?_⟩⟩
    exact pathIn_of_endpoints _ _ _ _ _ _ hqg (by rw [← hqx, ← hqy]; exact hcg)
  have hcell : (allWrites mo g).foldl markBy g.Cells y x = -1 :=
    writes_two _ _ i j y x hij (int8_id_ne_zero i hi1.1 hi1.2) (int8_id_ne_zero j hj1.1 hj1.2)
      wi wj
  refine ⟨g1, e, by rw [c]; exact hcell, ?_, ?_⟩
  · refine ⟨_, by rw [pl, if_pos (hco.mem_iff.2 hi), hp]; rfl, ?_⟩
    exact crashed_of_hit _ _ _ p s hs (by rw [← hpx, ← hpy]; exact hcell) hph
  · refine ⟨_, by rw [pl, if_pos (hco.mem_iff.2 hj), hq]; rfl, ?_⟩
    exact crashed_of_hit _ _ _ q t ht (by rw [← hqx, ← hqy]; exact hcell) hqh

/-- Two players stepping from both sides onto the empty cell (11,20) are both
invalidated and the cell holds -1. -/
theorem same_cell_collision_witness :
    ∃ g1, checkCrashes [2, 1] (doMovement [1, 2] sideOn) = some g1 ∧ g1.Cells 20 11 = -1 ∧
      (∃ p1, g1.Players 1 = some p1 ∧ p1.Active = false) ∧
      (∃ q1, g1.Players 2 = some q1 ∧ q1.Active = false) :=
  same_cell_collision sideOn [1, 2] [2, 1] 1 2 ⟨10, 20, .right, 1, true, 0, true⟩
    ⟨12, 20, .left, 1, true, 0, true⟩ 0 0 11 20 (by decide) (by decide) (by decide)
    (by decide) (by decide) (by decide) (by decide) rfl rfl rfl rfl
    (by decide) (by decide) (by decide) (by decide) (by decide) (by decide) (by decide)
    (by decide) (by decide) (by decide) (by decide)

/-- C3: a player one of whose sub-steps `0 .. Speed-1` leads off the grid
(hole sub-steps included) is inactive after the movement phase and the crash
adjudication of that round. -/
theorem off_grid_invalidates (g : Game) (mo co : List Nat) (i : Nat) (p : Player) (s : Nat)
    (hmo : mo.Nodup) (hco : co.Perm mo) (hi : i ∈ mo)
    (hp : g.Players i = some p) (hs : s < p.Speed.toNat)
    (hout : inGrid g.Width g.Height (p.X + (s + 1) * (dvec p.Direction).1)
      (p.Y + (s + 1) * (dvec p.Direction).2) = false) :
    ∃ g1, checkCrashes co (doMovement mo g) = some g1 ∧
      ∃ p1, g1.Players i = some p1 ∧ p1.Active = false := by
  obtain ⟨g1, e, _, _, _, _, pl⟩ :=
    moveCrash_eq mo co hmo (hco.nodup_iff.2 hmo) (fun k hk => hco.mem_iff.1 hk) g
  refine ⟨g1, e, _, by rw [pl, if_pos (hco.mem_iff.2 hi), hp]; rfl, ?_⟩
  show (crashedPlayer _ (movedPlayer g.Width g.Height p)).Active = false
  rw [crashedPlayer_eq]
  simp only
  rw [movedPlayer_inactive]
  · rfl
  · intro hin
    rw [hin s hs] at hout
    exact absurd hout (by simp)

/-- Player 1 at (38,20) facing right with speed 3 and step counter 5 on the
40 wide grid: its second sub-step, a hole sub-step, leads to column 40 off the
grid, and the player is inactive after the round. -/
theorem off_grid_invalidates_witness :
    ∃ g1, checkCrashes [1, 2]
        (doMovement [1, 2] (setPlayer sideOn 1 ⟨38, 20, .right, 3, true, 5, true⟩)) = some g1 ∧
      ∃ p1, g1.Players 1 = some p1 ∧ p1.Active = false :=
  off_grid_invalidates (setPlayer sideOn 1 ⟨38, 20, .right, 3, true, 5, true⟩) [1, 2] [1, 2] 1
    ⟨38, 20, .right, 3, true, 5, true⟩ 1 (by decide) (by decide) (by decide)
    rfl (by decide) (by decide)

/-! ## Lemmas: the hole rule -/

theorem moveWrites_of_pathIn (W H : Int) (d : Direction) (speed sc : Int) (n : Nat)
    (s x y : Int) (h : pathIn W H d x y n) :
    moveWrites W H d speed sc n s x y =
      ((List.range n).filter fun k : Nat => !isHole speed sc (s + (k : Int))).map
        fun k : Nat => (y + ((k : Int) + 1) * (dvec d).2, x + ((k : Int) + 1) * (dvec d).1) := by
  induction n generalizing s x y with
  | zero => simp [moveWrites]
  | succ n ih =>
    have h0 : inGrid W H (x + (dvec d).1) (y + (dvec d).2) = true := by
      simpa using h 0 (Nat.succ_pos n)
    have hrest : pathIn W H d (x + (dvec d).1) (y + (dvec d).2) n := by
      intro k hk
      have := h (k + 1) (Nat.succ_lt_succ hk)
      push_cast at this
      rw [← this]
      congr 1 <;> ring
    have hno : ¬ (x + (dvec d).1 < 0 ∨ x + (dvec d).1 ≥ W ∨ y + (dvec d).2 < 0 ∨
        y + (dvec d).2 ≥ H) := by
      rw [out_iff, h0]; simp
    simp only [moveWrites, dostep_eq]
    rw [if_neg hno, ih _ _ _ hrest, List.range_succ_eq_map, List.filter_cons, List.filter_map]
    have hmap : (fun k : Nat => (y + (dvec d).2 + ((k : Int) + 1) * (dvec d).2,
          x + (dvec d).1 + ((k : Int) + 1) * (dvec d).1)) =
        ((fun k : Nat => (y + ((k : Int) + 1) * (dvec d).2, x + ((k : Int) + 1) * (dvec d).1)) ∘
          Nat.succ) := by
      funext k
      simp only [Function.comp, Nat.succ_eq_add_one, Prod.mk.injEq]
      push_cast
      constructor <;> ring
    have hfil : (fun k : Nat => !isHole speed sc (s + 1 + (k : Int))) =
        ((fun k : Nat => !isHole speed sc (s + (k : Int))) ∘ Nat.succ) := by
      funext k
      simp only [Function.comp, Nat.succ_eq_add_one]
      push_cast
      rw [add_assoc, add_comm 1 (k : Int)]
    rw [hmap, hfil]
    by_cases hh : isHole speed sc s = true
    · simp [hh, List.map_map]
    · have hh1 : isHole speed sc s = false := by simpa using hh
      simp [hh1, List.map_map]

theorem filter_ends (n : Nat) (hn : 2 ≤ n) :
    (List.range n).filter (fun k => decide (k = 0 ∨ k = n - 1)) = [0, n - 1] := by
  obtain ⟨m, rfl⟩ : ∃ m, n = m + 2 := ⟨n - 2, by omega⟩
  rw [List.range_succ_eq_map, List.range_succ, List.map_append, List.filter_cons,
    List.filter_append]
  have hmid : (List.map Nat.succ (List.range m)).filter
      (fun k => decide (k = 0 ∨ k = m + 2 - 1)) = [] := by
    rw [List.filter_eq_nil_iff]
    intro k hk
    simp only [List.mem_map, List.mem_range] at hk
    obtain ⟨j, hj, rfl⟩ := hk
    simp only [decide_eq_true_eq, Nat.succ_eq_add_one]
    omega
  rw [hmid]
  simp

theorem isHole_full (speed sc : Int) (hs : speed ≥ HoleSpeed)
    (hc : Int.tmod sc HolesEachStep = 0) (s : Int) :
    isHole speed sc s = (decide (s ≠ 0) && decide (s ≠ speed - 1)) := by
  simp [isHole, hs, hc]

theorem holeWrites (g : Game) (i : Nat) (p : Player)
    (hp : g.Players i = some p) (ha : p.Active = true) (hs : p.Speed ≥ HoleSpeed)
    (hc : Int.tmod (p.stepCounter + 1) HolesEachStep = 0)
    (hin : pathIn g.Width g.Height p.Direction p.X p.Y p.Speed.toNat) :
    playerWrites g i =
      [(p.Y + (dvec p.Direction).2, p.X + (dvec p.Direction).1),
        (p.Y + p.Speed * (dvec p.Direction).2, p.X + p.Speed * (dvec p.Direction).1)] := by
  unfold HoleSpeed at hs
  have hn : 2 ≤ p.Speed.toNat := by omega
  have hcast : (p.Speed.toNat : Int) = p.Speed := by omega
  unfold playerWrites
  rw [hp]
  simp only [ha, Bool.true_eq_false, if_false]
  rw [moveWrites_of_pathIn _ _ _ _ _ _ _ _ _ hin]
  have hf : (fun k : Nat => !isHole p.Speed (p.stepCounter + 1) (0 + (k : Int))) =
      (fun k : Nat => decide (k = 0 ∨ k = p.Speed.toNat - 1)) := by
    funext k
    rw [isHole_full _ _ (by unfold HoleSpeed; omega) hc]
    rw [Bool.eq_iff_iff]
    simp only [zero_add, Bool.not_eq_true', Bool.and_eq_false_iff, decide_eq_false_iff_not,
      not_not, decide_eq_true_eq, ne_eq]
    omega
  rw [hf, filter_ends _ hn]
  simp only [List.map_cons, List.map_nil, Nat.cast_zero, zero_add, one_mul]
  have hl : ((p.Speed.toNat - 1 : Nat) : Int) + 1 = p.Speed := by omega
  rw [hl]

/-- C2: the hole rule.  For an active player with speed at least `HoleSpeed`
whose incremented step counter is divisible by `HolesEachStep` and whose whole
path stays on the grid, the body of the movement loop writes the first and the
last cell of the path and nothing else (every other cell, so every interior
cell of the path, keeps its value), the player ends active on the last
cell, and the crash adjudication of that player, on any grid, invalidates it
exactly when the first or the last cell holds -1: no value of an interior
cell invalidates it. -/
theorem hole_rule (g : Game) (i : Nat) (p : Player)
    (hp : g.Players i = some p) (ha : p.Active = true) (hs : p.Speed ≥ HoleSpeed)
    (hc : Int.tmod (p.stepCounter + 1) HolesEachStep = 0)
    (hin : pathIn g.Width g.Height p.Direction p.X p.Y p.Speed.toNat) :
    (movePlayer g i).Cells =
      mark i (mark i g.Cells (p.Y + (dvec p.Direction).2, p.X + (dvec p.Direction).1))
        (p.Y + p.Speed * (dvec p.Direction).2, p.X + p.Speed * (dvec p.Direction).1) ∧
    (∀ y x : Int, (y, x) ≠ (p.Y + (dvec p.Direction).2, p.X + (dvec p.Direction).1) →
      (y, x) ≠ (p.Y + p.Speed * (dvec p.Direction).2, p.X + p.Speed * (dvec p.Direction).1) →
      (movePlayer g i).Cells y x = g.Cells y x) ∧
    (movePlayer g i).Players i =
      some { p with
        X := p.X + p.Speed * (dvec p.Direction).1
        Y := p.Y + p.Speed * (dvec p.Direction).2
        stepCounter := p.stepCounter + 1 } ∧
    ∀ g2 : Game, g2.Width = g.Width → g2.Height = g.Height →
      g2.Players i = (movePlayer g i).Players i →
      ∃ g3, checkCrash g2 i = some g3 ∧ ∃ p3, g3.Players i = some p3 ∧
        (p3.Active = true ↔
          g2.Cells (p.Y + (dvec p.Direction).2) (p.X + (dvec p.Direction).1) ≠ -1 ∧
          g2.Cells (p.Y + p.Speed * (dvec p.Direction).2)
            (p.X + p.Speed * (dvec p.Direction).1) ≠ -1) := by
  have hs3 : p.Speed ≥ 3 := hs
  have hcast : (p.Speed.toNat : Int) = p.Speed := by omega
  have hcells : (movePlayer g i).Cells =
      mark i (mark i g.Cells (p.Y + (dvec p.Direction).2, p.X + (dvec p.Direction).1))
        (p.Y + p.Speed * (dvec p.Direction).2, p.X + p.Speed * (dvec p.Direction).1) := by
    rw [movePlayer_Cells, holeWrites g i p hp ha hs hc hin]
    rfl
  have hmoved : movedPlayer g.Width g.Height p =
      { p with
        X := p.X + p.Speed * (dvec p.Direction).1
        Y := p.Y + p.Speed * (dvec p.Direction).2
        stepCounter := p.stepCounter + 1 } := by
    rw [movedPlayer_of_pathIn _ _ p ha hin, hcast]
  have hact : (movedPlayer g.Width g.Height p).Active = true := by
    rw [hmoved]; exact ha
  have hpl : (movePlayer g i).Players i = some (movedPlayer g.Width g.Height p) := by
    rw [movePlayer_Players, if_pos rfl, hp]; rfl
  refine ⟨hcells, ?_, by rw [hpl, hmoved], ?_⟩
  · intro y x h1 h2
    rw [hcells]
    simp only [mark, setCell]
    rw [if_neg (by intro h; exact h2 (by rw [h.1, h.2])),
      if_neg (by intro h; exact h1 (by rw [h.1, h.2]))]
  · intro g2 hW hH hP
    rw [hpl] at hP
    obtain ⟨g3, e, _, _, _, _, pl⟩ := checkCrash_eq g2 i (by
      intro q hq _
      rw [hP] at hq
      have : q = movedPlayer g.Width g.Height p := (Option.some.inj hq).symm
      rw [this, hW, hH]
      exact movedPlayer_retraceIn _ _ p hact)
    refine ⟨g3, e, _, by rw [pl, if_pos rfl, hP]; rfl, ?_⟩
    rw [crashedPlayer_eq]
    simp only [hact, Bool.true_and, Bool.not_eq_true']
    rw [← Bool.not_eq_true, retraceHit_moved _ _ _ p hact]
    constructor
    · intro hno
      constructor
      · intro h1
        exact hno ⟨0, by omega, by simpa using h1, isHole_first _ _⟩
      · intro h2
        refine hno ⟨p.Speed.toNat - 1, by omega, ?_, ?_⟩
        · have e1 : ((p.Speed.toNat - 1 : Nat) : Int) + 1 = p.Speed := by omega
          rw [e1]; exact h2
        · have e1 : ((p.Speed.toNat - 1 : Nat) : Int) = p.Speed - 1 := by omega
          rw [e1]; exact isHole_last _ _
    · rintro ⟨h1, h2⟩ ⟨s, hs1, hcell, hh⟩
      rw [isHole_full _ _ hs hc] at hh
      simp only [Bool.and_eq_false_iff, decide_eq_false_iff_not, not_not] at hh
      rcases hh with h0 | hl
      · have : s = 0 := by omega
        subst this
        exact h1 (by simpa using hcell)
      · have e1 : (s : Int) + 1 = p.Speed := by omega
        rw [e1] at hcell
        exact h2 hcell

/-- The "hole skip" scenario of the specification: the player at (5,5)
facing right with speed 3 and step counter 5 passes over the trail on (7,5);
it ends at (8,5), active, and of the cells (6,5), (7,5), (8,5) only the first
and the last are written. -/
theorem hole_rule_witness :
    (∃ g3, checkCrashes [1] (doMovement [1] holeSkip) = some g3 ∧
      g3.Players 1 = some ⟨8, 5, .right, 3, true, 6, true⟩ ∧
      g3.Cells 5 6 = 1 ∧ g3.Cells 5 7 = 2 ∧ g3.Cells 5 8 = 1) ∧
    (movePlayer holeSkip 1).Cells =
      mark 1 (mark 1 holeSkip.Cells (5 + 0, 5 + 1)) (5 + 3 * 0, 5 + 3 * 1) ∧
    (∀ y x : Int, (y, x) ≠ (5 + 0, 5 + 1) → (y, x) ≠ (5 + 3 * 0, 5 + 3 * 1) →
      (movePlayer holeSkip 1).Cells y x = holeSkip.Cells y x) ∧
    (movePlayer holeSkip 1).Players 1 =
      some ⟨5 + 3 * 1, 5 + 3 * 0, .right, 3, true, 5 + 1, true⟩ ∧
    ∀ g2 : Game, g2.Width = holeSkip.Width → g2.Height = holeSkip.Height →
      g2.Players 1 = (movePlayer holeSkip 1).Players 1 →
      ∃ g3, checkCrash g2 1 = some g3 ∧ ∃ p3, g3.Players 1 = some p3 ∧
        (p3.Active = true ↔ g2.Cells (5 + 0) (5 + 1) ≠ -1 ∧ g2.Cells (5 + 3 * 0) (5 + 3 * 1) ≠ -1) :=
  ⟨⟨_, rfl, by decide, by decide, by decide, by decide⟩,
    hole_rule holeSkip 1 ⟨5, 5, .right, 3, true, 5, true⟩ rfl rfl (by decide) (by decide)
      (by
        intro k hk
        have hk3 : k < 3 := hk
        interval_cases k <;> decide)⟩

/-! ## Lemmas: action collection -/

theorem dropped_refl (a : Option Player) : dropped a a := Or.inl rfl

theorem dropped_trans (a b c : Option Player) (h1 : dropped a b) (h2 : dropped b c) :
    dropped a c := by
  rcases h1 with rfl | rfl
  · exact h2
  · rcases h2 with rfl | rfl
    · exact Or.inr rfl
    · right
      cases a <;> simp

theorem dropped_active (a b : Option Player) (h : dropped a b) (p : Player)
    (hb : b = some p) (ha : p.Active = true) : a = some p := by
  rcases h with rfl | rfl
  · exact hb
  · cases a with
    | none => simp at hb
    | some q =>
      simp only [Option.map_some', Option.some.injEq] at hb
      rw [← hb] at ha
      simp at ha

theorem dropped_isSome (a b : Option Player) (h : dropped a b) : b.isSome = a.isSome := by
  rcases h with rfl | rfl
  · rfl
  · cases a <;> rfl

theorem invalidatePlayer_dropped (g : Game) (p j : Nat) :
    dropped (g.Players j) ((invalidatePlayer g p).Players j) := by
  rw [invalidatePlayer_Players]
  by_cases hj : j = p
  · subst hj
    simp only [if_true]
    exact Or.inr rfl
  · simp only [hj, if_false]
    exact Or.inl rfl

theorem receive_frame (g : Game) (player : Nat) (v : Option String) :
    (receive g player v).Width = g.Width ∧ (receive g player v).Height = g.Height ∧
    (receive g player v).Cells = g.Cells ∧
    ∀ j, dropped (g.Players j) ((receive g player v).Players j) := by
  unfold receive
  cases v with
  | none =>
    exact ⟨(invalidatePlayer_frame g player).1, (invalidatePlayer_frame g player).2.1,
      (invalidatePlayer_frame g player).2.2.1, invalidatePlayer_dropped g player⟩
  | some a =>
    simp only
    split_ifs
    · exact ⟨(invalidatePlayer_frame g player).1, (invalidatePlayer_frame g player).2.1,
        (invalidatePlayer_frame g player).2.2.1, invalidatePlayer_dropped g player⟩
    · exact ⟨rfl, rfl, rfl, fun j => dropped_refl _⟩

theorem collect_frame (es : List Input) (g : Game) :
    (collect es g).Width = g.Width ∧ (collect es g).Height = g.Height ∧
    (collect es g).Cells = g.Cells ∧
    ∀ j, dropped (g.Players j) ((collect es g).Players j) := by
  induction es generalizing g with
  | nil => exact ⟨rfl, rfl, rfl, fun j => dropped_refl _⟩
  | cons e es ih =>
    simp only [collect]
    by_cases h1 : g.playerChannel (e.player - 1) = false
    · rw [if_pos h1]
      exact ih g
    · rw [if_neg h1]
      by_cases h2 : checkEndRound (receive g e.player e.value) = true
      · rw [if_pos h2]
        exact receive_frame g e.player e.value
      · rw [if_neg h2]
        obtain ⟨w, h, c, d⟩ := ih (receive g e.player e.value)
        obtain ⟨w1, h1, c1, d1⟩ := receive_frame g e.player e.value
        exact ⟨w.trans w1, h.trans h1, c.trans c1, fun j => dropped_trans _ _ _ (d1 j) (d j)⟩

/-! ## Lemmas: one round -/

/-- The state on which "Process Actions" has run. -/
theorem runRound_eq (r : RoundInput) (g : Game) :
    runRound r g =
      checkCrashes r.crashOrder
        (doMovement r.moveOrder
          (processActions r.actionOrder
            (collect r.inputs { g with playerAnswer := fun _ => "" }))) := rfl

theorem keysOf_congr (g g1 : Game) (o : List Nat)
    (h : ∀ i, (g1.Players i).isSome = (g.Players i).isSome) (hk : keysOf g o) : keysOf g1 o :=
  ⟨hk.1, fun i => by rw [h i]; exact hk.2 i⟩

theorem keysOf_perm (g : Game) (o1 o2 : List Nat) (h1 : keysOf g o1) (h2 : keysOf g o2) :
    o1.Perm o2 :=
  (List.perm_ext_iff_of_nodup h1.1 h2.1).2 fun i => by rw [h1.2 i, h2.2 i]

theorem actPlayer_active (a : String) (p : Player) (h : (actPlayer a p).Active = true)
    (h1 : 1 ≤ p.Speed) (h2 : p.Speed ≤ MaxSpeed) :
    p.Active = true ∧ 1 ≤ (actPlayer a p).Speed ∧ (actPlayer a p).Speed ≤ MaxSpeed := by
  unfold actPlayer at h ⊢
  simp only [MaxSpeed] at h h2 ⊢
  split_ifs at h ⊢ <;> simp_all <;> omega

theorem actPlayer_pos (a : String) (p : Player) :
    (actPlayer a p).X = p.X ∧ (actPlayer a p).Y = p.Y ∧
      (actPlayer a p).stepCounter = p.stepCounter ∧ (actPlayer a p).Input = p.Input := by
  unfold actPlayer
  split_ifs <;> exact ⟨rfl, rfl, rfl, rfl⟩

theorem actPlayer_was_active (a : String) (p : Player) (h : (actPlayer a p).Active = true) :
    p.Active = true := by
  unfold actPlayer at h
  split_ifs at h <;> simp_all

/-- What one round does, for a round whose loops visit the keys: it does
not fail, it keeps the size of the grid and the keys, and every player that is
active afterwards was active before with the same input channel, has a speed
in `[1, MaxSpeed]` if it had one before, has completed its move on the grid,
met no -1 on a sub-step that is not a hole sub-step and stands on the last cell
of its path. -/
theorem runRound_spec (r : RoundInput) (g : Game) (hv : validRound r g) :
    ∃ g1, runRound r g = some g1 ∧ g1.Width = g.Width ∧ g1.Height = g.Height ∧
      (∀ i, (g1.Players i).isSome = (g.Players i).isSome) ∧
      ∀ i p1, g1.Players i = some p1 → p1.Active = true →
        ∃ p pa, g.Players i = some p ∧ p.Active = true ∧
          (1 ≤ p.Speed → p.Speed ≤ MaxSpeed → 1 ≤ pa.Speed ∧ pa.Speed ≤ MaxSpeed) ∧
          pa.Active = true ∧ pa.X = p.X ∧ pa.Y = p.Y ∧
          (processActions r.actionOrder
            (collect r.inputs { g with playerAnswer := fun _ => "" })).Players i = some pa ∧
          pathIn g.Width g.Height pa.Direction pa.X pa.Y pa.Speed.toNat ∧
          p1 = { pa with
            X := pa.X + pa.Speed.toNat * (dvec pa.Direction).1
            Y := pa.Y + pa.Speed.toNat * (dvec pa.Direction).2
            stepCounter := pa.stepCounter + 1 } ∧
          (∀ s : Nat, s < pa.Speed.toNat → isHole pa.Speed (pa.stepCounter + 1) s = false →
            g1.Cells (pa.Y + (s + 1) * (dvec pa.Direction).2)
              (pa.X + (s + 1) * (dvec pa.Direction).1) ≠ -1) ∧
          (1 ≤ i → i ≤ PlayersPerGame → 1 ≤ pa.Speed → g1.Cells p1.Y p1.X = i) := by
  obtain ⟨ha, hm, hc, _⟩ := hv
  rw [runRound_eq]
  set gc := collect r.inputs { g with playerAnswer := fun _ => "" } with hgc
  set ga := processActions r.actionOrder gc with hga
  obtain ⟨cw, ch, _, cd⟩ := collect_frame r.inputs { g with playerAnswer := fun _ => "" }
  have cd1 : ∀ j, dropped (g.Players j) (gc.Players j) := cd
  have aw : ga.Width = g.Width := (processActions_frame _ gc).1.trans cw
  have ah : ga.Height = g.Height := (processActions_frame _ gc).2.1.trans ch
  have apl : ∀ j, ga.Players j =
      if j ∈ r.actionOrder then (gc.Players j).map (actPlayer (gc.playerAnswer (j - 1)))
      else gc.Players j := processActions_Players _ ha.1 gc
  have asome : ∀ j, (ga.Players j).isSome = (g.Players j).isSome := by
    intro j
    rw [apl, ← dropped_isSome _ _ (cd1 j)]
    split_ifs <;> simp
  have hperm : r.crashOrder.Perm r.moveOrder := keysOf_perm g _ _ hc hm
  obtain ⟨g1, e, w, h, c, _, pl⟩ :=
    moveCrash_eq r.moveOrder r.crashOrder hm.1 hc.1 (fun k hk => hperm.mem_iff.1 hk) ga
  refine ⟨g1, e, w.trans aw, h.trans ah, ?_, ?_⟩
  · intro i
    rw [pl, ← asome i]
    split_ifs <;> simp
  · intro i p1 hp1 hact
    have hsome : (g.Players i).isSome = true := by
      have : (g1.Players i).isSome = true := by rw [hp1]; rfl
      rw [pl] at this
      rw [← asome i]
      split_ifs at this <;> simpa using this
    have hico : i ∈ r.crashOrder := (hc.2 i).2 hsome
    have hiao : i ∈ r.actionOrder := (ha.2 i).2 hsome
    have himo : i ∈ r.moveOrder := (hm.2 i).2 hsome
    rw [pl, if_pos hico] at hp1
    cases hpa : ga.Players i with
    | none => rw [hpa] at hp1; simp at hp1
    | some pa =>
      rw [hpa] at hp1
      simp only [Option.map_some', Option.some.injEq] at hp1
      rw [crashedPlayer_eq] at hp1
      have hact2 : ((movedPlayer ga.Width ga.Height pa).Active &&
          !retraceHit (List.foldl markBy ga.Cells (allWrites r.moveOrder ga))
            (movedPlayer ga.Width ga.Height pa)) = true := by
        rw [← hp1] at hact; exact hact
      rw [Bool.and_eq_true] at hact2
      obtain ⟨hmact, hnohit⟩ := hact2
      obtain ⟨paact, hin, hmoved⟩ := movedPlayer_active _ _ pa hmact
      have hp1eq : p1 = movedPlayer ga.Width ga.Height pa := by
        rw [← hp1, hnohit, Bool.and_true]
      have hpa0 : ga.Players i = some pa := hpa
      rw [apl, if_pos hiao] at hpa
      cases hpc : gc.Players i with
      | none => rw [hpc] at hpa; simp at hpa
      | some pc =>
        rw [hpc] at hpa
        simp only [Option.map_some', Option.some.injEq] at hpa
        have hpcact : pc.Active = true :=
          actPlayer_was_active (gc.playerAnswer (i - 1)) pc (by rw [hpa]; exact paact)
        have hp : g.Players i = some pc := dropped_active _ _ (cd1 i) pc hpc hpcact
        have hnocell : ∀ s : Nat, s < pa.Speed.toNat →
            isHole pa.Speed (pa.stepCounter + 1) s = false →
            g1.Cells (pa.Y + (s + 1) * (dvec pa.Direction).2)
              (pa.X + (s + 1) * (dvec pa.Direction).1) ≠ -1 := by
          intro s hs hh hcell
          rw [c] at hcell
          have := (retraceHit_moved ga.Width ga.Height _ pa hmact).2 ⟨s, hs, hcell, hh⟩
          rw [this] at hnohit
          simp at hnohit
        refine ⟨pc, pa, hp, hpcact, ?_, paact, ?_, ?_, ?_, by rw [← aw, ← ah]; exact hin,
          by rw [hp1eq, hmoved], hnocell, ?_⟩
        · intro h1 h2
          have := actPlayer_active (gc.playerAnswer (i - 1)) pc (by rw [hpa]; exact paact) h1 h2
          rw [hpa] at this
          exact this.2
        · rw [← hpa]; exact (actPlayer_pos _ _).1
        · rw [← hpa]; exact (actPlayer_pos _ _).2.1
        · rfl
        · intro hi1 hi2 hsp
          have hn : 1 ≤ pa.Speed.toNat := by omega
          have hcast : ((pa.Speed.toNat - 1 : Nat) : Int) + 1 = pa.Speed.toNat := by omega
          have hlast : isHole pa.Speed (pa.stepCounter + 1) ((pa.Speed.toNat - 1 : Nat) : Int)
              = false := by
            have : ((pa.Speed.toNat - 1 : Nat) : Int) = pa.Speed - 1 := by omega
            rw [this]; exact isHole_last _ _
          have hw : (i, pa.Y + pa.Speed.toNat * (dvec pa.Direction).2,
              pa.X + pa.Speed.toNat * (dvec pa.Direction).1) ∈ allWrites r.moveOrder ga := by
            rw [mem_allWrites]
            refine ⟨himo, (mem_playerWrites ga i pa hpa0 paact _ _).2 ⟨pa.Speed.toNat - 1, by omega, by rw [hcast], by rw [hcast], ?_, ?_⟩⟩
            · simpa using hlast
            · have : pa.Speed.toNat - 1 + 1 = pa.Speed.toNat := by omega
              rw [this]; exact hin
          have hne := hnocell (pa.Speed.toNat - 1) (by omega) hlast
          rw [hcast] at hne
          rw [hp1eq, hmoved]
          simp only
          rcases writes_hit _ ga.Cells i _ _ (int8_id_ne_zero i hi1 hi2) hw with h1 | h1
          · rw [c] at hne; exact absurd h1 hne
          · rw [c, h1, int8_id i hi1 hi2]

/-! ## Lemmas: initialisation -/

theorem quarters_disjoint (qw qh : Int) (k k1 : Nat)
    (hk : k < 7) (hk1 : k1 < 7) (hne : k ≠ k1) (x y : Int)
    (h : inQuarter qw qh k x y) : ¬ inQuarter qw qh k1 x y := by
  unfold inQuarter at h ⊢
  interval_cases k <;> interval_cases k1 <;> simp only [quarterOrigin] at h ⊢ <;> omega

theorem quarter_inGrid (W H : Int) (hW : 0 ≤ W) (hH : 0 ≤ H) (k : Nat) (hk : k < 7)
    (x y : Int) (h : inQuarter (Int.tdiv W 4) (Int.tdiv H 2) k x y) :
    0 ≤ y ∧ y < H ∧ 0 ≤ x ∧ x < W := by
  unfold inQuarter at h
  rw [Int.tdiv_eq_ediv hW (by decide), Int.tdiv_eq_ediv hH (by decide)] at h
  interval_cases k <;> simp only [quarterOrigin] at h <;> omega

/-- The loop "Initialise players" for at most seven regions: the writes are in
range, the player visited at position `k` is placed in region `quarterNum + k`
with speed 1 and active, its cell holds `int8` of its id, and cells outside the
regions used are untouched. -/
theorem initPlayers_spec (r : InitRandom) (o : List Nat) (q : Nat) (g : Game)
    (hnd : o.Nodup) (hq : q + o.length ≤ 7)
    (hkeys : ∀ i ∈ o, (g.Players i).isSome = true)
    (hW : 4 ≤ g.Width) (hH : 2 ≤ g.Height)
    (hoff : ∀ i, 0 ≤ r.offX i ∧ r.offX i < Int.tdiv g.Width 4 ∧
      0 ≤ r.offY i ∧ r.offY i < Int.tdiv g.Height 2) :
    ∃ g1, initPlayers r o q g = some g1 ∧ g1.Width = g.Width ∧ g1.Height = g.Height ∧
      g1.MaxPlayer = g.MaxPlayer ∧ g1.numberPlayer = g.numberPlayer ∧
      (∀ j, j ∉ o → g1.Players j = g.Players j) ∧
      (∀ j, (g1.Players j).isSome = (g.Players j).isSome) ∧
      (∀ y x, (∀ k, q ≤ k → k < q + o.length →
          ¬ inQuarter (Int.tdiv g.Width 4) (Int.tdiv g.Height 2) k x y) →
        g1.Cells y x = g.Cells y x) ∧
      ∀ j ∈ o, ∃ p p1, g.Players j = some p ∧ g1.Players j = some p1 ∧
        p1 = { p with
          Speed := 1
          Active := true
          X := (quarterOrigin (Int.tdiv g.Width 4) (Int.tdiv g.Height 2)
            (q + o.indexOf j)).1 + r.offX j
          Y := (quarterOrigin (Int.tdiv g.Width 4) (Int.tdiv g.Height 2)
            (q + o.indexOf j)).2 + r.offY j
          Direction := initDirection g.Width g.Height
            ((quarterOrigin (Int.tdiv g.Width 4) (Int.tdiv g.Height 2)
              (q + o.indexOf j)).1 + r.offX j)
            ((quarterOrigin (Int.tdiv g.Width 4) (Int.tdiv g.Height 2)
              (q + o.indexOf j)).2 + r.offY j) } ∧
        g1.Cells p1.Y p1.X = int8 j := by
  induction o generalizing q g with
  | nil =>
    exact ⟨g, rfl, rfl, rfl, rfl, rfl, fun _ _ => rfl, fun _ => rfl, fun _ _ _ => rfl,
      fun j hj => absurd hj (List.not_mem_nil j)⟩
  | cons i o ih =>
    have hio : i ∉ o := (List.nodup_cons.mp hnd).1
    have hlen : (i :: o).length = o.length + 1 := rfl
    obtain ⟨p, hp⟩ := Option.isSome_iff_exists.mp (hkeys i (List.mem_cons_self _ _))
    have hqw : 0 < Int.tdiv g.Width 4 := by
      rw [Int.tdiv_eq_ediv (by omega) (by decide)]; omega
    have hqh : 0 < Int.tdiv g.Height 2 := by
      rw [Int.tdiv_eq_ediv (by omega) (by decide)]; omega
    set X := (quarterOrigin (Int.tdiv g.Width 4) (Int.tdiv g.Height 2) q).1 + r.offX i with hX
    set Y := (quarterOrigin (Int.tdiv g.Width 4) (Int.tdiv g.Height 2) q).2 + r.offY i with hY
    have hinq : inQuarter (Int.tdiv g.Width 4) (Int.tdiv g.Height 2) q X Y := by
      have := hoff i
      unfold inQuarter
      omega
    have hgrid := quarter_inGrid g.Width g.Height (by omega) (by omega) q (by omega) X Y hinq
    set g2 : Game :=
      { g with
        Cells := setCell g.Cells Y X (int8 i)
        Players := Function.update g.Players i
          (some { p with
            Speed := 1
            Active := true
            X := X
            Y := Y
            Direction := initDirection g.Width g.Height X Y }) } with hg2
    have hstep : initPlayers r (i :: o) q g = initPlayers r o (q + 1) g2 := by
      simp only [initPlayers, hp]
      rw [if_pos hgrid]
    obtain ⟨g1, e, w, h, mp, np, pl, sm, cl, pls⟩ := ih (q + 1) g2 (List.nodup_cons.mp hnd).2
      (by rw [hlen] at hq; omega)
      (by
        intro j hj
        have hji : j ≠ i := fun h => hio (h ▸ hj)
        simp only [hg2, Function.update, hji, dite_false]
        exact hkeys j (List.mem_cons_of_mem _ hj))
      hW hH hoff
    refine ⟨g1, hstep.trans e, w, h, mp, np, ?_, ?_, ?_, ?_⟩
    · intro j hj
      have hji : j ≠ i := fun h => hj (h ▸ List.mem_cons_self _ _)
      rw [pl j (fun h => hj (List.mem_cons_of_mem _ h))]
      simp [hg2, Function.update, hji]
    · intro j
      rw [sm j]
      by_cases hji : j = i
      · subst hji
        simp [hg2, Function.update, hp]
      · simp [hg2, Function.update, hji]
    · intro y x hout
      rw [cl y x (fun k hk1 hk2 => hout k (by omega) (by rw [hlen]; omega))]
      simp only [hg2, setCell]
      rw [if_neg]
      rintro ⟨rfl, rfl⟩
      exact hout q (le_refl q) (by rw [hlen]; omega) hinq
    · intro j hj
      rcases List.mem_cons.mp hj with rfl | hjo
      · refine ⟨p, { p with
            Speed := 1
            Active := true
            X := X
            Y := Y
            Direction := initDirection g.Width g.Height X Y }, hp,
          by rw [pl j hio]; simp [hg2, Function.update], ?_, ?_⟩
        · simp only [List.indexOf_cons_self, Nat.add_zero]
        · simp only
          rw [cl _ _ (fun k hk1 hk2 => quarters_disjoint _ _ q k (by omega)
            (by rw [hlen] at hq; omega) (by omega) X Y hinq)]
          simp [hg2, setCell]
      · have hji : j ≠ i := fun h => hio (h ▸ hjo)
        obtain ⟨p0, p1, h0, h1, h2, h3⟩ := pls j hjo
        refine ⟨p0, p1, ?_, h1, ?_, h3⟩
        · rw [← h0]
          simp [hg2, Function.update, hji]
        · rw [h2, List.indexOf_cons_ne _ (Ne.symm hji)]
          have : q + 1 + List.indexOf j o = q + (List.indexOf j o).succ := by omega
          rw [this]

/-! ## The invariant of the round loop -/

theorem keys_length (g : Game) (o : List Nat) (n : Nat) (hk : keysOf g o)
    (h : ∀ i, (g.Players i).isSome = true ↔ 1 ≤ i ∧ i ≤ n) : o.length = n := by
  have hp : o.Perm (List.range' 1 n) := by
    apply (List.perm_ext_iff_of_nodup hk.1 (List.nodup_range' 1 n)).2
    intro i
    rw [hk.2 i, h i, List.mem_range'_1]
    omega
  rw [hp.length_eq, List.length_range']

/-- The initialisation of a full lobby does not fail and establishes the
invariant; it keeps the keys and chooses the size of the grid from the draws. -/
theorem initialise_spec (r : InitRandom) (g0 : Game) (hl : validLobby g0)
    (hi : validInit r g0) :
    ∃ g1, initialise r g0 = some g1 ∧ Inv g1 ∧
      g1.Width = r.width + FieldMinSize + 1 ∧ g1.Height = r.height + FieldMinSize + 1 ∧
      (∀ i, (g1.Players i).isSome = (g0.Players i).isSome) ∧
      ∀ i p1, g1.Players i = some p1 → p1.Active = true ∧ p1.Speed = 1 := by
  obtain ⟨hm2, hm6, hnum, hkeys⟩ := hl
  obtain ⟨hw0, hw1, hh0, hh1, hord, hoff⟩ := hi
  unfold FieldMaxSize FieldMinSize at hw1 hh1
  unfold PlayersPerGame at hm6
  have hlen : r.order.length = g0.numberPlayer := keys_length g0 r.order _ hord hkeys
  set gb : Game :=
    { g0 with
      Width := r.width + FieldMinSize + 1
      Height := r.height + FieldMinSize + 1
      Cells := fun _ _ => 0 } with hgb
  have hbW : gb.Width = r.width + 40 + 1 := rfl
  have hbH : gb.Height = r.height + 40 + 1 := rfl
  obtain ⟨g1, e, w, h, _, np, _, sm, _, pls⟩ := initPlayers_spec r r.order 0 gb hord.1
    (by omega) (fun i hi => (hord.2 i).1 hi) (by rw [hbW]; omega) (by rw [hbH]; omega) hoff
  have hsome : ∀ i, (g1.Players i).isSome = (g0.Players i).isSome := fun i => sm i
  have hrec : ∀ i p1, g1.Players i = some p1 →
      p1.Active = true ∧ p1.Speed = 1 ∧ inGrid g1.Width g1.Height p1.X p1.Y = true ∧
        g1.Cells p1.Y p1.X = i := by
    intro i p1 hp1
    have hs : (g0.Players i).isSome = true := by rw [← hsome i, hp1]; rfl
    have hio : i ∈ r.order := (hord.2 i).2 hs
    have hirange := (hkeys i).1 hs
    obtain ⟨p, q1, _, hq1, hq, hcell⟩ := pls i hio
    rw [hp1] at hq1
    have hpq : p1 = q1 := Option.some.inj hq1
    subst hpq
    have hidx : List.indexOf i r.order < r.order.length := List.indexOf_lt_length.2 hio
    have hinq : inQuarter (Int.tdiv gb.Width 4) (Int.tdiv gb.Height 2)
        (0 + List.indexOf i r.order) p1.X p1.Y := by
      rw [hq]
      have := hoff i
      unfold inQuarter
      simp only
      omega
    have hg := quarter_inGrid gb.Width gb.Height (by rw [hbW]; omega) (by rw [hbH]; omega) _
      (by omega) _ _ hinq
    refine ⟨by rw [hq], by rw [hq], ?_, ?_⟩
    · rw [inGrid_iff, w, h]
      omega
    · rw [hcell]
      exact int8_id i hirange.1 (by unfold PlayersPerGame; omega)
  refine ⟨{ g1 with
      playerChannel := fun s =>
        decide (s < g1.numberPlayer) &&
          (match g1.Players (s + 1) with
            | some p => p.Input
            | none => false)
      Running := true }, by unfold initialise; rw [e], ⟨?_, ?_⟩, w, h, hsome, fun i p1 hp1 =>
    ⟨(hrec i p1 hp1).1, (hrec i p1 hp1).2.1⟩⟩
  · intro i hs
    have := (hkeys i).1 (by rw [← hsome i]; exact hs)
    unfold PlayersPerGame
    omega
  · intro i p1 hp1 _
    obtain ⟨_, h2, h3, h4⟩ := hrec i p1 hp1
    refine ⟨by rw [h2], by rw [h2]; decide, h3, h4⟩

/-- A round keeps the invariant. -/
theorem runRound_Inv (r : RoundInput) (g g1 : Game) (hI : Inv g) (hv : validRound r g)
    (he : runRound r g = some g1) : Inv g1 := by
  obtain ⟨g2, e2, w, h, sm, pl⟩ := runRound_spec r g hv
  rw [he] at e2
  have : g1 = g2 := Option.some.inj e2
  subst this
  refine ⟨fun i hs => hI.1 i (by rw [← sm i]; exact hs), ?_⟩
  intro i p1 hp1 ha
  obtain ⟨p, pa, hp, hpact, hsp, _, _, _, _, hin, hp1eq, _, hcell⟩ := pl i p1 hp1 ha
  obtain ⟨s1, s2, _, _⟩ := hI.2 i p hp hpact
  obtain ⟨a1, a2⟩ := hsp s1 s2
  have hid := hI.1 i (by rw [hp]; rfl)
  refine ⟨by rw [hp1eq]; exact a1, by rw [hp1eq]; exact a2, ?_, hcell hid.1 hid.2 a1⟩
  have hn : pa.Speed.toNat - 1 < pa.Speed.toNat := by omega
  have := hin _ hn
  have hcast : ((pa.Speed.toNat - 1 : Nat) : Int) + 1 = pa.Speed.toNat := by omega
  rw [hcast] at this
  rw [hp1eq, w, h]
  exact this

theorem runRound_keys (r : RoundInput) (g g1 : Game) (hv : validRound r g)
    (he : runRound r g = some g1) (i : Nat) :
    (g1.Players i).isSome = (g.Players i).isSome := by
  obtain ⟨g2, e2, _, _, sm, _⟩ := runRound_spec r g hv
  rw [he] at e2
  have : g1 = g2 := Option.some.inj e2
  subst this
  exact sm i

theorem RoundStart_Inv (g : Game) (h : RoundStart g) : Inv g := by
  induction h with
  | init g0 g1 r hl hi he =>
    obtain ⟨g2, e2, hI, _⟩ := initialise_spec r g0 hl hi
    rw [he] at e2
    rw [Option.some.inj e2]
    exact hI
  | next g g1 r _ hv he _ ih => exact runRound_Inv r g g1 ih hv he

theorem Reachable_Inv (g : Game) (h : Reachable g) : Inv g := by
  cases h with
  | start _ hs => exact RoundStart_Inv g hs
  | round g0 _ r hs hv he => exact runRound_Inv r g0 g (RoundStart_Inv g0 hs) hv he

theorem lobby2_valid : validLobby lobby2 := by
  refine ⟨by decide, by decide, rfl, fun i => ?_⟩
  by_cases h1 : i = 1
  · subst h1; decide
  · by_cases h2 : i = 2
    · subst h2; decide
    · have : lobby2.Players i = none := by simp [lobby2, h1, h2]
      rw [this]
      have : lobby2.numberPlayer = 2 := rfl
      rw [this]
      simp only [Option.isSome_none, Bool.false_eq_true, false_iff]
      omega

theorem draw2_valid : validInit draw2 lobby2 := by
  refine ⟨by decide, by decide, by decide, by decide, ⟨by decide, fun i => ?_⟩, fun i => ?_⟩
  · rw [lobby2_valid.2.2.2 i]
    have : lobby2.numberPlayer = 2 := rfl
    rw [this]
    show i ∈ [1, 2] ↔ _
    simp only [List.mem_cons, List.mem_singleton, List.not_mem_nil, or_false]
    omega
  · have hy : draw2.offY i = 5 := rfl
    rw [hy]
    by_cases h1 : i = 1
    · subst h1; decide
    · have : draw2.offX i = 0 := by simp [draw2, h1]
      rw [this]
      decide

theorem started2_start : RoundStart started2 :=
  RoundStart.init lobby2 started2 draw2 lobby2_valid draw2_valid rfl

theorem round2_valid : validRound round2 started2 := by
  have hk : keysOf started2 [1, 2] := by
    refine ⟨by decide, fun i => ?_⟩
    obtain ⟨g1, e, _, _, _, sm, _⟩ := initialise_spec draw2 lobby2 lobby2_valid draw2_valid
    have : started2 = g1 := Option.some.inj (by rw [← e]; rfl)
    rw [this, sm i]
    exact draw2_valid.2.2.2.2.1.2 i
  exact ⟨hk, hk, hk, hk⟩

theorem after2_reachable : Reachable after2 :=
  Reachable.round started2 after2 round2 started2_start round2_valid rfl

/-- Player 1 of `fastGame`, at the maximal speed, answers `speed_up`: the
action phase raises its speed to 11 and leaves it inactive. -/
theorem speed_actions_witness :
    ∃ p1, (processActions [2, 1] fastGame).Players 1 = some p1 ∧
      p1.Speed = 10 + 1 ∧ (p1.Active = false ↔ (10 : Int) = MaxSpeed) :=
  (speed_actions fastGame [2, 1] 1 ⟨10, 20, .right, 10, true, 0, true⟩
    (by decide) (by decide) rfl rfl (by decide) (by decide)).1 rfl

/-- C6: in every state of `RunGame` between rounds (after the initialisation
and after every complete round) every active player has a speed in
`[1, MaxSpeed]` and a position with `0 ≤ x < Width` and `0 ≤ y < Height`. -/
theorem active_speed_and_position (g : Game) (i : Nat) (p : Player) (h : Reachable g)
    (hp : g.Players i = some p) (ha : p.Active = true) :
    1 ≤ p.Speed ∧ p.Speed ≤ MaxSpeed ∧ 0 ≤ p.X ∧ p.X < g.Width ∧ 0 ≤ p.Y ∧ p.Y < g.Height := by
  obtain ⟨h1, h2, h3, _⟩ := (Reachable_Inv g h).2 i p hp ha
  rw [inGrid_iff] at h3
  exact ⟨h1, h2, h3.1, h3.2.1, h3.2.2.1, h3.2.2.2⟩

/-- After the initialisation with the draws `draw2`, player 1 is active at
(9,5) with speed 1 on the 41x41 grid. -/
theorem active_speed_and_position_witness :
    Reachable started2 ∧ started2.Players 1 = some ⟨9, 5, .down, 1, true, 0, true⟩ ∧
      (1 ≤ (1 : Int) ∧ (1 : Int) ≤ MaxSpeed ∧ 0 ≤ (9 : Int) ∧ (9 : Int) < started2.Width ∧
        0 ≤ (5 : Int) ∧ (5 : Int) < started2.Height) :=
  ⟨Reachable.start _ started2_start, rfl,
    active_speed_and_position started2 1 ⟨9, 5, .down, 1, true, 0, true⟩
      (Reachable.start _ started2_start) rfl rfl⟩

/-- C8: in every state of `RunGame` between rounds (after the initialisation
and after every complete round) the cell at the position of every active
player holds that player's id, so neither 0, nor another id, nor -1. -/
theorem active_cell_holds_id (g : Game) (i : Nat) (p : Player) (h : Reachable g)
    (hp : g.Players i = some p) (ha : p.Active = true) :
    g.Cells p.Y p.X = i ∧ g.Cells p.Y p.X ≠ 0 ∧ g.Cells p.Y p.X ≠ -1 := by
  obtain ⟨_, _, _, h4⟩ := (Reachable_Inv g h).2 i p hp ha
  have hid := (Reachable_Inv g h).1 i (by rw [hp]; rfl)
  rw [h4]
  exact ⟨rfl, by omega, by omega⟩

/-- After the round `round2`, player 2 is active at (10,6) and that cell
holds 2. -/
theorem active_cell_holds_id_witness :
    Reachable after2 ∧ after2.Players 2 = some ⟨10, 6, .down, 1, true, 1, true⟩ ∧
      (after2.Cells 6 10 = (2 : Nat) ∧ after2.Cells 6 10 ≠ 0 ∧ after2.Cells 6 10 ≠ -1) :=
  ⟨after2_reachable, by decide,
    active_cell_holds_id after2 2 ⟨10, 6, .down, 1, true, 1, true⟩ after2_reachable
      (by decide) rfl⟩

/-- C7, as stated, fails: after the first round `round2` of the run from
`lobby2`, in which player 1 turns into the start cell (10,5) of player 2, that
cell holds -1, and no later code clears it. -/
theorem sentinel_remains :
    RoundStart started2 ∧ validRound round2 started2 ∧
      ∃ g1, runRound round2 started2 = some g1 ∧ ¬ ∀ y x : Int, g1.Cells y x ≠ -1 :=
  ⟨started2_start, round2_valid, after2, rfl, fun h => h 5 10 (by decide)⟩

/-- C7, amended: after the crash adjudication of a round, no cell that a
player still active entered in this round at a sub-step that is not a hole
sub-step holds -1, in particular not the cell it stands on (backward index 0);
the cells are the ones the retrace visits from the player's position. -/
theorem no_sentinel_on_surviving_path (r : RoundInput) (g g1 : Game) (i : Nat) (p1 : Player)
    (k : Nat) (hv : validRound r g) (he : runRound r g = some g1)
    (hp : g1.Players i = some p1) (ha : p1.Active = true) (hk : k < p1.Speed.toNat)
    (hh : isHole p1.Speed p1.stepCounter k = false) :
    g1.Cells (p1.Y - k * (dvec p1.Direction).2) (p1.X - k * (dvec p1.Direction).1) ≠ -1 := by
  obtain ⟨g2, e2, _, _, _, pl⟩ := runRound_spec r g hv
  rw [he] at e2
  have : g1 = g2 := Option.some.inj e2
  subst this
  obtain ⟨p, pa, _, _, _, _, _, _, _, _, hp1eq, hcell, _⟩ := pl i p1 hp ha
  rw [hp1eq] at hk hh ⊢
  simp only at hk hh ⊢
  have hc := hcell (pa.Speed.toNat - 1 - k) (by omega) (by
    rw [← hh, ← isHole_reverse pa.Speed _ k]
    congr 1
    omega)
  have hcast : ((pa.Speed.toNat - 1 - k : Nat) : Int) = (pa.Speed.toNat : Int) - 1 - k := by
    omega
  rw [hcast] at hc
  intro hneg
  apply hc
  rw [← hneg]
  congr 1 <;> ring

/-- After the round `round2`, the cell (10,6) on which the surviving player 2
stands does not hold -1. -/
theorem no_sentinel_on_surviving_path_witness :
    validRound round2 started2 ∧ runRound round2 started2 = some after2 ∧
      after2.Players 2 = some ⟨10, 6, .down, 1, true, 1, true⟩ ∧
      after2.Cells (6 - ((0 : Nat) : Int) * (dvec Direction.down).2)
        (10 - ((0 : Nat) : Int) * (dvec Direction.down).1) ≠ -1 :=
  ⟨round2_valid, rfl, by decide,
    no_sentinel_on_surviving_path round2 started2 after2 2 ⟨10, 6, .down, 1, true, 1, true⟩ 0
      round2_valid rfl (by decide) rfl (by decide) (by decide)⟩

/-! ## Lemmas: the end of the match -/

theorem mainGame_append (pre rs : List RoundInput) (g g0 : Game)
    (h : continues pre g = some g0) : mainGame (pre ++ rs) g = mainGame rs g0 := by
  induction pre generalizing g with
  | nil =>
    simp only [continues, Option.some.injEq] at h
    rw [h]; rfl
  | cons r pre ih =>
    simp only [continues] at h
    cases hr : runRound r g with
    | none => rw [hr] at h; simp at h
    | some g1 =>
      rw [hr] at h
      simp only at h
      by_cases hc : checkEndGame r.endOrder g1 = true
      · rw [if_pos hc] at h; simp at h
      · rw [if_neg hc] at h
        simp only [List.cons_append, mainGame, hr, hc]
        exact ih g1 h

theorem length_le_one_iff (l : List Nat) (hnd : l.Nodup) :
    l.length ≤ 1 ↔ ∀ a ∈ l, ∀ b ∈ l, a = b := by
  constructor
  · intro h a ha b hb
    match l, h, ha, hb with
    | [c], _, ha, hb =>
      rw [List.mem_singleton.mp ha, List.mem_singleton.mp hb]
  · intro h
    match l, hnd, h with
    | [], _, _ => simp
    | [_], _, _ => simp
    | a :: b :: t, hnd, h =>
      have hab : a = b := h a (List.mem_cons_self _ _) b
        (List.mem_cons_of_mem _ (List.mem_cons_self _ _))
      have := (List.nodup_cons.mp hnd).1
      rw [hab] at this
      exact absurd (List.mem_cons_self _ _) this

/-- The check `checkEndGame` holds exactly when at most one player is active. -/
theorem checkEndGame_iff (o : List Nat) (g : Game) (hk : keysOf g o) :
    checkEndGame o g = true ↔
      ∀ i j pi pj, g.Players i = some pi → g.Players j = some pj →
        pi.Active = true → pj.Active = true → i = j := by
  unfold checkEndGame numberActive
  rw [decide_eq_true_iff, length_le_one_iff _ (hk.1.filter _)]
  constructor
  · intro h i j pi pj hi hj ai aj
    apply h i _ j _
    · rw [List.mem_filter]
      exact ⟨(hk.2 i).2 (by rw [hi]; rfl), by rw [hi]; exact ai⟩
    · rw [List.mem_filter]
      exact ⟨(hk.2 j).2 (by rw [hj]; rfl), by rw [hj]; exact aj⟩
  · intro h a ha b hb
    rw [List.mem_filter] at ha hb
    cases hpa : g.Players a with
    | none => rw [hpa] at ha; simp at ha
    | some pa =>
      cases hpb : g.Players b with
      | none => rw [hpb] at hb; simp at hb
      | some pb =>
        rw [hpa] at ha
        rw [hpb] at hb
        exact h a b pa pb hpa hpb ha.2 hb.2

theorem winner_none (wo : List Nat) (g : Game)
    (h : ∀ i p, g.Players i = some p → p.Active = false) : winner wo g = -1 := by
  induction wo with
  | nil => rfl
  | cons i wo ih =>
    simp only [winner]
    cases hp : g.Players i with
    | none => exact ih
    | some p =>
      simp only [h i p hp, Bool.false_eq_true, if_false]
      exact ih

theorem winner_unique (wo : List Nat) (g : Game) (i : Nat) (p : Player) (hi : i ∈ wo)
    (hp : g.Players i = some p) (ha : p.Active = true)
    (h : ∀ j pj, g.Players j = some pj → pj.Active = true → j = i) :
    winner wo g = i := by
  induction wo with
  | nil => simp at hi
  | cons k wo ih =>
    simp only [winner]
    cases hk : g.Players k with
    | none =>
      simp only
      rcases List.mem_cons.mp hi with rfl | hmem
      · rw [hp] at hk; simp at hk
      · exact ih hmem
    | some pk =>
      simp only
      by_cases hka : pk.Active = true
      · rw [if_pos hka, h k pk hk hka]
      · rw [if_neg hka]
        rcases List.mem_cons.mp hi with rfl | hmem
        · rw [hp] at hk
          rw [Option.some.inj hk] at ha
          exact absurd ha hka
        · exact ih hmem

/-- After the player check and the initialisation, `RunGame` is the round
loop followed by the winner loop. -/
theorem RunGame_eq (ri : InitRandom) (rounds : List RoundInput) (wo : List Nat) (gl g : Game)
    (hfull : (setMaxPlayer ri.maxPlayer gl).numberPlayer =
      (setMaxPlayer ri.maxPlayer gl).MaxPlayer)
    (hinit : initialise ri (setMaxPlayer ri.maxPlayer gl) = some g) :
    RunGame ri rounds wo gl = runFrom rounds wo g := by
  simp only [RunGame, hfull, hinit, ne_eq, not_true_eq_false, if_false]

/-- C9: `checkEndGame` is true if and only if at most one player is active;
the round loop stops after the first round after which it is true (and goes on
after a round after which it is false); `RunGame` then returns the id of the
active player if there is one and -1 if there is none.  Here `g` is the state
after the initialisation of the lobby `gl`, the rounds `pre` do not end the
game and lead to `g0`, and the round `r` leads from `g0` to `g1`. -/
theorem end_of_match (ri : InitRandom) (gl : Game) (pre post : List RoundInput)
    (r : RoundInput) (wo : List Nat) (g g0 g1 : Game)
    (hfull : (setMaxPlayer ri.maxPlayer gl).numberPlayer =
      (setMaxPlayer ri.maxPlayer gl).MaxPlayer)
    (hinit : initialise ri (setMaxPlayer ri.maxPlayer gl) = some g)
    (hpre : continues pre g = some g0) (hr : runRound r g0 = some g1)
    (hko : keysOf g1 r.endOrder) (hkw : keysOf g1 wo) :
    (checkEndGame r.endOrder g1 = true ↔
      ∀ i j pi pj, g1.Players i = some pi → g1.Players j = some pj →
        pi.Active = true → pj.Active = true → i = j) ∧
    (checkEndGame r.endOrder g1 = true →
      mainGame (pre ++ r :: post) g = some g1 ∧
      (∀ i p, g1.Players i = some p → p.Active = true →
        RunGame ri (pre ++ r :: post) wo gl = some (i : Int)) ∧
      ((∀ i p, g1.Players i = some p → p.Active = false) →
        RunGame ri (pre ++ r :: post) wo gl = some (-1))) ∧
    (checkEndGame r.endOrder g1 = false →
      mainGame (pre ++ r :: post) g = mainGame post g1) := by
  have hm : mainGame (pre ++ r :: post) g = mainGame (r :: post) g0 :=
    mainGame_append pre (r :: post) g g0 hpre
  refine ⟨checkEndGame_iff _ g1 hko, ?_, ?_⟩
  · intro hc
    have hmain : mainGame (pre ++ r :: post) g = some g1 := by
      rw [hm]
      simp [mainGame, hr, hc]
    refine ⟨hmain, ?_, ?_⟩
    · intro i p hp ha
      rw [RunGame_eq ri _ wo gl g hfull hinit]
      unfold runFrom
      rw [hmain]
      simp only [Option.some.injEq]
      apply winner_unique wo g1 i p ((hkw.2 i).2 (by rw [hp]; rfl)) hp ha
      intro j pj hj hja
      exact (checkEndGame_iff _ g1 hko).1 hc j i pj p hj hp hja ha
    · intro hnone
      rw [RunGame_eq ri _ wo gl g hfull hinit]
      unfold runFrom
      rw [hmain]
      simp only [Option.some.injEq]
      exact winner_none wo g1 hnone
  · intro hc
    rw [hm]
    simp [mainGame, hr, hc]

theorem after2_keys (o : List Nat) (h : keysOf started2 o) : keysOf after2 o :=
  keysOf_congr started2 after2 o (runRound_keys round2 started2 after2 round2_valid rfl) h

/-- The run from `lobby2`: after the first round only player 2 is active, the
loop stops and `RunGame` returns 2. -/
theorem end_of_match_witness :
    initialise draw2 (setMaxPlayer draw2.maxPlayer lobby2) = some started2 ∧
    continues [] started2 = some started2 ∧ runRound round2 started2 = some after2 ∧
    checkEndGame round2.endOrder after2 = true ∧
    after2.Players 2 = some ⟨10, 6, .down, 1, true, 1, true⟩ ∧
    RunGame draw2 ([] ++ round2 :: []) [2, 1] lobby2 = some ((2 : Nat) : Int) :=
  ⟨rfl, rfl, rfl, by decide, by decide,
    ((end_of_match draw2 lobby2 [] [] round2 [2, 1] started2 started2 after2 rfl rfl rfl rfl
      (after2_keys _ round2_valid.2.2.2)
      (after2_keys _ ⟨by decide, fun i => by
        rw [← round2_valid.1.2 i]
        show i ∈ [2, 1] ↔ i ∈ [1, 2]
        simp only [List.mem_cons, List.mem_singleton, List.not_mem_nil, or_false]
        exact Or.comm⟩)).2.1 (by decide)).2.1 2 ⟨10, 6, .down, 1, true, 1, true⟩
      (by decide) rfl⟩

/-! ## Lemmas: the head-on collision -/

theorem actPlayer_noop (p : Player) : actPlayer ActionNOOP p = p := by
  have e1 : ActionNOOP ≠ "" := by decide
  have e2 : ActionNOOP ≠ ActionTurnLeft := by decide
  have e3 : ActionNOOP ≠ ActionTurnRight := by decide
  have e4 : ActionNOOP ≠ ActionFaster := by decide
  have e5 : ActionNOOP ≠ ActionSlower := by decide
  simp [actPlayer, e1, e2, e3, e4, e5]

theorem actPlayer_inactive (a : String) (p : Player) (h : p.Active = false) :
    (actPlayer a p).Active = false := by
  by_contra hc
  have := actPlayer_was_active a p (by simpa using hc)
  rw [h] at this
  exact absurd this (by simp)

theorem moved_crashed_inactive (W H : Int) (cells : Int → Int → Int) (p : Player)
    (h : p.Active = false) : (crashedPlayer cells (movedPlayer W H p)).Active = false := by
  rw [crashedPlayer_eq]
  simp [movedPlayer, h]

theorem checkEndRound_false (g : Game) (s : Nat) (hs : s < PlayersPerGame)
    (hc : g.playerChannel s = true) (ha : g.playerAnswer s = "") :
    checkEndRound g = false := by
  unfold checkEndRound
  rw [← Bool.not_eq_true, List.all_eq_true]
  intro h
  have := h s (List.mem_range.2 hs)
  simp [hc, ha] at this

/-- Two players with open channels and empty answer slots each send
`change_nothing`: both answers are stored and nothing else changes. -/
theorem collect_two_noop (g : Game) (a b : Nat) (hab : a ≠ b) (ha : 1 ≤ a) (hb : 1 ≤ b)
    (hb6 : b ≤ PlayersPerGame) (hca : g.playerChannel (a - 1) = true)
    (hcb : g.playerChannel (b - 1) = true) (hans : g.playerAnswer = fun _ => "") :
    collect [⟨a, some ActionNOOP⟩, ⟨b, some ActionNOOP⟩] g =
      { g with
        playerAnswer := Function.update (Function.update g.playerAnswer (a - 1) ActionNOOP)
          (b - 1) ActionNOOP } := by
  have hne : b - 1 ≠ a - 1 := by omega
  have e1 : ActionNOOP ≠ "" := by decide
  have hv : IsValidAction ActionNOOP = true := by decide
  have hrec1 : receive g a (some ActionNOOP) =
      { g with playerAnswer := Function.update g.playerAnswer (a - 1) ActionNOOP } := by
    simp [receive, e1, hv, hans]
  have hend1 : checkEndRound
      { g with playerAnswer := Function.update g.playerAnswer (a - 1) ActionNOOP } = false := by
    apply checkEndRound_false
      { g with playerAnswer := Function.update g.playerAnswer (a - 1) ActionNOOP } (b - 1)
      (by omega) hcb
    simp [Function.update, hne, hans]
  have hrec2 : receive
      { g with playerAnswer := Function.update g.playerAnswer (a - 1) ActionNOOP } b
        (some ActionNOOP) =
      { g with
        playerAnswer := Function.update (Function.update g.playerAnswer (a - 1) ActionNOOP)
          (b - 1) ActionNOOP } := by
    simp [receive, e1, hv, hans, Function.update, hne]
  simp only [collect, hca, Bool.true_eq_false, if_false, hrec1, hend1, hcb, hrec2, ite_self,
    Bool.false_eq_true]

theorem collect_both_noop (g : Game) (es : List Input) (i j : Nat) (hij : i ≠ j)
    (hi : 1 ≤ i ∧ i ≤ PlayersPerGame) (hj : 1 ≤ j ∧ j ≤ PlayersPerGame)
    (hci : g.playerChannel (i - 1) = true) (hcj : g.playerChannel (j - 1) = true)
    (hans : g.playerAnswer = fun _ => "")
    (hes : es = [⟨i, some ActionNOOP⟩, ⟨j, some ActionNOOP⟩] ∨
      es = [⟨j, some ActionNOOP⟩, ⟨i, some ActionNOOP⟩]) :
    (collect es g).Players = g.Players ∧ (collect es g).Width = g.Width ∧
      (collect es g).Height = g.Height ∧ (collect es g).Cells = g.Cells ∧
      (collect es g).playerAnswer (i - 1) = ActionNOOP ∧
      (collect es g).playerAnswer (j - 1) = ActionNOOP := by
  have hne : i - 1 ≠ j - 1 := by omega
  rcases hes with rfl | rfl
  · rw [collect_two_noop g i j hij hi.1 hj.1 hj.2 hci hcj hans]
    simp [Function.update, hne]
  · rw [collect_two_noop g j i (Ne.symm hij) hj.1 hi.1 hi.2 hcj hci hans]
    simp [Function.update, hne]

/-- C10: the head-on collision.  In a game whose only active players `i` and
`j` stand at speed 1 on horizontally adjacent cells of the grid that hold
their ids, `i` on `(x, y)` facing right and `j` on `(x+1, y)` facing left, and
both answer `change_nothing`: the round does not fail, afterwards both cells
hold -1 and no player is active, `checkEndGame` holds, the round loop stops
and `RunGame` returns -1, a draw (`runFrom` is `RunGame` from the round loop
on; the last part is `RunGame` itself for every run that leads to `g`). -/
theorem head_on_draw (g : Game) (r : RoundInput) (rest : List RoundInput) (wo : List Nat)
    (i j : Nat) (pi pj : Player) (x y : Int)
    (hv : validRound r g) (hij : i ≠ j)
    (hi : 1 ≤ i ∧ i ≤ PlayersPerGame) (hj : 1 ≤ j ∧ j ≤ PlayersPerGame)
    (hpi : g.Players i = some pi) (hpj : g.Players j = some pj)
    (hai : pi.Active = true) (haj : pj.Active = true)
    (hothers : ∀ k p, g.Players k = some p → p.Active = true → k = i ∨ k = j)
    (hsi : pi.Speed = 1) (hsj : pj.Speed = 1)
    (hdi : pi.Direction = Direction.right) (hdj : pj.Direction = Direction.left)
    (hxi : pi.X = x) (hyi : pi.Y = y) (hxj : pj.X = x + 1) (hyj : pj.Y = y)
    (hx0 : 0 ≤ x) (hx1 : x + 1 < g.Width) (hy0 : 0 ≤ y) (hy1 : y < g.Height)
    (hcelli : g.Cells y x = i) (hcellj : g.Cells y (x + 1) = j)
    (hci : g.playerChannel (i - 1) = true) (hcj : g.playerChannel (j - 1) = true)
    (hin : r.inputs = [⟨i, some ActionNOOP⟩, ⟨j, some ActionNOOP⟩] ∨
      r.inputs = [⟨j, some ActionNOOP⟩, ⟨i, some ActionNOOP⟩]) :
    ∃ g1, runRound r g = some g1 ∧ g1.Cells y x = -1 ∧ g1.Cells y (x + 1) = -1 ∧
      (∀ k p, g1.Players k = some p → p.Active = false) ∧
      checkEndGame r.endOrder g1 = true ∧ mainGame (r :: rest) g = some g1 ∧
      runFrom (r :: rest) wo g = some (-1) ∧
      ∀ (ri : InitRandom) (gl gi : Game) (pre : List RoundInput),
        (setMaxPlayer ri.maxPlayer gl).numberPlayer = (setMaxPlayer ri.maxPlayer gl).MaxPlayer →
        initialise ri (setMaxPlayer ri.maxPlayer gl) = some gi →
        continues pre gi = some g →
        RunGame ri (pre ++ r :: rest) wo gl = some (-1) := by
  obtain ⟨hka, hkm, hkc, hke⟩ := hv
  obtain ⟨cP, cW, cH, cC, cAi, cAj⟩ := collect_both_noop
    { g with playerAnswer := fun _ => "" } r.inputs i j hij hi hj hci hcj rfl hin
  rw [runRound_eq]
  set gc := collect r.inputs { g with playerAnswer := fun _ => "" } with hgc
  set ga := processActions r.actionOrder gc with hga
  have cP1 : ∀ k, gc.Players k = g.Players k := fun k => by rw [cP]
  have aW : ga.Width = g.Width := (processActions_frame _ gc).1.trans cW
  have aH : ga.Height = g.Height := (processActions_frame _ gc).2.1.trans cH
  have aC : ga.Cells = g.Cells := (processActions_frame _ gc).2.2.1.trans cC
  have apl : ∀ k, ga.Players k =
      if k ∈ r.actionOrder then (g.Players k).map (actPlayer (gc.playerAnswer (k - 1)))
      else g.Players k := fun k => by
    rw [hga, processActions_Players _ hka.1 gc, cP1 k]
  have hio : ∀ o, keysOf g o → i ∈ o := fun o ho => (ho.2 i).2 (by rw [hpi]; rfl)
  have hjo : ∀ o, keysOf g o → j ∈ o := fun o ho => (ho.2 j).2 (by rw [hpj]; rfl)
  have hai1 : ga.Players i = some pi := by
    rw [apl, if_pos (hio _ hka), hpi, Option.map_some', cAi, actPlayer_noop]
  have haj1 : ga.Players j = some pj := by
    rw [apl, if_pos (hjo _ hka), hpj, Option.map_some', cAj, actPlayer_noop]
  have hinact : ∀ k p, ga.Players k = some p → k ≠ i → k ≠ j → p.Active = false := by
    intro k p hp hki hkj
    rw [apl] at hp
    cases hq : g.Players k with
    | none => rw [hq] at hp; simp at hp
    | some q =>
      have hqa : q.Active = false := by
        by_contra hc
        rcases hothers k q hq (by simpa using hc) with h | h
        · exact hki h
        · exact hkj h
      rw [hq] at hp
      split_ifs at hp
      · simp only [Option.map_some', Option.some.injEq] at hp
        rw [← hp]
        exact actPlayer_inactive _ q hqa
      · rw [← Option.some.inj hp]
        exact hqa
  have hperm : r.crashOrder.Perm r.moveOrder := keysOf_perm g _ _ hkc hkm
  obtain ⟨g1, e, w, h, c, _, pl⟩ :=
    moveCrash_eq r.moveOrder r.crashOrder hkm.1 hkc.1 (fun k hk => hperm.mem_iff.1 hk) ga
  have wi : (i, y, x + 1) ∈ allWrites r.moveOrder ga := by
    rw [mem_allWrites]
    refine ⟨hio _ hkm, (mem_playerWrites ga i pi hai1 hai _ _).2 ⟨0, by rw [hsi]; decide, ?_, ?_,
      by simpa using isHole_first _ _, ?_⟩⟩
    · rw [hdi, hxi]; simp [dvec]
    · rw [hdi, hyi]; simp [dvec]
    · intro k hk
      have : k = 0 := by omega
      subst this
      rw [hdi, hxi, hyi, aW, aH, inGrid_iff]
      simp only [dvec]
      omega
  have wj : (j, y, x) ∈ allWrites r.moveOrder ga := by
    rw [mem_allWrites]
    refine ⟨hjo _ hkm, (mem_playerWrites ga j pj haj1 haj _ _).2 ⟨0, by rw [hsj]; decide, ?_, ?_,
      by simpa using isHole_first _ _, ?_⟩⟩
    · rw [hdj, hxj]; simp [dvec]
    · rw [hdj, hyj]; simp [dvec]
    · intro k hk
      have : k = 0 := by omega
      subst this
      rw [hdj, hxj, hyj, aW, aH, inGrid_iff]
      simp only [dvec]
      omega
  have hcx : g1.Cells y x = -1 := by
    rw [c]
    exact writes_hit_nonzero _ _ j y x (by rw [aC, hcelli]; omega) wj
  have hcx1 : g1.Cells y (x + 1) = -1 := by
    rw [c]
    exact writes_hit_nonzero _ _ i y (x + 1) (by rw [aC, hcellj]; omega) wi
  have hall : ∀ k p, g1.Players k = some p → p.Active = false := by
    intro k p hp
    have hsome : (ga.Players k).isSome = true := by
      rw [pl] at hp
      split_ifs at hp
      · cases hq : ga.Players k with
        | none => rw [hq] at hp; simp at hp
        | some q => rfl
      · cases hq : ga.Players k with
        | none => rw [hq] at hp; simp at hp
        | some q => rfl
      · rw [hp]; rfl
    have hkg : (g.Players k).isSome = true := by
      rw [apl] at hsome
      split_ifs at hsome
      · simpa using hsome
      · exact hsome
    have hkco : k ∈ r.crashOrder := (hkc.2 k).2 hkg
    rw [pl, if_pos hkco] at hp
    obtain ⟨q, hq⟩ := Option.isSome_iff_exists.mp hsome
    rw [hq] at hp
    simp only [Option.map_some', Option.some.injEq] at hp
    rw [← hp]
    by_cases hki : k = i
    · subst hki
      rw [hai1] at hq
      rw [← Option.some.inj hq]
      apply crashed_of_hit _ _ _ pi 0 (by rw [hsi]; decide) _ (isHole_first _ _)
      rw [← c, hdi, hxi, hyi]
      simpa [dvec] using hcx1
    · by_cases hkj : k = j
      · subst hkj
        rw [haj1] at hq
        rw [← Option.some.inj hq]
        apply crashed_of_hit _ _ _ pj 0 (by rw [hsj]; decide) _ (isHole_first _ _)
        rw [← c, hdj, hxj, hyj]
        simpa [dvec] using hcx
      · exact moved_crashed_inactive _ _ _ q (hinact k q hq hki hkj)
  have hend : checkEndGame r.endOrder g1 = true := by
    unfold checkEndGame
    have : numberActive r.endOrder g1 = 0 := by
      unfold numberActive
      rw [List.length_eq_zero, List.filter_eq_nil_iff]
      intro k _
      cases hq : g1.Players k with
      | none => simp
      | some q => simp [hall k q hq]
    rw [this]
    decide
  have hmain : mainGame (r :: rest) g = some g1 := by
    simp only [mainGame, runRound_eq]
    rw [← hgc, ← hga, e]
    simp [hend]
  refine ⟨g1, e, hcx, hcx1, hall, hend, hmain, ?_, ?_⟩
  · unfold runFrom
    rw [hmain]
    simp only [Option.some.injEq]
    exact winner_none wo g1 hall
  · intro ri gl gi pre hfull hinit hpre
    rw [RunGame_eq ri _ wo gl gi hfull hinit]
    unfold runFrom
    rw [mainGame_append pre (r :: rest) gi g hpre, hmain]
    simp only [Option.some.injEq]
    exact winner_none wo g1 hall

theorem headOn_keys : keysOf headOn [1, 2] := by
  refine ⟨by decide, fun i => ?_⟩
  by_cases h1 : i = 1
  · subst h1; decide
  · by_cases h2 : i = 2
    · subst h2; decide
    · have : headOn.Players i = none := by simp [headOn, h1, h2]
      rw [this]
      simp [h1, h2]

/-- The "immediate head-on collision" scenario of the specification: the
cells (10,20) and (11,20) hold -1 after the round, nobody is active and the
match is a draw.  And a run of `RunGame` from a lobby of two players: after
the round `turnRound` they face each other on (10,5) and (11,5), after the
round `noopRound` the result is -1. -/
theorem head_on_draw_witness :
    (∃ g1, runRound noopRound headOn = some g1 ∧ g1.Cells 20 10 = -1 ∧
      g1.Cells 20 (10 + 1) = -1 ∧ (∀ k p, g1.Players k = some p → p.Active = false) ∧
      checkEndGame noopRound.endOrder g1 = true ∧ mainGame (noopRound :: []) headOn = some g1 ∧
      runFrom (noopRound :: []) [1, 2] headOn = some (-1) ∧
      ∀ (ri : InitRandom) (gl gi : Game) (pre : List RoundInput),
        (setMaxPlayer ri.maxPlayer gl).numberPlayer = (setMaxPlayer ri.maxPlayer gl).MaxPlayer →
        initialise ri (setMaxPlayer ri.maxPlayer gl) = some gi →
        continues pre gi = some headOn →
        RunGame ri (pre ++ noopRound :: []) [1, 2] gl = some (-1)) ∧
    RunGame drawHeadOn [turnRound, noopRound] [1, 2] lobby2 = some (-1) :=
  ⟨head_on_draw headOn noopRound [] [1, 2] 1 2 ⟨10, 20, .right, 1, true, 0, true⟩
    ⟨11, 20, .left, 1, true, 0, true⟩ 10 20
    ⟨headOn_keys, headOn_keys, headOn_keys, headOn_keys⟩ (by decide) (by decide) (by decide)
    rfl rfl rfl rfl
    (by
      intro k p hp ha
      by_cases h1 : k = 1
      · exact Or.inl h1
      · by_cases h2 : k = 2
        · exact Or.inr h2
        · have : headOn.Players k = none := by simp [headOn, h1, h2]
          rw [this] at hp
          exact absurd hp (by simp))
    rfl rfl rfl rfl rfl rfl rfl rfl (by decide) (by decide) (by decide) (by decide)
    (by decide) (by decide) rfl rfl (Or.inl rfl), by decide⟩

/-! ## Action collection: one received value -/

theorem isValidAction_iff (a : String) :
    IsValidAction a = true ↔
      a ∈ [ActionTurnLeft, ActionTurnRight, ActionFaster, ActionSlower, ActionNOOP] := by
  simp [IsValidAction, or_assoc]

/-- C11: one value `v` taken from the channel of player `p` (`none` when the
channel was closed).  If the channel is open, the value `a` is one of the five
action strings and the answer slot of `p` is empty, then `a` is stored in the
slot of `p` and nothing else changes.  In every other case `p` is invalidated:
it is set inactive and its channel slot is set to `nil`, every answer slot is
as before (the stored answer is not replaced) and every other player and
every other channel slot is as before. -/
theorem receive_answer (g : Game) (p : Nat) (v : Option String) (pl : Player)
    (hp1 : 1 ≤ p) (hpl : g.Players p = some pl) :
    ((∃ a, v = some a ∧
        a ∈ [ActionTurnLeft, ActionTurnRight, ActionFaster, ActionSlower, ActionNOOP] ∧
        g.playerAnswer (p - 1) = "") →
      (∀ a, v = some a → (receive g p v).playerAnswer (p - 1) = a) ∧
      (∀ q, 1 ≤ q → q ≠ p → (receive g p v).playerAnswer (q - 1) = g.playerAnswer (q - 1)) ∧
      (receive g p v).Players = g.Players ∧
      (receive g p v).playerChannel = g.playerChannel ∧
      (receive g p v).Cells = g.Cells) ∧
    ((¬ ∃ a, v = some a ∧
        a ∈ [ActionTurnLeft, ActionTurnRight, ActionFaster, ActionSlower, ActionNOOP] ∧
        g.playerAnswer (p - 1) = "") →
      (receive g p v).Players p = some { pl with Active := false } ∧
      (receive g p v).playerChannel (p - 1) = false ∧
      (receive g p v).playerAnswer = g.playerAnswer ∧
      (∀ q, q ≠ p → (receive g p v).Players q = g.Players q) ∧
      (∀ q, 1 ≤ q → q ≠ p →
        (receive g p v).playerChannel (q - 1) = g.playerChannel (q - 1)) ∧
      (receive g p v).Cells = g.Cells) := by
  have hinv : (invalidatePlayer g p).Players p = some { pl with Active := false } ∧
      (invalidatePlayer g p).playerChannel (p - 1) = false ∧
      (invalidatePlayer g p).playerAnswer = g.playerAnswer ∧
      (∀ q, q ≠ p → (invalidatePlayer g p).Players q = g.Players q) ∧
      (∀ q, 1 ≤ q → q ≠ p →
        (invalidatePlayer g p).playerChannel (q - 1) = g.playerChannel (q - 1)) ∧
      (invalidatePlayer g p).Cells = g.Cells := by
    refine ⟨by rw [invalidatePlayer_Players, if_pos rfl, hpl]; rfl, ?_,
      (invalidatePlayer_frame g p).2.2.2.1, ?_, ?_, (invalidatePlayer_frame g p).2.2.1⟩
    · simp [invalidatePlayer, hpl]
    · intro q hq
      rw [invalidatePlayer_Players, if_neg hq]
    · intro q hq1 hq
      have : q - 1 ≠ p - 1 := by omega
      simp [invalidatePlayer, hpl, Function.update, this]
  constructor
  · rintro ⟨a, rfl, ha, hempty⟩
    have hval : IsValidAction a = true := (isValidAction_iff a).2 ha
    have hne : a ≠ "" := by
      rintro rfl
      exact absurd hval (by decide)
    have hrec : receive g p (some a) =
        { g with playerAnswer := Function.update g.playerAnswer (p - 1) a } := by
      simp [receive, hne, hempty, hval]
    rw [hrec]
    refine ⟨?_, ?_, rfl, rfl, rfl⟩
    · intro b hb
      rw [← Option.some.inj hb]
      simp
    · intro q hq1 hq
      have : q - 1 ≠ p - 1 := by omega
      simp [Function.update, this]
  · intro hno
    have hrec : receive g p v = invalidatePlayer g p := by
      cases v with
      | none => rfl
      | some a =>
        simp only [receive]
        rw [if_pos]
        by_contra hc
        simp only [not_or, not_not, Bool.not_eq_false] at hc
        exact hno ⟨a, rfl, (isValidAction_iff a).1 hc.2.2, hc.2.1⟩
    rw [hrec]
    exact hinv

/-- In the head-on game with empty answer slots, `turn_left` from player 1 is
stored; a closed channel of player 2 invalidates player 2. -/
theorem receive_answer_witness :
    ((∃ a, some ActionTurnLeft = some a ∧
        a ∈ [ActionTurnLeft, ActionTurnRight, ActionFaster, ActionSlower, ActionNOOP] ∧
        headOn.playerAnswer (1 - 1) = "") →
      (∀ a, some ActionTurnLeft = some a →
        (receive headOn 1 (some ActionTurnLeft)).playerAnswer (1 - 1) = a) ∧
      (∀ q, 1 ≤ q → q ≠ 1 →
        (receive headOn 1 (some ActionTurnLeft)).playerAnswer (q - 1) =
          headOn.playerAnswer (q - 1)) ∧
      (receive headOn 1 (some ActionTurnLeft)).Players = headOn.Players ∧
      (receive headOn 1 (some ActionTurnLeft)).playerChannel = headOn.playerChannel ∧
      (receive headOn 1 (some ActionTurnLeft)).Cells = headOn.Cells) ∧
    (receive headOn 2 none).Players 2 = some ⟨11, 20, .left, 1, false, 0, true⟩ ∧
    (receive headOn 2 none).playerChannel (2 - 1) = false :=
  ⟨(receive_answer headOn 1 (some ActionTurnLeft) ⟨10, 20, .right, 1, true, 0, true⟩
      (by decide) rfl).1,
    ((receive_answer headOn 2 none ⟨11, 20, .left, 1, true, 0, true⟩ (by decide) rfl).2
      (by rintro ⟨a, h, _⟩; exact absurd h (by simp))).1,
    ((receive_answer headOn 2 none ⟨11, 20, .left, 1, true, 0, true⟩ (by decide) rfl).2
      (by rintro ⟨a, h, _⟩; exact absurd h (by simp))).2.1⟩

/-! ## The three loops of a round and the order of the map -/

/-- Two writes by players whose id is not 0 as an `int8` commute. -/
theorem markBy_comm (cells : Int → Int → Int) (w1 w2 : Nat × Int × Int)
    (h1 : int8 w1.1 ≠ 0) (h2 : int8 w2.1 ≠ 0) :
    markBy (markBy cells w1) w2 = markBy (markBy cells w2) w1 := by
  obtain ⟨i, y1, x1⟩ := w1
  obtain ⟨j, y2, x2⟩ := w2
  simp only at h1 h2
  funext y x
  by_cases hc : (y1, x1) = (y2, x2)
  · simp only [Prod.mk.injEq] at hc
    obtain ⟨rfl, rfl⟩ := hc
    by_cases hyx : y = y1 ∧ x = x1
    · obtain ⟨rfl, rfl⟩ := hyx
      by_cases hv : cells y x = 0 <;> simp [markBy, mark, setCell, hv, h1, h2]
    · simp [markBy, mark, setCell, hyx]
  · have hc1 : ¬ (y1 = y2 ∧ x1 = x2) := by simpa using hc
    have hc2 : ¬ (y2 = y1 ∧ x2 = x1) := fun h => hc1 ⟨h.1.symm, h.2.symm⟩
    by_cases hyx1 : y = y1 ∧ x = x1
    · obtain ⟨rfl, rfl⟩ := hyx1
      simp [markBy, mark, setCell, hc1, hc2]
    · by_cases hyx2 : y = y2 ∧ x = x2
      · obtain ⟨rfl, rfl⟩ := hyx2
        simp [markBy, mark, setCell, hc1, hc2]
      · simp [markBy, mark, setCell, hyx1, hyx2]

/-- The grid after a sequence of writes does not depend on their order. -/
theorem writes_perm (ws ws1 : List (Nat × Int × Int)) (cells : Int → Int → Int)
    (hp : ws.Perm ws1) (h : ∀ w ∈ ws, int8 w.1 ≠ 0) :
    ws.foldl markBy cells = ws1.foldl markBy cells :=
  hp.foldl_eq' (fun a ha b hb z => (markBy_comm z a b (h a ha) (h b hb))) cells

theorem allWrites_perm (o o1 : List Nat) (g : Game) (hp : o.Perm o1) :
    (allWrites o g).Perm (allWrites o1 g) := by
  unfold allWrites
  exact hp.flatMap_right _

theorem actPlayer_empty (p : Player) : actPlayer "" p = { p with Active := false } := by
  simp [actPlayer]

theorem movedPlayer_of_inactive (W H : Int) (p : Player) (h : p.Active = false) :
    movedPlayer W H p = p := by
  simp [movedPlayer, h]

theorem crashedPlayer_of_inactive (cells : Int → Int → Int) (p : Player)
    (h : p.Active = false) : crashedPlayer cells p = p := by
  simp [crashedPlayer, h]

/-- The three loops of a round started from two games that agree on the
size, the grid, the answers and on what "Process Actions" leaves in the map
end in the same grid and the same map, whatever the orders. -/
theorem phases_congr (g g1 : Game) (ao mo co ao1 mo1 co1 : List Nat)
    (hao : keysOf g ao) (hmo : keysOf g mo) (hco : keysOf g co)
    (hao1 : keysOf g1 ao1) (hmo1 : keysOf g1 mo1) (hco1 : keysOf g1 co1)
    (hids : ∀ i, (g.Players i).isSome = true → int8 i ≠ 0)
    (hW : g1.Width = g.Width) (hH : g1.Height = g.Height) (hC : g1.Cells = g.Cells)
    (hP : ∀ j, (g1.Players j).map (actPlayer (g1.playerAnswer (j - 1))) =
      (g.Players j).map (actPlayer (g.playerAnswer (j - 1)))) :
    ∃ r r1, checkCrashes co (doMovement mo (processActions ao g)) = some r ∧
      checkCrashes co1 (doMovement mo1 (processActions ao1 g1)) = some r1 ∧
      r1.Cells = r.Cells ∧ r1.Players = r.Players ∧ r1.Width = r.Width ∧
      r1.Height = r.Height := by
  have hkey : ∀ j, (g1.Players j).isSome = (g.Players j).isSome := by
    intro j
    have := congrArg Option.isSome (hP j)
    simpa using this
  have hpl : ∀ j, (processActions ao g).Players j =
      (g.Players j).map (actPlayer (g.playerAnswer (j - 1))) := by
    intro j
    rw [processActions_Players ao hao.1 g j]
    by_cases hj : j ∈ ao
    · rw [if_pos hj]
    · rw [if_neg hj]
      have : (g.Players j).isSome = false := by
        have := (hao.2 j).not.mp hj
        simpa using this
      cases hq : g.Players j with
      | none => rfl
      | some q => rw [hq] at this; simp at this
  have hpl1 : ∀ j, (processActions ao1 g1).Players j =
      (g.Players j).map (actPlayer (g.playerAnswer (j - 1))) := by
    intro j
    rw [processActions_Players ao1 hao1.1 g1 j, ← hP j]
    by_cases hj : j ∈ ao1
    · rw [if_pos hj]
    · rw [if_neg hj]
      have : (g1.Players j).isSome = false := by
        have := (hao1.2 j).not.mp hj
        simpa using this
      cases hq : g1.Players j with
      | none => rfl
      | some q => rw [hq] at this; simp at this
  have hsub : ∀ i ∈ co, i ∈ mo := fun i hi => (hmo.2 i).2 ((hco.2 i).1 hi)
  have hsub1 : ∀ i ∈ co1, i ∈ mo1 := fun i hi => (hmo1.2 i).2 ((hco1.2 i).1 hi)
  obtain ⟨r, er, rW, rH, rC, -, rP⟩ :=
    moveCrash_eq mo co hmo.1 hco.1 hsub (processActions ao g)
  obtain ⟨r1, er1, r1W, r1H, r1C, -, r1P⟩ :=
    moveCrash_eq mo1 co1 hmo1.1 hco1.1 hsub1 (processActions ao1 g1)
  have fa := processActions_frame ao g
  have fa1 := processActions_frame ao1 g1
  have hperm : mo.Perm mo1 := by
    rw [List.perm_ext_iff_of_nodup hmo.1 hmo1.1]
    intro i
    rw [hmo.2 i, hmo1.2 i, hkey i]
  have hws : allWrites mo1 (processActions ao1 g1) = allWrites mo1 (processActions ao g) :=
    allWrites_congr mo1 (processActions ao g) (processActions ao1 g1)
      (by rw [fa1.1, fa.1, hW]) (by rw [fa1.2.1, fa.2.1, hH])
      (fun i _ => by rw [hpl, hpl1])
  have hcells : r1.Cells = r.Cells := by
    rw [r1C, rC, hws, fa1.2.2.1, fa.2.2.1, hC]
    symm
    apply writes_perm _ _ _ (allWrites_perm mo mo1 _ hperm)
    intro w hw
    obtain ⟨i, c⟩ := w
    have hi := ((mem_allWrites mo _ i c).1 hw).1
    exact hids i ((hmo.2 i).1 hi)
  refine ⟨r, r1, er, er1, hcells, ?_, by rw [r1W, rW, fa1.1, fa.1, hW],
    by rw [r1H, rH, fa1.2.1, fa.2.1, hH]⟩
  funext j
  rw [r1P j, rP j, ← r1C, ← rC, hcells, hpl, hpl1, fa1.1, fa.1, fa1.2.1, fa.2.1, hW, hH]
  have e1 : (j ∈ co1) = (j ∈ co) := by
    rw [hco.2 j, hco1.2 j, hkey j]
  have e2 : (j ∈ mo1) = (j ∈ mo) := by
    rw [hmo.2 j, hmo1.2 j, hkey j]
  simp only [e1, e2]

theorem keysOf_invalidate (g : Game) (o : List Nat) (i : Nat) (h : keysOf g o) :
    keysOf (invalidatePlayer g i) o := by
  refine ⟨h.1, fun j => ?_⟩
  rw [h.2 j, invalidatePlayer_Players]
  by_cases hj : j = i
  · subst hj
    cases g.Players j <;> simp
  · rw [if_neg hj]

/-- A map with exactly the keys 1 and 2 is visited in the order 1, 2 or in
the order 2, 1. -/
theorem keysOf_two (g : Game) (p1 p2 : Player)
    (h : g.Players = fun i => if i = 1 then some p1 else if i = 2 then some p2 else none) :
    keysOf g [1, 2] ∧ keysOf g [2, 1] ∧
      ∀ j, (g.Players j).isSome = true → 1 ≤ j ∧ j ≤ PlayersPerGame := by
  have hk : ∀ j, (g.Players j).isSome = true ↔ j = 1 ∨ j = 2 := by
    intro j
    rw [h]
    by_cases h1 : j = 1
    · simp [h1]
    · by_cases h2 : j = 2 <;> simp [h1, h2]
  refine ⟨⟨by decide, fun j => ?_⟩, ⟨by decide, fun j => ?_⟩, fun j hj => ?_⟩
  · rw [hk j]; simp
  · rw [hk j]; simp [or_comm]
  · rcases (hk j).1 hj with rfl | rfl <;> simp [PlayersPerGame]

/-- C12: a player `i` whose answer slot is empty when the round is processed.
After the three loops of the round (in any orders of the keys) the record of
`i` is the one it had with `Active = false`: position, direction, speed and
step counter are unchanged; the movement loop writes no cell for `i`; and the
grid and the whole map of players are the ones the three loops (in any
orders) produce from the game in which `i` had been invalidated before the
round. -/
theorem silent_player (g : Game) (ao mo co ao1 mo1 co1 : List Nat) (i : Nat) (p : Player)
    (hao : keysOf g ao) (hmo : keysOf g mo) (hco : keysOf g co)
    (hao1 : keysOf g ao1) (hmo1 : keysOf g mo1) (hco1 : keysOf g co1)
    (hids : ∀ j, (g.Players j).isSome = true → 1 ≤ j ∧ j ≤ PlayersPerGame)
    (hp : g.Players i = some p) (hans : g.playerAnswer (i - 1) = "") :
    ∃ r r1, checkCrashes co (doMovement mo (processActions ao g)) = some r ∧
      checkCrashes co1 (doMovement mo1 (processActions ao1 (invalidatePlayer g i))) =
        some r1 ∧
      r.Players i = some { p with Active := false } ∧
      playerWrites (processActions ao g) i = [] ∧
      r1.Cells = r.Cells ∧ r1.Players = r.Players ∧ r1.Width = r.Width ∧
      r1.Height = r.Height := by
  have fi := invalidatePlayer_frame g i
  have hPP : ∀ j, ((invalidatePlayer g i).Players j).map
        (actPlayer ((invalidatePlayer g i).playerAnswer (j - 1))) =
      (g.Players j).map (actPlayer (g.playerAnswer (j - 1))) := by
    intro j
    rw [fi.2.2.2.1, invalidatePlayer_Players]
    by_cases hj : j = i
    · subst hj
      rw [if_pos rfl, hp, hans]
      simp [actPlayer_empty]
    · rw [if_neg hj]
  obtain ⟨r, r1, er, er1, hC, hP, hW, hH⟩ :=
    phases_congr g (invalidatePlayer g i) ao mo co ao1 mo1 co1 hao hmo hco
      (keysOf_invalidate g ao1 i hao1) (keysOf_invalidate g mo1 i hmo1)
      (keysOf_invalidate g co1 i hco1)
      (fun j hj => int8_id_ne_zero j (hids j hj).1 (hids j hj).2)
      fi.1 fi.2.1 fi.2.2.1 hPP
  have hi_ao : i ∈ ao := (hao.2 i).2 (by rw [hp]; rfl)
  have hi_mo : i ∈ mo := (hmo.2 i).2 (by rw [hp]; rfl)
  have hi_co : i ∈ co := (hco.2 i).2 (by rw [hp]; rfl)
  have hga : (processActions ao g).Players i = some { p with Active := false } := by
    rw [processActions_Players ao hao.1 g i, if_pos hi_ao, hp, hans]
    simp [actPlayer_empty]
  obtain ⟨r0, er0, -, -, -, -, rP⟩ :=
    moveCrash_eq mo co hmo.1 hco.1 (fun k hk => (hmo.2 k).2 ((hco.2 k).1 hk))
      (processActions ao g)
  have hrr : r0 = r := Option.some.inj (er0.symm.trans er)
  subst hrr
  refine ⟨r0, r1, er, er1, ?_, ?_, hC, hP, hW, hH⟩
  · rw [rP i, if_pos hi_co, hga]
    simp only [Option.map_some']
    rw [movedPlayer_of_inactive _ _ _ rfl, crashedPlayer_of_inactive _ _ rfl]
  · unfold playerWrites
    rw [hga]
    rfl

/-- In `silentGame` player 1 is silent: after the round it stands inactive at
(10,20) facing right with speed 1 and step counter 0, and the round ends as
the round from the game in which it was invalidated before, visited in the
other order. -/
theorem silent_player_witness :
    ∃ r r1, checkCrashes [1, 2] (doMovement [1, 2] (processActions [1, 2] silentGame)) =
        some r ∧
      checkCrashes [2, 1] (doMovement [2, 1]
        (processActions [2, 1] (invalidatePlayer silentGame 1))) = some r1 ∧
      r.Players 1 = some { (⟨10, 20, .right, 1, true, 0, true⟩ : Player) with Active := false } ∧
      playerWrites (processActions [1, 2] silentGame) 1 = [] ∧
      r1.Cells = r.Cells ∧ r1.Players = r.Players ∧ r1.Width = r.Width ∧
      r1.Height = r.Height :=
  silent_player silentGame [1, 2] [1, 2] [1, 2] [2, 1] [2, 1] [2, 1] 1
    ⟨10, 20, .right, 1, true, 0, true⟩
    (keysOf_two silentGame _ _ rfl).1 (keysOf_two silentGame _ _ rfl).1
    (keysOf_two silentGame _ _ rfl).1 (keysOf_two silentGame _ _ rfl).2.1
    (keysOf_two silentGame _ _ rfl).2.1 (keysOf_two silentGame _ _ rfl).2.1
    (keysOf_two silentGame _ _ rfl).2.2 rfl rfl

/-- C13: for a game with player ids between 1 and `PlayersPerGame` and a
vector of answers, the state after "Process Actions", "Do Movement" and
"Check crash" — the grid, the size and the whole map of player records — is
the same for any two choices of the three visiting orders, and it is the
state obtained by visiting the players in ascending order of their ids in
all three loops. -/
theorem round_order_independent (g : Game) (ao mo co ao1 mo1 co1 : List Nat)
    (hao : keysOf g ao) (hmo : keysOf g mo) (hco : keysOf g co)
    (hao1 : keysOf g ao1) (hmo1 : keysOf g mo1) (hco1 : keysOf g co1)
    (hids : ∀ j, (g.Players j).isSome = true → 1 ≤ j ∧ j ≤ PlayersPerGame) :
    ∃ r r1 r2, checkCrashes co (doMovement mo (processActions ao g)) = some r ∧
      checkCrashes co1 (doMovement mo1 (processActions ao1 g)) = some r1 ∧
      r1.Cells = r.Cells ∧ r1.Players = r.Players ∧ r1.Width = r.Width ∧
      r1.Height = r.Height ∧
      (ao.insertionSort (· ≤ ·)).Sorted (· ≤ ·) ∧
      checkCrashes (ao.insertionSort (· ≤ ·)) (doMovement (ao.insertionSort (· ≤ ·))
        (processActions (ao.insertionSort (· ≤ ·)) g)) = some r2 ∧
      r2.Cells = r.Cells ∧ r2.Players = r.Players ∧ r2.Width = r.Width ∧
      r2.Height = r.Height := by
  have hnz : ∀ j, (g.Players j).isSome = true → int8 j ≠ 0 :=
    fun j hj => int8_id_ne_zero j (hids j hj).1 (hids j hj).2
  have hasc : keysOf g (ao.insertionSort (· ≤ ·)) :=
    ⟨(List.perm_insertionSort _ ao).nodup_iff.2 hao.1,
      fun j => ((List.perm_insertionSort _ ao).mem_iff).trans (hao.2 j)⟩
  obtain ⟨r, r1, er, er1, hC, hP, hW, hH⟩ :=
    phases_congr g g ao mo co ao1 mo1 co1 hao hmo hco hao1 hmo1 hco1 hnz rfl rfl rfl
      (fun _ => rfl)
  obtain ⟨r0, r2, er0, er2, hC2, hP2, hW2, hH2⟩ :=
    phases_congr g g ao mo co _ _ _ hao hmo hco hasc hasc hasc hnz rfl rfl rfl
      (fun _ => rfl)
  have hrr : r0 = r := Option.some.inj (er0.symm.trans er)
  subst hrr
  exact ⟨r0, r1, r2, er, er1, hC, hP, hW, hH, List.sorted_insertionSort _ ao, er2, hC2,
    hP2, hW2, hH2⟩

/-- In `sideOn` both players move onto the cell (11,20): visiting them in the
orders 1, 2 / 2, 1 / 1, 2 or in the orders 2, 1 / 1, 2 / 2, 1 gives the same
state. -/
theorem round_order_independent_witness :
    ∃ r r1 r2, checkCrashes [1, 2] (doMovement [2, 1] (processActions [1, 2] sideOn)) =
        some r ∧
      checkCrashes [2, 1] (doMovement [1, 2] (processActions [2, 1] sideOn)) = some r1 ∧
      r1.Cells = r.Cells ∧ r1.Players = r.Players ∧ r1.Width = r.Width ∧
      r1.Height = r.Height ∧
      (([1, 2] : List Nat).insertionSort (· ≤ ·)).Sorted (· ≤ ·) ∧
      checkCrashes (([1, 2] : List Nat).insertionSort (· ≤ ·))
        (doMovement (([1, 2] : List Nat).insertionSort (· ≤ ·))
          (processActions (([1, 2] : List Nat).insertionSort (· ≤ ·)) sideOn)) = some r2 ∧
      r2.Cells = r.Cells ∧ r2.Players = r.Players ∧ r2.Width = r.Width ∧
      r2.Height = r.Height :=
  round_order_independent sideOn [1, 2] [2, 1] [1, 2] [2, 1] [1, 2] [2, 1]
    (keysOf_two sideOn _ _ rfl).1 (keysOf_two sideOn _ _ rfl).2.1
    (keysOf_two sideOn _ _ rfl).1 (keysOf_two sideOn _ _ rfl).2.1
    (keysOf_two sideOn _ _ rfl).1 (keysOf_two sideOn _ _ rfl).2.1
    (keysOf_two sideOn _ _ rfl).2.2

/-! ## The lookahead bots: revert undoes progress -/

theorem clearCells_eq (W H : Int) (rc : List (Int × Int)) (cells : Int → Int → Int)
    (h : ∀ c ∈ rc, inGrid W H c.1 c.2 = true) :
    clearCells W H rc cells = some (fun y x => if (x, y) ∈ rc then 0 else cells y x) := by
  induction rc generalizing cells with
  | nil => simp [clearCells]
  | cons c rest ih =>
    rw [clearCells, if_pos (h c (List.mem_cons_self _ _)),
      ih _ (fun c1 hc1 => h c1 (List.mem_cons_of_mem _ hc1))]
    congr 1
    funext y x
    obtain ⟨cx, cy⟩ := c
    by_cases hin : (x, y) ∈ rest
    · simp [hin]
    · by_cases he : (x, y) = (cx, cy)
      · simp only [Prod.mk.injEq] at he
        simp [setCell, he]
      · have he1 : ¬ (y = cy ∧ x = cx) := by
          intro hh
          exact he (by rw [hh.1, hh.2])
        simp [setCell, hin, he, he1]

theorem loopKeeps_refl (W H : Int) (st : Lookahead) (x y : Int) (j : Bool) :
    loopKeeps W H st { st with X := x, Y := y, jump := j } :=
  ⟨fun _ hc => Or.inl hc, fun _ _ => rfl⟩

theorem loopKeeps_step (W H : Int) (st l : Lookahead) (x y : Int)
    (hin : ¬ (x < 0 ∨ x ≥ W ∨ y < 0 ∨ y ≥ H)) (hz : st.Cells y x = 0)
    (h : loopKeeps W H
      { st with Cells := setCell st.Cells y x (-33), X := x, Y := y,
                rCells := st.rCells ++ [(x, y)] } l) :
    loopKeeps W H st l := by
  obtain ⟨h1, h2⟩ := h
  constructor
  · intro c hc
    rcases h1 c hc with hm | hg
    · rcases List.mem_append.mp hm with hm1 | hm2
      · exact Or.inl hm1
      · right
        have : c = (x, y) := by simpa using hm2
        subst this
        simp only [inGrid]
        simp only [not_or, not_lt, ge_iff_le, not_le] at hin
        simp only [ge_iff_le, Bool.not_eq_true', Bool.or_eq_false_iff, decide_eq_false_iff_not,
          not_lt, not_le]
        exact ⟨⟨⟨hin.1, hin.2.1⟩, hin.2.2.1⟩, hin.2.2.2⟩
    · exact Or.inr hg
  · intro y1 x1
    rw [h2 y1 x1]
    by_cases he : (x1, y1) = (x, y)
    · simp only [Prod.mk.injEq] at he
      obtain ⟨rfl, rfl⟩ := he
      simp [hz]
    · have he1 : ¬ (y1 = y ∧ x1 = x) := by
        intro hh
        exact he (by rw [hh.1, hh.2])
      simp [setCell, he, he1]

theorem progressLoop_keeps (W H : Int) (d : Direction) (speed sc : Int) (n : Nat) (s : Int)
    (st : Lookahead) : loopKeeps W H st (progressLoop W H d speed sc n s st).2 := by
  induction n generalizing s st with
  | zero => exact ⟨fun _ hc => Or.inl hc, fun _ _ => rfl⟩
  | succ n ih =>
    unfold progressLoop
    simp only
    by_cases h1 : (dostep d st.X st.Y).1 < 0 ∨ (dostep d st.X st.Y).1 ≥ W ∨
        (dostep d st.X st.Y).2 < 0 ∨ (dostep d st.X st.Y).2 ≥ H
    · rw [if_pos h1]
      exact ⟨fun _ hc => Or.inl hc, fun _ _ => rfl⟩
    · rw [if_neg h1]
      by_cases h2 : isHole speed sc s = true
      · rw [if_pos h2]
        have := ih (s + 1) { st with X := (dostep d st.X st.Y).1, Y := (dostep d st.X st.Y).2 }
        exact this
      · rw [if_neg h2]
        by_cases h3 : st.Cells (dostep d st.X st.Y).2 (dostep d st.X st.Y).1 ≠ 0
        · rw [if_pos h3]
          exact ⟨fun _ hc => Or.inl hc, fun _ _ => rfl⟩
        · rw [if_neg h3]
          exact loopKeeps_step W H st _ _ _ h1 (not_not.mp h3) (ih _ _)

theorem jumpLoop_keeps (W H : Int) (d : Direction) (speed sc : Int) (n : Nat) (s : Int)
    (st : Lookahead) : loopKeeps W H st (jumpLoop W H d speed sc n s st).2 := by
  induction n generalizing s st with
  | zero => exact ⟨fun _ hc => Or.inl hc, fun _ _ => rfl⟩
  | succ n ih =>
    unfold jumpLoop
    simp only
    by_cases h1 : (dostep d st.X st.Y).1 < 0 ∨ (dostep d st.X st.Y).1 ≥ W ∨
        (dostep d st.X st.Y).2 < 0 ∨ (dostep d st.X st.Y).2 ≥ H
    · rw [if_pos h1]
      exact ⟨fun _ hc => Or.inl hc, fun _ _ => rfl⟩
    · rw [if_neg h1]
      by_cases h2 : isHole speed sc s = true
      · rw [if_pos h2]
        exact ih (s + 1) _
      · rw [if_neg h2]
        by_cases h3 : st.Cells (dostep d st.X st.Y).2 (dostep d st.X st.Y).1 ≠ 0
        · rw [if_pos h3]
          exact ⟨fun _ hc => Or.inl hc, fun _ _ => rfl⟩
        · rw [if_neg h3]
          exact loopKeeps_step W H st _ _ _ h1 (not_not.mp h3) (ih _ _)

theorem botSwitch_keeps (b : Bool) (command : String) (p : Player) :
    (botSwitch b command p).2.Active = p.Active ∧ (botSwitch b command p).2.Input = p.Input := by
  unfold botSwitch
  split_ifs <;> exact ⟨rfl, rfl⟩

/-- Reverting with the fields of `p` a game in which only the record of
`player` was replaced gives the game back. -/
theorem revertWith_setPlayer (g : Game) (player : Nat) (p q : Player)
    (hp : g.Players player = some p) (hA : q.Active = p.Active) (hI : q.Input = p.Input) :
    revertWith (setPlayer g player q) player (Revert.ofPlayer p) = some g := by
  have hq : (setPlayer g player q).Players player = some q := by simp [setPlayer]
  unfold revertWith
  rw [hq]
  simp only [Revert.ofPlayer, clearCells]
  congr 1
  obtain ⟨W, H, C, P, M, N, A, Ch, Y, R⟩ := g
  obtain ⟨qx, qy, qd, qs, qa, qc, qi⟩ := q
  obtain ⟨px, py, pd, ps, pa, pc, pi⟩ := p
  simp only at hA hI hp
  subst hA hI
  simp only [setPlayer, Function.update_idem, Game.mk.injEq, true_and, and_true]
  rw [← hp]
  exact Function.update_eq_self _ _

/-- Reverting the game left by the stepping loop. -/
theorem revertWith_afterLoop (g : Game) (player : Nat) (p q : Player) (l : Lookahead)
    (hp : g.Players player = some p) (hA : q.Active = p.Active) (hI : q.Input = p.Input)
    (hk : loopKeeps g.Width g.Height ⟨g.Cells, q.X, q.Y, [], false⟩ l) :
    revertWith (afterLoop g player q l) player { Revert.ofPlayer p with Cells := l.rCells } =
      some g := by
  have hq : (afterLoop g player q l).Players player = some { q with X := l.X, Y := l.Y } := by
    simp [afterLoop, setPlayer]
  have hc : clearCells g.Width g.Height l.rCells l.Cells = some g.Cells := by
    rw [clearCells_eq _ _ _ _ (fun c hc => by
      rcases hk.1 c hc with h | h
      · simp at h
      · exact h)]
    congr 1
    funext y x
    have := hk.2 y x
    simpa using this
  unfold revertWith
  rw [hq]
  have hW : (afterLoop g player q l).Width = g.Width := rfl
  have hH : (afterLoop g player q l).Height = g.Height := rfl
  have hC : (afterLoop g player q l).Cells = l.Cells := rfl
  rw [hW, hH, hC]
  simp only [hc, Revert.ofPlayer]
  congr 1
  obtain ⟨W, H, C, P, M, N, A, Ch, Y, R⟩ := g
  obtain ⟨qx, qy, qd, qs, qa, qc, qi⟩ := q
  obtain ⟨px, py, pd, ps, pa, pc, pi⟩ := p
  simp only at hA hI hp
  subst hA hI
  simp only [afterLoop, setPlayer, Function.update_idem, Game.mk.injEq, true_and, and_true]
  rw [← hp]
  exact Function.update_eq_self _ _

theorem superRandom_roundtrip (g : Game) (player : Nat) (command : String) (p : Player)
    (hp : g.Players player = some p) (hs : 0 ≤ p.Speed) :
    ∃ b r g1, SuperRandomAI.progress g player command = some (b, r, g1) ∧
      SuperRandomAI.revert g1 player r = some g := by
  unfold SuperRandomAI.progress SuperRandomAI.revert
  rw [hp]
  simp only [if_neg (not_lt.mpr hs)]
  have hk := botSwitch_keeps false command p
  by_cases hsw : (botSwitch false command p).1 = false
  · rw [if_pos hsw]
    exact ⟨_, _, _, rfl, revertWith_setPlayer g player p _ hp hk.1 hk.2⟩
  · rw [if_neg hsw]
    exact ⟨_, _, _, rfl, revertWith_afterLoop g player p _ _ hp hk.1 hk.2
      (progressLoop_keeps _ _ _ _ _ _ _ _)⟩

theorem superSnail_roundtrip (g : Game) (player : Nat) (command : String) (p : Player)
    (hp : g.Players player = some p) (hs : 0 ≤ p.Speed) :
    ∃ b r g1, SuperSnailAI.progress g player command = some (b, r, g1) ∧
      SuperSnailAI.revert g1 player r = some g := by
  unfold SuperSnailAI.progress SuperSnailAI.revert
  rw [hp]
  simp only [if_neg (not_lt.mpr hs)]
  have hk := botSwitch_keeps true command p
  by_cases hsw : (botSwitch true command p).1 = false
  · rw [if_pos hsw]
    exact ⟨_, _, _, rfl, revertWith_setPlayer g player p _ hp hk.1 hk.2⟩
  · rw [if_neg hsw]
    exact ⟨_, _, _, rfl, revertWith_afterLoop g player p _ _ hp hk.1 hk.2
      (progressLoop_keeps _ _ _ _ _ _ _ _)⟩

theorem jump_roundtrip (g : Game) (player : Nat) (command : String) (p : Player)
    (hp : g.Players player = some p) (hs : 0 ≤ p.Speed) :
    ∃ c r g1, JumpAI.progress g player command = some (c, r, g1) ∧
      (c = jumpAIprogressNormal ∨ c = jumpAIprogressJump ∨ c = jumpAIprogressCrash) ∧
      JumpAI.revert g1 player r = some g := by
  unfold JumpAI.progress JumpAI.revert
  rw [hp]
  simp only [if_neg (not_lt.mpr hs)]
  have hk := botSwitch_keeps false command p
  by_cases hsw : (botSwitch false command p).1 = false
  · rw [if_pos hsw]
    exact ⟨_, _, _, rfl, Or.inr (Or.inr rfl), revertWith_setPlayer g player p _ hp hk.1 hk.2⟩
  · rw [if_neg hsw]
    refine ⟨_, _, _, rfl, ?_, revertWith_afterLoop g player p _ _ hp hk.1 hk.2
      (jumpLoop_keeps _ _ _ _ _ _ _ _)⟩
    split_ifs
    · exact Or.inr (Or.inr rfl)
    · exact Or.inr (Or.inl rfl)
    · exact Or.inl rfl

/-- C16: for each of SuperRandomAI, JumpAI and SuperSnailAI, for every game
`g`, every key `player` of its map (with a speed that is not negative) and
every action string `command`: `progress g player command` returns a result
(for JumpAI one of normal, jump, crash), a record `r` and leaves a game `g1`,
and `revert g1 player r` leaves the game `g` itself: the whole grid and every
field of the player are as before the call of `progress`. -/
theorem progress_then_revert (g : Game) (player : Nat) (command : String) (p : Player)
    (hp : g.Players player = some p) (hs : 0 ≤ p.Speed) :
    (∃ b r g1, SuperRandomAI.progress g player command = some (b, r, g1) ∧
      SuperRandomAI.revert g1 player r = some g) ∧
    (∃ c r g1, JumpAI.progress g player command = some (c, r, g1) ∧
      (c = jumpAIprogressNormal ∨ c = jumpAIprogressJump ∨ c = jumpAIprogressCrash) ∧
      JumpAI.revert g1 player r = some g) ∧
    (∃ b r g1, SuperSnailAI.progress g player command = some (b, r, g1) ∧
      SuperSnailAI.revert g1 player r = some g) :=
  ⟨superRandom_roundtrip g player command p hp hs, jump_roundtrip g player command p hp hs,
    superSnail_roundtrip g player command p hp hs⟩

/-- In `holeSkip` player 1 has speed 3 and its next step is a hole step over
the trail on (7,5): `change_nothing` is survived by the three bots (a jump for
JumpAI) and reverted. -/
theorem progress_then_revert_witness :
    (∃ b r g1, SuperRandomAI.progress holeSkip 1 ActionNOOP = some (b, r, g1) ∧
      SuperRandomAI.revert g1 1 r = some holeSkip) ∧
    (∃ c r g1, JumpAI.progress holeSkip 1 ActionNOOP = some (c, r, g1) ∧
      (c = jumpAIprogressNormal ∨ c = jumpAIprogressJump ∨ c = jumpAIprogressCrash) ∧
      JumpAI.revert g1 1 r = some holeSkip) ∧
    (∃ b r g1, SuperSnailAI.progress holeSkip 1 ActionNOOP = some (b, r, g1) ∧
      SuperSnailAI.revert g1 1 r = some holeSkip) :=
  progress_then_revert holeSkip 1 ActionNOOP ⟨5, 5, .right, 3, true, 5, true⟩ rfl (by decide)

/-- C17 fails on the code: the `break` of the loop of `getLength` leaves the
loop before `revert`.  On the game `alone` (the bot on (5,5) facing right with
step counter 0, the cell (5,4) empty) the call `getLength(1, g)` returns 1 and
leaves the bot on (5,4) facing up with step counter 1 and the cell (5,4)
holding -33; the call `getLength(superRandomAIPathLength, g)` returns 12 and
leaves the bot on (7,5) with step counter 12 and the cell (5,4) holding -33. -/
theorem getLength_not_reverted :
    (SuperRandomAI.getLength 1 alone).map (fun r => (r.1, r.2.Players 1, r.2.Cells 4 5)) =
      some (1, some ⟨5, 4, .up, 1, true, 1, false⟩, -33) ∧
    (SuperRandomAI.getLength superRandomAIPathLength alone).map
        (fun r => (r.1, r.2.Players 1, r.2.Cells 4 5)) =
      some (12, some ⟨7, 5, .right, 1, true, 12, false⟩, -33) ∧
    alone.Players 1 = some ⟨5, 5, .right, 1, true, 0, false⟩ ∧ alone.Cells 4 5 = 0 := by
  refine ⟨?_, ?_, ?_, ?_⟩ <;> decide!

/-! ## RandomAISlow: the choice among the candidates -/

theorem deadZone_frame (g : Game) (k : Nat) :
    (deadZone g k).Players = g.Players ∧ (deadZone g k).You = g.You ∧
    (deadZone g k).Running = g.Running := by
  unfold deadZone
  split_ifs
  · exact ⟨rfl, rfl, rfl⟩
  · cases g.Players k with
    | none => exact ⟨rfl, rfl, rfl⟩
    | some q =>
      simp only
      split_ifs <;> exact ⟨rfl, rfl, rfl⟩

theorem fillDeadZones_frame (order : List Nat) (g : Game) :
    (fillDeadZones order g).Players = g.Players ∧ (fillDeadZones order g).You = g.You ∧
    (fillDeadZones order g).Running = g.Running := by
  induction order generalizing g with
  | nil => exact ⟨rfl, rfl, rfl⟩
  | cons k rest ih =>
    have h1 := ih (deadZone g k)
    have h2 := deadZone_frame g k
    simp only [fillDeadZones, List.foldl_cons] at h1 ⊢
    exact ⟨h1.1.trans h2.1, h1.2.1.trans h2.2.1, h1.2.2.trans h2.2.2⟩

/-- Writing the record a key already has changes nothing. -/
theorem setPlayer_same (g : Game) (i : Nat) (p q r : Player) (hp : g.Players i = some p) :
    setPlayer (setPlayer (setPlayer g i q) i r) i p = g := by
  obtain ⟨W, H, C, P, M, N, A, Ch, Y, R⟩ := g
  simp only at hp
  simp only [setPlayer, Function.update_idem, Game.mk.injEq, true_and, and_true]
  rw [← hp]
  exact Function.update_eq_self _ _

theorem undo_do (a : String) (p : Player)
    (ha : a = ActionTurnLeft ∨ a = ActionTurnRight ∨ a = ActionNOOP) :
    (doCandidate a p).1 = true ∧ undoCandidate a (doCandidate a p).2 = p := by
  have e1 : ActionTurnRight ≠ ActionTurnLeft := by decide
  have e2 : ActionNOOP ≠ ActionTurnLeft := by decide
  have e3 : ActionNOOP ≠ ActionTurnRight := by decide
  have e4 : ActionNOOP ≠ ActionFaster := by decide
  have e5 : ActionNOOP ≠ ActionSlower := by decide
  obtain ⟨x, y, d, s, act, sc, inp⟩ := p
  rcases ha with rfl | rfl | rfl
  · cases d <;> simp [doCandidate, undoCandidate, TurnLeft, TurnRight]
  · cases d <;> simp [doCandidate, undoCandidate, TurnLeft, TurnRight, e1]
  · simp [doCandidate, undoCandidate, e2, e3, e4, e5]

/-- One pass of the body of "test actions" for a candidate that is a turn or
`change_nothing`: the game is left as it was. -/
theorem testActions_cons (first a : String) (rest : List String) (fb : String) (g : Game)
    (p : Player) (hp : g.Players g.You = some p)
    (ha : a = ActionTurnLeft ∨ a = ActionTurnRight ∨ a = ActionNOOP) :
    ∃ code, classify g a = some code ∧
      testActions first (a :: rest) fb g =
        if code = .randomAINoCrash then some a
        else testActions first rest (if code = .randomAIMaybeCrash then a else fb) g := by
  obtain ⟨hd, hu⟩ := undo_do a p ha
  have hq : (setPlayer g g.You (doCandidate a p).2).Players
      (setPlayer g g.You (doCandidate a p).2).You = some (doCandidate a p).2 := by
    simp [setPlayer]
  refine ⟨crashScan g.Width g.Height g.Cells (doCandidate a p).2.Direction
    (doCandidate a p).2.Speed (doCandidate a p).2.stepCounter (doCandidate a p).2.Speed.toNat 0
    (doCandidate a p).2.X (doCandidate a p).2.Y, ?_, ?_⟩
  · unfold classify RandomAISlow.willCrash
    rw [hp]
    simp only [hq, Option.map_some']
    rfl
  · rw [testActions, hp]
    simp only [hd, Bool.true_eq_false, if_false]
    unfold RandomAISlow.willCrash
    simp only [hq]
    have hW : (setPlayer g g.You (doCandidate a p).2).Width = g.Width := rfl
    have hH : (setPlayer g g.You (doCandidate a p).2).Height = g.Height := rfl
    have hC : (setPlayer g g.You (doCandidate a p).2).Cells = g.Cells := rfl
    have hY : (setPlayer g g.You (doCandidate a p).2).You = g.You := rfl
    rw [hW, hH, hC, hY]
    have hq2 : (setPlayer (setPlayer g g.You (doCandidate a p).2) g.You
          { (doCandidate a p).2 with X := (doCandidate a p).2.X,
                                     Y := (doCandidate a p).2.Y }).Players
        (setPlayer (setPlayer g g.You (doCandidate a p).2) g.You
          { (doCandidate a p).2 with X := (doCandidate a p).2.X,
                                     Y := (doCandidate a p).2.Y }).You =
        some (doCandidate a p).2 := by
      simp [setPlayer]
    have hY2 : (setPlayer (setPlayer g g.You (doCandidate a p).2) g.You
          { (doCandidate a p).2 with X := (doCandidate a p).2.X,
                                     Y := (doCandidate a p).2.Y }).You = g.You := rfl
    split_ifs with hc hm
    · rfl
    all_goals
      simp only [hq2]
      rw [hY2, hu, setPlayer_same g g.You p _ _ hp]

theorem getLast_cons_getD (a fb : String) (l : List String) :
    ((a :: l).getLast?).getD fb = (l.getLast?).getD a := by
  cases l with
  | nil => rfl
  | cons b l =>
    rw [List.getLast?_cons_cons]
    cases h : (b :: l).getLast? with
    | none => simp at h
    | some c => rfl

/-- The loop "test actions" over candidates that are turns or
`change_nothing`, in closed form. -/
theorem testActions_eq (first : String) (l : List String) (fb : String) (g : Game)
    (p : Player) (hp : g.Players g.You = some p)
    (hl : ∀ a ∈ l, a = ActionTurnLeft ∨ a = ActionTurnRight ∨ a = ActionNOOP) :
    testActions first l fb g =
      some ((l.find? (fun a => classify g a = some .randomAINoCrash)).getD
        (if ((l.filter (fun a => classify g a = some .randomAIMaybeCrash)).getLast?).getD fb ≠ ""
          then ((l.filter (fun a => classify g a = some .randomAIMaybeCrash)).getLast?).getD fb
          else first)) := by
  induction l generalizing fb with
  | nil => simp [testActions]
  | cons a rest ih =>
    obtain ⟨code, hcl, hstep⟩ :=
      testActions_cons first a rest fb g p hp (hl a (List.mem_cons_self _ _))
    rw [hstep]
    have ihr := fun fb1 => ih fb1 (fun b hb => hl b (List.mem_cons_of_mem _ hb))
    by_cases hc : code = .randomAINoCrash
    · rw [if_pos hc]
      simp [List.find?_cons, hcl, hc]
    · rw [if_neg hc, ihr]
      have hf : (a :: rest).find? (fun a => classify g a = some .randomAINoCrash) =
          rest.find? (fun a => classify g a = some .randomAINoCrash) := by
        simp [List.find?_cons, hcl, hc]
      rw [hf]
      by_cases hm : code = .randomAIMaybeCrash
      · have hfi : (a :: rest).filter (fun a => classify g a = some .randomAIMaybeCrash) =
            a :: rest.filter (fun a => classify g a = some .randomAIMaybeCrash) := by
          simp [List.filter_cons, hcl, hm]
        rw [if_pos hm, hfi, getLast_cons_getD]
      · have hfi : (a :: rest).filter (fun a => classify g a = some .randomAIMaybeCrash) =
            rest.filter (fun a => classify g a = some .randomAIMaybeCrash) := by
          simp [List.filter_cons, hcl, hm]
        rw [if_neg hm, hfi]

theorem randomSlowActions_mem (actions : List String) (h : actions.Perm randomSlowActions)
    (a : String) (ha : a ∈ actions) :
    a = ActionTurnLeft ∨ a = ActionTurnRight ∨ a = ActionNOOP := by
  have := h.mem_iff.1 ha
  simp only [randomSlowActions, List.mem_cons, List.mem_singleton, List.not_mem_nil,
    or_false] at this
  tauto

/-- C19, as the code has it: `RandomAISlow.GetState` on a running game in
which the bot is a player, for every order in which the map is visited and
every shuffled order `actions` of the candidate list.  With the dead zones
filled, it sends the first candidate that `willCrash` classifies as no crash;
if there is none, the last candidate in that order classified as maybe crash;
if there is none either, the first candidate of the order. -/
theorem randomSlow_choice (order : List Nat) (actions : List String) (g : Game) (p : Player)
    (hrun : g.Running = true) (hyou : g.Players g.You = some p)
    (hperm : actions.Perm randomSlowActions) :
    ∃ a, RandomAISlow.GetState true order actions g = some (some a) ∧
      lastRule (fillDeadZones order g) actions = some a := by
  have hf := fillDeadZones_frame order g
  have hp0 : (fillDeadZones order g).Players (fillDeadZones order g).You = some p := by
    rw [hf.1, hf.2.1, hyou]
  have hmem := randomSlowActions_mem actions hperm
  cases hact : actions with
  | nil =>
    have := hperm.length_eq
    rw [hact] at this
    simp [randomSlowActions] at this
  | cons first tl =>
    rw [hact] at hmem
    have ht := testActions_eq first (first :: tl) "" (fillDeadZones order g) p hp0 hmem
    have hG : RandomAISlow.GetState true order (first :: tl) g =
        (testActions first (first :: tl) "" (fillDeadZones order g)).map some := by
      unfold RandomAISlow.GetState
      simp only [hrun, Bool.true_eq_false, if_false]
    rw [hG, ht, Option.map_some']
    refine ⟨_, rfl, ?_⟩
    · unfold lastRule
      cases hfind : (first :: tl).find?
          (fun a => classify (fillDeadZones order g) a = some .randomAINoCrash) with
      | some c => simp
      | none =>
        simp only [Option.getD_none]
        cases hlast : ((first :: tl).filter
            (fun a => classify (fillDeadZones order g) a = some .randomAIMaybeCrash)).getLast? with
        | none => simp
        | some m =>
          have hm1 : m ∈ (first :: tl).filter
              (fun a => classify (fillDeadZones order g) a = some .randomAIMaybeCrash) :=
            List.mem_of_getLast?_eq_some hlast
          have hm2 := hmem m (List.mem_of_mem_filter hm1)
          have hne : m ≠ "" := by
            rcases hm2 with rfl | rfl | rfl <;> decide
          simp [hne]

/-- On the game `deadEnd` with the candidates in the order of the source's
list. -/
theorem randomSlow_choice_witness :
    ∃ a, RandomAISlow.GetState true [1, 2] randomSlowActions deadEnd = some (some a) ∧
      lastRule (fillDeadZones [1, 2] deadEnd) randomSlowActions = some a :=
  randomSlow_choice [1, 2] randomSlowActions deadEnd ⟨5, 5, .up, 1, true, 3, false⟩ rfl rfl
    (List.Perm.refl _)

/-- C19 as stated fails: on the game `deadEnd`, with the candidates in the
order `turn_left`, `turn_right`, then eight times `change_nothing`, no
candidate is classified as no crash, `turn_left` and `change_nothing` are
classified as maybe crash and `turn_right` as sure crash; the first candidate
classified as maybe crash is `turn_left`, but `GetState` sends
`change_nothing`. -/
theorem first_maybe_not_sent :
    RandomAISlow.GetState true [1, 2] randomSlowActions deadEnd = some (some ActionNOOP) ∧
    firstRule (fillDeadZones [1, 2] deadEnd) randomSlowActions = some ActionTurnLeft ∧
    classify (fillDeadZones [1, 2] deadEnd) ActionTurnLeft = some .randomAIMaybeCrash ∧
    classify (fillDeadZones [1, 2] deadEnd) ActionTurnRight = some .randomAISureCrash ∧
    classify (fillDeadZones [1, 2] deadEnd) ActionNOOP = some .randomAIMaybeCrash ∧
    RandomAISlow.GetState true [1, 2] randomSlowActions deadEnd ≠
      (firstRule (fillDeadZones [1, 2] deadEnd) randomSlowActions).map some := by
  refine ⟨?_, ?_, ?_, ?_, ?_, ?_⟩ <;> decide!

/-! ## MirrorAI: the action sent for a chosen target -/

/-- The action of "Mirror target" in terms of the engine's rotation tables. -/
theorem mirrorTarget_action (m : MirrorAI) (me t : Player) (d0 : Direction)
    (hd0 : m.targetDirection = some d0) :
    (mirrorTarget m me t).2 =
      if t.Speed > m.targetSpeed then (if me.Speed < 10 then ActionFaster else ActionNOOP)
      else if t.Speed < m.targetSpeed then (if me.Speed > 1 then ActionSlower else ActionNOOP)
      else if t.Direction = TurnLeft d0 then ActionTurnLeft
      else if t.Direction = TurnRight d0 then ActionTurnRight
      else ActionNOOP := by
  unfold mirrorTarget
  rw [hd0]
  by_cases h1 : t.Speed > m.targetSpeed
  · simp only [if_pos h1]
  · simp only [if_neg h1]
    by_cases h2 : t.Speed < m.targetSpeed
    · simp only [if_pos h2]
    · simp only [if_neg h2]
      obtain ⟨x, y, d, s, act, sc, inp⟩ := t
      cases d <;> cases d0 <;> simp [mirrorTurn, TurnLeft, TurnRight]

theorem mirrorTarget_target (m : MirrorAI) (me t : Player) :
    (mirrorTarget m me t).1.target = m.target := by
  unfold mirrorTarget
  split_ifs <;> rfl

theorem getState_mirrors (m : MirrorAI) (order : List Nat) (pick : Nat) (g : Game)
    (me t : Player) (hrun : g.Running = true) (hme : g.Players g.You = some me)
    (hact : me.Active = true) (htgt : m.target ≠ 0) (ht : g.Players m.target = some t)
    (hta : t.Active = true) :
    MirrorAI.GetState m true order pick g =
      some ((mirrorTarget m me t).1, some (mirrorTarget m me t).2) := by
  unfold MirrorAI.GetState
  simp only [hrun, Bool.true_eq_false, if_false, hme, hact, htgt, ne_eq, not_false_eq_true,
    if_true, ht, hta]

theorem actPlayer_cases (x : String) (p : Player)
    (hx : x ∈ [ActionTurnLeft, ActionTurnRight, ActionFaster, ActionSlower, ActionNOOP]) :
    (x = ActionTurnLeft ∧ (actPlayer x p).Speed = p.Speed ∧
      (actPlayer x p).Direction = TurnLeft p.Direction) ∨
    (x = ActionTurnRight ∧ (actPlayer x p).Speed = p.Speed ∧
      (actPlayer x p).Direction = TurnRight p.Direction) ∨
    (x = ActionFaster ∧ (actPlayer x p).Speed = p.Speed + 1) ∨
    (x = ActionSlower ∧ (actPlayer x p).Speed = p.Speed - 1) ∨
    (x = ActionNOOP ∧ (actPlayer x p).Speed = p.Speed ∧
      (actPlayer x p).Direction = p.Direction) := by
  have n1 : ActionTurnLeft ≠ "" := by decide
  have n2 : ActionTurnRight ≠ "" := by decide
  have n3 : ActionFaster ≠ "" := by decide
  have n4 : ActionSlower ≠ "" := by decide
  have n5 : ActionNOOP ≠ "" := by decide
  have e1 : ActionTurnRight ≠ ActionTurnLeft := by decide
  have e2 : ActionFaster ≠ ActionTurnLeft := by decide
  have e3 : ActionFaster ≠ ActionTurnRight := by decide
  have e4 : ActionSlower ≠ ActionTurnLeft := by decide
  have e5 : ActionSlower ≠ ActionTurnRight := by decide
  have e6 : ActionSlower ≠ ActionFaster := by decide
  have e7 : ActionNOOP ≠ ActionTurnLeft := by decide
  have e8 : ActionNOOP ≠ ActionTurnRight := by decide
  have e9 : ActionNOOP ≠ ActionFaster := by decide
  have e10 : ActionNOOP ≠ ActionSlower := by decide
  simp only [List.mem_cons, List.mem_singleton, List.not_mem_nil, or_false] at hx
  rcases hx with rfl | rfl | rfl | rfl | rfl
  · left; simp [actPlayer, n1]
  · right; left; simp [actPlayer, n2, e1]
  · right; right; left; simp [actPlayer, n3, e2, e3]
  · right; right; right; left; simp [actPlayer, n4, e4, e5, e6]
  · right; right; right; right; simp [actPlayer, n5, e7, e8, e9, e10]

theorem turn_ne (d : Direction) :
    TurnLeft d ≠ d ∧ TurnRight d ≠ d ∧ TurnRight d ≠ TurnLeft d := by
  cases d <;> simp [TurnLeft, TurnRight]

/-- C20: MirrorAI on a running game in which it is active (with a speed
between 1 and `MaxSpeed`), with a target chosen that is still active and the
stored direction `d0` and stored speed `m.targetSpeed`.  It sends one action
`a` and keeps its target.  If the speed of the target is above (below) the
stored speed, `a` is `speed_up` (`slow_down`), replaced by `change_nothing`
when the own speed is already 10 (1); otherwise `a` is `turn_left`
(`turn_right`) if the direction of the target is the engine's `TurnLeft`
(`TurnRight`) of `d0`, and `change_nothing` in every other case.  A `speed_up`
or `slow_down` it sends keeps the own speed between 1 and `MaxSpeed`.  And if
the record of the target is what the engine's "Process Actions" makes of a
record with the stored speed and direction for one of the five actions `x`,
then `a = x`, unless `x` is a speed change the own speed does not allow. -/
theorem mirror_action (m : MirrorAI) (order : List Nat) (pick : Nat) (g : Game)
    (me t : Player) (d0 : Direction)
    (hrun : g.Running = true) (hme : g.Players g.You = some me) (hact : me.Active = true)
    (hsp : 1 ≤ me.Speed ∧ me.Speed ≤ MaxSpeed)
    (htgt : m.target ≠ 0) (ht : g.Players m.target = some t) (hta : t.Active = true)
    (hd0 : m.targetDirection = some d0) :
    ∃ m1 a, MirrorAI.GetState m true order pick g = some (m1, some a) ∧
      m1.target = m.target ∧
      (t.Speed > m.targetSpeed → a = if me.Speed = 10 then ActionNOOP else ActionFaster) ∧
      (t.Speed < m.targetSpeed → a = if me.Speed = 1 then ActionNOOP else ActionSlower) ∧
      (t.Speed = m.targetSpeed → t.Direction = TurnLeft d0 → a = ActionTurnLeft) ∧
      (t.Speed = m.targetSpeed → t.Direction = TurnRight d0 → a = ActionTurnRight) ∧
      (t.Speed = m.targetSpeed → t.Direction ≠ TurnLeft d0 → t.Direction ≠ TurnRight d0 →
        a = ActionNOOP) ∧
      (a = ActionFaster → me.Speed + 1 ≤ MaxSpeed) ∧
      (a = ActionSlower → 1 ≤ me.Speed - 1) ∧
      ∀ (x : String) (t0 : Player), t0.Speed = m.targetSpeed → t0.Direction = d0 →
        x ∈ [ActionTurnLeft, ActionTurnRight, ActionFaster, ActionSlower, ActionNOOP] →
        t = actPlayer x t0 → (x = ActionFaster → me.Speed < MaxSpeed) →
        (x = ActionSlower → 1 < me.Speed) → a = x := by
  have hA := mirrorTarget_action m me t d0 hd0
  have hM : MaxSpeed = 10 := rfl
  rw [hM] at hsp
  have c1 : ActionNOOP ≠ ActionFaster := by decide
  have c2 : ActionSlower ≠ ActionFaster := by decide
  have c3 : ActionTurnLeft ≠ ActionFaster := by decide
  have c4 : ActionTurnRight ≠ ActionFaster := by decide
  have c5 : ActionNOOP ≠ ActionSlower := by decide
  have c6 : ActionFaster ≠ ActionSlower := by decide
  have c7 : ActionTurnLeft ≠ ActionSlower := by decide
  have c8 : ActionTurnRight ≠ ActionSlower := by decide
  refine ⟨_, _, getState_mirrors m order pick g me t hrun hme hact htgt ht hta,
    mirrorTarget_target m me t, ?_, ?_, ?_, ?_, ?_, ?_, ?_, ?_⟩
  · intro h
    rw [hA, if_pos h]
    by_cases h10 : me.Speed = 10
    · rw [if_pos h10, if_neg (by omega)]
    · rw [if_neg h10, if_pos (by omega)]
  · intro h
    rw [hA, if_neg (by omega), if_pos h]
    by_cases h1 : me.Speed = 1
    · rw [if_pos h1, if_neg (by omega)]
    · rw [if_neg h1, if_pos (by omega)]
  · intro h hl
    rw [hA, if_neg (by omega), if_neg (by omega), if_pos hl]
  · intro h hr
    rw [hA, if_neg (by omega), if_neg (by omega), if_neg (by rw [hr]; exact (turn_ne d0).2.2),
      if_pos hr]
  · intro h hl hr
    rw [hA, if_neg (by omega), if_neg (by omega), if_neg hl, if_neg hr]
  · rw [hA, hM]
    intro h
    split_ifs at h with h1 h2 h3 h4 h5 h6
    · omega
    all_goals first
      | exact absurd h c1
      | exact absurd h c2
      | exact absurd h c3
      | exact absurd h c4
  · rw [hA]
    intro h
    split_ifs at h with h1 h2 h3 h4 h5 h6
    · exact absurd h c6
    · exact absurd h c5
    · omega
    all_goals first
      | exact absurd h c5
      | exact absurd h c7
      | exact absurd h c8
  · intro x t0 hs0 hdir hx htx hf hs
    rw [hA]
    rw [hM] at hf
    rcases actPlayer_cases x t0 hx with ⟨rfl, e1, e2⟩ | ⟨rfl, e1, e2⟩ | ⟨rfl, e1⟩ | ⟨rfl, e1⟩ |
      ⟨rfl, e1, e2⟩
    · rw [← htx] at e1 e2
      rw [if_neg (by omega), if_neg (by omega), if_pos (by rw [e2, hdir])]
    · rw [← htx] at e1 e2
      rw [if_neg (by omega), if_neg (by omega),
        if_neg (by rw [e2, hdir]; exact (turn_ne d0).2.2), if_pos (by rw [e2, hdir])]
    · rw [← htx] at e1
      rw [if_pos (by omega), if_pos (hf rfl)]
    · rw [← htx] at e1
      rw [if_neg (by omega), if_pos (by omega), if_pos (by have := hs rfl; omega)]
    · rw [← htx] at e1 e2
      rw [if_neg (by omega), if_neg (by omega),
        if_neg (by rw [e2, hdir]; exact fun h => (turn_ne d0).1 h.symm),
        if_neg (by rw [e2, hdir]; exact fun h => (turn_ne d0).2.1 h.symm)]

/-- In `mirrorGame` the bot mirrors player 2, stored with speed 1 and the
direction up; player 2 now faces left, the engine's `TurnLeft` of up, and the
bot sends `turn_left`. -/
theorem mirror_action_witness :
    ∃ m1 a, MirrorAI.GetState ⟨2, 1, some .up⟩ true [1, 2] 0 mirrorGame = some (m1, some a) ∧
      a = ActionTurnLeft :=
  Exists.imp (fun _ => Exists.imp (fun _ h => ⟨h.1, h.2.2.2.2.1 rfl rfl⟩))
    (mirror_action ⟨2, 1, some .up⟩ [1, 2] 0 mirrorGame ⟨10, 20, .right, 1, true, 0, true⟩
      ⟨12, 20, .left, 1, true, 0, true⟩ .up rfl rfl rfl (by decide) (by decide) rfl rfl rfl)

/-! ## PublicCopy: what the copy holds and where it lives -/

theorem wf_lt (h : Heap) (hw : h.wf) (a : Nat) :
    ((h.rows a).isSome = true → a < h.next) ∧ ((h.players a).isSome = true → a < h.next) := by
  constructor
  · intro hs
    by_contra hc
    rw [(hw a (by omega)).1] at hs
    simp at hs
  · intro hs
    by_contra hc
    rw [(hw a (by omega)).2] at hs
    simp at hs

theorem allocRow_spec (h : Heap) (hw : h.wf) (r : List Int) :
    (allocRow h r).1.wf ∧ (allocRow h r).1.next = h.next + 1 ∧ (allocRow h r).2 = h.next ∧
    (allocRow h r).1.players = h.players ∧ (allocRow h r).1.rows h.next = some r ∧
    ∀ a, a ≠ h.next → (allocRow h r).1.rows a = h.rows a := by
  refine ⟨?_, rfl, rfl, rfl, by simp [allocRow], fun a ha => by simp [allocRow, ha]⟩
  intro a ha
  have ha1 : h.next + 1 ≤ a := ha
  have : a ≠ h.next := by omega
  simp only [allocRow, Function.update, this, dite_false]
  exact hw a (by omega)

theorem allocPlayer_spec (h : Heap) (hw : h.wf) (p : PlayerObj) :
    (allocPlayer h p).1.wf ∧ (allocPlayer h p).1.next = h.next + 1 ∧
    (allocPlayer h p).2 = h.next ∧
    (allocPlayer h p).1.rows = h.rows ∧ (allocPlayer h p).1.players h.next = some p ∧
    ∀ a, a ≠ h.next → (allocPlayer h p).1.players a = h.players a := by
  refine ⟨?_, rfl, rfl, rfl, by simp [allocPlayer], fun a ha => by simp [allocPlayer, ha]⟩
  intro a ha
  have ha1 : h.next + 1 ≤ a := ha
  have : a ≠ h.next := by omega
  simp only [allocPlayer, Function.update, this, dite_false]
  exact hw a (by omega)

/-- The loop over the rows: every row is copied to a fresh address, nothing
below the old `next` changes. -/
theorem copyRows_spec (h : Heap) (hw : h.wf) (rs : List Nat)
    (hall : ∀ a ∈ rs, (h.rows a).isSome = true) :
    ∃ h1 cs, copyRows h rs = some (h1, cs) ∧ h1.wf ∧ h.next ≤ h1.next ∧
      h1.players = h.players ∧ (∀ a, a < h.next → h1.rows a = h.rows a) ∧
      (∀ a ∈ cs, h.next ≤ a ∧ a < h1.next) ∧ cs.map h1.rows = rs.map h.rows := by
  induction rs generalizing h with
  | nil => exact ⟨h, [], rfl, hw, le_refl _, rfl, fun _ _ => rfl, by simp, rfl⟩
  | cons a rest ih =>
    have hsa := hall a (List.mem_cons_self _ _)
    obtain ⟨r, hr⟩ := Option.isSome_iff_exists.mp hsa
    obtain ⟨w0, n0, a0, p0, s0, o0⟩ := allocRow_spec h hw r
    have hold : ∀ b, b < h.next → (allocRow h r).1.rows b = h.rows b :=
      fun b hb => o0 b (by omega)
    have hall0 : ∀ b ∈ rest, ((allocRow h r).1.rows b).isSome = true := by
      intro b hb
      have hb1 := hall b (List.mem_cons_of_mem _ hb)
      rw [hold b ((wf_lt h hw b).1 hb1)]
      exact hb1
    obtain ⟨h1, cs, e1, w1, n1, p1, o1, f1, m1⟩ := ih (allocRow h r).1 w0 hall0
    rw [n0] at n1 o1 f1
    refine ⟨h1, h.next :: cs, ?_, w1, by omega, p1.trans p0, ?_, ?_, ?_⟩
    · simp only [copyRows, hr, e1, a0]
    · intro b hb
      rw [o1 b (by omega), hold b hb]
    · intro b hb
      rcases List.mem_cons.mp hb with rfl | hb1
      · exact ⟨le_refl _, by omega⟩
      · have := f1 b hb1
        exact ⟨by omega, this.2⟩
    · simp only [List.map_cons]
      rw [o1 h.next (by omega), s0, hr, m1]
      congr 1
      apply List.map_congr_left
      intro b hb
      exact hold b ((wf_lt h hw b).1 (hall b (List.mem_cons_of_mem _ hb)))

/-- The loop over the players: every key visited gets a fresh record made by
the composite literal, nothing below the old `next` changes. -/
theorem copyPlayers_spec (g : GameObj) (order : List Nat) (h : Heap) (hw : h.wf)
    (m : Nat → Option Nat) (hnd : order.Nodup)
    (hall : ∀ k a, g.Players k = some a → (h.players a).isSome = true) :
    ∃ h1 m1, copyPlayers g order h m = some (h1, m1) ∧ h1.wf ∧ h.next ≤ h1.next ∧
      h1.rows = h.rows ∧ (∀ a, a < h.next → h1.players a = h.players a) ∧
      (∀ k, k ∉ order → m1 k = m k) ∧
      (∀ k ∈ order, (g.Players k).isSome = true →
        ∃ a p a1, g.Players k = some a ∧ h.players a = some p ∧ m1 k = some a1 ∧
          h.next ≤ a1 ∧ a1 < h1.next ∧ h1.players a1 = some (publicPlayer p)) ∧
      (∀ k ∈ order, g.Players k = none → m1 k = m k) := by
  induction order generalizing h m with
  | nil => exact ⟨h, m, rfl, hw, le_refl _, rfl, fun _ _ => rfl, fun _ _ => rfl, by simp, by simp⟩
  | cons k rest ih =>
    have hk : k ∉ rest := (List.nodup_cons.mp hnd).1
    have hnr : rest.Nodup := (List.nodup_cons.mp hnd).2
    cases hgk : g.Players k with
    | none =>
      obtain ⟨h1, m1, e1, w1, n1, r1, o1, u1, f1, z1⟩ := ih h hw m hnr hall
      refine ⟨h1, m1, by simp only [copyPlayers, hgk, e1], w1, n1, r1, o1, ?_, ?_, ?_⟩
      · intro j hj
        exact u1 j (fun hm => hj (List.mem_cons_of_mem _ hm))
      · intro j hj hs
        rcases List.mem_cons.mp hj with rfl | hj1
        · rw [hgk] at hs
          simp at hs
        · exact f1 j hj1 hs
      · intro j hj hn
        rcases List.mem_cons.mp hj with rfl | hj1
        · exact u1 j hk
        · exact z1 j hj1 hn
    | some a =>
      obtain ⟨p, hp⟩ := Option.isSome_iff_exists.mp (hall k a hgk)
      obtain ⟨w0, n0, a0, r0, s0, o0⟩ := allocPlayer_spec h hw (publicPlayer p)
      have hold : ∀ b, b < h.next → (allocPlayer h (publicPlayer p)).1.players b = h.players b :=
        fun b hb => o0 b (by omega)
      have hall0 : ∀ j b, g.Players j = some b →
          ((allocPlayer h (publicPlayer p)).1.players b).isSome = true := by
        intro j b hjb
        have hb1 := hall j b hjb
        rw [hold b ((wf_lt h hw b).2 hb1)]
        exact hb1
      obtain ⟨h1, m1, e1, w1, n1, r1, o1, u1, f1, z1⟩ :=
        ih (allocPlayer h (publicPlayer p)).1 w0
          (Function.update m k (some (allocPlayer h (publicPlayer p)).2)) hnr hall0
      rw [n0] at n1 o1 f1
      refine ⟨h1, m1, by simp only [copyPlayers, hgk, hp, e1], w1, by omega, r1.trans r0, ?_, ?_,
        ?_, ?_⟩
      · intro b hb
        rw [o1 b (by omega), hold b hb]
      · intro j hj
        have hjk : j ≠ k := fun e => hj (by rw [e]; exact List.mem_cons_self _ _)
        rw [u1 j (fun hm => hj (List.mem_cons_of_mem _ hm))]
        simp [Function.update, hjk]
      · intro j hj hs
        rcases List.mem_cons.mp hj with rfl | hj1
        · refine ⟨a, p, h.next, hgk, hp, ?_, le_refl _, by omega, ?_⟩
          · rw [u1 j hk, a0]
            simp
          · rw [o1 h.next (by omega), s0]
        · obtain ⟨b, q, b1, e2, e3, e4, e5, e6, e7⟩ := f1 j hj1 hs
          have hb : b < h.next := (wf_lt h hw b).2 (hall j b e2)
          rw [hold b hb] at e3
          exact ⟨b, q, b1, e2, e3, e4, by omega, e6, e7⟩
      · intro j hj hn
        rcases List.mem_cons.mp hj with rfl | hj1
        · rw [hgk] at hn
          simp at hn
        · have hjk : j ≠ k := fun e => hk (by rw [← e]; exact hj1)
          rw [z1 j hj1 hn]
          simp [Function.update, hjk]

/-- What `PublicCopy` returns on a well-formed game, and where the copy
lives. -/
theorem PublicCopy_spec (order : List Nat) (h : Heap) (g : GameObj)
    (hwf : g.wf h order) :
    ∃ h1 c, PublicCopy order h g = some (h1, c) ∧
      c.Width = g.Width ∧ c.Height = g.Height ∧ c.You = g.You ∧ c.Running = g.Running ∧
      c.Deadline = g.Deadline ∧
      c.l = false ∧ c.log = none ∧ c.MaxPlayer = 0 ∧ c.numberPlayer = 0 ∧
      c.playerAnswer = [] ∧ c.playerChannel = [] ∧
      gridOf h1 c = gridOf h g ∧
      (∀ k, (c.Players k).isSome = (g.Players k).isSome) ∧
      (∀ k p, playerOf h g k = some p → playerOf h1 c k = some (publicPlayer p)) ∧
      (∀ a, a < h.next → h1.rows a = h.rows a ∧ h1.players a = h.players a) ∧
      (∀ a ∈ c.Cells, h.next ≤ a) ∧ (∀ k a, c.Players k = some a → h.next ≤ a) ∧
      (∀ a ∈ g.Cells, a < h.next) ∧ (∀ k a, g.Players k = some a → a < h.next) := by
  obtain ⟨hw, hrows, hpl, hnd, hkeys⟩ := hwf
  obtain ⟨h1, cs, e1, w1, n1, p1, o1, f1, m1⟩ := copyRows_spec h hw g.Cells hrows
  have hpl1 : ∀ k a, g.Players k = some a → (h1.players a).isSome = true := by
    intro k a hka
    rw [p1]
    exact hpl k a hka
  obtain ⟨h2, m2, e2, w2, n2, r2, o2, u2, f2, z2⟩ :=
    copyPlayers_spec g order h1 w1 (fun _ => none) hnd hpl1
  have hcopy : ∀ k, (g.Players k).isSome = true →
      ∃ a p a1, g.Players k = some a ∧ h.players a = some p ∧ m2 k = some a1 ∧
        h1.next ≤ a1 ∧ h2.players a1 = some (publicPlayer p) := by
    intro k hs
    obtain ⟨a, p, a1, q1, q2, q3, q4, -, q6⟩ := f2 k ((hkeys k).2 hs) hs
    rw [p1] at q2
    exact ⟨a, p, a1, q1, q2, q3, q4, q6⟩
  have hnone : ∀ k, g.Players k = none → m2 k = none := by
    intro k hn
    have : k ∉ order := by
      intro hm
      have := (hkeys k).1 hm
      rw [hn] at this
      simp at this
    exact u2 k this
  refine ⟨h2,
    { Width := g.Width, Height := g.Height, Cells := cs, Players := m2, You := g.You,
      Running := g.Running, Deadline := g.Deadline, l := false, log := none, MaxPlayer := 0,
      numberPlayer := 0, playerAnswer := [], playerChannel := [] },
    by simp only [PublicCopy, e1, e2], rfl, rfl, rfl, rfl, rfl, rfl, rfl, rfl,
    rfl, rfl, rfl, ?_, ?_, ?_, ?_, ?_, ?_, ?_, ?_⟩
  · simp only [gridOf]
    rw [r2, m1]
  · intro k
    simp only
    cases hg : g.Players k with
    | none => rw [hnone k hg]
    | some a =>
      obtain ⟨_, _, a1, _, _, q3, _, _⟩ := hcopy k (by rw [hg]; rfl)
      rw [q3]
      rfl
  · intro k p hp
    simp only [playerOf] at hp ⊢
    cases hg : g.Players k with
    | none => rw [hg] at hp; simp at hp
    | some a =>
      rw [hg] at hp
      simp only [Option.some_bind] at hp
      obtain ⟨b, q, a1, q1, q2, q3, _, q6⟩ := hcopy k (by rw [hg]; rfl)
      rw [hg] at q1
      have hab : a = b := Option.some.inj q1
      subst hab
      rw [hp] at q2
      have hpq : p = q := Option.some.inj q2
      subst hpq
      rw [q3]
      simpa using q6
  · intro a ha
    constructor
    · rw [r2, o1 a ha]
    · rw [o2 a (by omega), p1]
  · intro a ha
    exact (f1 a ha).1
  · intro k a hka
    simp only at hka
    have hs : (g.Players k).isSome = true := by
      cases hg : g.Players k with
      | none => rw [hnone k hg] at hka; simp at hka
      | some b => rfl
    obtain ⟨_, _, a1, _, _, q3, q4, _⟩ := hcopy k hs
    rw [q3] at hka
    have := Option.some.inj hka
    omega
  · intro a ha
    exact (wf_lt h hw a).1 (hrows a ha)
  · intro k a hka
    exact (wf_lt h hw a).2 (hpl k a hka)

/-- A mutation through a game whose addresses are all at or above `n` leaves
the heap below `n` as it was. -/
theorem mutate_below (c : GameObj) (n : Nat) (hc1 : ∀ a ∈ c.Cells, n ≤ a)
    (hc2 : ∀ k a, c.Players k = some a → n ≤ a) (mu : Mutation) (h : Heap) (a : Nat)
    (ha : a < n) :
    (mutate c h mu).rows a = h.rows a ∧ (mutate c h mu).players a = h.players a := by
  cases mu with
  | cell i j v =>
    simp only [mutate]
    cases hi : c.Cells.get? i with
    | none => exact ⟨rfl, rfl⟩
    | some b =>
      have hb : n ≤ b := hc1 b (List.get?_mem hi)
      simp only
      cases hr : h.rows b with
      | none => exact ⟨rfl, rfl⟩
      | some r =>
        simp only
        split_ifs
        · have : a ≠ b := by omega
          exact ⟨by simp [Function.update, this], rfl⟩
        · exact ⟨rfl, rfl⟩
  | player k f =>
    simp only [mutate]
    cases hk : c.Players k with
    | none => exact ⟨rfl, rfl⟩
    | some b =>
      have hb : n ≤ b := hc2 k b hk
      simp only
      cases hp : h.players b with
      | none => exact ⟨rfl, rfl⟩
      | some p =>
        have : a ≠ b := by omega
        exact ⟨rfl, by simp [Function.update, this]⟩

theorem mutateAll_below (c : GameObj) (n : Nat) (hc1 : ∀ a ∈ c.Cells, n ≤ a)
    (hc2 : ∀ k a, c.Players k = some a → n ≤ a) (ms : List Mutation) (h : Heap) (a : Nat)
    (ha : a < n) :
    (mutateAll c ms h).rows a = h.rows a ∧ (mutateAll c ms h).players a = h.players a := by
  induction ms generalizing h with
  | nil => exact ⟨rfl, rfl⟩
  | cons mu rest ih =>
    have h1 := ih (mutate c h mu)
    have h2 := mutate_below c n hc1 hc2 mu h a ha
    simp only [mutateAll, List.foldl_cons] at h1 ⊢
    exact ⟨h1.1.trans h2.1, h1.2.trans h2.2⟩

theorem game2_wf : game2.wf heap2 [1, 2] := by
  refine ⟨?_, ?_, ?_, by decide, ?_⟩
  · intro a ha
    have ha4 : 4 ≤ a := ha
    have e0 : a ≠ 0 := by omega
    have e1 : a ≠ 1 := by omega
    have e2 : a ≠ 2 := by omega
    have e3 : a ≠ 3 := by omega
    simp [heap2, e0, e1, e2, e3]
  · intro a ha
    simp only [game2, List.mem_cons, List.mem_singleton, List.not_mem_nil, or_false] at ha
    rcases ha with rfl | rfl <;> rfl
  · intro k a hka
    simp only [game2] at hka
    by_cases h1 : k = 1
    · simp only [h1, if_true] at hka
      rw [← Option.some.inj hka]
      rfl
    · by_cases h2 : k = 2
      · simp only [h2] at hka
        simp at hka
        rw [← hka]
        rfl
      · simp [h1, h2] at hka
  · intro k
    by_cases h1 : k = 1
    · subst h1; decide
    · by_cases h2 : k = 2
      · subst h2; decide
      · simp [game2, h1, h2]

/-- C14: for a game `g` whose rows and player records are on the heap,
`PublicCopy` returns a game `c` with the same `Width`, `Height`, `You`,
`Running` and `Deadline`, a grid equal to the grid of `g` row for row and cell
for cell, the same set of player ids and, for every id, a record with the
same `X`, `Y`, `Direction`, `Speed`, `Active`, `Name` and `stepCounter`; every
other field of each record (api key, `apiReleased`, `realName`, attached bot,
input channel, connection, `wsclosed`, the locks, `workerOnce`) and every
other field of `c` (`MaxPlayer`, `numberPlayer`, answers, channels, lock,
log) has its zero value. -/
theorem PublicCopy_fields (order : List Nat) (h : Heap) (g : GameObj) (hwf : g.wf h order) :
    ∃ h1 c, PublicCopy order h g = some (h1, c) ∧
      c.Width = g.Width ∧ c.Height = g.Height ∧ c.You = g.You ∧ c.Running = g.Running ∧
      c.Deadline = g.Deadline ∧ gridOf h1 c = gridOf h g ∧
      (∀ k, (c.Players k).isSome = (g.Players k).isSome) ∧
      (∀ k p, playerOf h g k = some p →
        ∃ q, playerOf h1 c k = some q ∧ q.X = p.X ∧ q.Y = p.Y ∧ q.Direction = p.Direction ∧
          q.Speed = p.Speed ∧ q.Active = p.Active ∧ q.Name = p.Name ∧
          q.stepCounter = p.stepCounter ∧
          q.api = "" ∧ q.apiReleased = false ∧ q.realName = "" ∧ q.underlyingAI = none ∧
          q.Input = none ∧ q.ws = none ∧ q.wsclosed = false ∧ q.inputLock = false ∧
          q.writerLock = false ∧ q.workerOnce = false) ∧
      c.MaxPlayer = 0 ∧ c.numberPlayer = 0 ∧ c.playerAnswer = [] ∧ c.playerChannel = [] ∧
      c.l = false ∧ c.log = none := by
  obtain ⟨h1, c, e, cW, cH, cY, cR, cD, cl, clog, cM, cN, cA, cC, hgrid, hkeys, hpl, -⟩ :=
    PublicCopy_spec order h g hwf
  refine ⟨h1, c, e, cW, cH, cY, cR, cD, hgrid, hkeys, ?_, cM, cN, cA, cC, cl, clog⟩
  intro k p hp
  exact ⟨publicPlayer p, hpl k p hp, rfl, rfl, rfl, rfl, rfl, rfl, rfl, rfl, rfl, rfl, rfl, rfl,
    rfl, rfl, rfl, rfl, rfl⟩

/-- The copy of `game2` on `heap2`, and what a bot reads of player 1 in
it. -/
theorem PublicCopy_fields_witness :
    (∃ h1 c, PublicCopy [1, 2] heap2 game2 = some (h1, c) ∧
      c.Width = game2.Width ∧ c.Height = game2.Height ∧ c.You = game2.You ∧
      c.Running = game2.Running ∧
      c.Deadline = game2.Deadline ∧ gridOf h1 c = gridOf heap2 game2 ∧
      (∀ k, (c.Players k).isSome = (game2.Players k).isSome) ∧
      (∀ k p, playerOf heap2 game2 k = some p →
        ∃ q, playerOf h1 c k = some q ∧ q.X = p.X ∧ q.Y = p.Y ∧ q.Direction = p.Direction ∧
          q.Speed = p.Speed ∧ q.Active = p.Active ∧ q.Name = p.Name ∧
          q.stepCounter = p.stepCounter ∧
          q.api = "" ∧ q.apiReleased = false ∧ q.realName = "" ∧ q.underlyingAI = none ∧
          q.Input = none ∧ q.ws = none ∧ q.wsclosed = false ∧ q.inputLock = false ∧
          q.writerLock = false ∧ q.workerOnce = false) ∧
      c.MaxPlayer = 0 ∧ c.numberPlayer = 0 ∧ c.playerAnswer = [] ∧ c.playerChannel = [] ∧
      c.l = false ∧ c.log = none) ∧
    (PublicCopy [1, 2] heap2 game2).map (fun r => (gridOf r.1 r.2, playerOf r.1 r.2 1)) =
      some ([some [1, 0, 0], some [0, 0, 2]],
        some ⟨0, 0, "right", 1, true, "Anna", 4, none, "", "", false, false, none, false, none,
          false, false⟩) :=
  ⟨PublicCopy_fields [1, 2] heap2 game2 game2_wf, by decide!⟩

/-- C15: for a game `g` whose rows and player records are on the heap,
`PublicCopy` returns a game `c` every row and every player record of which is
freshly allocated: its address held nothing before the call and is the
address of no row and of no player record of `g`.  The call itself leaves the
grid and the player records of `g` as they were, and so does every sequence
of mutations of `c` after it (cell writes and changes of fields of player
records): read through the final heap, the grid of `g` and every field of
every player of `g` are what they were before the call. -/
theorem PublicCopy_isolated (order : List Nat) (h : Heap) (g : GameObj) (hwf : g.wf h order) :
    ∃ h1 c, PublicCopy order h g = some (h1, c) ∧
      (∀ a ∈ c.Cells, h.rows a = none ∧ a ∉ g.Cells) ∧
      (∀ k a, c.Players k = some a → h.players a = none ∧ ∀ j, g.Players j ≠ some a) ∧
      gridOf h1 g = gridOf h g ∧ (∀ k, playerOf h1 g k = playerOf h g k) ∧
      ∀ ms : List Mutation,
        gridOf (mutateAll c ms h1) g = gridOf h g ∧
        ∀ k, playerOf (mutateAll c ms h1) g k = playerOf h g k := by
  obtain ⟨h1, c, e, -, -, -, -, -, -, -, -, -, -, -, -, -, -, hold, hc1, hc2, hg1, hg2⟩ :=
    PublicCopy_spec order h g hwf
  have hread : ∀ h2 : Heap,
      (∀ a, a < h.next → h2.rows a = h.rows a ∧ h2.players a = h.players a) →
      gridOf h2 g = gridOf h g ∧ ∀ k, playerOf h2 g k = playerOf h g k := by
    intro h2 hh
    constructor
    · simp only [gridOf]
      apply List.map_congr_left
      intro a ha
      exact (hh a (hg1 a ha)).1
    · intro k
      simp only [playerOf]
      cases hk : g.Players k with
      | none => rfl
      | some a => exact (hh a (hg2 k a hk)).2
  refine ⟨h1, c, e, ?_, ?_, (hread h1 hold).1, (hread h1 hold).2, ?_⟩
  · intro a ha
    refine ⟨(hwf.1 a (hc1 a ha)).1, fun hm => ?_⟩
    have := hg1 a hm
    have := hc1 a ha
    omega
  · intro k a hka
    refine ⟨(hwf.1 a (hc2 k a hka)).2, fun j hj => ?_⟩
    have := hg2 j a hj
    have := hc2 k a hka
    omega
  · intro ms
    apply hread
    intro a ha
    have hm := mutateAll_below c h.next hc1 hc2 ms h1 a ha
    exact ⟨hm.1.trans (hold a ha).1, hm.2.trans (hold a ha).2⟩

/-- The copy of `game2` on `heap2`: writing 5 to the cell (1,0) of the copy
and renaming and moving its player 1 changes the copy and leaves `game2` as
it was. -/
theorem PublicCopy_isolated_witness :
    (∃ h1 c, PublicCopy [1, 2] heap2 game2 = some (h1, c) ∧
      (∀ a ∈ c.Cells, heap2.rows a = none ∧ a ∉ game2.Cells) ∧
      (∀ k a, c.Players k = some a → heap2.players a = none ∧ ∀ j, game2.Players j ≠ some a) ∧
      gridOf h1 game2 = gridOf heap2 game2 ∧
      (∀ k, playerOf h1 game2 k = playerOf heap2 game2 k) ∧
      ∀ ms : List Mutation,
        gridOf (mutateAll c ms h1) game2 = gridOf heap2 game2 ∧
        ∀ k, playerOf (mutateAll c ms h1) game2 k = playerOf heap2 game2 k) ∧
    (PublicCopy [1, 2] heap2 game2).map (fun r => gridOf (mutateAll r.2 scribble r.1) r.2) =
      some [some [1, 5, 0], some [0, 0, 2]] ∧
    (PublicCopy [1, 2] heap2 game2).map
        (fun r => (playerOf (mutateAll r.2 scribble r.1) r.2 1).map fun q => (q.X, q.Name)) =
      some (some (9, "x")) ∧
    (PublicCopy [1, 2] heap2 game2).map (fun r => gridOf (mutateAll r.2 scribble r.1) game2) =
      some [some [1, 0, 0], some [0, 0, 2]] ∧
    (PublicCopy [1, 2] heap2 game2).map
        (fun r => (playerOf (mutateAll r.2 scribble r.1) game2 1).map fun q => (q.X, q.Name)) =
      some (some (0, "Anna")) :=
  ⟨PublicCopy_isolated [1, 2] heap2 game2 game2_wf, by decide!, by decide!, by decide!,
    by decide!⟩

/-! ## The registry of AIs and the pool -/

/-- C21: `RegisterAI(name, makeai)` returns an error if and only if `name` is
already registered or `makeai` is `nil`; on error the registry is unchanged,
and on success the registry maps `name` to `makeai` and every other entry is
unchanged. -/
theorem registerAI_spec (name : String) (makeai : Option AINewFunc)
    (aiMap : String → Option AINewFunc) :
    ((RegisterAI name makeai aiMap).1.isSome = true ↔
      (aiMap name).isSome = true ∨ makeai = none) ∧
    ((RegisterAI name makeai aiMap).1.isSome = true → (RegisterAI name makeai aiMap).2 = aiMap) ∧
    ((RegisterAI name makeai aiMap).1 = none →
      (RegisterAI name makeai aiMap).2 name = makeai ∧
      ∀ n, n ≠ name → (RegisterAI name makeai aiMap).2 n = aiMap n) := by
  unfold RegisterAI
  by_cases h : (aiMap name).isSome = true
  · simp [h]
  · cases makeai with
    | none => simp [h]
    | some f =>
      simp only [h, Bool.false_eq_true, if_false, Option.isSome_none, false_or, false_iff,
        not_false_eq_true, true_and, Option.some_ne_none, false_implies, forall_true_left,
        Function.update_same, reduceCtorEq]
      intro n hn
      exact Function.update_noteq hn _ _

theorem poolLoop_error (aiMap : String → Option AINewFunc) (l : List String)
    (c : String → Nat) (a : List PoolEntry) (h : ∃ n ∈ l, aiMap n = none) :
    ∃ e, poolLoop aiMap l c a = .error e := by
  induction l generalizing c a with
  | nil => simp at h
  | cons n rest ih =>
    cases hn : aiMap n with
    | none => exact ⟨"ai name " ++ n ++ " not known", by simp only [poolLoop, hn]⟩
    | some f =>
      simp only [poolLoop, hn]
      apply ih
      obtain ⟨m, hm, hmn⟩ := h
      rcases List.mem_cons.mp hm with rfl | hm1
      · rw [hn] at hmn; simp at hmn
      · exact ⟨m, hm1, hmn⟩

/-- The loop over registered names appends one closure per name: the i-th
has the factory registered under the i-th name and the string made of the
name and of the number of its occurrences so far. -/
theorem poolLoop_ok (aiMap : String → Option AINewFunc) (l : List String)
    (c : String → Nat) (a : List PoolEntry) (h : ∀ n ∈ l, (aiMap n).isSome = true) :
    ∃ b, poolLoop aiMap l c a = .ok (a ++ b) ∧ b.length = l.length ∧
      List.Forall₂ (fun n e => aiMap n = some e.f) l b ∧
      ∀ i, i < l.length →
        (b.get? i).map PoolEntry.p =
          some ("AI-" ++ l.getD i "" ++ "-" ++
            toString (c (l.getD i "") + (l.take (i + 1)).count (l.getD i ""))) := by
  induction l generalizing c a with
  | nil => exact ⟨[], by simp [poolLoop], rfl, List.Forall₂.nil, fun i hi => by simp at hi⟩
  | cons n rest ih =>
    obtain ⟨f, hf⟩ := Option.isSome_iff_exists.mp (h n (List.mem_cons_self _ _))
    obtain ⟨b, e, hlen, hfa, hnm⟩ := ih (Function.update c n (c n + 1))
      (a ++ [⟨f, "AI-" ++ n ++ "-" ++ toString (c n + 1)⟩])
      (fun m hm => h m (List.mem_cons_of_mem _ hm))
    refine ⟨⟨f, "AI-" ++ n ++ "-" ++ toString (c n + 1)⟩ :: b, ?_, by simp [hlen],
      List.Forall₂.cons hf hfa, ?_⟩
    · simp only [poolLoop, hf, e, List.append_assoc, List.singleton_append]
    · intro i hi
      cases i with
      | zero => simp
      | succ k =>
        have hk : k < rest.length := by simpa using hi
        have := hnm k hk
        simp only [List.get?_cons_succ, List.getD_cons_succ, List.take_succ_cons] at this ⊢
        rw [this]
        congr 3
        by_cases hx : rest.getD k "" = n
        · rw [hx]
          simp only [Function.update_same, List.count_cons_self]
          omega
        · rw [Function.update_noteq hx, List.count_cons_of_ne hx]

/-- C22: `UpdateAIPool(ais)` returns an error if and only if `ais` has fewer
than `PlayersPerGame` entries or contains a name that is not registered; on
an error the pool is the pool from before the call; on success the pool has
exactly `len(ais)` entries, the i-th built from the factory registered under
`ais[i]`, with the string `AI-<name>-<k>` for the k-th occurrence of the
name. -/
theorem updateAIPool_spec (ais : List String) (aiMap : String → Option AINewFunc)
    (aiArray : List PoolEntry) :
    ((UpdateAIPool ais aiMap aiArray).1.isSome = true ↔
      ais.length < PlayersPerGame ∨ ∃ n ∈ ais, aiMap n = none) ∧
    ((UpdateAIPool ais aiMap aiArray).1.isSome = true →
      (UpdateAIPool ais aiMap aiArray).2 = aiArray) ∧
    ((UpdateAIPool ais aiMap aiArray).1 = none →
      (UpdateAIPool ais aiMap aiArray).2.length = ais.length ∧
      List.Forall₂ (fun n e => aiMap n = some e.f) ais (UpdateAIPool ais aiMap aiArray).2 ∧
      ∀ i, i < ais.length →
        ((UpdateAIPool ais aiMap aiArray).2.get? i).map PoolEntry.p =
          some ("AI-" ++ ais.getD i "" ++ "-" ++
            toString ((ais.take (i + 1)).count (ais.getD i "")))) := by
  unfold UpdateAIPool
  by_cases hlen : ais.length < PlayersPerGame
  · simp [hlen]
  · simp only [hlen, if_false, false_or]
    by_cases hreg : ∃ n ∈ ais, aiMap n = none
    · obtain ⟨e, he⟩ := poolLoop_error aiMap ais (fun _ => 0) [] hreg
      simp [he, hreg]
    · have hall : ∀ n ∈ ais, (aiMap n).isSome = true := by
        intro n hn
        by_contra hc
        exact hreg ⟨n, hn, by simpa using hc⟩
      obtain ⟨b, e, hl, hfa, hnm⟩ := poolLoop_ok aiMap ais (fun _ => 0) [] hall
      simp only [List.nil_append] at e
      simp only [e, Option.isSome_none, Bool.false_eq_true, hreg, false_implies, true_and,
        forall_true_left, hl, hfa, iff_self]
      intro i hi
      have := hnm i hi
      simpa using this

/-- The loop of `GetAI` reads the first positions of the shuffled slice. -/
theorem drawLoop_spec (aiArray : List PoolEntry) (sel : List Nat)
    (hsel : ∀ j ∈ sel, j < aiArray.length) (n i : Nat) (hn : i + n ≤ sel.length) :
    ∃ r, drawLoop aiArray sel n i = some r ∧ r.length = n ∧
      r.map some = ((sel.drop i).take n).map aiArray.get? := by
  induction n generalizing i with
  | zero => exact ⟨[], rfl, rfl, by simp⟩
  | succ n ih =>
    have hi : i < sel.length := by omega
    obtain ⟨r, e, hl, hm⟩ := ih (i + 1) (by omega)
    have hget : sel.get? i = some (sel.get ⟨i, hi⟩) := List.get?_eq_get hi
    have hj : sel.get ⟨i, hi⟩ < aiArray.length := hsel _ (List.get_mem _ _ _)
    have hget2 : aiArray.get? (sel.get ⟨i, hi⟩) = some (aiArray.get ⟨_, hj⟩) :=
      List.get?_eq_get hj
    refine ⟨aiArray.get ⟨_, hj⟩ :: r, ?_, by simp [hl], ?_⟩
    · simp only [drawLoop, hget, hget2, e, Option.map_some']
    · have hd : sel.drop i = sel.get ⟨i, hi⟩ :: sel.drop (i + 1) := by
        rw [List.drop_eq_getElem_cons hi]
        rfl
      rw [hd, List.take_succ_cons, List.map_cons, List.map_cons, hm, hget2]

/-- The call `GetAI(num)` for a `num` between 0 and the size of the pool. -/
theorem GetAI_some (num : Int) (sel : List Nat) (aiArray : List PoolEntry)
    (hperm : sel.Perm (List.range aiArray.length)) (h0 : 0 ≤ num)
    (h1 : num ≤ aiArray.length) :
    ∃ r, GetAI num sel aiArray = some (r, aiArray) ∧ r.length = num.toNat ∧
      r.map some = (sel.take num.toNat).map aiArray.get? := by
  have hsel : ∀ j ∈ sel, j < aiArray.length := by
    intro j hj
    exact List.mem_range.1 (hperm.mem_iff.1 hj)
  have hlen : sel.length = aiArray.length := by rw [hperm.length_eq, List.length_range]
  obtain ⟨r, e, hl, hm⟩ := drawLoop_spec aiArray sel hsel num.toNat 0 (by omega)
  refine ⟨r, ?_, hl, by simpa using hm⟩
  unfold GetAI
  rw [if_neg (by omega), if_neg (by omega), e]
  rfl

/-- C23: for a number `num` that is not negative (the caller passes
`MissingPlayer()`, which is never below 0) and every outcome `selectArray` of
the shuffle, `GetAI(num)` panics if and only if `num` exceeds the size of the
pool; otherwise it returns exactly `num` bots, produced by the positions
`selectArray[0] .. selectArray[num-1]` of the pool, which are pairwise
distinct, and it leaves the pool unchanged. -/
theorem getAI_spec (num : Int) (sel : List Nat) (aiArray : List PoolEntry)
    (hperm : sel.Perm (List.range aiArray.length)) (h0 : 0 ≤ num) :
    (GetAI num sel aiArray = none ↔ num > aiArray.length) ∧
    (num ≤ aiArray.length → ∃ r, GetAI num sel aiArray = some (r, aiArray)) ∧
    ∀ r pool, GetAI num sel aiArray = some (r, pool) →
      pool = aiArray ∧ (r.length : Int) = num ∧ (sel.take num.toNat).Nodup ∧
      (∀ j ∈ sel.take num.toNat, j < aiArray.length) ∧
      r.map some = (sel.take num.toNat).map aiArray.get? := by
  have hnd : sel.Nodup := hperm.nodup_iff.2 (List.nodup_range _)
  have hsel : ∀ j ∈ sel, j < aiArray.length := by
    intro j hj
    exact List.mem_range.1 (hperm.mem_iff.1 hj)
  by_cases h1 : num > aiArray.length
  · refine ⟨by simp [GetAI, h1], fun h => by omega, ?_⟩
    simp [GetAI, h1]
  · obtain ⟨r, e, hl, hm⟩ := GetAI_some num sel aiArray hperm h0 (by omega)
    rw [e]
    refine ⟨by simp [h1], fun _ => ⟨r, rfl⟩, ?_⟩
    simp only [Option.some.injEq, Prod.mk.injEq]
    rintro r1 pool ⟨rfl, rfl⟩
    exact ⟨rfl, by rw [hl]; omega, hnd.sublist (List.take_sublist _ _),
      fun j hj => hsel j (List.mem_of_mem_take hj), hm⟩

/-- Three bots drawn from `pool6` with the shuffle 5, 3, 1, 0, 2, 4: the
entries at the positions 5, 3, 1; the call for seven bots panics. -/
theorem getAI_spec_witness :
    ((GetAI 3 [5, 3, 1, 0, 2, 4] pool6 = none ↔ (3 : Int) > pool6.length) ∧
    ((3 : Int) ≤ pool6.length → ∃ r, GetAI 3 [5, 3, 1, 0, 2, 4] pool6 = some (r, pool6)) ∧
    ∀ r pool, GetAI 3 [5, 3, 1, 0, 2, 4] pool6 = some (r, pool) →
      pool = pool6 ∧ (r.length : Int) = 3 ∧ (([5, 3, 1, 0, 2, 4] : List Nat).take
        (3 : Int).toNat).Nodup ∧
      (∀ j ∈ ([5, 3, 1, 0, 2, 4] : List Nat).take (3 : Int).toNat, j < pool6.length) ∧
      r.map some = (([5, 3, 1, 0, 2, 4] : List Nat).take (3 : Int).toNat).map pool6.get?) ∧
    GetAI 3 [5, 3, 1, 0, 2, 4] pool6 =
      some ([⟨2, "AI-B-3"⟩, ⟨1, "AI-A-3"⟩, ⟨2, "AI-B-1"⟩], pool6) ∧
    GetAI 7 [5, 3, 1, 0, 2, 4] pool6 = none :=
  ⟨getAI_spec 3 [5, 3, 1, 0, 2, 4] pool6 (by decide) (by decide), by decide, by decide⟩

/-- A remark on the numbers no caller passes: `GetAI(-1)` passes the test
`num > len(aiArray)` and panics in `make`, which gets the negative length. -/
theorem getAI_negative_panics :
    GetAI (-1) [5, 3, 1, 0, 2, 4] pool6 = none ∧ ¬ ((-1 : Int) > pool6.length) := by
  decide

/-! ## Filling a game -/

theorem setMaxPlayer_of_ne (d : Nat) (g : Game) (h : g.MaxPlayer ≠ 0) : setMaxPlayer d g = g := by
  simp [setMaxPlayer, h]

theorem setMaxPlayer_fresh (d : Nat) (g : Game) (h : g.MaxPlayer = 0) :
    setMaxPlayer d g = { g with MaxPlayer := d + 2 } := by
  simp [setMaxPlayer, h]

/-- A call of `AddPlayer` on a game that is full returns `ErrFullGame` and
leaves the game as it is. -/
theorem AddPlayer_full (d : Nat) (g : Game) (p : Player) (hM : g.MaxPlayer ≠ 0)
    (hf : g.numberPlayer = g.MaxPlayer) : AddPlayer d g p = (some ErrFullGame, g) := by
  simp [AddPlayer, setMaxPlayer_of_ne d g hM, hf]

/-- A call of `AddPlayer` on a game that is not full stores the player under
the next id. -/
theorem AddPlayer_ok (d : Nat) (g : Game) (p : Player) (hM : g.MaxPlayer ≠ 0)
    (hf : g.numberPlayer ≠ g.MaxPlayer) :
    AddPlayer d g p =
      (none, { g with numberPlayer := g.numberPlayer + 1
                      Players := Function.update g.Players (g.numberPlayer + 1) (some p) }) := by
  simp [AddPlayer, setMaxPlayer_of_ne d g hM, hf]

/-- A sequence of calls of `AddPlayer` on a game whose `MaxPlayer` is set. -/
theorem addPlayers_spec (draws : Nat → Nat) (ps : List Player) (k : Nat) (g : Game)
    (hM : g.MaxPlayer ≠ 0) (hn : g.numberPlayer ≤ g.MaxPlayer) :
    (addPlayers draws ps k g).2.MaxPlayer = g.MaxPlayer ∧
    (addPlayers draws ps k g).2.numberPlayer = min (g.numberPlayer + ps.length) g.MaxPlayer ∧
    (∀ j, j < ps.length → (addPlayers draws ps k g).1.get? j =
      some (if g.numberPlayer + j < g.MaxPlayer then none else some ErrFullGame)) ∧
    (∀ i, (addPlayers draws ps k g).2.Players i =
      if g.numberPlayer < i ∧ i ≤ min (g.numberPlayer + ps.length) g.MaxPlayer
      then ps.get? (i - g.numberPlayer - 1) else g.Players i) := by
  induction ps generalizing k g with
  | nil =>
    refine ⟨rfl, by simp [addPlayers, hn], fun j hj => by simp at hj, fun i => ?_⟩
    have : ¬ (g.numberPlayer < i ∧ i ≤ min (g.numberPlayer + 0) g.MaxPlayer) := by
      rw [Nat.add_zero, Nat.min_eq_left hn]
      omega
    simp only [addPlayers, List.length_nil]
    rw [if_neg this]
  | cons p rest ih =>
    by_cases hf : g.numberPlayer = g.MaxPlayer
    · have ha := AddPlayer_full (draws k) g p hM hf
      obtain ⟨h1, h2, h3, h4⟩ := ih (k + 1) g hM hn
      simp only [addPlayers, ha, List.length_cons]
      refine ⟨h1, ?_, ?_, ?_⟩
      · rw [h2, hf]
        simp
      · intro j hj
        cases j with
        | zero => simp [hf]
        | succ j =>
          rw [List.get?_cons_succ, h3 j (by omega)]
          have e1 : ¬ g.numberPlayer + j < g.MaxPlayer := by omega
          have e2 : ¬ g.numberPlayer + (j + 1) < g.MaxPlayer := by omega
          rw [if_neg e1, if_neg e2]
      · intro i
        rw [h4 i]
        have e1 : ¬ (g.numberPlayer < i ∧ i ≤ min (g.numberPlayer + rest.length) g.MaxPlayer) := by
          omega
        have e2 : ¬ (g.numberPlayer < i ∧
            i ≤ min (g.numberPlayer + (rest.length + 1)) g.MaxPlayer) := by omega
        rw [if_neg e1, if_neg e2]
    · have ha := AddPlayer_ok (draws k) g p hM hf
      have hlt : g.numberPlayer < g.MaxPlayer := by omega
      obtain ⟨h1, h2, h3, h4⟩ := ih (k + 1)
        { g with numberPlayer := g.numberPlayer + 1
                 Players := Function.update g.Players (g.numberPlayer + 1) (some p) } hM
        (by simpa using hlt)
      simp only [addPlayers, ha, List.length_cons]
      simp only at h1 h2 h3 h4
      refine ⟨h1, ?_, ?_, ?_⟩
      · rw [h2]
        congr 1
        omega
      · intro j hj
        cases j with
        | zero => simp [hlt]
        | succ j =>
          rw [List.get?_cons_succ, h3 j (by omega)]
          congr 2
          apply propext
          constructor <;> intro h <;> omega
      · intro i
        rw [h4 i]
        by_cases hi : i = g.numberPlayer + 1
        · subst hi
          have e1 : ¬ (g.numberPlayer + 1 < g.numberPlayer + 1 ∧
              g.numberPlayer + 1 ≤ min (g.numberPlayer + 1 + rest.length) g.MaxPlayer) := by omega
          have e2 : g.numberPlayer < g.numberPlayer + 1 ∧
              g.numberPlayer + 1 ≤ min (g.numberPlayer + (rest.length + 1)) g.MaxPlayer := by
            omega
          rw [if_neg e1, if_pos e2]
          simp
        · rw [Function.update_noteq hi]
          by_cases hc : g.numberPlayer + 1 < i ∧
              i ≤ min (g.numberPlayer + 1 + rest.length) g.MaxPlayer
          · have e2 : g.numberPlayer < i ∧
                i ≤ min (g.numberPlayer + (rest.length + 1)) g.MaxPlayer := by omega
            rw [if_pos hc, if_pos e2]
            have : i - g.numberPlayer - 1 = (i - (g.numberPlayer + 1) - 1) + 1 := by omega
            rw [this, List.get?_cons_succ]
          · have e2 : ¬ (g.numberPlayer < i ∧
                i ≤ min (g.numberPlayer + (rest.length + 1)) g.MaxPlayer) := by omega
            rw [if_neg hc, if_neg e2]

/-- C24: a fresh game and the draws `draws` of `setMaxPlayer`.  The value of
`MaxPlayer` that is drawn lies between 2 and `PlayersPerGame`.  For a
sequence `ps` of calls of `AddPlayer`, `M` being the `MaxPlayer` drawn by the
first call: the j-th call succeeds if j is among the first `M` and returns
`ErrFullGame` otherwise; after the calls the players under the ids 1, 2, ...
are the first `M` of `ps` in call order; once `M` players are added a further
call returns `ErrFullGame` and leaves the game unchanged; `IsReady` is true if
and only if `M` players have been added and `MissingPlayer` is `M` minus the
number of players added.  On the fresh game itself `IsReady` is false and
`MissingPlayer` is the `MaxPlayer` it draws. -/
theorem fill_game (draws : Nat → Nat) (ps : List Player) (hd : validDraws draws) :
    (2 ≤ (setMaxPlayer (draws 0) newGame).MaxPlayer ∧
      (setMaxPlayer (draws 0) newGame).MaxPlayer ≤ PlayersPerGame) ∧
    (ps ≠ [] →
      (addPlayers draws ps 0 newGame).2.MaxPlayer = draws 0 + 2 ∧
      (addPlayers draws ps 0 newGame).2.numberPlayer = min ps.length (draws 0 + 2) ∧
      (∀ j, j < ps.length → (addPlayers draws ps 0 newGame).1.get? j =
        some (if j < draws 0 + 2 then none else some ErrFullGame)) ∧
      (∀ i, (addPlayers draws ps 0 newGame).2.Players i =
        if 1 ≤ i ∧ i ≤ min ps.length (draws 0 + 2) then ps.get? (i - 1) else none) ∧
      (∀ d p, draws 0 + 2 ≤ ps.length →
        AddPlayer d (addPlayers draws ps 0 newGame).2 p =
          (some ErrFullGame, (addPlayers draws ps 0 newGame).2)) ∧
      (∀ d, IsReady d (addPlayers draws ps 0 newGame).2 =
        (decide (draws 0 + 2 ≤ ps.length), (addPlayers draws ps 0 newGame).2)) ∧
      (∀ d, MissingPlayer d (addPlayers draws ps 0 newGame).2 =
        (((draws 0 + 2 : Nat) : Int) - (min ps.length (draws 0 + 2) : Nat),
          (addPlayers draws ps 0 newGame).2))) ∧
    (IsReady (draws 0) newGame).1 = false ∧
    (MissingPlayer (draws 0) newGame).1 = ((draws 0 + 2 : Nat) : Int) := by
  have hd0 : draws 0 < 5 := hd 0
  have hfresh : setMaxPlayer (draws 0) newGame = { newGame with MaxPlayer := draws 0 + 2 } :=
    setMaxPlayer_fresh _ _ rfl
  refine ⟨?_, ?_, ?_, ?_⟩
  · rw [hfresh]
    simp only [PlayersPerGame]
    omega
  · intro hne
    obtain ⟨p, rest, rfl⟩ := List.exists_cons_of_ne_nil hne
    have ha : AddPlayer (draws 0) newGame p =
        (none, { newGame with MaxPlayer := draws 0 + 2, numberPlayer := 1
                              Players := Function.update newGame.Players 1 (some p) }) := by
      unfold AddPlayer
      rw [hfresh]
      simp [newGame]
    obtain ⟨h1, h2, h3, h4⟩ := addPlayers_spec draws rest 1
      { newGame with MaxPlayer := draws 0 + 2, numberPlayer := 1
                     Players := Function.update newGame.Players 1 (some p) }
      (by simp) (by simp)
    simp only at h1 h2 h3 h4
    have e2 : (addPlayers draws (p :: rest) 0 newGame).2 =
        (addPlayers draws rest 1
          { newGame with MaxPlayer := draws 0 + 2, numberPlayer := 1
                         Players := Function.update newGame.Players 1 (some p) }).2 := by
      simp only [addPlayers, ha]
    have e1 : (addPlayers draws (p :: rest) 0 newGame).1 =
        none :: (addPlayers draws rest 1
          { newGame with MaxPlayer := draws 0 + 2, numberPlayer := 1
                         Players := Function.update newGame.Players 1 (some p) }).1 := by
      simp only [addPlayers, ha]
    rw [e2, e1]
    have hnum : (addPlayers draws rest 1
          { newGame with MaxPlayer := draws 0 + 2, numberPlayer := 1
                         Players := Function.update newGame.Players 1 (some p) }).2.numberPlayer =
        min (rest.length + 1) (draws 0 + 2) := by
      rw [h2, Nat.add_comm]
    have hMne : (addPlayers draws rest 1
          { newGame with MaxPlayer := draws 0 + 2, numberPlayer := 1
                         Players := Function.update newGame.Players 1 (some p) }).2.MaxPlayer ≠ 0 := by
      rw [h1]
      omega
    refine ⟨h1, hnum, ?_, ?_, ?_, ?_, ?_⟩
    · intro j hj
      cases j with
      | zero => simp
      | succ j =>
        rw [List.get?_cons_succ, h3 j (by simpa using hj)]
        congr 2
        apply propext
        constructor <;> intro h <;> omega
    · intro i
      rw [h4 i]
      simp only [List.length_cons]
      by_cases hi : i = 1
      · subst hi
        have e3 : ¬ (1 < 1 ∧ 1 ≤ min (1 + rest.length) (draws 0 + 2)) := by omega
        have e4 : 1 ≤ 1 ∧ 1 ≤ min (rest.length + 1) (draws 0 + 2) := by omega
        rw [if_neg e3, if_pos e4]
        simp
      · rw [Function.update_noteq hi]
        by_cases hc : 1 < i ∧ i ≤ min (1 + rest.length) (draws 0 + 2)
        · have e4 : 1 ≤ i ∧ i ≤ min (rest.length + 1) (draws 0 + 2) := by omega
          rw [if_pos hc, if_pos e4]
          obtain ⟨m, rfl⟩ : ∃ m, i = m + 2 := ⟨i - 2, by omega⟩
          have a1 : m + 2 - 1 - 1 = m := by omega
          have a2 : m + 2 - 1 = m + 1 := by omega
          rw [a1, a2, List.get?_cons_succ]
        · have e4 : ¬ (1 ≤ i ∧ i ≤ min (rest.length + 1) (draws 0 + 2)) := by omega
          rw [if_neg hc, if_neg e4]
          rfl
    · intro d q hfull
      apply AddPlayer_full d _ q hMne
      rw [hnum, h1]
      simp only [List.length_cons] at hfull
      omega
    · intro d
      simp only [IsReady, setMaxPlayer_of_ne d _ hMne, hnum, h1, List.length_cons]
      congr 1
      apply decide_eq_decide.mpr
      constructor <;> intro h <;> omega
    · intro d
      simp only [MissingPlayer, setMaxPlayer_of_ne d _ hMne, hnum, h1, List.length_cons]
      congr 1
      rw [if_neg]
      omega
  · unfold IsReady
    rw [hfresh]
    simp [newGame]
  · unfold MissingPlayer
    rw [hfresh]
    simp [newGame]
    omega

/-- Four players added to a fresh game for which `MaxPlayer` 3 is drawn. -/
theorem fill_game_witness :
    (2 ≤ (setMaxPlayer 1 newGame).MaxPlayer ∧
      (setMaxPlayer 1 newGame).MaxPlayer ≤ PlayersPerGame) ∧
    (addPlayers (fun _ => 1) [botPlayer, botPlayer, botPlayer, botPlayer] 0 newGame).1 =
      [none, none, none, some ErrFullGame] ∧
    (addPlayers (fun _ => 1) [botPlayer, botPlayer, botPlayer, botPlayer] 0
      newGame).2.numberPlayer = 3 :=
  ⟨(fill_game (fun _ => 1) [botPlayer, botPlayer, botPlayer, botPlayer]
      (show validDraws (fun _ => 1) from fun _ => (by decide : 1 < PlayersPerGame - 1))).1, by decide, by decide⟩

/-! ## The matchmaker -/

theorem startIfReady_inv (draw : Nat) (started : List Game) (g : Game)
    (h1 : 1 ≤ g.numberPlayer) (h2 : g.numberPlayer ≤ g.MaxPlayer)
    (h3 : g.MaxPlayer ≤ PlayersPerGame) : lobbyInv (startIfReady draw started g) := by
  have hM : g.MaxPlayer ≠ 0 := by omega
  unfold startIfReady IsReady
  rw [setMaxPlayer_of_ne draw g hM]
  by_cases hr : g.numberPlayer = g.MaxPlayer
  · simp only [hr, decide_True, if_true]
    intro g1 hg1
    simp at hg1
  · simp only [hr, decide_False, Bool.false_eq_true, if_false]
    intro g1 hg1
    simp only [Option.some.injEq] at hg1
    subst hg1
    exact ⟨h1, by omega, h3⟩

/-- A step "Attach to game" from a state with the invariant: `AddPlayer` does
not return `ErrFullGame`, and the invariant holds again. -/
theorem attach_spec (d : Nat → Nat) (p : Player) (s : Matchmaker) (hinv : lobbyInv s)
    (hd : validDraws d) :
    (attach d p s).2 = ⟨false, [], 0⟩ ∧ lobbyInv (attach d p s).1 := by
  have hd0 : d 0 < 5 := hd 0
  cases hc : s.currentGame with
  | none =>
    have hfresh : setMaxPlayer (d 0) newGame = { newGame with MaxPlayer := d 0 + 2 } :=
      setMaxPlayer_fresh _ _ rfl
    have ha : AddPlayer (d 0) newGame p =
        (none, { newGame with MaxPlayer := d 0 + 2, numberPlayer := 1
                              Players := Function.update newGame.Players 1 (some p) }) := by
      unfold AddPlayer
      rw [hfresh]
      simp [newGame]
    unfold attach
    simp only [hc, ha, reduceCtorEq, if_false, true_and]
    apply startIfReady_inv
    · exact le_refl _
    · show 1 ≤ d 0 + 2
      omega
    · show d 0 + 2 ≤ PlayersPerGame
      simp only [PlayersPerGame]
      omega
  | some g =>
    obtain ⟨h1, h2, h3⟩ := hinv g hc
    have ha := AddPlayer_ok (d 0) g p (by omega) (by omega)
    unfold attach
    simp only [hc, ha, reduceCtorEq, if_false, true_and]
    apply startIfReady_inv
    · show 1 ≤ g.numberPlayer + 1
      omega
    · show g.numberPlayer + 1 ≤ g.MaxPlayer
      omega
    · exact h3

theorem addBots_spec (d : Nat) (ais : List PoolEntry) (g : Game) (hM : g.MaxPlayer ≠ 0)
    (h : g.numberPlayer + ais.length ≤ g.MaxPlayer) :
    (addBots d ais g).numberPlayer = g.numberPlayer + ais.length ∧
    (addBots d ais g).MaxPlayer = g.MaxPlayer := by
  induction ais generalizing g with
  | nil => exact ⟨rfl, rfl⟩
  | cons e rest ih =>
    simp only [List.length_cons] at h
    have ha := AddPlayer_ok d g botPlayer hM (by omega)
    simp only [addBots, ha]
    obtain ⟨i1, i2⟩ := ih
      { g with numberPlayer := g.numberPlayer + 1
               Players := Function.update g.Players (g.numberPlayer + 1) (some botPlayer) } hM
      (by simp only; omega)
    simp only at i1 i2
    exact ⟨by rw [i1]; simp only [List.length_cons]; omega, i2⟩

/-- The padding loop on an open lobby with the invariant: one pass, one call
of `GetAI` for the missing players, and the lobby is ready. -/
theorem padLoop_spec (pool : List PoolEntry) (sel : Nat → List Nat) (d : Nat → Nat)
    (fuel k : Nat) (g : Game) (hpool : PlayersPerGame ≤ pool.length)
    (hsel : validShuffles pool sel)
    (h1 : 1 ≤ g.numberPlayer) (h2 : g.numberPlayer < g.MaxPlayer)
    (h3 : g.MaxPlayer ≤ PlayersPerGame) :
    ∃ g1, padLoop pool sel d (fuel + 1) k g =
        some (g1, [(g.MaxPlayer : Int) - (g.numberPlayer : Int)], 1) ∧
      g1.numberPlayer = g1.MaxPlayer ∧ g1.MaxPlayer = g.MaxPlayer := by
  have hM : g.MaxPlayer ≠ 0 := by omega
  have hP : PlayersPerGame = 6 := rfl
  have hready : IsReady (d k) g = (false, g) := by
    unfold IsReady
    rw [setMaxPlayer_of_ne (d k) g hM]
    simp only [Prod.mk.injEq, decide_eq_false_iff_not, and_true]
    omega
  have hmiss : MissingPlayer (d k) g = ((g.MaxPlayer : Int) - (g.numberPlayer : Int), g) := by
    unfold MissingPlayer
    rw [setMaxPlayer_of_ne (d k) g hM]
    simp only [Prod.mk.injEq, and_true]
    rw [if_neg]
    omega
  obtain ⟨ais, hget, hlen, -⟩ := GetAI_some ((g.MaxPlayer : Int) - (g.numberPlayer : Int))
    (sel k) pool (hsel k) (by omega) (by omega)
  have hlen1 : ais.length = g.MaxPlayer - g.numberPlayer := by
    rw [hlen]
    omega
  obtain ⟨b1, b2⟩ := addBots_spec (d k) ais g hM (by omega)
  have hM1 : (addBots (d k) ais g).MaxPlayer ≠ 0 := by rw [b2]; exact hM
  have hfull : (addBots (d k) ais g).numberPlayer = (addBots (d k) ais g).MaxPlayer := by
    rw [b1, b2]
    omega
  have hready1 : ∀ f, padLoop pool sel d f (k + 1) (addBots (d k) ais g) =
      some (addBots (d k) ais g, [], 0) := by
    intro f
    have : IsReady (d (k + 1)) (addBots (d k) ais g) = (true, addBots (d k) ais g) := by
      unfold IsReady
      rw [setMaxPlayer_of_ne _ _ hM1]
      simp [hfull]
    cases f <;> simp [padLoop, this]
  refine ⟨addBots (d k) ais g, ?_, hfull, b2⟩
  rw [padLoop]
  simp only [hready, Bool.false_eq_true, if_false, hmiss, hget, hready1]

/-- A pass of `gameStarterWorker` keeps the invariant. -/
theorem tick_inv (pool : List PoolEntry) (sel : Nat → List Nat) (d : Nat → Nat) (fuel : Nat)
    (timeout : Bool) (s s1 : Matchmaker) (l : StepLog) (hinv : lobbyInv s)
    (h : tick pool sel d fuel timeout s = some (s1, l)) : lobbyInv s1 := by
  unfold tick at h
  cases hc : s.currentGame with
  | none =>
    rw [hc] at h
    simp only [Option.some.injEq, Prod.mk.injEq] at h
    rw [← h.1]
    exact hinv
  | some g =>
    rw [hc] at h
    cases timeout with
    | false =>
      simp only [Bool.false_eq_true, if_false, Option.some.injEq, Prod.mk.injEq] at h
      rw [← h.1]
      exact hinv
    | true =>
      simp only [if_true] at h
      cases hp : padLoop pool sel d fuel 0 g with
      | none => rw [hp] at h; simp at h
      | some r =>
        rw [hp] at h
        simp only [Option.some.injEq, Prod.mk.injEq] at h
        rw [← h.1]
        intro g1 hg1
        simp at hg1

theorem Lobby_inv (pool : List PoolEntry) (s : Matchmaker) (h : Lobby pool s) : lobbyInv s := by
  induction h with
  | init => intro g hg; simp at hg
  | attach s d p _ hd ih => exact (attach_spec d p s ih hd).2
  | tick s s1 sel d fuel timeout l _ _ _ ht ih => exact tick_inv pool sel d fuel timeout s s1 l ih ht

/-- C25: in every state the matchmaker reaches by "Attach to game" steps of
`endpoint` and passes of `gameStarterWorker` (the pool holding at least
`PlayersPerGame` entries), the open lobby is absent or holds at least one and
fewer than `MaxPlayer` players.  Consequently a further "Attach to game" never
gets `ErrFullGame` from `AddPlayer`, and a pass of `gameStarterWorker` after
the timeout on an open lobby `g` (with at least one pass of fuel) calls `GetAI`
exactly once, for `MaxPlayer - numberPlayer` bots, which is at least 1 and at
most `PlayersPerGame - 1`, leaves the padding loop after a single pass,
starts the lobby, which is then ready, and clears `currentGame`. -/
theorem matchmaker_invariant (pool : List PoolEntry) (s : Matchmaker)
    (hpool : PlayersPerGame ≤ pool.length) (hs : Lobby pool s) :
    lobbyInv s ∧
    (∀ d p, validDraws d → (attach d p s).2.full = false) ∧
    ∀ sel d fuel g, validDraws d → validShuffles pool sel → s.currentGame = some g →
      ∃ g1, tick pool sel d (fuel + 1) true s =
          some (⟨none, s.started ++ [g1]⟩,
            ⟨false, [(g.MaxPlayer : Int) - (g.numberPlayer : Int)], 1⟩) ∧
        1 ≤ (g.MaxPlayer : Int) - (g.numberPlayer : Int) ∧
        (g.MaxPlayer : Int) - (g.numberPlayer : Int) ≤ (PlayersPerGame : Int) - 1 ∧
        (IsReady (d 0) g1).1 = true := by
  have hinv := Lobby_inv pool s hs
  refine ⟨hinv, fun d p hd => ?_, fun sel d fuel g hd hsel hg => ?_⟩
  · rw [(attach_spec d p s hinv hd).1]
  · obtain ⟨h1, h2, h3⟩ := hinv g hg
    obtain ⟨g1, e, hfull, hmax⟩ := padLoop_spec pool sel d fuel 0 g hpool hsel h1 h2 h3
    refine ⟨g1, ?_, by omega, by omega, ?_⟩
    · simp only [tick, hg, if_true, e]
    · unfold IsReady
      rw [setMaxPlayer_of_ne _ _ (by rw [hmax]; omega)]
      simp [hfull]

/-! ## The initialisation: size of the board and placement -/

/-- A full lobby has an order of its keys: the ascending one. -/
theorem validLobby_keys (g : Game) (hl : validLobby g) :
    keysOf g (List.range' 1 g.numberPlayer) := by
  refine ⟨List.nodup_range' 1 g.numberPlayer, fun i => ?_⟩
  rw [hl.2.2.2 i, List.mem_range'_1]
  omega

/-- The direction a player gets in the initialisation is chosen from its
position. -/
theorem initialise_direction (r : InitRandom) (g0 g1 : Game) (hl : validLobby g0)
    (hi : validInit r g0) (he : initialise r g0 = some g1) :
    ∀ i p, g1.Players i = some p →
      p.Direction = initDirection g1.Width g1.Height p.X p.Y := by
  obtain ⟨hm2, hm6, hnum, hkeys⟩ := hl
  obtain ⟨hw0, hw1, hh0, hh1, hord, hoff⟩ := hi
  unfold FieldMaxSize FieldMinSize at hw1 hh1
  unfold PlayersPerGame at hm6
  have hlen : r.order.length = g0.numberPlayer := keys_length g0 r.order _ hord hkeys
  have hbW : ({ g0 with Width := r.width + FieldMinSize + 1
                        Height := r.height + FieldMinSize + 1
                        Cells := fun _ _ => 0 } : Game).Width = r.width + 40 + 1 := rfl
  have hbH : ({ g0 with Width := r.width + FieldMinSize + 1
                        Height := r.height + FieldMinSize + 1
                        Cells := fun _ _ => 0 } : Game).Height = r.height + 40 + 1 := rfl
  obtain ⟨g2, e, w, h, _, _, _, sm, _, pls⟩ := initPlayers_spec r r.order 0
    { g0 with Width := r.width + FieldMinSize + 1
              Height := r.height + FieldMinSize + 1
              Cells := fun _ _ => 0 } hord.1
    (by omega) (fun i hi => (hord.2 i).1 hi) (by rw [hbW]; omega) (by rw [hbH]; omega) hoff
  unfold initialise at he
  rw [e] at he
  simp only [Option.some.injEq] at he
  subst he
  intro i p hp
  have hp2 : g2.Players i = some p := hp
  have hs : (g0.Players i).isSome = true := by
    have := sm i
    rw [hp2] at this
    exact this.symm
  obtain ⟨p0, q1, _, hq1, hq, _⟩ := pls i ((hord.2 i).2 hs)
  rw [hp2] at hq1
  have hpq : p = q1 := Option.some.inj hq1
  subst hpq
  show p.Direction = initDirection g2.Width g2.Height p.X p.Y
  rw [w, h, hq]

theorem initDirection_inward (W H X Y : Int) :
    (initDirection W H X Y = .up → Y > Int.tdiv H 2) ∧
    (initDirection W H X Y = .down → Y ≤ Int.tdiv H 2) ∧
    (initDirection W H X Y = .left → X > Int.tdiv W 2) ∧
    (initDirection W H X Y = .right → X ≤ Int.tdiv W 2) := by
  unfold initDirection
  split_ifs with h1 h2 h3 h4
  · exact ⟨fun _ => h1.2, by simp, by simp, by simp⟩
  · exact ⟨by simp, by simp, by simp, fun _ => h2.1⟩
  · exact ⟨by simp, by simp, fun _ => h3.1, by simp⟩
  · exact ⟨by simp, fun _ => h4.2, by simp, by simp⟩
  · exfalso
    by_cases hx : X > Int.tdiv W 2 <;> by_cases hy : Y > Int.tdiv H 2
    · exact h1 ⟨hx, hy⟩
    · exact h3 ⟨hx, by omega⟩
    · exact h2 ⟨by omega, hy⟩
    · exact h4 ⟨by omega, by omega⟩

/-- C26, as the code has it: the width and the height chosen by `RunGame` lie
between `FieldMinSize + 1` and `FieldMaxSize` (41 .. 80), and every pair of
values of that interval can be chosen: for every full lobby there are draws
the initialisation can make that give this width and this height. -/
theorem board_size_range :
    (∀ r g0 g1, validLobby g0 → validInit r g0 → initialise r g0 = some g1 →
      FieldMinSize + 1 ≤ g1.Width ∧ g1.Width ≤ FieldMaxSize ∧
      FieldMinSize + 1 ≤ g1.Height ∧ g1.Height ≤ FieldMaxSize) ∧
    ∀ g0 w h, validLobby g0 → FieldMinSize + 1 ≤ w → w ≤ FieldMaxSize →
      FieldMinSize + 1 ≤ h → h ≤ FieldMaxSize →
      ∃ r g1, validInit r g0 ∧ initialise r g0 = some g1 ∧ g1.Width = w ∧ g1.Height = h := by
  constructor
  · intro r g0 g1 hl hi he
    obtain ⟨g2, e2, _, hw, hh, _⟩ := initialise_spec r g0 hl hi
    rw [he] at e2
    have : g1 = g2 := Option.some.inj e2
    subst this
    obtain ⟨hw0, hw1, hh0, hh1, _⟩ := hi
    rw [hw, hh]
    unfold FieldMaxSize FieldMinSize at *
    omega
  · intro g0 w h hl hw1 hw2 hh1 hh2
    have hMax : FieldMaxSize = 80 := rfl
    have hMin : FieldMinSize = 40 := rfl
    rw [hMin] at hw1 hh1
    rw [hMax] at hw2 hh2
    have hi : validInit ⟨0, w - 41, h - 41, List.range' 1 g0.numberPlayer, fun _ => 0,
        fun _ => 0⟩ g0 := by
      refine ⟨?_, ?_, ?_, ?_, validLobby_keys g0 hl, fun i => ?_⟩
      · show 0 ≤ w - 41
        omega
      · show w - 41 < FieldMaxSize - FieldMinSize
        unfold FieldMaxSize FieldMinSize
        omega
      · show 0 ≤ h - 41
        omega
      · show h - 41 < FieldMaxSize - FieldMinSize
        unfold FieldMaxSize FieldMinSize
        omega
      · show (0 : Int) ≤ 0 ∧ 0 < Int.tdiv (w - 41 + FieldMinSize + 1) 4 ∧ (0 : Int) ≤ 0 ∧
          0 < Int.tdiv (h - 41 + FieldMinSize + 1) 2
        unfold FieldMinSize
        rw [Int.tdiv_eq_ediv (by omega) (by decide), Int.tdiv_eq_ediv (by omega) (by decide)]
        omega
    obtain ⟨g1, e, _, hw, hh, _⟩ := initialise_spec _ g0 hl hi
    refine ⟨_, g1, hi, e, ?_, ?_⟩
    · rw [hw]
      show w - 41 + FieldMinSize + 1 = w
      unfold FieldMinSize
      omega
    · rw [hh]
      show h - 41 + FieldMinSize + 1 = h
      unfold FieldMinSize
      omega

/-- C26 as stated fails: no draw gives the width or the height
`FieldMaxSize + 1` (81), since `rand.Intn(FieldMaxSize-FieldMinSize)` is at most
39. -/
theorem board_size_not_81 :
    ¬ ∃ r g0 g1, validLobby g0 ∧ validInit r g0 ∧ initialise r g0 = some g1 ∧
      (g1.Width = FieldMaxSize + 1 ∨ g1.Height = FieldMaxSize + 1) := by
  rintro ⟨r, g0, g1, hl, hi, he, h⟩
  obtain ⟨g2, e2, _, hw, hh, _⟩ := initialise_spec r g0 hl hi
  rw [he] at e2
  have : g1 = g2 := Option.some.inj e2
  subst this
  obtain ⟨hw0, hw1, hh0, hh1, _⟩ := hi
  rw [hw, hh] at h
  unfold FieldMaxSize FieldMinSize at *
  omega

/-- C27: for a full lobby of 2 to `PlayersPerGame` players, every board size
the draws can give, every order in which the players are visited and every
offset the draws can give, the initialisation does not fail, and after it
each player has speed 1, is active, stands on a cell inside the grid that
holds its id, and has a direction pointing inward: up only if `Y > Height/2`,
down only if `Y <= Height/2`, left only if `X > Width/2`, right only if
`X <= Width/2`. -/
theorem initial_placement (r : InitRandom) (g0 : Game) (hl : validLobby g0)
    (hi : validInit r g0) :
    ∃ g1, initialise r g0 = some g1 ∧
      ∀ i p, g1.Players i = some p →
        p.Speed = 1 ∧ p.Active = true ∧ inGrid g1.Width g1.Height p.X p.Y = true ∧
        g1.Cells p.Y p.X = i ∧
        (p.Direction = .up → p.Y > Int.tdiv g1.Height 2) ∧
        (p.Direction = .down → p.Y ≤ Int.tdiv g1.Height 2) ∧
        (p.Direction = .left → p.X > Int.tdiv g1.Width 2) ∧
        (p.Direction = .right → p.X ≤ Int.tdiv g1.Width 2) := by
  obtain ⟨g1, e, hinv, _, _, _, hrec⟩ := initialise_spec r g0 hl hi
  refine ⟨g1, e, fun i p hp => ?_⟩
  obtain ⟨hact, hsp⟩ := hrec i p hp
  obtain ⟨_, _, hin, hcell⟩ := hinv.2 i p hp hact
  have hdir := initialise_direction r g0 g1 hl hi e i p hp
  rw [hdir]
  exact ⟨hsp, hact, hin, hcell, initDirection_inward _ _ _ _⟩

/-- The lobby `lobby2` with the draws `draw2`: player 1 is placed on (9,5)
and player 2 on (10,5) of a 41x41 board, both facing down. -/
theorem initial_placement_witness :
    (∃ g1, initialise draw2 lobby2 = some g1 ∧
      ∀ i p, g1.Players i = some p →
        p.Speed = 1 ∧ p.Active = true ∧ inGrid g1.Width g1.Height p.X p.Y = true ∧
        g1.Cells p.Y p.X = i ∧
        (p.Direction = .up → p.Y > Int.tdiv g1.Height 2) ∧
        (p.Direction = .down → p.Y ≤ Int.tdiv g1.Height 2) ∧
        (p.Direction = .left → p.X > Int.tdiv g1.Width 2) ∧
        (p.Direction = .right → p.X ≤ Int.tdiv g1.Width 2)) ∧
    (initialise draw2 lobby2).map (fun g => (g.Width, g.Height, g.Players 1, g.Players 2)) =
      some (41, 41, some ⟨9, 5, .down, 1, true, 0, true⟩,
        some ⟨10, 5, .down, 1, true, 0, true⟩) :=
  ⟨initial_placement draw2 lobby2 lobby2_valid draw2_valid, by decide⟩

/-- The board of `lobby2` with the draws `draw2` is 41x41, and the sizes 41
and 80 can be chosen for it. -/
theorem board_size_range_witness :
    (∃ r g1, validInit r lobby2 ∧ initialise r lobby2 = some g1 ∧ g1.Width = 41 ∧
      g1.Height = 80) ∧
    (initialise draw2 lobby2).map (fun g => (g.Width, g.Height)) = some (41, 41) :=
  ⟨board_size_range.2 lobby2 41 80 lobby2_valid (by decide) (by decide) (by decide)
    (by decide), by decide⟩

/-- The matchmaker after one "Attach to game": the lobby holds one player of
three; a pass after the timeout asks `GetAI` for 2 bots in one pass. -/
theorem matchmaker_invariant_witness :
    lobbyInv (attach (fun _ => 1) botPlayer ⟨none, []⟩).1 ∧
    (∀ d p, validDraws d →
      (attach d p (attach (fun _ => 1) botPlayer ⟨none, []⟩).1).2.full = false) ∧
    (tick pool6 (fun _ => [5, 3, 1, 0, 2, 4]) (fun _ => 1) 1 true
      (attach (fun _ => 1) botPlayer ⟨none, []⟩).1).map (fun r => r.2) =
      some ⟨false, [2], 1⟩ :=
  ⟨(matchmaker_invariant pool6 (attach (fun _ => 1) botPlayer ⟨none, []⟩).1 (by decide)
      (Lobby.attach _ _ _ Lobby.init
        (show validDraws (fun _ => 1) from fun _ => (by decide : 1 < PlayersPerGame - 1)))).1,
    (matchmaker_invariant pool6 (attach (fun _ => 1) botPlayer ⟨none, []⟩).1 (by decide)
      (Lobby.attach _ _ _ Lobby.init
        (show validDraws (fun _ => 1) from fun _ => (by decide : 1 < PlayersPerGame - 1)))).2.1,
    by decide!⟩

/-! ## API keys -/

theorem ClaimKey_cases (key : String) (keymap : String → Option Int) :
    ((key = "" ∨ keymap key = none) ∧ ClaimKey key keymap = (KeyInvalid, keymap)) ∨
    (key ≠ "" ∧ keymap key = some 0 ∧ ClaimKey key keymap = (KeyRateLimit, keymap)) ∨
    ∃ a, key ≠ "" ∧ keymap key = some a ∧ a ≠ 0 ∧
      ClaimKey key keymap = (KeyOK, Function.update keymap key (some (a - 1))) := by
  unfold ClaimKey
  by_cases hk : key = ""
  · left
    exact ⟨Or.inl hk, by rw [if_pos hk]⟩
  · cases hm : keymap key with
    | none =>
      left
      exact ⟨Or.inr rfl, by rw [if_neg hk]⟩
    | some a =>
      by_cases ha : a = 0
      · right; left
        subst ha
        exact ⟨hk, rfl, by rw [if_neg hk]; simp⟩
      · right; right
        exact ⟨a, hk, rfl, ha, by rw [if_neg hk]; simp [ha]⟩

theorem ReleaseKey_cases (key : String) (keymap : String → Option Int) :
    ((key = "" ∨ keymap key = none) ∧ ReleaseKey key keymap = keymap) ∨
    ∃ a, key ≠ "" ∧ keymap key = some a ∧
      ReleaseKey key keymap = Function.update keymap key (some (a + 1)) := by
  unfold ReleaseKey
  by_cases hk : key = ""
  · left
    exact ⟨Or.inl hk, by rw [if_pos hk]⟩
  · cases hm : keymap key with
    | none =>
      left
      exact ⟨Or.inr rfl, by rw [if_neg hk]⟩
    | some a =>
      right
      exact ⟨a, hk, rfl, by rw [if_neg hk]⟩

/-- C28: `ClaimKey(key)` returns `KeyInvalid` if `key` is empty or not in the
key map, `KeyRateLimit` if the available count of the key is 0, and `KeyOK`
otherwise; it decrements the count of that key by exactly one when it returns
`KeyOK` (every other entry stays) and changes nothing for every other result;
a `ReleaseKey(key)` directly after a successful `ClaimKey(key)` restores the
key map to what it was before the claim. -/
theorem claimKey_spec (key : String) (keymap : String → Option Int) :
    ((key = "" ∨ keymap key = none) → ClaimKey key keymap = (KeyInvalid, keymap)) ∧
    (key ≠ "" → keymap key = some 0 → ClaimKey key keymap = (KeyRateLimit, keymap)) ∧
    (∀ v, key ≠ "" → keymap key = some v → v ≠ 0 →
      (ClaimKey key keymap).1 = KeyOK ∧ (ClaimKey key keymap).2 key = some (v - 1) ∧
      ∀ k, k ≠ key → (ClaimKey key keymap).2 k = keymap k) ∧
    ((ClaimKey key keymap).1 ≠ KeyOK → (ClaimKey key keymap).2 = keymap) ∧
    ((ClaimKey key keymap).1 = KeyOK →
      ReleaseKey key (ClaimKey key keymap).2 = keymap) := by
  have c1 : KeyInvalid ≠ KeyOK := by decide
  have c2 : KeyRateLimit ≠ KeyOK := by decide
  rcases ClaimKey_cases key keymap with ⟨h, e⟩ | ⟨hk, h0, e⟩ | ⟨a, hk, ha, hne, e⟩
  · rw [e]
    refine ⟨fun _ => rfl, ?_, ?_, fun _ => rfl, fun h1 => absurd h1 c1⟩
    · intro hk h0
      rcases h with h | h
      · exact absurd h hk
      · rw [h0] at h; simp at h
    · intro v hk hv
      rcases h with h | h
      · exact absurd h hk
      · rw [hv] at h; simp at h
  · rw [e]
    refine ⟨?_, fun _ _ => rfl, ?_, fun _ => rfl, fun h1 => absurd h1 c2⟩
    · rintro (h | h)
      · exact absurd h hk
      · rw [h0] at h; simp at h
    · intro v _ hv hv0
      rw [h0] at hv
      exact absurd (Option.some.inj hv).symm hv0
  · rw [e]
    refine ⟨?_, ?_, ?_, fun h1 => absurd rfl h1, fun _ => ?_⟩
    · rintro (h | h)
      · exact absurd h hk
      · rw [ha] at h; simp at h
    · intro _ h0
      rw [ha] at h0
      exact absurd (Option.some.inj h0) hne
    · intro v _ hv _
      rw [ha] at hv
      have hav : a = v := Option.some.inj hv
      subst hav
      exact ⟨rfl, by simp, fun k hkk => Function.update_noteq hkk _ _⟩
    · unfold ReleaseKey
      simp only [hk, if_false, Function.update_same, Function.update_idem]
      have : a - 1 + 1 = a := by omega
      rw [this, ← ha]
      exact Function.update_eq_self _ _

/-- The key map of `keys2`: a successful claim of "alpha" and its release. -/
theorem claimKey_spec_witness :
    (ClaimKey "alpha" keys2).1 = KeyOK ∧ (ClaimKey "alpha" keys2).2 "alpha" = some 0 ∧
    ReleaseKey "alpha" (ClaimKey "alpha" keys2).2 = keys2 ∧
    ClaimKey "gamma" keys2 = (KeyInvalid, keys2) ∧
    (ClaimKey "alpha" (ClaimKey "alpha" keys2).2).1 = KeyRateLimit :=
  ⟨by decide, by decide, (claimKey_spec "alpha" keys2).2.2.2.2 (by decide),
    (claimKey_spec "gamma" keys2).1 (Or.inr (by decide)), by decide⟩

/-- A call of a matched sequence keeps the invariant. -/
theorem keyStep_inv (s : KeyState) (op : KeyOp) (hinv : keyInv s)
    (hm : matched [op] s = true) : keyInv (keyStep s op) := by
  obtain ⟨i1, i2, i3⟩ := hinv
  have c1 : KeyInvalid ≠ KeyOK := by decide
  have c2 : KeyRateLimit ≠ KeyOK := by decide
  have hN : NumberAllowedGames = 1 := rfl
  cases op with
  | claim key =>
    rcases ClaimKey_cases key s.keymap with ⟨_, e⟩ | ⟨_, _, e⟩ | ⟨a, hk, ha, hne, e⟩
    · simp only [keyStep, e, c1, if_false]
      exact ⟨i1, i2, i3⟩
    · simp only [keyStep, e, c2, if_false]
      exact ⟨i1, i2, i3⟩
    · simp only [keyStep, e, if_true]
      obtain ⟨a1, a2⟩ := i3 key a ha
      unfold keyInv
      dsimp only
      refine ⟨?_, ?_, ?_⟩
      · rw [Function.update_noteq (fun h => hk h.symm)]
        exact i1
      · intro k hkn
        by_cases hkk : k = key
        · subst hkk
          simp at hkn
        · rw [Function.update_noteq hkk] at hkn ⊢
          exact i2 k hkn
      · intro k v hkv
        by_cases hkk : k = key
        · subst hkk
          simp only [Function.update_same, Option.some.injEq] at hkv ⊢
          constructor
          · push_cast
            omega
          · omega
        · rw [Function.update_noteq hkk] at hkv ⊢
          exact i3 k v hkv
  | release key =>
    simp only [matched, Bool.and_true, decide_eq_true_eq] at hm
    rcases ReleaseKey_cases key s.keymap with ⟨h, e⟩ | ⟨a, hk, ha, e⟩
    · exfalso
      rcases h with h | h
      · have := i2 key (by rw [h]; exact i1)
        omega
      · have := i2 key h
        omega
    · simp only [keyStep, e]
      obtain ⟨a1, a2⟩ := i3 key a ha
      unfold keyInv
      dsimp only
      refine ⟨?_, ?_, ?_⟩
      · rw [Function.update_noteq (fun h => hk h.symm)]
        exact i1
      · intro k hkn
        by_cases hkk : k = key
        · subst hkk
          simp at hkn
        · rw [Function.update_noteq hkk] at hkn ⊢
          exact i2 k hkn
      · intro k v hkv
        by_cases hkk : k = key
        · subst hkk
          simp only [Function.update_same, Option.some.injEq] at hkv ⊢
          have : ((s.claimed k - 1 : Nat) : Int) = (s.claimed k : Int) - 1 := by omega
          rw [this]
          constructor <;> omega
        · rw [Function.update_noteq hkk] at hkv ⊢
          exact i3 k v hkv

theorem runKeys_inv (ops : List KeyOp) (s : KeyState) (hinv : keyInv s)
    (hm : matched ops s = true) (n : Nat) : keyInv (runKeys (ops.take n) s) := by
  induction ops generalizing s n with
  | nil => simpa [runKeys] using hinv
  | cons op rest ih =>
    cases n with
    | zero => simpa [runKeys] using hinv
    | succ n =>
      have h1 : matched [op] s = true ∧ matched rest (keyStep s op) = true := by
        cases op <;> simp only [matched, Bool.and_eq_true, decide_eq_true_eq, and_true] at hm ⊢
        · exact ⟨trivial, hm⟩
        · exact hm
      have := ih (keyStep s op) (keyStep_inv s op hinv h1.1) h1.2 n
      simpa [runKeys] using this

/-- The count of a key is never made negative. -/
theorem runKeys_nonneg (ops : List KeyOp) (s : KeyState)
    (h : ∀ k v, s.keymap k = some v → 0 ≤ v) :
    ∀ k v, (runKeys ops s).keymap k = some v → 0 ≤ v := by
  induction ops generalizing s with
  | nil => simpa [runKeys] using h
  | cons op rest ih =>
    have hs : ∀ k v, (keyStep s op).keymap k = some v → 0 ≤ v := by
      intro k v hkv
      cases op with
      | claim key =>
        simp only [keyStep] at hkv
        rcases ClaimKey_cases key s.keymap with ⟨_, e⟩ | ⟨_, _, e⟩ | ⟨a, hk, ha, hne, e⟩
        · rw [e] at hkv; exact h k v hkv
        · rw [e] at hkv; exact h k v hkv
        · rw [e] at hkv
          dsimp only at hkv
          by_cases hkk : k = key
          · subst hkk
            simp only [Function.update_same, Option.some.injEq] at hkv
            have := h k a ha
            omega
          · rw [Function.update_noteq hkk] at hkv
            exact h k v hkv
      | release key =>
        simp only [keyStep] at hkv
        rcases ReleaseKey_cases key s.keymap with ⟨_, e⟩ | ⟨a, hk, ha, e⟩
        · rw [e] at hkv; exact h k v hkv
        · rw [e] at hkv
          by_cases hkk : k = key
          · subst hkk
            simp only [Function.update_same, Option.some.injEq] at hkv
            have := h k a ha
            omega
          · rw [Function.update_noteq hkk] at hkv
            exact h k v hkv
    have := ih (keyStep s op) hs
    simpa [runKeys] using this

/-- What `InitKeys` loads: the empty key is not added, and every key added
has the count `NumberAllowedGames`. -/
theorem InitKeys_spec (lines : List String) (keymap : String → Option Int) :
    (InitKeys lines keymap) "" = keymap "" ∧
    ∀ k v, (InitKeys lines keymap) k = some v → v = NumberAllowedGames ∨ keymap k = some v := by
  induction lines generalizing keymap with
  | nil => exact ⟨rfl, fun k v h => Or.inr h⟩
  | cons text rest ih =>
    obtain ⟨h1, h2⟩ := ih (initKey keymap text)
    simp only [InitKeys, List.foldl_cons] at h1 h2 ⊢
    have hstep : (initKey keymap text) "" = keymap "" ∧
        ∀ k v, (initKey keymap text) k = some v → v = NumberAllowedGames ∨ keymap k = some v := by
      unfold initKey
      by_cases hl : text.length = 0
      · rw [if_pos hl]
        exact ⟨rfl, fun k v h => Or.inr h⟩
      · rw [if_neg hl]
        by_cases hp : List.isPrefixOf "#".data text.data = true
        · rw [if_pos hp]
          exact ⟨rfl, fun k v h => Or.inr h⟩
        · rw [if_neg hp]
          have hne : "" ≠ text := by
            rintro rfl
            exact hl rfl
          refine ⟨Function.update_noteq hne _ _, fun k v h => ?_⟩
          by_cases hkt : k = text
          · subst hkt
            simp only [Function.update_same, Option.some.injEq] at h
            exact Or.inl h.symm
          · rw [Function.update_noteq hkt] at h
            exact Or.inr h
    refine ⟨h1.trans hstep.1, fun k v h => ?_⟩
    rcases h2 k v h with h3 | h3
    · exact Or.inl h3
    · exact hstep.2 k v h3

theorem initKeys_inv (lines : List String) :
    keyInv ⟨InitKeys lines (fun _ => none), fun _ => 0⟩ := by
  obtain ⟨h1, h2⟩ := InitKeys_spec lines (fun _ => none)
  refine ⟨h1, fun _ _ => rfl, fun k v hkv => ?_⟩
  rcases h2 k v hkv with h | h
  · subst h
    exact ⟨by simp, by decide⟩
  · simp at h

/-- C29, as the code has it: the key map loaded by `InitKeys` and a sequence
of calls of `ClaimKey` and `ReleaseKey`.  After every prefix of the sequence
the available count of every key is at least 0.  If every `ReleaseKey(key)` of
the sequence follows a successful `ClaimKey(key)` that has not been released
before, then after every prefix the count of every key is at most
`NumberAllowedGames`, and it adds up to `NumberAllowedGames` with the number
of claims of the key that succeeded and are not released, so that this number
is at most `NumberAllowedGames` as well. -/
theorem token_credit (lines : List String) (ops : List KeyOp)
    (hm : matched ops ⟨InitKeys lines (fun _ => none), fun _ => 0⟩ = true) :
    (∀ ops1 k v,
      (runKeys ops1 ⟨InitKeys lines (fun _ => none), fun _ => 0⟩).keymap k = some v → 0 ≤ v) ∧
    ∀ n k v,
      (runKeys (ops.take n) ⟨InitKeys lines (fun _ => none), fun _ => 0⟩).keymap k = some v →
      0 ≤ v ∧ v ≤ NumberAllowedGames ∧
      v + (runKeys (ops.take n) ⟨InitKeys lines (fun _ => none), fun _ => 0⟩).claimed k =
        NumberAllowedGames ∧
      ((runKeys (ops.take n) ⟨InitKeys lines (fun _ => none), fun _ => 0⟩).claimed k : Int) ≤
        NumberAllowedGames := by
  have h0 := initKeys_inv lines
  constructor
  · intro ops1
    apply runKeys_nonneg
    intro k v hkv
    exact (h0.2.2 k v hkv).2
  · intro n k v hkv
    obtain ⟨_, _, i3⟩ := runKeys_inv ops _ h0 hm n
    obtain ⟨a1, a2⟩ := i3 k v hkv
    exact ⟨a2, by omega, a1, by omega⟩

/-- The key "alpha" of `keys2` is claimed, claimed again (rate limit) and
released. -/
theorem token_credit_witness :
    (∀ ops1 k v,
      (runKeys ops1 ⟨InitKeys ["# keys", "alpha", "", "beta"] (fun _ => none),
        fun _ => 0⟩).keymap k = some v → 0 ≤ v) ∧
    ∀ n k v,
      (runKeys (([.claim "alpha", .claim "alpha", .release "alpha"] : List KeyOp).take n)
        ⟨InitKeys ["# keys", "alpha", "", "beta"] (fun _ => none), fun _ => 0⟩).keymap k =
        some v →
      0 ≤ v ∧ v ≤ NumberAllowedGames ∧
      v + (runKeys (([.claim "alpha", .claim "alpha", .release "alpha"] : List KeyOp).take n)
        ⟨InitKeys ["# keys", "alpha", "", "beta"] (fun _ => none), fun _ => 0⟩).claimed k =
        NumberAllowedGames ∧
      ((runKeys (([.claim "alpha", .claim "alpha", .release "alpha"] : List KeyOp).take n)
        ⟨InitKeys ["# keys", "alpha", "", "beta"] (fun _ => none), fun _ => 0⟩).claimed k : Int) ≤
        NumberAllowedGames :=
  token_credit ["# keys", "alpha", "", "beta"]
    [.claim "alpha", .claim "alpha", .release "alpha"] (by decide)

/-- C29 as stated fails: on the key map `keys2` loaded by `InitKeys` the call
`ReleaseKey("alpha")` with no claim before it raises the count of "alpha" to 2,
above `NumberAllowedGames`. -/
theorem token_credit_exceeded :
    (runKeys [.release "alpha"] ⟨keys2, fun _ => 0⟩).keymap "alpha" = some 2 ∧
    keys2 "alpha" = some NumberAllowedGames ∧ ¬ ((2 : Int) ≤ NumberAllowedGames) := by
  refine ⟨by decide, by decide, by decide⟩

/-! ## Player.ReleaseAPI and Player.Close -/

theorem ReleaseAPI_done (keymap : String → Option Int) (p : PlayerObj)
    (h : p.apiReleased = true ∨ p.api = "") : ReleaseAPI keymap p = (keymap, p) := by
  unfold ReleaseAPI
  rw [if_neg]
  rintro ⟨h1, h2⟩
  rcases h with h | h
  · rw [h] at h1
    simp at h1
  · exact h2 h

theorem ReleaseAPI_first (keymap : String → Option Int) (p : PlayerObj)
    (h1 : p.apiReleased = false) (h2 : p.api ≠ "") :
    ReleaseAPI keymap p = (ReleaseKey p.api keymap, { p with apiReleased := true }) := by
  unfold ReleaseAPI
  rw [if_pos ⟨h1, h2⟩]

theorem ReleaseAPI_after (keymap : String → Option Int) (p : PlayerObj) :
    (ReleaseAPI keymap p).2.apiReleased = true ∨ (ReleaseAPI keymap p).2.api = "" := by
  by_cases h : p.apiReleased = false ∧ p.api ≠ ""
  · rw [ReleaseAPI_first keymap p h.1 h.2]
    exact Or.inl rfl
  · have hd : p.apiReleased = true ∨ p.api = "" := by
      by_cases h1 : p.apiReleased = true
      · exact Or.inl h1
      · right
        by_contra h2
        exact h ⟨by simpa using h1, h2⟩
    rw [ReleaseAPI_done keymap p hd]
    exact hd

theorem ReleaseAPI_fields (keymap : String → Option Int) (p : PlayerObj) :
    (ReleaseAPI keymap p).2.ws = p.ws ∧ (ReleaseAPI keymap p).2.underlyingAI = p.underlyingAI := by
  unfold ReleaseAPI
  split_ifs <;> exact ⟨rfl, rfl⟩

theorem Close_fields (keymap : String → Option Int) (p : PlayerObj) :
    (Close keymap p).2.ws = none ∧ (Close keymap p).2.underlyingAI = none := by
  unfold Close
  by_cases hw : p.ws = none
  · rw [if_pos hw]
    exact ⟨hw, rfl⟩
  · rw [if_neg hw]
    exact ⟨(ReleaseAPI_fields _ _).1, (ReleaseAPI_fields _ _).2⟩

/-- A `Close` of a player that has no connection and no bot changes
nothing. -/
theorem Close_closed (keymap : String → Option Int) (p : PlayerObj) (h1 : p.ws = none)
    (h2 : p.underlyingAI = none) : Close keymap p = (keymap, p) := by
  unfold Close
  rw [if_pos h1]
  cases p
  simp only at h2
  subst h2
  rfl

/-- C30: `Player.ReleaseAPI` is idempotent.  The first call on a player whose
key is not empty sets `apiReleased` and calls `ReleaseKey` once: the count of
a known key is raised by one, every other entry of the key map stays, and an
unknown key leaves the map as it is; for an empty key the call changes
nothing.  A second call changes neither the key map nor the player, and so
does the call `Close` makes after a call of `ReleaseAPI`: `Close` then leaves
the key map as it is.  A `ReleaseAPI` after the `Close` of a connected player
and a second `Close` change nothing. -/
theorem releaseAPI_idempotent (keymap : String → Option Int) (p : PlayerObj) :
    (p.apiReleased = false → p.api ≠ "" →
      (ReleaseAPI keymap p).2 = { p with apiReleased := true } ∧
      (∀ v, keymap p.api = some v → (ReleaseAPI keymap p).1 p.api = some (v + 1)) ∧
      (keymap p.api = none → (ReleaseAPI keymap p).1 = keymap) ∧
      ∀ k, k ≠ p.api → (ReleaseAPI keymap p).1 k = keymap k) ∧
    (p.api = "" → ReleaseAPI keymap p = (keymap, p)) ∧
    ReleaseAPI (ReleaseAPI keymap p).1 (ReleaseAPI keymap p).2 = ReleaseAPI keymap p ∧
    (Close (ReleaseAPI keymap p).1 (ReleaseAPI keymap p).2).1 = (ReleaseAPI keymap p).1 ∧
    ReleaseAPI (ReleaseAPI keymap p).1
        { (ReleaseAPI keymap p).2 with underlyingAI := none, wsclosed := true, ws := none } =
      ((ReleaseAPI keymap p).1,
        { (ReleaseAPI keymap p).2 with underlyingAI := none, wsclosed := true, ws := none }) ∧
    (p.ws ≠ none → ReleaseAPI (Close keymap p).1 (Close keymap p).2 = Close keymap p) ∧
    Close (Close keymap p).1 (Close keymap p).2 = Close keymap p := by
  have hafter := ReleaseAPI_after keymap p
  refine ⟨?_, fun h => ReleaseAPI_done keymap p (Or.inr h), ?_, ?_, ?_, ?_, ?_⟩
  · intro h1 h2
    rw [ReleaseAPI_first keymap p h1 h2]
    refine ⟨rfl, ?_, ?_, ?_⟩
    · intro v hv
      rcases ReleaseKey_cases p.api keymap with ⟨h, _⟩ | ⟨a, _, ha, e⟩
      · rcases h with h | h
        · exact absurd h h2
        · rw [hv] at h; simp at h
      · simp only [e, Function.update_same]
        rw [hv] at ha
        rw [Option.some.inj ha]
    · intro hn
      rcases ReleaseKey_cases p.api keymap with ⟨_, e⟩ | ⟨a, _, ha, _⟩
      · exact e
      · rw [hn] at ha; simp at ha
    · intro k hk
      rcases ReleaseKey_cases p.api keymap with ⟨_, e⟩ | ⟨a, _, _, e⟩
      · simp only [e]
      · simp only [e]
        exact Function.update_noteq hk _ _
  · exact ReleaseAPI_done _ _ hafter
  · unfold Close
    by_cases hw : (ReleaseAPI keymap p).2.ws = none
    · rw [if_pos hw]
    · rw [if_neg hw]
      have hq := ReleaseAPI_done (ReleaseAPI keymap p).1
        { (ReleaseAPI keymap p).2 with underlyingAI := none, wsclosed := true, ws := none }
        hafter
      rw [hq]
  · exact ReleaseAPI_done _ _ hafter
  · intro hw
    unfold Close
    rw [if_neg hw]
    exact ReleaseAPI_done _ _ (ReleaseAPI_after _ _)
  · exact Close_closed _ _ (Close_fields keymap p).1 (Close_fields keymap p).2

/-- The player `anna` after a successful claim of her key "alpha": her first
`ReleaseAPI` gives the key back, and the `Close` after it leaves the key map
as it is. -/
theorem releaseAPI_idempotent_witness :
    (ReleaseAPI (ClaimKey "alpha" keys2).2 anna).1 "alpha" = some 1 ∧
    ReleaseAPI (ReleaseAPI (ClaimKey "alpha" keys2).2 anna).1
        (ReleaseAPI (ClaimKey "alpha" keys2).2 anna).2 =
      ReleaseAPI (ClaimKey "alpha" keys2).2 anna ∧
    (Close (ReleaseAPI (ClaimKey "alpha" keys2).2 anna).1
        (ReleaseAPI (ClaimKey "alpha" keys2).2 anna).2).1 "alpha" = some 1 :=
  ⟨by decide, (releaseAPI_idempotent (ClaimKey "alpha" keys2).2 anna).2.2.1, by decide⟩

/-- The name "C" is registered in `registry2`; the name "A" is refused. -/
theorem registerAI_spec_witness :
    (RegisterAI "C" (some 3) registry2).2 "C" = some 3 ∧
    (RegisterAI "A" (some 3) registry2).2 = registry2 :=
  ⟨((registerAI_spec "C" (some 3) registry2).2.2 (by decide)).1,
    (registerAI_spec "A" (some 3) registry2).2.1 (by decide)⟩

/-- The pool made of `registry2` for the names A, B, A, A, B, B, and the
refusal of a list with the unknown name C. -/
theorem updateAIPool_spec_witness :
    (UpdateAIPool ["A", "B", "A", "A", "B", "B"] registry2 []).2.length = 6 ∧
    (UpdateAIPool ["A", "B", "A", "A", "B", "C"] registry2 pool6).2 = pool6 ∧
    (UpdateAIPool ["A", "B", "A", "A", "B", "B"] registry2 []).2 = pool6 :=
  ⟨((updateAIPool_spec ["A", "B", "A", "A", "B", "B"] registry2 []).2.2 (by decide)).1,
    (updateAIPool_spec ["A", "B", "A", "A", "B", "C"] registry2 pool6).2.1 (by decide),
    by decide⟩

/-! ## The retrace of the crash adjudication -/

/-- C36: for a player that is still active after "Do Movement", every cell
the loop of "Check crash" reads (backward index `k` below the speed) is a cell
of the grid and is the cell the player entered at the forward sub-step
`Speed - 1 - k`; the hole test at the backward index `k` is the hole test of
the forward move at that sub-step, and the loop of "Check crash" does not
read out of range. -/
theorem retrace_reads_path (g : Game) (mo : List Nat) (hmo : mo.Nodup) (i : Nat) (hi : i ∈ mo)
    (q : Player) (hq : (doMovement mo g).Players i = some q) (ha : q.Active = true) :
    ∃ p, g.Players i = some p ∧ p.Active = true ∧
      (∀ k : Nat, k < q.Speed.toNat →
        inGrid (doMovement mo g).Width (doMovement mo g).Height
            (q.X - k * (dvec q.Direction).1) (q.Y - k * (dvec q.Direction).2) = true ∧
          q.X - k * (dvec q.Direction).1 =
            p.X + (((p.Speed.toNat - 1 - k : Nat) : Int) + 1) * (dvec p.Direction).1 ∧
          q.Y - k * (dvec q.Direction).2 =
            p.Y + (((p.Speed.toNat - 1 - k : Nat) : Int) + 1) * (dvec p.Direction).2 ∧
          isHole q.Speed q.stepCounter k =
            isHole p.Speed (p.stepCounter + 1) ((p.Speed.toNat - 1 - k : Nat) : Int)) ∧
      ∃ b, crashLoop (doMovement mo g).Width (doMovement mo g).Height (doMovement mo g).Cells
        q.Direction q.Speed q.stepCounter q.Speed.toNat 0 q.X q.Y = some b := by
  rw [doMovement_Players mo hmo, if_pos hi] at hq
  rw [(doMovement_frame mo g).1, (doMovement_frame mo g).2.1]
  cases hp : g.Players i with
  | none => simp [hp] at hq
  | some p =>
    simp only [hp, Option.map_some', Option.some.injEq] at hq
    subst hq
    have hret := movedPlayer_retraceIn g.Width g.Height p ha
    obtain ⟨hpa, hin, he⟩ := movedPlayer_active g.Width g.Height p ha
    refine ⟨p, rfl, hpa, ?_, ?_⟩
    · intro k hk
      refine ⟨hret k hk, ?_⟩
      rw [he] at hk ⊢
      simp only at hk ⊢
      have hc : ((p.Speed.toNat - 1 - k : Nat) : Int) = (p.Speed.toNat : Int) - 1 - k := by omega
      have hsp : (p.Speed.toNat : Int) = p.Speed := by omega
      refine ⟨?_, ?_, ?_⟩
      · rw [hc]; ring
      · rw [hc]; ring
      · rw [hc, hsp, isHole_reverse]
    · exact ⟨_, crashLoop_eq _ _ _ _ _ _ _ _ _ _ hret⟩

/-- In the "hole skip" scenario player 1 moves three cells to (8,5) in a round
with a hole: the retrace reads (8,5), (7,5), (6,5), the cells of the forward
sub-steps 2, 1, 0. -/
theorem retrace_reads_path_witness :
    ∃ p, holeSkip.Players 1 = some p ∧ p.Active = true ∧
      (∀ k : Nat, k < (3 : Int).toNat →
        inGrid (doMovement [1] holeSkip).Width (doMovement [1] holeSkip).Height
            (8 - k * (dvec Direction.right).1) (5 - k * (dvec Direction.right).2) = true ∧
          8 - k * (dvec Direction.right).1 =
            p.X + (((p.Speed.toNat - 1 - k : Nat) : Int) + 1) * (dvec p.Direction).1 ∧
          5 - k * (dvec Direction.right).2 =
            p.Y + (((p.Speed.toNat - 1 - k : Nat) : Int) + 1) * (dvec p.Direction).2 ∧
          isHole 3 6 k =
            isHole p.Speed (p.stepCounter + 1) ((p.Speed.toNat - 1 - k : Nat) : Int)) ∧
      ∃ b, crashLoop (doMovement [1] holeSkip).Width (doMovement [1] holeSkip).Height
        (doMovement [1] holeSkip).Cells Direction.right 3 6 (3 : Int).toNat 0 8 5 = some b :=
  retrace_reads_path holeSkip [1] (by decide) 1 (by decide) ⟨8, 5, .right, 3, true, 6, true⟩
    (by decide) rfl

/-! ## The regions of the initialisation -/

/-- The region of each player after the initialisation: the player visited at
position `k` of the loop stands in region `k`, and `k` is below the number of
players. -/
theorem initialise_regions (r : InitRandom) (g0 g1 : Game) (hl : validLobby g0)
    (hi : validInit r g0) (he : initialise r g0 = some g1) :
    ∀ i p, g1.Players i = some p →
      r.order.indexOf i < g0.numberPlayer ∧ i ∈ r.order ∧
      inQuarter (Int.tdiv g1.Width 4) (Int.tdiv g1.Height 2) (r.order.indexOf i) p.X p.Y := by
  obtain ⟨hm2, hm6, hnum, hkeys⟩ := hl
  obtain ⟨hw0, hw1, hh0, hh1, hord, hoff⟩ := hi
  unfold FieldMaxSize FieldMinSize at hw1 hh1
  unfold PlayersPerGame at hm6
  have hlen : r.order.length = g0.numberPlayer := keys_length g0 r.order _ hord hkeys
  have hbW : ({ g0 with Width := r.width + FieldMinSize + 1
                        Height := r.height + FieldMinSize + 1
                        Cells := fun _ _ => 0 } : Game).Width = r.width + 40 + 1 := rfl
  have hbH : ({ g0 with Width := r.width + FieldMinSize + 1
                        Height := r.height + FieldMinSize + 1
                        Cells := fun _ _ => 0 } : Game).Height = r.height + 40 + 1 := rfl
  obtain ⟨g2, e, w, h, _, _, _, sm, _, pls⟩ := initPlayers_spec r r.order 0
    { g0 with Width := r.width + FieldMinSize + 1
              Height := r.height + FieldMinSize + 1
              Cells := fun _ _ => 0 } hord.1
    (by omega) (fun i hi => (hord.2 i).1 hi) (by rw [hbW]; omega) (by rw [hbH]; omega) hoff
  unfold initialise at he
  rw [e] at he
  simp only [Option.some.injEq] at he
  subst he
  intro i p hp
  have hp2 : g2.Players i = some p := hp
  have hs : (g0.Players i).isSome = true := by
    have := sm i
    rw [hp2] at this
    exact this.symm
  have hio : i ∈ r.order := (hord.2 i).2 hs
  obtain ⟨p0, q1, _, hq1, hq, _⟩ := pls i hio
  rw [hp2] at hq1
  have hpq : p = q1 := Option.some.inj hq1
  subst hpq
  have hidx : r.order.indexOf i < r.order.length := List.indexOf_lt_length.mpr hio
  refine ⟨by omega, hio, ?_⟩
  show inQuarter (Int.tdiv g2.Width 4) (Int.tdiv g2.Height 2) (r.order.indexOf i) p.X p.Y
  rw [w, h, hq]
  simp only [Nat.zero_add]
  have ho := hoff i
  unfold inQuarter
  refine ⟨by omega, by omega, by omega, by omega⟩

/-- The region of `case 7` lies below the grid. -/
theorem quarter_seven_outside (W H : Int) (hH : 2 ≤ H) (x y : Int)
    (h : inQuarter (Int.tdiv W 4) (Int.tdiv H 2) 7 x y) : inGrid W H x y = false := by
  unfold inQuarter at h
  rw [Int.tdiv_eq_ediv (by omega : 0 ≤ H) (by decide)] at h
  simp only [quarterOrigin] at h
  unfold inGrid
  have : y ≥ H := by omega
  simp [this]

/-- C38: for every board size the draws can give and a full lobby of at most
`PlayersPerGame` players the initialisation does not fail and puts the
players into regions numbered below `PlayersPerGame`, different players into
different regions; these regions are pairwise disjoint, so no two players
stand on the same cell and every player's cell holds its id at the end; the
region of `case 7` has no cell of the grid and is not used. -/
theorem initial_regions_disjoint (r : InitRandom) (g0 : Game) (hl : validLobby g0)
    (hi : validInit r g0) :
    ∃ (g1 : Game) (region : Nat → Nat), initialise r g0 = some g1 ∧
      (∀ i p, g1.Players i = some p →
        region i < PlayersPerGame ∧ region i ≠ 7 ∧
        inQuarter (Int.tdiv g1.Width 4) (Int.tdiv g1.Height 2) (region i) p.X p.Y ∧
        g1.Cells p.Y p.X = i) ∧
      (∀ i j p q, g1.Players i = some p → g1.Players j = some q → i ≠ j →
        region i ≠ region j ∧ ¬ (p.X = q.X ∧ p.Y = q.Y)) ∧
      (∀ k k1 : Nat, k < PlayersPerGame → k1 < PlayersPerGame → k ≠ k1 → ∀ x y,
        inQuarter (Int.tdiv g1.Width 4) (Int.tdiv g1.Height 2) k x y →
        ¬ inQuarter (Int.tdiv g1.Width 4) (Int.tdiv g1.Height 2) k1 x y) ∧
      ∀ x y, inQuarter (Int.tdiv g1.Width 4) (Int.tdiv g1.Height 2) 7 x y →
        inGrid g1.Width g1.Height x y = false := by
  obtain ⟨g1, e, hinv, hw, hh, _, hrec⟩ := initialise_spec r g0 hl hi
  have hreg := initialise_regions r g0 g1 hl hi e
  have h6 : g0.numberPlayer ≤ 6 := by
    have := hl.2.1
    rw [← hl.2.2.1] at this
    exact this
  have hdis : ∀ k k1 : Nat, k < PlayersPerGame → k1 < PlayersPerGame → k ≠ k1 → ∀ x y,
      inQuarter (Int.tdiv g1.Width 4) (Int.tdiv g1.Height 2) k x y →
      ¬ inQuarter (Int.tdiv g1.Width 4) (Int.tdiv g1.Height 2) k1 x y := by
    intro k k1 hk hk1 hne x y hq
    unfold PlayersPerGame at hk hk1
    exact quarters_disjoint _ _ k k1 (by omega) (by omega) hne x y hq
  refine ⟨g1, fun i => r.order.indexOf i, e, ?_, ?_, hdis, ?_⟩
  · intro i p hp
    obtain ⟨hlt, _, hq⟩ := hreg i p hp
    have hlt6 : r.order.indexOf i < PlayersPerGame := by unfold PlayersPerGame; omega
    refine ⟨hlt6, ?_, hq, (hinv.2 i p hp (hrec i p hp).1).2.2.2⟩
    show r.order.indexOf i ≠ 7
    omega
  · intro i j p q hp hq hij
    obtain ⟨hlt, hio, hqi⟩ := hreg i p hp
    obtain ⟨hlt1, hjo, hqj⟩ := hreg j q hq
    have hne : r.order.indexOf i ≠ r.order.indexOf j := by
      intro hc
      exact hij ((List.indexOf_inj hio hjo).mp hc)
    refine ⟨hne, ?_⟩
    rintro ⟨hx, hy⟩
    rw [hx, hy] at hqi
    exact hdis _ _ (by unfold PlayersPerGame; omega) (by unfold PlayersPerGame; omega) hne _ _
      hqi hqj
  · intro x y hq
    apply quarter_seven_outside _ _ _ x y hq
    rw [hh]
    have := hi.2.2.1
    unfold FieldMinSize
    omega

/-- The lobby `lobby2` with the draws `draw2`: player 1 stands on (9,5) in
region 0 and player 2 on (10,5) in region 1 of a 41x41 board. -/
theorem initial_regions_disjoint_witness :
    (∃ (g1 : Game) (region : Nat → Nat), initialise draw2 lobby2 = some g1 ∧
      (∀ i p, g1.Players i = some p →
        region i < PlayersPerGame ∧ region i ≠ 7 ∧
        inQuarter (Int.tdiv g1.Width 4) (Int.tdiv g1.Height 2) (region i) p.X p.Y ∧
        g1.Cells p.Y p.X = i) ∧
      (∀ i j p q, g1.Players i = some p → g1.Players j = some q → i ≠ j →
        region i ≠ region j ∧ ¬ (p.X = q.X ∧ p.Y = q.Y)) ∧
      (∀ k k1 : Nat, k < PlayersPerGame → k1 < PlayersPerGame → k ≠ k1 → ∀ x y,
        inQuarter (Int.tdiv g1.Width 4) (Int.tdiv g1.Height 2) k x y →
        ¬ inQuarter (Int.tdiv g1.Width 4) (Int.tdiv g1.Height 2) k1 x y) ∧
      ∀ x y, inQuarter (Int.tdiv g1.Width 4) (Int.tdiv g1.Height 2) 7 x y →
        inGrid g1.Width g1.Height x y = false) ∧
    (initialise draw2 lobby2).map (fun g => (g.Players 1, g.Players 2, g.Cells 5 9, g.Cells 5 10)) =
      some (some ⟨9, 5, .down, 1, true, 0, true⟩, some ⟨10, 5, .down, 1, true, 0, true⟩, 1, 2) :=
  ⟨initial_regions_disjoint draw2 lobby2 lobby2_valid draw2_valid, by decide⟩

/-! ## The step counter -/

theorem actPlayer_stepCounter (a : String) (p : Player) :
    (actPlayer a p).stepCounter = p.stepCounter := by
  unfold actPlayer
  split_ifs <;> rfl

/-- The initialisation does not assign the step counter. -/
theorem initialise_stepCounter (r : InitRandom) (g0 g1 : Game) (hl : validLobby g0)
    (hi : validInit r g0) (he : initialise r g0 = some g1) :
    ∀ i p1, g1.Players i = some p1 →
      ∃ p, g0.Players i = some p ∧ p1.stepCounter = p.stepCounter := by
  obtain ⟨hm2, hm6, hnum, hkeys⟩ := hl
  obtain ⟨hw0, hw1, hh0, hh1, hord, hoff⟩ := hi
  unfold FieldMaxSize FieldMinSize at hw1 hh1
  unfold PlayersPerGame at hm6
  have hlen : r.order.length = g0.numberPlayer := keys_length g0 r.order _ hord hkeys
  have hbW : ({ g0 with Width := r.width + FieldMinSize + 1
                        Height := r.height + FieldMinSize + 1
                        Cells := fun _ _ => 0 } : Game).Width = r.width + 40 + 1 := rfl
  have hbH : ({ g0 with Width := r.width + FieldMinSize + 1
                        Height := r.height + FieldMinSize + 1
                        Cells := fun _ _ => 0 } : Game).Height = r.height + 40 + 1 := rfl
  obtain ⟨g2, e, w, h, _, _, _, sm, _, pls⟩ := initPlayers_spec r r.order 0
    { g0 with Width := r.width + FieldMinSize + 1
              Height := r.height + FieldMinSize + 1
              Cells := fun _ _ => 0 } hord.1
    (by omega) (fun i hi => (hord.2 i).1 hi) (by rw [hbW]; omega) (by rw [hbH]; omega) hoff
  unfold initialise at he
  rw [e] at he
  simp only [Option.some.injEq] at he
  subst he
  intro i p hp
  have hp2 : g2.Players i = some p := hp
  have hs : (g0.Players i).isSome = true := by
    have := sm i
    rw [hp2] at this
    exact this.symm
  obtain ⟨p0, q1, hp0, hq1, hq, _⟩ := pls i ((hord.2 i).2 hs)
  rw [hp2] at hq1
  have hpq : p = q1 := Option.some.inj hq1
  subst hpq
  exact ⟨p0, hp0, by rw [hq]⟩

/-- A player that is active after a round was active before it and its step
counter has grown by one. -/
theorem runRound_stepCounter (r : RoundInput) (g g1 : Game) (hv : validRound r g)
    (he : runRound r g = some g1) :
    ∀ i p1, g1.Players i = some p1 → p1.Active = true →
      ∃ p, g.Players i = some p ∧ p.Active = true ∧ p1.stepCounter = p.stepCounter + 1 := by
  obtain ⟨g2, e2, _, _, _, pl⟩ := runRound_spec r g hv
  rw [he] at e2
  have : g1 = g2 := Option.some.inj e2
  subst this
  intro i p1 hp1 ha
  obtain ⟨p, pa, hp, hpact, _, _, _, _, hpa, _, hp1eq, _, _⟩ := pl i p1 hp1 ha
  refine ⟨p, hp, hpact, ?_⟩
  have hio : i ∈ r.actionOrder := (hv.1.2 i).2 (by rw [hp]; rfl)
  rw [processActions_Players _ hv.1.1, if_pos hio] at hpa
  have hd := (collect_frame r.inputs { g with playerAnswer := fun _ => "" }).2.2.2 i
  have hgp : ({ g with playerAnswer := fun _ => "" } : Game).Players i = some p := hp
  rw [hgp] at hd
  have hsc : pa.stepCounter = p.stepCounter := by
    rcases hd with h | h
    · rw [h] at hpa
      simp only [Option.map_some', Option.some.injEq] at hpa
      rw [← hpa, actPlayer_stepCounter]
    · rw [h] at hpa
      simp only [Option.map_some', Option.some.injEq] at hpa
      rw [← hpa, actPlayer_stepCounter]
  rw [hp1eq]
  simp only
  rw [hsc]

theorem validRound_congr (r : RoundInput) (g g1 : Game)
    (h : ∀ i, (g1.Players i).isSome = (g.Players i).isSome) (hv : validRound r g) :
    validRound r g1 :=
  ⟨keysOf_congr g g1 _ h hv.1, keysOf_congr g g1 _ h hv.2.1, keysOf_congr g g1 _ h hv.2.2.1,
    keysOf_congr g g1 _ h hv.2.2.2⟩

/-- Rounds that do not end the game: the keys stay, and if every active
player has step counter `n` before them, every active player has step counter
`n` plus the number of rounds after them. -/
theorem continues_stepCounter (pre : List RoundInput) (g g0 : Game) (n : Int)
    (hv : ∀ r ∈ pre, validRound r g) (hpre : continues pre g = some g0)
    (hn : ∀ i p, g.Players i = some p → p.Active = true → p.stepCounter = n) :
    (∀ i, (g0.Players i).isSome = (g.Players i).isSome) ∧
    ∀ i p, g0.Players i = some p → p.Active = true → p.stepCounter = n + pre.length := by
  induction pre generalizing g n with
  | nil =>
    simp only [continues, Option.some.injEq] at hpre
    subst hpre
    exact ⟨fun _ => rfl, fun i p hp ha => by simpa using hn i p hp ha⟩
  | cons r pre ih =>
    simp only [continues] at hpre
    cases hr : runRound r g with
    | none => rw [hr] at hpre; simp at hpre
    | some g1 =>
      rw [hr] at hpre
      simp only at hpre
      by_cases hc : checkEndGame r.endOrder g1 = true
      · rw [if_pos hc] at hpre; simp at hpre
      · rw [if_neg hc] at hpre
        have hvr : validRound r g := hv r (List.mem_cons_self _ _)
        have hk := runRound_keys r g g1 hvr hr
        obtain ⟨k2, s2⟩ := ih g1 (n + 1)
          (fun r1 h1 => validRound_congr r1 g g1 hk (hv r1 (List.mem_cons_of_mem _ h1))) hpre
          (fun i p1 hp1 ha1 => by
            obtain ⟨p, hp, hpa, hsc⟩ := runRound_stepCounter r g g1 hvr hr i p1 hp1 ha1
            rw [hsc, hn i p hp hpa])
        refine ⟨fun i => (k2 i).trans (hk i), fun i p hp ha => ?_⟩
        rw [s2 i p hp ha]
        simp only [List.length_cons]
        push_cast
        ring

/-- C37: in a match started from a lobby of fresh players (step counter 0),
after `k - 1` rounds that did not end the game every active player has step
counter `k - 1`, and after the complete round `k` every active player has
step counter exactly `k`; so all active players have the same step counter,
and the hole test of the movement in round `k`, which reads the incremented
counter, holds at a sub-step `s` exactly if `HolesEachStep` divides `k`, the
speed is at least `HoleSpeed` and `s` is neither the first nor the last
sub-step.  Here `k` is `pre.length + 1`. -/
theorem step_counter_synchrony (ri : InitRandom) (gl g g0 g1 : Game) (pre : List RoundInput)
    (r : RoundInput) (hl : validLobby gl) (hi : validInit ri gl)
    (hfresh : ∀ i p, gl.Players i = some p → p.stepCounter = 0)
    (hinit : initialise ri gl = some g) (hv : ∀ r1 ∈ pre ++ [r], validRound r1 g)
    (hpre : continues pre g = some g0) (hr : runRound r g0 = some g1) :
    (∀ i p, g0.Players i = some p → p.Active = true →
      p.stepCounter = pre.length ∧
      ∀ s : Int, isHole p.Speed (p.stepCounter + 1) s = true ↔
        (HolesEachStep ∣ ((pre.length : Int) + 1) ∧ p.Speed ≥ HoleSpeed ∧ s ≠ 0 ∧
          s ≠ p.Speed - 1)) ∧
    (∀ i p, g1.Players i = some p → p.Active = true → p.stepCounter = (pre.length : Int) + 1) ∧
    ∀ i j p q, g1.Players i = some p → g1.Players j = some q → p.Active = true →
      q.Active = true → p.stepCounter = q.stepCounter := by
  have h0 : ∀ i p, g.Players i = some p → p.Active = true → p.stepCounter = 0 := by
    intro i p hp _
    obtain ⟨p0, hp0, hsc⟩ := initialise_stepCounter ri gl g hl hi hinit i p hp
    rw [hsc, hfresh i p0 hp0]
  obtain ⟨hk, hs⟩ := continues_stepCounter pre g g0 0
    (fun r1 h1 => hv r1 (List.mem_append_left _ h1)) hpre h0
  have hvr : validRound r g0 :=
    validRound_congr r g g0 hk (hv r (List.mem_append_right _ (List.mem_singleton_self r)))
  have h1 : ∀ i p, g1.Players i = some p → p.Active = true →
      p.stepCounter = (pre.length : Int) + 1 := by
    intro i p1 hp1 ha1
    obtain ⟨p, hp, hpa, hsc⟩ := runRound_stepCounter r g0 g1 hvr hr i p1 hp1 ha1
    rw [hsc, hs i p hp hpa]
    ring
  refine ⟨fun i p hp ha => ?_, h1, fun i j p q hp hq ha hb => ?_⟩
  · have hsc : p.stepCounter = pre.length := by simpa using hs i p hp ha
    refine ⟨hsc, fun s => ?_⟩
    unfold isHole
    rw [hsc]
    simp only [Bool.and_eq_true, decide_eq_true_eq]
    have hd : Int.tmod ((pre.length : Int) + 1) HolesEachStep = 0 ↔
        HolesEachStep ∣ ((pre.length : Int) + 1) := by
      unfold HolesEachStep
      rw [Int.tmod_eq_emod (by omega) (by decide)]
      omega
    rw [hd]
    tauto
  · rw [h1 i p hp ha, h1 j q hq hb]

theorem lobby2_fresh : ∀ i p, lobby2.Players i = some p → p.stepCounter = 0 := by
  intro i p hp
  by_cases h1 : i = 1
  · subst h1
    exact (Option.some.inj hp) ▸ rfl
  · by_cases h2 : i = 2
    · subst h2
      exact (Option.some.inj hp) ▸ rfl
    · simp [lobby2, h1, h2] at hp

/-- The run from `lobby2`: after the first round the only active player,
player 2, has step counter 1. -/
theorem step_counter_synchrony_witness :
    after2.Players 2 = some ⟨10, 6, .down, 1, true, 1, true⟩ ∧
    (∀ i p, after2.Players i = some p → p.Active = true →
      p.stepCounter = (([] : List RoundInput).length : Int) + 1) :=
  ⟨by decide,
    (step_counter_synchrony draw2 lobby2 started2 started2 after2 [] round2 lobby2_valid
      draw2_valid lobby2_fresh rfl
      (fun r1 h1 => by
        have : r1 = round2 := by simpa using h1
        rw [this]
        exact round2_valid) rfl rfl).2.1⟩

/-! ## The states the engine broadcasts while the game runs -/

theorem invalidatePlayer_Running (g : Game) (p : Nat) :
    (invalidatePlayer g p).Running = g.Running := by
  unfold invalidatePlayer
  cases g.Players p <;> rfl

theorem processAction_Running (g : Game) (i : Nat) :
    (processAction g i).Running = g.Running := by
  unfold processAction
  cases g.Players i with
  | none => rfl
  | some p =>
    simp only
    split_ifs <;> first | rfl | exact invalidatePlayer_Running _ _

theorem processActions_Running (o : List Nat) (g : Game) :
    (processActions o g).Running = g.Running := by
  induction o generalizing g with
  | nil => rfl
  | cons i o ih =>
    simp only [processActions, List.foldl_cons] at ih ⊢
    rw [ih, processAction_Running]

theorem collect_Running (es : List Input) (g : Game) :
    (collect es g).Running = g.Running := by
  induction es generalizing g with
  | nil => rfl
  | cons e es ih =>
    have hr : (receive g e.player e.value).Running = g.Running := by
      unfold receive
      cases e.value with
      | none => exact invalidatePlayer_Running _ _
      | some a =>
        simp only
        split_ifs
        · exact invalidatePlayer_Running _ _
        · rfl
    simp only [collect]
    split_ifs
    · exact ih g
    · exact hr
    · rw [ih, hr]

theorem movePlayer_Running (g : Game) (i : Nat) : (movePlayer g i).Running = g.Running := by
  unfold movePlayer
  cases g.Players i with
  | none => rfl
  | some p =>
    simp only
    split_ifs <;> first | rfl | exact invalidatePlayer_Running _ _

theorem doMovement_Running (o : List Nat) (g : Game) :
    (doMovement o g).Running = g.Running := by
  induction o generalizing g with
  | nil => rfl
  | cons i o ih =>
    simp only [doMovement, List.foldl_cons] at ih ⊢
    rw [ih, movePlayer_Running]

theorem checkCrashes_Running (o : List Nat) (g g1 : Game) (h : checkCrashes o g = some g1) :
    g1.Running = g.Running := by
  induction o generalizing g with
  | nil =>
    simp only [checkCrashes, Option.some.injEq] at h
    rw [← h]
  | cons i o ih =>
    simp only [checkCrashes] at h
    cases hc : checkCrash g i with
    | none => rw [hc] at h; simp at h
    | some g2 =>
      rw [hc] at h
      rw [ih g2 h]
      unfold checkCrash at hc
      cases hp : g.Players i with
      | none =>
        rw [hp] at hc
        simp only [Option.some.injEq] at hc
        rw [← hc]
      | some p =>
        rw [hp] at hc
        simp only at hc
        split_ifs at hc
        · simp only [Option.some.injEq] at hc
          rw [← hc]
        · split at hc
          · simp at hc
          · simp only [Option.some.injEq] at hc
            rw [← hc, invalidatePlayer_Running]
          · simp only [Option.some.injEq] at hc
            rw [← hc]

theorem runRound_Running (r : RoundInput) (g g1 : Game) (h : runRound r g = some g1) :
    g1.Running = g.Running := by
  unfold runRound at h
  rw [checkCrashes_Running _ _ _ h, doMovement_Running, processActions_Running, collect_Running]

/-- A round begins with `Running` set. -/
theorem RoundStart_Running (g : Game) (h : RoundStart g) : g.Running = true := by
  induction h with
  | init g0 g1 r _ _ he =>
    unfold initialise at he
    split at he
    · simp at he
    · simp only [Option.some.injEq] at he
      rw [← he]
  | next g g1 r _ _ he _ ih => rw [runRound_Running r g g1 he, ih]

/-- A round begins with more than one active player, whatever the order in
which `checkEndGame` visits the keys. -/
theorem RoundStart_goes_on (g : Game) (h : RoundStart g) (o : List Nat) (hk : keysOf g o) :
    checkEndGame o g = false := by
  cases hc : checkEndGame o g with
  | false => rfl
  | true =>
    exfalso
    have hall := (checkEndGame_iff o g hk).1 hc
    cases h with
    | init g0 _ r hl hi he =>
      obtain ⟨g2, e2, _, _, _, sm, hrec⟩ := initialise_spec r g0 hl hi
      rw [he] at e2
      have : g = g2 := Option.some.inj e2
      subst this
      have hs1 : (g.Players 1).isSome = true := by
        rw [sm 1]; exact (hl.2.2.2 1).2 ⟨le_refl _, by have := hl.1; have := hl.2.2.1; omega⟩
      have hs2 : (g.Players 2).isSome = true := by
        rw [sm 2]; exact (hl.2.2.2 2).2 ⟨by omega, by have := hl.1; have := hl.2.2.1; omega⟩
      obtain ⟨p1, hp1⟩ := Option.isSome_iff_exists.mp hs1
      obtain ⟨p2, hp2⟩ := Option.isSome_iff_exists.mp hs2
      have := hall 1 2 p1 p2 hp1 hp2 (hrec 1 p1 hp1).1 (hrec 2 p2 hp2).1
      omega
    | next g0 _ r hs hv he hne =>
      have hk2 : keysOf g r.endOrder :=
        keysOf_congr g0 g _ (runRound_keys r g0 g hv he) hv.2.2.2
      rw [(checkEndGame_iff _ g hk2).2 hall] at hne
      simp at hne

/-- C40: in every state in which a round begins (the states the engine
broadcasts with `Running` set) `Running` is true and `checkEndGame` counts at
least two active players; so for a recipient `i` that is active the list
`player` of the other active players that `MirrorAI.GetState` builds is not
empty, and for every index `pick` below its length (a value `rand.Intn` can
return) and every state of the bot whose target is unset or a key of the map
`MirrorAI.GetState` does not panic. -/
theorem mirror_target_list_nonempty (g : Game) (hs : RoundStart g) (order : List Nat)
    (hk : keysOf g order) (i : Nat) (me : Player) (hme : g.Players i = some me)
    (hact : me.Active = true) :
    g.Running = true ∧ 2 ≤ numberActive order g ∧
    0 < (order.filter fun k =>
      decide (k ≠ i) && ((g.Players k).map fun q => q.Active) == some true).length ∧
    ∀ (m : MirrorAI) (pick : Nat), (m.target = 0 ∨ (g.Players m.target).isSome = true) →
      pick < (order.filter fun k =>
        decide (k ≠ i) && ((g.Players k).map fun q => q.Active) == some true).length →
      (MirrorAI.GetState m true order pick { g with You := i }).isSome = true := by
  have hrun := RoundStart_Running g hs
  have hgo := RoundStart_goes_on g hs order hk
  have h2 : 2 ≤ numberActive order g := by
    unfold checkEndGame at hgo
    simp only [decide_eq_false_iff_not, not_le] at hgo
    omega
  set player := order.filter fun k =>
    decide (k ≠ i) && ((g.Players k).map fun q => q.Active) == some true with hplayer
  have hmem : ∀ k, k ∈ player → ∃ t, g.Players k = some t := by
    intro k hkm
    rw [hplayer, List.mem_filter] at hkm
    cases hq : g.Players k with
    | none => rw [hq] at hkm; simp at hkm
    | some t => exact ⟨t, rfl⟩
  have hpos : 0 < player.length := by
    have hex : ∃ j pj, j ≠ i ∧ g.Players j = some pj ∧ pj.Active = true := by
      by_contra hno
      push_neg at hno
      have hall : ∀ a b pa pb, g.Players a = some pa → g.Players b = some pb →
          pa.Active = true → pb.Active = true → a = b := by
        intro a b pa pb hpa hpb haa hba
        have ha : a = i := by
          by_contra hne
          exact absurd haa (hno a pa hne hpa)
        have hb : b = i := by
          by_contra hne
          exact absurd hba (hno b pb hne hpb)
        rw [ha, hb]
      rw [(checkEndGame_iff order g hk).2 hall] at hgo
      simp at hgo
    obtain ⟨j, pj, hji, hpj, haj⟩ := hex
    apply List.length_pos_of_mem (a := j)
    rw [hplayer, List.mem_filter]
    refine ⟨(hk.2 j).2 (by rw [hpj]; rfl), ?_⟩
    simp [hji, hpj, haj]
  refine ⟨hrun, h2, hpos, ?_⟩
  intro m pick hm hpick
  have hY : ({ g with You := i } : Game).You = i := rfl
  have hP : ({ g with You := i } : Game).Players = g.Players := rfl
  have hR : ({ g with You := i } : Game).Running = true := hrun
  unfold MirrorAI.GetState
  simp only [hY, hP, hR, hrun, hme, hact, if_false, Bool.true_eq_false, Bool.false_eq_true]
  have hpick2 : ∃ t, g.Players (player.getD pick 0) = some t := by
    apply hmem
    rw [List.getD_eq_getElem _ _ hpick]
    exact List.getElem_mem _
  obtain ⟨t, ht⟩ := hpick2
  by_cases hm0 : m.target = 0
  · simp only [hm0, ne_eq, not_true_eq_false, if_false, if_true]
    rw [← hplayer, if_pos hpick, ht]
    rfl
  · have hms : (g.Players m.target).isSome = true := hm.resolve_left hm0
    obtain ⟨tt, htt⟩ := Option.isSome_iff_exists.mp hms
    simp only [ne_eq, hm0, not_false_eq_true, if_true, htt]
    by_cases hta : tt.Active = false
    · simp only [hta, if_true]
      rw [← hplayer, if_pos hpick, ht]
      rfl
    · have hta1 : tt.Active = true := by simpa using hta
      simp only [hta1, Bool.true_eq_false, if_false, hm0, htt]
      rfl

/-- The state `started2` as it is shown to player 1: the list of the other
active players is `[2]`, and with the index 0 the bot chooses player 2 (at
speed 1, facing down) and sends `change_nothing`. -/
theorem mirror_target_list_nonempty_witness :
    (started2.Running = true ∧ 2 ≤ numberActive [1, 2] started2 ∧
    0 < ([1, 2].filter fun k =>
      decide (k ≠ 1) && ((started2.Players k).map fun q => q.Active) == some true).length ∧
    ∀ (m : MirrorAI) (pick : Nat), (m.target = 0 ∨ (started2.Players m.target).isSome = true) →
      pick < ([1, 2].filter fun k =>
        decide (k ≠ 1) && ((started2.Players k).map fun q => q.Active) == some true).length →
      (MirrorAI.GetState m true [1, 2] pick { started2 with You := 1 }).isSome = true) ∧
    MirrorAI.GetState ⟨0, 0, none⟩ true [1, 2] 0 { started2 with You := 1 } =
      some (⟨2, 1, some .down⟩, some ActionNOOP) :=
  ⟨mirror_target_list_nonempty started2 started2_start [1, 2] round2_valid.1 1
    ⟨9, 5, .down, 1, true, 0, true⟩ (by decide) rfl, by decide⟩

/-! ## Who survives a round -/

theorem dvec_ne_zero (d : Direction) (k : Nat) :
    ¬ ((k + 1 : Int) * (dvec d).1 = 0 ∧ (k + 1 : Int) * (dvec d).2 = 0) := by
  cases d <;> simp only [dvec] <;> omega

/-- The movement loop writes no cell twice. -/
theorem moveWrites_nodup (W H : Int) (d : Direction) (speed sc : Int) (n : Nat)
    (s x y : Int) : (moveWrites W H d speed sc n s x y).Nodup := by
  induction n generalizing s x y with
  | zero => simp [moveWrites]
  | succ n ih =>
    simp only [moveWrites]
    split_ifs
    · exact List.nodup_nil
    · exact ih _ _ _
    · refine List.nodup_cons.mpr ⟨?_, ih _ _ _⟩
      rw [mem_moveWrites]
      rintro ⟨k, _, hx, hy, _⟩
      exact dvec_ne_zero d k ⟨by linarith, by linarith⟩

theorem playerWrites_nodup (g : Game) (i : Nat) : (playerWrites g i).Nodup := by
  unfold playerWrites
  cases g.Players i with
  | none => exact List.nodup_nil
  | some p =>
    simp only
    split_ifs
    · exact List.nodup_nil
    · exact moveWrites_nodup _ _ _ _ _ _ _ _ _

theorem allWrites_nodup (o : List Nat) (hnd : o.Nodup) (g : Game) : (allWrites o g).Nodup := by
  induction o with
  | nil => simp [allWrites]
  | cons i o ih =>
    have hio : i ∉ o := (List.nodup_cons.mp hnd).1
    have hcons : allWrites (i :: o) g =
        (playerWrites g i).map (fun c => (i, c)) ++ allWrites o g := by
      simp [allWrites]
    rw [hcons]
    refine List.Nodup.append ?_ (ih (List.nodup_cons.mp hnd).2) ?_
    · exact (playerWrites_nodup g i).map (fun a b h => (Prod.mk.inj h).2)
    · intro w hw1 hw2
      obtain ⟨c, _, rfl⟩ := List.mem_map.mp hw1
      exact hio ((mem_allWrites o g i c).1 hw2).1

/-- A cell that is empty and is written once, by a player `i`, holds
`int8(i)` after all writes. -/
theorem writes_once (ws : List (Nat × Int × Int)) (cells : Int → Int → Int) (i : Nat)
    (y x : Int) (h0 : cells y x = 0) (hmem : (i, y, x) ∈ ws) (hnd : ws.Nodup)
    (hothers : ∀ w ∈ ws, w.2 = (y, x) → w.1 = i) :
    ws.foldl markBy cells y x = int8 i := by
  obtain ⟨s, t, rfl⟩ := List.append_of_mem hmem
  have hnd2 := List.nodup_append.mp hnd
  have hns : (i, y, x) ∉ s := fun h => hnd2.2.2 h (List.mem_cons_self _ _)
  have hnt : (i, y, x) ∉ t := (List.nodup_cons.mp hnd2.2.1).1
  have hne : ∀ l : List (Nat × Int × Int), (∀ w ∈ l, w ∈ s ++ (i, y, x) :: t) →
      (i, y, x) ∉ l → ∀ w ∈ l, w.2 ≠ (y, x) := by
    intro l hsub hnl w hw hc
    have h1 := hothers w (hsub w hw) hc
    obtain ⟨j, c⟩ := w
    simp only at h1 hc
    subst h1 hc
    exact hnl hw
  rw [List.foldl_append, List.foldl_cons,
    writes_untouched t _ y x (hne t (fun w hw =>
      List.mem_append_right _ (List.mem_cons_of_mem _ hw)) hnt),
    markBy_hit,
    writes_untouched s _ y x (hne s (fun w hw => List.mem_append_left _ hw) hns), h0]
  simp

/-- C35: in the state `g` after the action phase, for every order `mo` in
which the players are moved and every order `co` in which they are
adjudicated, a player `i` that is active in `g` is active after "Do Movement"
and "Check crash" if and only if every sub-step of its move leads to a cell of
the grid and, for every sub-step `s` that is not a hole sub-step, the cell
entered at `s` was empty in `g` and no other player `j` entered it at a
sub-step `t` of its own move that is not a hole sub-step (a sub-step `j`
reached on the grid, also when `j` left the grid later in its move). -/
theorem survival_characterisation (g : Game) (mo co : List Nat) (hmo : mo.Nodup)
    (hco : co.Perm mo) (hids : ∀ j ∈ mo, 1 ≤ j ∧ j ≤ PlayersPerGame)
    (i : Nat) (hi : i ∈ mo) (p : Player) (hp : g.Players i = some p) (ha : p.Active = true) :
    ∃ g1, checkCrashes co (doMovement mo g) = some g1 ∧
      ((∃ p1, g1.Players i = some p1 ∧ p1.Active = true) ↔
        (∀ s : Nat, s < p.Speed.toNat →
          inGrid g.Width g.Height (p.X + (s + 1) * (dvec p.Direction).1)
            (p.Y + (s + 1) * (dvec p.Direction).2) = true) ∧
        ∀ s : Nat, s < p.Speed.toNat → isHole p.Speed (p.stepCounter + 1) s = false →
          g.Cells (p.Y + (s + 1) * (dvec p.Direction).2)
            (p.X + (s + 1) * (dvec p.Direction).1) = 0 ∧
          ∀ (j : Nat) (q : Player) (t : Nat), j ∈ mo → j ≠ i → g.Players j = some q →
            q.Active = true → t < q.Speed.toNat →
            isHole q.Speed (q.stepCounter + 1) t = false →
            pathIn g.Width g.Height q.Direction q.X q.Y (t + 1) →
            ¬ (q.X + (t + 1) * (dvec q.Direction).1 = p.X + (s + 1) * (dvec p.Direction).1 ∧
              q.Y + (t + 1) * (dvec q.Direction).2 = p.Y + (s + 1) * (dvec p.Direction).2)) := by
  obtain ⟨g1, e, _, _, c, _, pl⟩ :=
    moveCrash_eq mo co hmo (hco.nodup_iff.2 hmo) (fun k hk => hco.mem_iff.1 hk) g
  refine ⟨g1, e, ?_⟩
  have hg1 : g1.Players i = some (crashedPlayer ((allWrites mo g).foldl markBy g.Cells)
      (movedPlayer g.Width g.Height p)) := by
    rw [pl, if_pos (hco.mem_iff.2 hi), hp]; rfl
  have hid := hids i hi
  have hown : ∀ s : Nat, s < p.Speed.toNat → isHole p.Speed (p.stepCounter + 1) s = false →
      pathIn g.Width g.Height p.Direction p.X p.Y p.Speed.toNat →
      (i, p.Y + (s + 1) * (dvec p.Direction).2, p.X + (s + 1) * (dvec p.Direction).1) ∈
        allWrites mo g := by
    intro s hs hh hin
    rw [mem_allWrites]
    exact ⟨hi, (mem_playerWrites g i p hp ha _ _).2
      ⟨s, hs, rfl, rfl, hh, pathIn_mono _ _ _ _ _ _ _ (by omega) hin⟩⟩
  constructor
  · rintro ⟨p1, hp1, hact⟩
    rw [hg1] at hp1
    have hp1eq := Option.some.inj hp1
    rw [crashedPlayer_eq] at hp1eq
    have hact2 : ((movedPlayer g.Width g.Height p).Active &&
        !retraceHit ((allWrites mo g).foldl markBy g.Cells)
          (movedPlayer g.Width g.Height p)) = true := by
      rw [← hp1eq] at hact; exact hact
    rw [Bool.and_eq_true] at hact2
    obtain ⟨hmact, hnohit⟩ := hact2
    obtain ⟨_, hin, _⟩ := movedPlayer_active _ _ p hmact
    have hnh : ¬ retraceHit ((allWrites mo g).foldl markBy g.Cells)
        (movedPlayer g.Width g.Height p) = true := by simpa using hnohit
    rw [retraceHit_moved _ _ _ p hmact] at hnh
    refine ⟨hin, fun s hs hh => ?_⟩
    have hw := hown s hs hh hin
    constructor
    · by_contra hne
      exact hnh ⟨s, hs, writes_hit_nonzero _ _ i _ _ hne hw, hh⟩
    · intro j q t hj hji hq hqa ht hqh hqin hsame
      have hwj : (j, p.Y + (s + 1) * (dvec p.Direction).2,
          p.X + (s + 1) * (dvec p.Direction).1) ∈ allWrites mo g := by
        rw [mem_allWrites]
        exact ⟨hj, (mem_playerWrites g j q hq hqa _ _).2
          ⟨t, ht, hsame.1.symm, hsame.2.symm, hqh, hqin⟩⟩
      have hjd := hids j hj
      exact hnh ⟨s, hs, writes_two _ _ i j _ _ (Ne.symm hji)
        (int8_id_ne_zero i hid.1 hid.2) (int8_id_ne_zero j hjd.1 hjd.2) hw hwj, hh⟩
  · rintro ⟨hin, hcells⟩
    have hin2 : pathIn g.Width g.Height p.Direction p.X p.Y p.Speed.toNat := hin
    have hmact : (movedPlayer g.Width g.Height p).Active = true := by
      rw [movedPlayer_of_pathIn _ _ p ha hin2]
      exact ha
    refine ⟨_, hg1, ?_⟩
    rw [crashedPlayer_eq]
    simp only [hmact, Bool.true_and, Bool.not_eq_true']
    by_contra hhit
    have hhit2 : retraceHit ((allWrites mo g).foldl markBy g.Cells)
        (movedPlayer g.Width g.Height p) = true := by simpa using hhit
    rw [retraceHit_moved _ _ _ p hmact] at hhit2
    obtain ⟨s, hs, hc, hh⟩ := hhit2
    obtain ⟨h0, hoth⟩ := hcells s hs hh
    have hval := writes_once (allWrites mo g) g.Cells i _ _ h0 (hown s hs hh hin2)
      (allWrites_nodup mo hmo g) (by
        rintro ⟨j, cy, cx⟩ hw hc2
        simp only at hc2 ⊢
        by_contra hji
        rw [mem_allWrites] at hw
        obtain ⟨hj, hpw⟩ := hw
        cases hq : g.Players j with
        | none => simp [playerWrites, hq] at hpw
        | some q =>
          by_cases hqa : q.Active = true
          · obtain ⟨t, ht, hx, hy, hqh, hqin⟩ := (mem_playerWrites g j q hq hqa _ _).1 hpw
            have h1 := (Prod.mk.inj hc2).1
            have h2 := (Prod.mk.inj hc2).2
            exact hoth j q t hj hji hq hqa ht hqh hqin ⟨by rw [← hx, h2], by rw [← hy, h1]⟩
          · have hqf : q.Active = false := by simpa using hqa
            simp [playerWrites, hq, hqf] at hpw)
    rw [hc, int8_id i hid.1 hid.2] at hval
    omega

/-- In the scenario `sideOn` player 1 steps onto (11,20), which player 2
enters too: the right-hand side fails for player 1, and player 1 is inactive
after the round. -/
theorem survival_characterisation_witness :
    ∃ g1, checkCrashes [2, 1] (doMovement [1, 2] sideOn) = some g1 ∧
      ((∃ p1, g1.Players 1 = some p1 ∧ p1.Active = true) ↔
        (∀ s : Nat, s < (1 : Int).toNat →
          inGrid sideOn.Width sideOn.Height (10 + (s + 1) * (dvec Direction.right).1)
            (20 + (s + 1) * (dvec Direction.right).2) = true) ∧
        ∀ s : Nat, s < (1 : Int).toNat → isHole 1 (0 + 1) s = false →
          sideOn.Cells (20 + (s + 1) * (dvec Direction.right).2)
            (10 + (s + 1) * (dvec Direction.right).1) = 0 ∧
          ∀ (j : Nat) (q : Player) (t : Nat), j ∈ [1, 2] → j ≠ 1 → sideOn.Players j = some q →
            q.Active = true → t < q.Speed.toNat →
            isHole q.Speed (q.stepCounter + 1) t = false →
            pathIn sideOn.Width sideOn.Height q.Direction q.X q.Y (t + 1) →
            ¬ (q.X + (t + 1) * (dvec q.Direction).1 = 10 + (s + 1) * (dvec Direction.right).1 ∧
              q.Y + (t + 1) * (dvec q.Direction).2 =
                20 + (s + 1) * (dvec Direction.right).2)) :=
  survival_characterisation sideOn [1, 2] [2, 1] (by decide) (by decide) (by decide) 1
    (by decide) ⟨10, 20, .right, 1, true, 0, true⟩ (by decide) rfl

/-! ## The deadlines of consecutive rounds -/

/-- The loop `innerGame` is left at `limit` or at the instant of one of its
messages. -/
theorem collectUntil_time (limit : Int) (es : List TimedInput) (g : Game) :
    (collectUntil limit es g).1 = limit ∨
      ∃ e ∈ es, (collectUntil limit es g).1 = e.time ∧ e.time < limit := by
  induction es generalizing g with
  | nil => exact Or.inl rfl
  | cons e es ih =>
    simp only [collectUntil]
    split_ifs with h1 h2 h3
    · exact Or.inl rfl
    · rcases ih g with h | ⟨e1, he1, h⟩
      · exact Or.inl h
      · exact Or.inr ⟨e1, List.mem_cons_of_mem _ he1, h⟩
    · exact Or.inr ⟨e, List.mem_cons_self _ _, rfl, by omega⟩
    · rcases ih (receive g e.player e.value) with h | ⟨e1, he1, h⟩
      · exact Or.inl h
      · exact Or.inr ⟨e1, List.mem_cons_of_mem _ he1, h⟩

/-- C31, as stated, fails: on a clock that never goes backwards a round
that ends early can be followed by a round with an earlier deadline.  In
`sideOn` both players answer one second after the start of a round with the
timeout 15, so the loop `innerGame` is left after one second; the next round
starts then with the timeout 5, and the deadline it broadcasts (second 6) is
earlier than the deadline of the round before (second 15).  And with equal
timeouts a round that starts 0.05 s after the round before broadcasts the
same deadline, not a later one. -/
theorem deadline_not_monotone :
    (consecutive quickRound shortRound sideOn ∧
      roundLeft quickRound sideOn = 1000000000 ∧
      broadcastDeadline quickRound = 15 ∧
      broadcastDeadline shortRound = 6 ∧
      broadcastDeadline shortRound < broadcastDeadline quickRound) ∧
    (consecutive earlyRound soonRound sideOn ∧ earlyRound.now < soonRound.now ∧
      broadcastDeadline soonRound = broadcastDeadline earlyRound) := by
  decide

/-- C31, as the code has it: for two consecutive rounds on a clock that never
goes backwards, with timeouts drawn from `[RoundTimeoutMin, RoundTimeoutMax]`,
the second deadline broadcast is not earlier than the first minus
`RoundTimeoutMax - RoundTimeoutMin` seconds; it is strictly later than the
first when the first round was ended by `ctx.Done()` at its extended
deadline, when the second timeout is larger than the first, and when the
second timeout is not smaller than the first and the clock has advanced by at
least one second between the two readings; it is not earlier when the second
timeout is not smaller than the first. -/
theorem deadline_step (c0 c1 : RoundClock) (g : Game) (h : consecutive c0 c1 g) :
    c0.now ≤ roundLeft c0 g ∧ c0.now ≤ c1.now ∧
    broadcastDeadline c0 - (RoundTimeoutMax - RoundTimeoutMin) ≤ broadcastDeadline c1 ∧
    (roundLeft c0 g = extendedDeadline (roundDeadline c0.now (roundTimeout c0.draw)) →
      broadcastDeadline c0 < broadcastDeadline c1) ∧
    (c0.draw < c1.draw → broadcastDeadline c0 < broadcastDeadline c1) ∧
    (c0.draw ≤ c1.draw → c0.now + Second ≤ c1.now →
      broadcastDeadline c0 < broadcastDeadline c1) ∧
    (c0.draw ≤ c1.draw → broadcastDeadline c0 ≤ broadcastDeadline c1) := by
  obtain ⟨⟨hd0, hd0m⟩, ⟨hd1, hd1m⟩, hin, hleft⟩ := h
  have hlim : c0.now ≤ extendedDeadline (roundDeadline c0.now (roundTimeout c0.draw)) := by
    simp only [extendedDeadline, roundDeadline, roundTimeout, RoundTimeoutGrace,
      RoundTimeoutMin, Second]
    omega
  have hge : c0.now ≤ roundLeft c0 g := by
    unfold roundLeft
    rcases collectUntil_time (extendedDeadline (roundDeadline c0.now (roundTimeout c0.draw)))
      c0.inputs { g with playerAnswer := fun _ => "" } with h1 | ⟨e, he, h1, _⟩
    · rw [h1]; exact hlim
    · rw [h1]; exact hin e he
  simp only [RoundTimeoutMax, RoundTimeoutMin] at hd0m hd1m
  simp only [broadcastDeadline, formatRFC3339, roundDeadline, roundTimeout, RoundTimeoutMin,
    RoundTimeoutMax, extendedDeadline, RoundTimeoutGrace, Second] at *
  refine ⟨hge, by omega, by omega, fun he => by omega, fun h1 => by omega,
    fun h1 h2 => by omega, fun h1 => by omega⟩

/-- After `silentRound`, which runs to its extended deadline (17 s), the
round `lateRound` broadcasts the deadline second 22, later than second 15. -/
theorem deadline_step_witness :
    consecutive silentRound lateRound sideOn ∧
    roundLeft silentRound sideOn =
      extendedDeadline (roundDeadline silentRound.now (roundTimeout silentRound.draw)) ∧
    broadcastDeadline silentRound = 15 ∧ broadcastDeadline lateRound = 22 ∧
    broadcastDeadline silentRound < broadcastDeadline lateRound :=
  ⟨by decide, by decide, by decide, by decide,
    (deadline_step silentRound lateRound sideOn (by decide)).2.2.2.1 (by decide)⟩

/-! ## JumpAI: replaying a plan -/

theorem loopKeeps_trans (W H : Int) (a b c : Lookahead) (h1 : loopKeeps W H a b)
    (h2 : loopKeeps W H b c) : loopKeeps W H a c := by
  refine ⟨fun x hx => ?_, fun y x => (h2.2 y x).trans (h1.2 y x)⟩
  rcases h2.1 x hx with h | h
  · exact h1.1 x h
  · exact Or.inr h

/-- The loop of `executePlan` records only cells of the grid, and writing 0
to the recorded cells gives the grid it started from. -/
theorem planLoop_keeps (W H : Int) (plan : List String) (sc : Int) (d : Direction)
    (speed : Int) (st : Lookahead) : loopKeeps W H st (planLoop W H plan sc d speed st).2 := by
  induction plan generalizing sc d speed st with
  | nil => exact ⟨fun _ hc => Or.inl hc, fun _ _ => rfl⟩
  | cons a plan ih =>
    simp only [planLoop]
    split_ifs
    · exact ⟨fun _ hc => Or.inl hc, fun _ _ => rfl⟩
    · exact jumpLoop_keeps _ _ _ _ _ _ _ _
    · exact loopKeeps_trans _ _ _ _ _ (jumpLoop_keeps _ _ _ _ _ _ _ _) (ih _ _ _ _)

/-- The method `executePlan` returns the value of its loop and leaves the
game it was given. -/
theorem executePlan_eq (g : Game) (plan : List String) (p : Player)
    (hp : g.Players g.You = some p) :
    JumpAI.executePlan g plan =
      some ((planLoop g.Width g.Height plan p.stepCounter p.Direction p.Speed
        ⟨g.Cells, p.X, p.Y, [], false⟩).1, g) := by
  unfold JumpAI.executePlan
  rw [hp]
  simp only
  have hk := planLoop_keeps g.Width g.Height plan p.stepCounter p.Direction p.Speed
    ⟨g.Cells, p.X, p.Y, [], false⟩
  have hc : clearCells g.Width g.Height
      (planLoop g.Width g.Height plan p.stepCounter p.Direction p.Speed
        ⟨g.Cells, p.X, p.Y, [], false⟩).2.rCells
      (planLoop g.Width g.Height plan p.stepCounter p.Direction p.Speed
        ⟨g.Cells, p.X, p.Y, [], false⟩).2.Cells = some g.Cells := by
    rw [clearCells_eq _ _ _ _ (fun c hc => by
      rcases hk.1 c hc with h | h
      · simp at h
      · exact h)]
    congr 1
    funext y x
    have := hk.2 y x
    simpa using this
  rw [hc]

/-- C33: for every game in which `g.You` is a key of the map, whatever the
position, direction, speed and step counter of that player and whatever the
plan, `JumpAI.executePlan` does not panic and leaves the game (the grid and
every player) as it was before the call, whichever value it returns. -/
theorem executePlan_restores (g : Game) (plan : List String) (p : Player)
    (hp : g.Players g.You = some p) :
    ∃ b, JumpAI.executePlan g plan = some (b, g) :=
  ⟨_, executePlan_eq g plan p hp⟩

/-- In `jumpGame` the plan `change_nothing` jumps over the trail on (7,5) and
`executePlan` returns true; the plan of three `turn_left` crosses no occupied
cell and it returns false; the game is left as it was. -/
theorem executePlan_restores_witness :
    (∃ b, JumpAI.executePlan jumpGame [ActionTurnLeft, ActionTurnLeft, ActionTurnLeft] =
      some (b, jumpGame)) ∧
    (JumpAI.executePlan jumpGame [ActionNOOP]).map (fun r => r.1) = some true ∧
    (JumpAI.executePlan jumpGame [ActionTurnLeft, ActionTurnLeft, ActionTurnLeft]).map
      (fun r => r.1) = some false :=
  ⟨executePlan_restores jumpGame [ActionTurnLeft, ActionTurnLeft, ActionTurnLeft]
    ⟨5, 5, .right, 3, true, 5, false⟩ rfl, by decide, by decide⟩

/-! ## JumpAI: searching a plan -/

/-- The switch of `JumpAI.progress` is the switch of `executePlan`. -/
theorem planSwitch_botSwitch (a : String) (p : Player) :
    botSwitch false a p =
      ((planSwitch a p.Direction p.Speed).1,
        { p with
          Direction := (planSwitch a p.Direction p.Speed).2.1
          Speed := (planSwitch a p.Direction p.Speed).2.2 }) := by
  unfold botSwitch planSwitch
  split_ifs <;> rfl

/-- The stepping loop does not read the list of recorded cells: started from
two records with the same grid, position and `jump` it gives the same
verdict, grid, position and `jump`. -/
theorem jumpLoop_congr (W H : Int) (d : Direction) (speed sc : Int) (n : Nat) (s : Int)
    (st st1 : Lookahead) (hC : st.Cells = st1.Cells) (hX : st.X = st1.X) (hY : st.Y = st1.Y)
    (hJ : st.jump = st1.jump) :
    (jumpLoop W H d speed sc n s st).1 = (jumpLoop W H d speed sc n s st1).1 ∧
    (jumpLoop W H d speed sc n s st).2.Cells = (jumpLoop W H d speed sc n s st1).2.Cells ∧
    (jumpLoop W H d speed sc n s st).2.X = (jumpLoop W H d speed sc n s st1).2.X ∧
    (jumpLoop W H d speed sc n s st).2.Y = (jumpLoop W H d speed sc n s st1).2.Y ∧
    (jumpLoop W H d speed sc n s st).2.jump = (jumpLoop W H d speed sc n s st1).2.jump := by
  induction n generalizing s st st1 with
  | zero => exact ⟨rfl, hC, hX, hY, hJ⟩
  | succ n ih =>
    unfold jumpLoop
    simp only
    rw [← hC, ← hX, ← hY, ← hJ]
    split_ifs
    all_goals first | exact ⟨rfl, rfl, rfl, rfl, rfl⟩ | (apply ih <;> rfl)

theorem planLoop_congr (W H : Int) (plan : List String) (sc : Int) (d : Direction)
    (speed : Int) (st st1 : Lookahead) (hC : st.Cells = st1.Cells) (hX : st.X = st1.X)
    (hY : st.Y = st1.Y) (hJ : st.jump = st1.jump) :
    (planLoop W H plan sc d speed st).1 = (planLoop W H plan sc d speed st1).1 := by
  induction plan generalizing sc d speed st st1 with
  | nil => exact hJ
  | cons a plan ih =>
    simp only [planLoop]
    obtain ⟨h1, h2, h3, h4, h5⟩ := jumpLoop_congr W H (planSwitch a d speed).2.1
      (planSwitch a d speed).2.2 (sc + 1) (planSwitch a d speed).2.2.toNat 0 st st1 hC hX hY hJ
    rw [← h1]
    split_ifs
    · rfl
    · rfl
    · exact ih _ _ _ _ _ h2 h3 h4 h5

/-- What `JumpAI.progress` returns for the recipient, in the terms of the
loop of `executePlan`, and that `revert` undoes it. -/
theorem jump_progress_cases (g : Game) (a : String) (p : Player)
    (hp : g.Players g.You = some p) (hs : 0 ≤ p.Speed) :
    ∃ r g1,
      JumpAI.progress g g.You a =
        some (if (planSwitch a p.Direction p.Speed).1 = false then jumpAIprogressCrash
          else if (jumpLoop g.Width g.Height (planSwitch a p.Direction p.Speed).2.1
              (planSwitch a p.Direction p.Speed).2.2 (p.stepCounter + 1)
              (planSwitch a p.Direction p.Speed).2.2.toNat 0
              ⟨g.Cells, p.X, p.Y, [], false⟩).1 = false then jumpAIprogressCrash
          else if (jumpLoop g.Width g.Height (planSwitch a p.Direction p.Speed).2.1
              (planSwitch a p.Direction p.Speed).2.2 (p.stepCounter + 1)
              (planSwitch a p.Direction p.Speed).2.2.toNat 0
              ⟨g.Cells, p.X, p.Y, [], false⟩).2.jump then jumpAIprogressJump
          else jumpAIprogressNormal, r, g1) ∧
      JumpAI.revert g1 g1.You r = some g ∧ g1.You = g.You ∧ g1.Width = g.Width ∧
      g1.Height = g.Height ∧
      ((planSwitch a p.Direction p.Speed).1 = true →
        g1.Cells = (jumpLoop g.Width g.Height (planSwitch a p.Direction p.Speed).2.1
              (planSwitch a p.Direction p.Speed).2.2 (p.stepCounter + 1)
              (planSwitch a p.Direction p.Speed).2.2.toNat 0
              ⟨g.Cells, p.X, p.Y, [], false⟩).2.Cells ∧
        g1.Players g.You = some
          { p with
            Direction := (planSwitch a p.Direction p.Speed).2.1
            Speed := (planSwitch a p.Direction p.Speed).2.2
            stepCounter := p.stepCounter + 1
            X := (jumpLoop g.Width g.Height (planSwitch a p.Direction p.Speed).2.1
              (planSwitch a p.Direction p.Speed).2.2 (p.stepCounter + 1)
              (planSwitch a p.Direction p.Speed).2.2.toNat 0
              ⟨g.Cells, p.X, p.Y, [], false⟩).2.X
            Y := (jumpLoop g.Width g.Height (planSwitch a p.Direction p.Speed).2.1
              (planSwitch a p.Direction p.Speed).2.2 (p.stepCounter + 1)
              (planSwitch a p.Direction p.Speed).2.2.toNat 0
              ⟨g.Cells, p.X, p.Y, [], false⟩).2.Y }) := by
  unfold JumpAI.progress JumpAI.revert
  rw [hp]
  simp only [if_neg (not_lt.mpr hs)]
  rw [planSwitch_botSwitch]
  simp only
  by_cases hsw : (planSwitch a p.Direction p.Speed).1 = false
  · rw [if_pos hsw, if_pos hsw]
    refine ⟨_, _, rfl, revertWith_setPlayer g g.You p _ hp rfl rfl, rfl, rfl, rfl, ?_⟩
    intro h
    rw [hsw] at h
    exact absurd h (by decide)
  · rw [if_neg hsw, if_neg hsw]
    refine ⟨_, _, rfl, revertWith_afterLoop g g.You p _ _ hp rfl rfl
      (jumpLoop_keeps _ _ _ _ _ _ _ _), rfl, rfl, rfl, fun _ => ⟨rfl, ?_⟩⟩
    simp [afterLoop, setPlayer]

theorem planSwitch_speed (a : String) (d : Direction) (speed : Int) (hs : 0 ≤ speed)
    (h : (planSwitch a d speed).1 = true) : 0 ≤ (planSwitch a d speed).2.2 := by
  unfold planSwitch at h ⊢
  split_ifs at h ⊢
  · exact hs
  · exact hs
  · simp only at h ⊢; omega
  · simp only [Bool.not_eq_true', decide_eq_false_iff_not, not_lt] at h
    simp only
    omega
  · exact hs

/-- The loop of `findPlan` over any list of actions, given what the recursive
call does: it does not panic, leaves the game it was given, and a plan it
returns has between 1 and `n + 1` actions and makes the loop of `executePlan`
return true. -/
theorem findPlanLoop_spec (sub : Nat → Game → Option (Option (List String) × Nat × Game))
    (n : Nat)
    (hsub : ∀ k g p, g.Players g.You = some p → 0 ≤ p.Speed →
      ∃ plan k1, sub k g = some (plan, k1, g) ∧
        ∀ pl, plan = some pl → 1 ≤ pl.length ∧ pl.length ≤ n ∧
          (planLoop g.Width g.Height pl p.stepCounter p.Direction p.Speed
            ⟨g.Cells, p.X, p.Y, [], false⟩).1 = true)
    (actions : List String) :
    ∀ k g p, g.Players g.You = some p → 0 ≤ p.Speed →
      ∃ plan k1, findPlanLoop sub actions k g = some (plan, k1, g) ∧
        ∀ pl, plan = some pl → 1 ≤ pl.length ∧ pl.length ≤ n + 1 ∧
          (planLoop g.Width g.Height pl p.stepCounter p.Direction p.Speed
            ⟨g.Cells, p.X, p.Y, [], false⟩).1 = true := by
  induction actions with
  | nil =>
    intro k g p _ _
    exact ⟨none, k, rfl, fun pl h => by simp at h⟩
  | cons a rest ih =>
    intro k g p hp hs
    obtain ⟨r, g1, hprog, hrev, hyou, hw, hh, hg1⟩ := jump_progress_cases g a p hp hs
    have hNC : jumpAIprogressNormal ≠ jumpAIprogressCrash := by decide
    have hJC : jumpAIprogressJump ≠ jumpAIprogressCrash := by decide
    have hJN : jumpAIprogressJump ≠ jumpAIprogressNormal := by decide
    simp only [findPlanLoop]
    rw [hprog]
    simp only
    by_cases hsw : (planSwitch a p.Direction p.Speed).1 = false
    · rw [if_pos hsw, if_pos rfl, hrev]
      exact ih k g p hp hs
    · rw [if_neg hsw]
      have hsw1 : (planSwitch a p.Direction p.Speed).1 = true := by simpa using hsw
      obtain ⟨hcells, hpl1⟩ := hg1 hsw1
      by_cases hl : (jumpLoop g.Width g.Height (planSwitch a p.Direction p.Speed).2.1
          (planSwitch a p.Direction p.Speed).2.2 (p.stepCounter + 1)
          (planSwitch a p.Direction p.Speed).2.2.toNat 0
          ⟨g.Cells, p.X, p.Y, [], false⟩).1 = false
      · rw [if_pos hl, if_pos rfl, hrev]
        exact ih k g p hp hs
      · rw [if_neg hl]
        by_cases hj : (jumpLoop g.Width g.Height (planSwitch a p.Direction p.Speed).2.1
            (planSwitch a p.Direction p.Speed).2.2 (p.stepCounter + 1)
            (planSwitch a p.Direction p.Speed).2.2.toNat 0
            ⟨g.Cells, p.X, p.Y, [], false⟩).2.jump = true
        · rw [if_pos hj, if_neg hJC, if_neg hJN, if_pos rfl, hrev]
          refine ⟨_, _, rfl, fun pl hpl => ?_⟩
          have hpl2 : pl = [a] := (Option.some.inj hpl).symm
          subst hpl2
          refine ⟨by simp, by simp, ?_⟩
          simp only [planLoop, if_neg hsw, if_neg hl]
          exact hj
        · rw [if_neg hj, if_neg hNC, if_pos rfl]
          have hjf : (jumpLoop g.Width g.Height (planSwitch a p.Direction p.Speed).2.1
              (planSwitch a p.Direction p.Speed).2.2 (p.stepCounter + 1)
              (planSwitch a p.Direction p.Speed).2.2.toNat 0
              ⟨g.Cells, p.X, p.Y, [], false⟩).2.jump = false := by simpa using hj
          rw [← hyou] at hpl1
          obtain ⟨plan, k1, hsubeq, hplan⟩ := hsub k g1 _ hpl1
            (planSwitch_speed a p.Direction p.Speed hs hsw1)
          rw [hsubeq]
          simp only
          rw [hrev]
          cases plan with
          | none => exact ih k1 g p hp hs
          | some pl =>
            refine ⟨_, _, rfl, fun pl1 hpl => ?_⟩
            have hpl2 : pl1 = a :: pl := (Option.some.inj hpl).symm
            subst hpl2
            obtain ⟨h1, h2, h3⟩ := hplan pl rfl
            refine ⟨by simp, by simp only [List.length_cons]; omega, ?_⟩
            simp only [planLoop, if_neg hsw, if_neg hl]
            rw [hw, hh, hcells] at h3
            rw [← h3]
            exact planLoop_congr _ _ _ _ _ _ _ _ rfl rfl rfl hjf

/-- The method `findPlan` for every depth: it does not panic, leaves the game
it was given, and a plan it returns has between 1 and `n` actions and makes
the loop of `executePlan` return true. -/
theorem findPlanN_spec (shuffle : Nat → List String) (n : Nat) :
    ∀ k g p, g.Players g.You = some p → 0 ≤ p.Speed →
      ∃ plan k1, findPlanN shuffle n k g = some (plan, k1, g) ∧
        ∀ pl, plan = some pl → 1 ≤ pl.length ∧ pl.length ≤ n ∧
          (planLoop g.Width g.Height pl p.stepCounter p.Direction p.Speed
            ⟨g.Cells, p.X, p.Y, [], false⟩).1 = true := by
  induction n with
  | zero =>
    intro k g p _ _
    exact ⟨none, k, rfl, fun pl h => by simp at h⟩
  | succ n ih =>
    intro k g p hp hs
    exact findPlanLoop_spec (findPlanN shuffle n) n ih (shuffle k) (k + 1) g p hp hs

/-- C32: for every game in which the recipient `g.You` is a key of the map
with a speed that is not negative, every `length >= 0` and every outcome of
the shuffles (the lists `shuffle k`, whatever they hold), `findPlan` does not
panic and leaves the game as it was before the call; a plan it returns has at
least 1 and at most `length` actions (at most `HolesEachStep` for the length
`GetState` passes when the step counter is not negative), and `executePlan`
on the same game with that plan returns true and leaves the game as it
was. -/
theorem findPlan_spec (shuffle : Nat → List String) (length : Int) (k : Nat) (g : Game)
    (p : Player) (hlen : 0 ≤ length) (hp : g.Players g.You = some p) (hs : 0 ≤ p.Speed) :
    (∃ plan k1, JumpAI.findPlan shuffle length k g = some (plan, k1, g) ∧
      ∀ pl, plan = some pl →
        1 ≤ (pl.length : Int) ∧ (pl.length : Int) ≤ length ∧
        JumpAI.executePlan g pl = some (true, g)) ∧
    (0 ≤ p.stepCounter →
      1 ≤ jumpPlanLength p.stepCounter ∧ jumpPlanLength p.stepCounter ≤ HolesEachStep) := by
  constructor
  · obtain ⟨plan, k1, he, hpl⟩ := findPlanN_spec shuffle length.toNat k g p hp hs
    refine ⟨plan, k1, he, fun pl h => ?_⟩
    obtain ⟨h1, h2, h3⟩ := hpl pl h
    refine ⟨by omega, by omega, ?_⟩
    rw [executePlan_eq g pl p hp, h3]
  · intro hsc
    unfold jumpPlanLength HolesEachStep
    rw [Int.tmod_eq_emod hsc (by decide)]
    omega

/-- In `jumpGame` the bot has speed 3 and step counter 5, so `GetState` asks
for a plan of length 1; with `turn_left` first and `change_nothing` second
in the shuffled list `findPlan` returns the plan `change_nothing`, which jumps
over the trail on (7,5). -/
theorem findPlan_spec_witness :
    ((∃ plan k1, JumpAI.findPlan sameShuffle 1 0 jumpGame =
        some (plan, k1, jumpGame) ∧
      ∀ pl, plan = some pl →
        1 ≤ (pl.length : Int) ∧ (pl.length : Int) ≤ 1 ∧
        JumpAI.executePlan jumpGame pl = some (true, jumpGame)) ∧
    ((0 : Int) ≤ 5 → 1 ≤ jumpPlanLength 5 ∧ jumpPlanLength 5 ≤ HolesEachStep)) ∧
    (JumpAI.findPlan sameShuffle 1 0 jumpGame).map
      (fun r => r.1) = some (some [ActionNOOP]) :=
  ⟨findPlan_spec sameShuffle 1 0 jumpGame
    ⟨5, 5, .right, 3, true, 5, false⟩ (by decide) rfl (by decide), by decide⟩

/-! ## SuperSnailAI: the inner loop ends -/

theorem countP_lt_of_imp (l : List (Int × Int)) (p q : Int × Int → Bool)
    (himp : ∀ c ∈ l, p c = true → q c = true) (a : Int × Int) (ha : a ∈ l)
    (hq : q a = true) (hp : p a = false) : l.countP p < l.countP q := by
  induction l with
  | nil => simp at ha
  | cons b l ih =>
    have hle : l.countP p ≤ l.countP q :=
      List.countP_mono_left (fun c hc => himp c (List.mem_cons_of_mem _ hc))
    rcases List.mem_cons.mp ha with rfl | hmem
    · rw [List.countP_cons_of_neg _ _ (by simp [hp]), List.countP_cons_of_pos _ _ hq]
      omega
    · have := ih (fun c hc => himp c (List.mem_cons_of_mem _ hc)) hmem
      by_cases hb : p b = true
      · rw [List.countP_cons_of_pos _ _ hb,
          List.countP_cons_of_pos _ _ (himp b (List.mem_cons_self _ _) hb)]
        omega
      · rw [List.countP_cons_of_neg _ _ hb]
        by_cases hqb : q b = true
        · rw [List.countP_cons_of_pos _ _ hqb]; omega
        · rw [List.countP_cons_of_neg _ _ hqb]; omega

theorem mem_gridCells (W H x y : Int) : (x, y) ∈ gridCells W H ↔ inGrid W H x y = true := by
  rw [inGrid_iff]
  simp only [gridCells, List.mem_flatMap, List.mem_range, List.mem_map, Prod.mk.injEq]
  constructor
  · rintro ⟨b, hb, a, ha, rfl, rfl⟩
    simp only [Int.ofNat_eq_coe]
    omega
  · intro h
    refine ⟨y.toNat, by omega, x.toNat, by omega, ?_, ?_⟩
    · simp only [Int.ofNat_eq_coe]; omega
    · simp only [Int.ofNat_eq_coe]; omega

theorem gridCells_length (W H : Int) : (gridCells W H).length = H.toNat * W.toNat := by
  simp [gridCells, List.length_flatMap, Function.comp_def]

theorem emptyCount_le (W H : Int) (cells : Int → Int → Int) :
    emptyCount W H cells ≤ W.toNat * H.toNat := by
  unfold emptyCount
  have := List.countP_le_length (fun c : Int × Int => decide (cells c.2 c.1 = 0))
    (l := gridCells W H)
  rw [gridCells_length] at this
  rw [Nat.mul_comm]
  exact this

/-- Writing a value that is not 0 adds no empty cell. -/
theorem setCell_count_le (W H : Int) (cells : Int → Int → Int) (y x v : Int) (hv : v ≠ 0) :
    emptyCount W H (setCell cells y x v) ≤ emptyCount W H cells := by
  unfold emptyCount
  apply List.countP_mono_left
  intro c _ hc
  simp only [setCell, decide_eq_true_eq] at hc ⊢
  split_ifs at hc with h
  · exact absurd hc hv
  · exact hc

/-- Writing a value that is not 0 to an empty cell of the grid takes one
empty cell away. -/
theorem setCell_count_lt (W H : Int) (cells : Int → Int → Int) (y x v : Int) (hv : v ≠ 0)
    (hin : inGrid W H x y = true) (h0 : cells y x = 0) :
    emptyCount W H (setCell cells y x v) < emptyCount W H cells := by
  unfold emptyCount
  apply countP_lt_of_imp _ _ _ _ (x, y) ((mem_gridCells W H x y).2 hin)
  · simp [h0]
  · simp [setCell, hv]
  · intro c _ hc
    simp only [setCell, decide_eq_true_eq] at hc ⊢
    split_ifs at hc with h
    · exact absurd hc hv
    · exact hc

/-- The stepping loop of `progress` adds no empty cell. -/
theorem progressLoop_count_le (W H : Int) (d : Direction) (speed sc : Int) (n : Nat) (s : Int)
    (st : Lookahead) :
    emptyCount W H (progressLoop W H d speed sc n s st).2.Cells ≤ emptyCount W H st.Cells := by
  induction n generalizing s st with
  | zero => exact le_refl _
  | succ n ih =>
    unfold progressLoop
    simp only
    split_ifs
    · exact le_refl _
    · exact ih _ _
    · exact le_refl _
    · exact le_trans (ih _ _) (setCell_count_le _ _ _ _ _ _ (by decide))

/-- A stepping loop of `progress` that starts at the sub-step 0, makes at
least one step and runs to its end takes at least one empty cell away. -/
theorem progressLoop_count_lt (W H : Int) (d : Direction) (speed sc : Int) (n : Nat)
    (st : Lookahead) (hn : 0 < n) (h : (progressLoop W H d speed sc n 0 st).1 = true) :
    emptyCount W H (progressLoop W H d speed sc n 0 st).2.Cells < emptyCount W H st.Cells := by
  obtain ⟨m, rfl⟩ : ∃ m, n = m + 1 := ⟨n - 1, by omega⟩
  unfold progressLoop at h ⊢
  simp only [isHole_first] at h ⊢
  by_cases h1 : (dostep d st.X st.Y).1 < 0 ∨ (dostep d st.X st.Y).1 ≥ W ∨
      (dostep d st.X st.Y).2 < 0 ∨ (dostep d st.X st.Y).2 ≥ H
  · rw [if_pos h1] at h
    simp at h
  · rw [if_neg h1] at h ⊢
    simp only [Bool.false_eq_true, if_false] at h ⊢
    by_cases h2 : st.Cells (dostep d st.X st.Y).2 (dostep d st.X st.Y).1 ≠ 0
    · rw [if_pos h2] at h
      simp at h
    · rw [if_neg h2]
      refine lt_of_le_of_lt (progressLoop_count_le _ _ _ _ _ _ _ _) ?_
      apply setCell_count_lt _ _ _ _ _ _ (by decide)
      · rw [inGrid_iff]
        omega
      · simpa using h2

theorem botSwitch_speed (b : Bool) (a : String) (p : Player) (hs : 1 ≤ p.Speed)
    (h : (botSwitch b a p).1 = true) : 1 ≤ (botSwitch b a p).2.Speed := by
  unfold botSwitch at h ⊢
  split_ifs at h ⊢
  · exact hs
  · exact hs
  · simp only at h ⊢; omega
  · simp only [Bool.not_eq_true', decide_eq_false_iff_not, not_lt] at h
    simp only
    omega
  · exact hs
  · exact hs
  · exact hs

theorem botSwitch_empty (p : Player) : (botSwitch true "" p).1 = false := by
  unfold botSwitch
  simp [ActionTurnLeft, ActionTurnRight, ActionFaster, ActionSlower, ActionNOOP]

theorem afterLoop_player (g : Game) (player : Nat) (q : Player) (l : Lookahead) :
    (afterLoop g player q l).Players player = some { q with X := l.X, Y := l.Y } := by
  simp [afterLoop, setPlayer]

/-- One call of `SuperSnailAI.progress` for a recipient with a positive
speed: it does not panic, the record it returns holds a positive speed and
cells of the grid, and a call that is survived leaves a positive speed and
fewer empty cells. -/
theorem snail_progress_cases (g : Game) (a : String) (p : Player)
    (hp : g.Players g.You = some p) (hs : 1 ≤ p.Speed) :
    ∃ alive r g1, SuperSnailAI.progress g g.You a = some (alive, r, g1) ∧
      g1.You = g.You ∧ g1.Width = g.Width ∧ g1.Height = g.Height ∧
      (1 ≤ r.Speed ∧ ∀ c ∈ r.Cells, inGrid g.Width g.Height c.1 c.2 = true) ∧
      (∃ p1, g1.Players g1.You = some p1 ∧ (alive = true → 1 ≤ p1.Speed)) ∧
      (alive = true → emptyCells g1 < emptyCells g) ∧ (a = "" → alive = false) := by
  unfold SuperSnailAI.progress
  rw [hp]
  simp only [if_neg (not_lt.mpr (by omega : 0 ≤ p.Speed))]
  by_cases hsw : (botSwitch true a p).1 = false
  · rw [if_pos hsw]
    refine ⟨_, _, _, rfl, rfl, rfl, rfl, ⟨hs, fun c hc => by simp [Revert.ofPlayer] at hc⟩,
      ⟨(botSwitch true a p).2, by simp [setPlayer], fun h => by simp at h⟩,
      fun h => by simp at h, fun _ => rfl⟩
  · rw [if_neg hsw]
    have hsw1 : (botSwitch true a p).1 = true := by simpa using hsw
    have hsp := botSwitch_speed true a p hs hsw1
    have hk := progressLoop_keeps g.Width g.Height (botSwitch true a p).2.Direction
      (botSwitch true a p).2.Speed ((botSwitch true a p).2.stepCounter + 1)
      (botSwitch true a p).2.Speed.toNat 0
      ⟨g.Cells, (botSwitch true a p).2.X, (botSwitch true a p).2.Y, [], false⟩
    refine ⟨_, _, _, rfl, rfl, rfl, rfl, ⟨hs, fun c hc => ?_⟩,
      ⟨_, afterLoop_player _ _ _ _, fun _ => hsp⟩, fun h => ?_, fun ha => ?_⟩
    · rcases hk.1 c hc with h | h
      · simp at h
      · exact h
    · exact progressLoop_count_lt _ _ _ _ _ _ _ (by omega) h
    · subst ha
      rw [botSwitch_empty] at hsw1
      exact absurd hsw1 (by decide)

/-- One call of `SuperSnailAI.revert` with a record that holds cells of the
grid does not panic and gives the player the speed of the record. -/
theorem snail_revert_some (g : Game) (r : Revert) (p : Player)
    (hp : g.Players g.You = some p)
    (hc : ∀ c ∈ r.Cells, inGrid g.Width g.Height c.1 c.2 = true) :
    ∃ g1, SuperSnailAI.revert g g.You r = some g1 ∧ g1.You = g.You ∧ g1.Width = g.Width ∧
      g1.Height = g.Height ∧ ∃ p1, g1.Players g1.You = some p1 ∧ p1.Speed = r.Speed := by
  unfold SuperSnailAI.revert revertWith
  rw [hp]
  simp only [clearCells_eq _ _ _ _ hc]
  exact ⟨_, rfl, rfl, rfl, rfl,
    { p with X := r.X, Y := r.Y, Speed := r.Speed, stepCounter := r.stepCounter,
             Direction := r.Direction }, by simp [setPlayer], rfl⟩

/-- The loop of `revertStack` over records that hold positive speeds and cells
of the grid does not panic and leaves the recipient with a positive speed. -/
theorem revertAll_some (rs : List Revert) (g : Game) (p : Player)
    (hp : g.Players g.You = some p)
    (hv : ∀ r ∈ rs, 1 ≤ r.Speed ∧ ∀ c ∈ r.Cells, inGrid g.Width g.Height c.1 c.2 = true)
    (hs : 1 ≤ p.Speed ∨ rs ≠ []) :
    ∃ g1, revertAll g.You rs g = some g1 ∧ g1.You = g.You ∧ g1.Width = g.Width ∧
      g1.Height = g.Height ∧ ∃ p1, g1.Players g1.You = some p1 ∧ 1 ≤ p1.Speed := by
  induction rs generalizing g p with
  | nil =>
    refine ⟨g, rfl, rfl, rfl, rfl, p, hp, ?_⟩
    rcases hs with h | h
    · exact h
    · exact absurd rfl h
  | cons r rs ih =>
    obtain ⟨g1, e1, y1, w1, h1, p1, hp1, hs1⟩ :=
      snail_revert_some g r p hp (hv r (List.mem_cons_self _ _)).2
    simp only [revertAll, e1]
    obtain ⟨g2, e2, y2, w2, h2, hp2⟩ := ih g1 p1 hp1 (fun r1 hr1 => by
      rw [w1, h1]
      exact hv r1 (List.mem_cons_of_mem _ hr1))
      (Or.inl (by rw [hs1]; exact (hv r (List.mem_cons_self _ _)).1))
    rw [y1] at e2
    exact ⟨g2, e2, y2.trans y1, w2.trans w1, h2.trans h1, hp2⟩

/-- The inner loop of `GetState` from a state whose recipient has a positive
speed, with more fuel than there are empty cells: it does not panic and is
left after at most as many survived steps as there are empty cells. -/
theorem snailLoop_spec (side : Direction) (fuel : Nat) :
    ∀ (g : Game) (p : Player) (newTest : Nat) (revert : List Revert),
      g.Players g.You = some p → 1 ≤ p.Speed → emptyCells g < fuel →
      (∀ r ∈ revert, 1 ≤ r.Speed ∧ ∀ c ∈ r.Cells, inGrid g.Width g.Height c.1 c.2 = true) →
      ∃ g2 n revert2, snailLoop side fuel g newTest revert = some (g2, newTest + n, revert2) ∧
        n ≤ emptyCells g ∧ g2.You = g.You ∧ g2.Width = g.Width ∧ g2.Height = g.Height ∧
        (∃ p2, g2.Players g2.You = some p2) ∧ revert2 ≠ [] ∧
        ∀ r ∈ revert2, 1 ≤ r.Speed ∧ ∀ c ∈ r.Cells, inGrid g.Width g.Height c.1 c.2 = true := by
  induction fuel with
  | zero => intro g p newTest revert _ _ h; omega
  | succ fuel ih =>
    intro g p newTest revert hp hs hfuel hv
    have hact : ∃ a, getSnailAction side g = some a := by
      unfold getSnailAction
      rw [hp]
      simp only
      split_ifs <;> exact ⟨_, rfl⟩
    obtain ⟨a, ha⟩ := hact
    obtain ⟨alive, r, g1, e1, y1, w1, h1, hr, ⟨p1, hp1, hs1⟩, hlt, _⟩ :=
      snail_progress_cases g a p hp hs
    have hv2 : ∀ r1 ∈ revert ++ [r],
        1 ≤ r1.Speed ∧ ∀ c ∈ r1.Cells, inGrid g.Width g.Height c.1 c.2 = true := by
      intro r1 hr1
      rcases List.mem_append.mp hr1 with h | h
      · exact hv r1 h
      · rw [List.mem_singleton.mp h]; exact hr
    simp only [snailLoop, ha, e1]
    by_cases hal : alive = false
    · rw [if_pos hal]
      exact ⟨g1, 0, _, rfl, Nat.zero_le _, y1, w1, h1, ⟨p1, hp1⟩, by simp, hv2⟩
    · rw [if_neg hal]
      have hal1 : alive = true := by simpa using hal
      have hlt1 := hlt hal1
      obtain ⟨g2, n, rv2, e2, hn, y2, w2, h2, hp2, hne, hv3⟩ :=
        ih g1 p1 (newTest + 1) (revert ++ [r]) hp1 (hs1 hal1) (by omega) (by
          rw [w1, h1]; exact hv2)
      refine ⟨g2, n + 1, rv2, ?_, by omega, y2.trans y1, w2.trans w1, h2.trans h1, hp2, hne, ?_⟩
      · rw [e2]
        congr 3
        omega
      · rw [w1, h1] at hv3
        exact hv3

/-- The loop over the three actions of `GetState`, with more fuel than the
grid has cells: it does not panic and every inner loop ends. -/
theorem tryActions_total (side : Direction) (fuel : Nat) (actions : List String) :
    ∀ (g : Game) (p : Player) (revert : List Revert) (test : Nat) (snailaction : String),
      g.Players g.You = some p → revert ≠ [] →
      (∀ r ∈ revert, 1 ≤ r.Speed ∧ ∀ c ∈ r.Cells, inGrid g.Width g.Height c.1 c.2 = true) →
      g.Width.toNat * g.Height.toNat < fuel →
      ∃ res, tryActions side fuel actions g revert test snailaction = some res := by
  induction actions with
  | nil => intro g p revert test sa _ _ _ _; exact ⟨sa, rfl⟩
  | cons a rest ih =>
    intro g p revert test sa hp hne hv hfuel
    obtain ⟨g0, e0, y0, w0, h0, p0, hp0, hs0⟩ := revertAll_some revert.reverse g p hp
      (fun r hr => hv r (List.mem_reverse.mp hr)) (Or.inr (by simpa using hne))
    obtain ⟨alive, r, g1, e1, y1, w1, h1, hr, ⟨p1, hp1, hs1⟩, _, _⟩ :=
      snail_progress_cases g0 a p0 hp0 hs0
    have hr1 : ∀ r1 ∈ [r],
        1 ≤ r1.Speed ∧ ∀ c ∈ r1.Cells, inGrid g1.Width g1.Height c.1 c.2 = true := by
      intro r1 hr1
      rw [List.mem_singleton.mp hr1, w1, h1]
      exact hr
    have hfuel1 : g1.Width.toNat * g1.Height.toNat < fuel := by rw [w1, h1, w0, h0]; exact hfuel
    simp only [tryActions, revertStack, e0, e1]
    by_cases hal : alive = false
    · rw [if_pos hal]
      exact ih g1 p1 [r] test sa hp1 (by simp) hr1 hfuel1
    · rw [if_neg hal]
      have hal1 : alive = true := by simpa using hal
      obtain ⟨g2, n, rv2, e2, _, y2, w2, h2, ⟨p2, hp2⟩, hne2, hv2⟩ :=
        snailLoop_spec side fuel g1 p1 1 [r] hp1 (hs1 hal1)
          (lt_of_le_of_lt (emptyCount_le _ _ _) hfuel1) hr1
      rw [e2]
      simp only
      have hv3 : ∀ r1 ∈ rv2,
          1 ≤ r1.Speed ∧ ∀ c ∈ r1.Cells, inGrid g2.Width g2.Height c.1 c.2 = true := by
        rw [w2, h2]; exact hv2
      have hfuel2 : g2.Width.toNat * g2.Height.toNat < fuel := by rw [w2, h2]; exact hfuel1
      split_ifs
      · exact ih g2 p2 rv2 _ _ hp2 hne2 hv3 hfuel2
      · exact ih g2 p2 rv2 _ _ hp2 hne2 hv3 hfuel2

/-- C39: for a game in which the recipient `g.You` is a key of the map and
has a speed of at least 1 (with the speed 0 a step marks no cell): a call of
`progress` that is survived leaves fewer empty cells; `getSnailAction`
returns the empty action when none of its three candidate cells is free, and
`progress` is not survived with the empty action; so the inner loop of
`GetState`, given more fuel than there are empty cells, is left after at most
as many survived steps as there are empty cells; and `GetState`, given more
fuel than the grid has cells, returns without a panic. -/
theorem superSnail_terminates (side : Direction) (g : Game) (p : Player)
    (hp : g.Players g.You = some p) (hs : 1 ≤ p.Speed) :
    (∀ a r g1, SuperSnailAI.progress g g.You a = some (true, r, g1) →
      emptyCells g1 < emptyCells g) ∧
    ((side = .left ∨ side = .right) →
      freeCell g (cellRight p.Direction p.X p.Y) = false →
      freeCell g (cellAhead p.Direction p.X p.Y) = false →
      freeCell g (cellLeft p.Direction p.X p.Y) = false → getSnailAction side g = some "") ∧
    (∃ r g1, SuperSnailAI.progress g g.You "" = some (false, r, g1)) ∧
    (∀ fuel newTest, emptyCells g < fuel →
      ∃ g2 n revert2, snailLoop side fuel g newTest [] = some (g2, newTest + n, revert2) ∧
        n ≤ emptyCells g) ∧
    ∀ channel fuel, g.Width.toNat * g.Height.toNat < fuel →
      ∃ res, SuperSnailAI.GetState channel side fuel g = some res := by
  refine ⟨?_, ?_, ?_, ?_, ?_⟩
  · intro a r g1 h
    obtain ⟨alive, r2, g2, e, _, _, _, _, _, hlt, _⟩ := snail_progress_cases g a p hp hs
    rw [h] at e
    simp only [Option.some.injEq, Prod.mk.injEq] at e
    obtain ⟨ha, _, hg⟩ := e
    rw [hg]
    exact hlt ha.symm
  · intro hside h1 h2 h3
    unfold getSnailAction
    rw [hp]
    simp only [h1, h2, h3]
    rcases hside with h | h <;> simp [h]
  · obtain ⟨alive, r, g1, e, _, _, _, _, _, _, hem⟩ := snail_progress_cases g "" p hp hs
    rw [hem rfl] at e
    exact ⟨r, g1, e⟩
  · intro fuel newTest hfuel
    obtain ⟨g2, n, rv2, e, hn, _⟩ := snailLoop_spec side fuel g p newTest [] hp hs hfuel
      (fun r hr => by simp at hr)
    exact ⟨g2, n, rv2, e, hn⟩
  · intro channel fuel hfuel
    unfold SuperSnailAI.GetState
    by_cases hch : channel = false
    · rw [if_pos hch]; exact ⟨_, rfl⟩
    · rw [if_neg hch]
      by_cases hrun : g.Running = false
      · rw [if_pos hrun]; exact ⟨_, rfl⟩
      · rw [if_neg hrun]
        have hact : ∃ a, getSnailAction side g = some a := by
          unfold getSnailAction
          rw [hp]
          simp only
          split_ifs <;> exact ⟨_, rfl⟩
        obtain ⟨a, ha⟩ := hact
        rw [ha]
        simp only
        by_cases hemp : a ≠ ""
        · rw [if_pos hemp]
          obtain ⟨alive, r, g1, e1, y1, w1, h1, hr, ⟨p1, hp1, _⟩, _, _⟩ :=
            snail_progress_cases g a p hp hs
          rw [e1]
          simp only
          have hsm : ∃ b, isInSmallArea g1 = some b := by
            unfold isInSmallArea
            rw [hp1]
            exact ⟨_, rfl⟩
          obtain ⟨b, hb⟩ := hsm
          rw [hb]
          simp only
          by_cases hbf : b = false
          · rw [if_pos hbf]; exact ⟨_, rfl⟩
          · rw [if_neg hbf]
            obtain ⟨res, hres⟩ := tryActions_total side fuel
              [ActionNOOP, ActionTurnLeft, ActionTurnRight] g1 p1 [r] 0 a hp1 (by simp)
              (fun r1 hr1 => by
                rw [List.mem_singleton.mp hr1, w1, h1]
                exact hr)
              (by rw [w1, h1]; exact hfuel)
            rw [hres]
            exact ⟨_, rfl⟩
        · rw [if_neg hemp]; exact ⟨_, rfl⟩

/-- In `snailGame` (a 4x3 grid with 10 empty cells, the bot on (0,0) facing
right, a trail ahead on (1,0)) the bot, keeping to the left, offers
`turn_right`, and the inner loop started there is left after 10 survived
steps, as many as there are empty cells. -/
theorem superSnail_terminates_witness :
    (∀ channel fuel, snailGame.Width.toNat * snailGame.Height.toNat < fuel →
      ∃ res, SuperSnailAI.GetState channel Direction.left fuel snailGame = some res) ∧
    emptyCells snailGame = 10 ∧
    SuperSnailAI.GetState true Direction.left 13 snailGame = some (some ActionTurnRight) ∧
    (snailLoop Direction.left 11 snailGame 0 []).map (fun r => r.2.1) = some 10 :=
  ⟨(superSnail_terminates Direction.left snailGame ⟨0, 0, .right, 1, true, 0, false⟩ rfl
    (by decide)).2.2.2.2, by decide, by decide, by decide!⟩

/-! ## JumpingLargestFreeAI: the flood fill counts the connected empty cells -/

theorem freeCell_inGrid (g : Game) (c : Int × Int) (h : freeCell g c = true) :
    inGrid g.Width g.Height c.1 c.2 = true := by
  unfold freeCell at h
  simp only [Bool.and_eq_true, decide_eq_true_eq] at h
  rw [inGrid_iff]
  omega

theorem freeCell_iff (g : Game) (c : Int × Int) :
    freeCell g c = true ↔ inGrid g.Width g.Height c.1 c.2 = true ∧ g.Cells c.2 c.1 = 0 := by
  unfold freeCell
  rw [inGrid_iff]
  simp only [Bool.and_eq_true, decide_eq_true_eq]
  constructor
  · rintro ⟨⟨⟨⟨h1, h2⟩, h3⟩, h4⟩, h5⟩
    exact ⟨⟨h1, h2, h3, h4⟩, h5⟩
  · rintro ⟨⟨h1, h2, h3, h4⟩, h5⟩
    exact ⟨⟨⟨⟨h1, h2⟩, h3⟩, h4⟩, h5⟩

/-- The index `y*Width + x` tells the cells of the grid apart. -/
theorem cellIndex_inj (W H : Int) (a b : Int × Int) (ha : inGrid W H a.1 a.2 = true)
    (hb : inGrid W H b.1 b.2 = true) (h : a.2 * W + a.1 = b.2 * W + b.1) : a = b := by
  rw [inGrid_iff] at ha hb
  have hW : 0 < W := by omega
  have hx : a.1 = b.1 := by
    have h1 : (a.2 * W + a.1) % W = a.1 := by
      rw [add_comm, Int.add_mul_emod_self]
      exact Int.emod_eq_of_lt ha.1 ha.2.1
    have h2 : (b.2 * W + b.1) % W = b.1 := by
      rw [add_comm, Int.add_mul_emod_self]
      exact Int.emod_eq_of_lt hb.1 hb.2.1
    rw [← h1, ← h2, h]
  have hy : a.2 = b.2 := by
    have : a.2 * W = b.2 * W := by omega
    exact Int.eq_of_mul_eq_mul_right (by omega) this
  exact Prod.ext hx hy

theorem seen_update (W H : Int) (vis : Int → Bool) (a c : Int × Int)
    (ha : inGrid W H a.1 a.2 = true) (hc : inGrid W H c.1 c.2 = true) :
    seen W (Function.update vis (a.2 * W + a.1) true) c ↔ seen W vis c ∨ c = a := by
  unfold seen
  by_cases h : c.2 * W + c.1 = a.2 * W + a.1
  · rw [h, Function.update_same]
    simp only [true_iff]
    exact Or.inr (cellIndex_inj W H c a hc ha h)
  · rw [Function.update_noteq h]
    constructor
    · exact Or.inl
    · rintro (h1 | h1)
      · exact h1
      · rw [h1] at h
        exact absurd rfl h

theorem update_mono (vis : Int → Bool) (k : Int) :
    ∀ i, vis i = true → Function.update vis k true i = true := by
  intro i hi
  by_cases h : i = k
  · rw [h, Function.update_same]
  · rw [Function.update_noteq h]; exact hi

theorem unseenCount_mono (W H : Int) (v0 v1 : Int → Bool)
    (h : ∀ i, v0 i = true → v1 i = true) : unseenCount W H v1 ≤ unseenCount W H v0 := by
  unfold unseenCount
  apply List.countP_mono_left
  intro c _ hc
  simp only [Bool.not_eq_true'] at hc ⊢
  cases h0 : v0 (c.2 * W + c.1) with
  | false => rfl
  | true => rw [h _ h0] at hc; exact absurd hc (by decide)

/-- Marking a cell of the grid that was not marked leaves fewer cells
unmarked. -/
theorem unseenCount_update (W H : Int) (vis : Int → Bool) (x y : Int)
    (hin : inGrid W H x y = true) (hv : ¬ vis (y * W + x) = true) :
    unseenCount W H (Function.update vis (y * W + x) true) < unseenCount W H vis := by
  unfold unseenCount
  apply countP_lt_of_imp _ _ _ _ (x, y) ((mem_gridCells W H x y).2 hin)
  · simpa using hv
  · simp
  · intro c _ hc
    simp only [Bool.not_eq_true'] at hc ⊢
    cases h0 : vis (c.2 * W + c.1) with
    | false => rfl
    | true => rw [update_mono vis _ _ h0] at hc; exact absurd hc (by decide)

theorem floodSpec_nil (g : Game) (c : Int) (v : Int → Bool) : floodSpec g [] c v c v := by
  refine ⟨fun _ h => h, ⟨[], List.nodup_nil, fun c => ?_, by simp⟩, fun c _ h1 h2 => ?_,
    fun s hs => by simp at hs⟩
  · simp only [List.not_mem_nil, false_iff, not_and, not_not]
    exact fun _ h => h
  · exact absurd h1 h2

/-- Two runs one after the other. -/
theorem floodSpec_append (g : Game) (A B : List (Int × Int)) (c0 c1 c2 : Int)
    (v0 v1 v2 : Int → Bool) (h1 : floodSpec g A c0 v0 c1 v1)
    (h2 : floodSpec g B c1 v1 c2 v2) : floodSpec g (A ++ B) c0 v0 c2 v2 := by
  obtain ⟨m1, ⟨L1, n1, e1, k1⟩, d1, f1⟩ := h1
  obtain ⟨m2, ⟨L2, n2, e2, k2⟩, d2, f2⟩ := h2
  have hs1 : ∀ c, seen g.Width v0 c → seen g.Width v1 c := fun c h => m1 _ h
  have hs2 : ∀ c, seen g.Width v1 c → seen g.Width v2 c := fun c h => m2 _ h
  refine ⟨fun i h => m2 i (m1 i h), ⟨L1 ++ L2, ?_, ?_, ?_⟩, ?_, ?_⟩
  · refine List.Nodup.append n1 n2 ?_
    intro c hc1 hc2
    exact ((e2 c).1 hc2).2.2 ((e1 c).1 hc1).2.1
  · intro c
    rw [List.mem_append, e1, e2]
    constructor
    · rintro (⟨hf, hs, hn⟩ | ⟨hf, hs, hn⟩)
      · exact ⟨hf, hs2 c hs, hn⟩
      · exact ⟨hf, hs, fun h => hn (hs1 c h)⟩
    · rintro ⟨hf, hs, hn⟩
      by_cases h : seen g.Width v1 c
      · exact Or.inl ⟨hf, h, hn⟩
      · exact Or.inr ⟨hf, hs, h⟩
  · rw [k2, k1, List.length_append]
    push_cast
    ring
  · intro c hf hs hn
    by_cases h : seen g.Width v1 c
    · obtain ⟨⟨s, hsA, hsf, hsr⟩, hb⟩ := d1 c hf h hn
      exact ⟨⟨s, List.mem_append_left _ hsA, hsf, hsr⟩, fun b hb1 hb2 => hs2 b (hb b hb1 hb2)⟩
    · obtain ⟨⟨s, hsB, hsf, hsr⟩, hb⟩ := d2 c hf hs h
      exact ⟨⟨s, List.mem_append_right _ hsB, hsf, hsr⟩, hb⟩
  · intro s hs hin
    rcases List.mem_append.mp hs with h | h
    · exact hs2 s (f1 s h hin)
    · exact f2 s h hin

/-- A run of calls over a list of positions, given what one call does. -/
theorem visitAll_spec (g : Game)
    (f : Int → Int → Int → (Int → Bool) → Option (Int × (Int → Bool))) (bound : Nat)
    (hf : ∀ x y c v, unseenCount g.Width g.Height v < bound →
      ∃ c1 v1, f x y c v = some (c1, v1) ∧ floodSpec g [(x, y)] c v c1 v1)
    (roots : List (Int × Int)) :
    ∀ c v, unseenCount g.Width g.Height v < bound →
      ∃ c1 v1, visitAll f roots c v = some (c1, v1) ∧ floodSpec g roots c v c1 v1 := by
  induction roots with
  | nil => intro c v _; exact ⟨c, v, rfl, floodSpec_nil g c v⟩
  | cons r rs ih =>
    intro c v hb
    obtain ⟨c1, v1, e1, s1⟩ := hf r.1 r.2 c v hb
    obtain ⟨c2, v2, e2, s2⟩ := ih c1 v1
      (lt_of_le_of_lt (unseenCount_mono _ _ _ _ s1.1) hb)
    refine ⟨c2, v2, by simp only [visitAll, e1, e2], ?_⟩
    exact floodSpec_append g [(r.1, r.2)] rs c c1 c2 v v1 v2 s1 s2

/-- One call of `freeSpaceConnectedInternal` without cutoff, with more fuel
than there are unmarked cells: it returns, and it marks and counts the empty
cells that are linked to its position by unmarked empty cells. -/
theorem internal_spec (g : Game) (fuel : Nat) :
    ∀ x y c v, unseenCount g.Width g.Height v < fuel →
      ∃ c1 v1, freeSpaceConnectedInternal g.Width g.Height g.Cells (-1) fuel x y c v =
          some (c1, v1) ∧ floodSpec g [(x, y)] c v c1 v1 := by
  induction fuel with
  | zero => intro x y c v h; omega
  | succ fuel ih =>
    intro x y c v hb
    unfold freeSpaceConnectedInternal
    rw [if_neg (by simp)]
    by_cases hout : x < 0 ∨ x ≥ g.Width ∨ y < 0 ∨ y ≥ g.Height
    · rw [if_pos hout]
      refine ⟨c, v, rfl, fun _ h => h, ⟨[], List.nodup_nil, fun c => ?_, by simp⟩,
        fun c _ h1 h2 => absurd h1 h2, fun s hs hin => ?_⟩
      · simp only [List.not_mem_nil, false_iff, not_and, not_not]
        exact fun _ h => h
      · rw [List.mem_singleton.mp hs, inGrid_iff] at hin
        omega
    · rw [if_neg hout]
      have hin : inGrid g.Width g.Height x y = true := by rw [inGrid_iff]; omega
      by_cases hvis : v (y * g.Width + x) = true
      · rw [if_pos hvis]
        refine ⟨c, v, rfl, fun _ h => h, ⟨[], List.nodup_nil, fun c => ?_, by simp⟩,
          fun c _ h1 h2 => absurd h1 h2, fun s hs _ => ?_⟩
        · simp only [List.not_mem_nil, false_iff, not_and, not_not]
          exact fun _ h => h
        · rw [List.mem_singleton.mp hs]
          exact hvis
      · rw [if_neg hvis]
        have hupd : ∀ a : Int × Int, inGrid g.Width g.Height a.1 a.2 = true →
            (seen g.Width (Function.update v (y * g.Width + x) true) a ↔
              seen g.Width v a ∨ a = (x, y)) :=
          fun a ha => seen_update g.Width g.Height v (x, y) a hin ha
        have hroot : seen g.Width (Function.update v (y * g.Width + x) true) (x, y) :=
          (hupd (x, y) hin).2 (Or.inr rfl)
        by_cases hocc : g.Cells y x ≠ 0
        · rw [if_pos hocc]
          refine ⟨c, _, rfl, update_mono v _, ⟨[], List.nodup_nil, fun a => ?_, by simp⟩,
            fun a hf h1 h2 => ?_, fun s hs _ => ?_⟩
          · simp only [List.not_mem_nil, false_iff, not_and, not_not]
            intro hf h1
            rcases (hupd a (freeCell_inGrid g a hf)).1 h1 with h | h
            · exact h
            · rw [h, freeCell_iff] at hf
              exact absurd hf.2 hocc
          · exfalso
            rcases (hupd a (freeCell_inGrid g a hf)).1 h1 with h | h
            · exact h2 h
            · rw [h, freeCell_iff] at hf
              exact hocc hf.2
          · rw [List.mem_singleton.mp hs]
            exact hroot
        · rw [if_neg hocc]
          have hfree : freeCell g (x, y) = true :=
            (freeCell_iff g (x, y)).2 ⟨hin, by simpa using hocc⟩
          have hlt := unseenCount_update g.Width g.Height v x y hin hvis
          obtain ⟨c1, v1, e1, m1, ⟨L, nd, mem, cnt⟩, d1, f1⟩ :=
            visitAll_spec g _ fuel ih (neighbours (x, y)) (c + 1)
              (Function.update v (y * g.Width + x) true) (by omega)
          refine ⟨c1, v1, e1, fun i h => m1 i (update_mono v _ i h),
            ⟨(x, y) :: L, ?_, ?_, ?_⟩, ?_, ?_⟩
          · refine List.nodup_cons.mpr ⟨fun h => ?_, nd⟩
            exact ((mem _).1 h).2.2 hroot
          · intro a
            rw [List.mem_cons, mem]
            constructor
            · rintro (h | ⟨hf, h1, h2⟩)
              · rw [h]
                exact ⟨hfree, m1 _ hroot, hvis⟩
              · exact ⟨hf, h1, fun h => h2 ((hupd a (freeCell_inGrid g a hf)).2 (Or.inl h))⟩
            · rintro ⟨hf, h1, h2⟩
              by_cases ha : a = (x, y)
              · exact Or.inl ha
              · refine Or.inr ⟨hf, h1, fun h => ?_⟩
                rcases (hupd a (freeCell_inGrid g a hf)).1 h with h3 | h3
                · exact h2 h3
                · exact ha h3
          · rw [cnt, List.length_cons]
            push_cast
            ring
          · intro a hf h1 h2
            by_cases ha : a = (x, y)
            · subst ha
              exact ⟨⟨(x, y), List.mem_singleton_self _, hfree, Relation.ReflTransGen.refl⟩,
                fun b hb hbin => f1 b hb hbin⟩
            · have h3 : ¬ seen g.Width (Function.update v (y * g.Width + x) true) a := by
                intro h
                rcases (hupd a (freeCell_inGrid g a hf)).1 h with h4 | h4
                · exact h2 h4
                · exact ha h4
              obtain ⟨⟨s, hs, hsf, hsr⟩, hb⟩ := d1 a hf h1 h3
              exact ⟨⟨(x, y), List.mem_singleton_self _, hfree,
                Relation.ReflTransGen.head ⟨hsf, hs⟩ hsr⟩, hb⟩
          · intro s hs _
            rw [List.mem_singleton.mp hs]
            exact m1 _ hroot

theorem visitAll_mono (f : Int → Int → Int → (Int → Bool) → Option (Int × (Int → Bool)))
    (hf : ∀ x y c v c1 v1, f x y c v = some (c1, v1) → c ≤ c1) (roots : List (Int × Int)) :
    ∀ c v c1 v1, visitAll f roots c v = some (c1, v1) → c ≤ c1 := by
  induction roots with
  | nil =>
    intro c v c1 v1 h
    simp only [visitAll, Option.some.injEq, Prod.mk.injEq] at h
    omega
  | cons r rs ih =>
    intro c v c1 v1 h
    simp only [visitAll] at h
    cases hr : f r.1 r.2 c v with
    | none => rw [hr] at h; simp at h
    | some res =>
      obtain ⟨ca, va⟩ := res
      rw [hr] at h
      exact le_trans (hf _ _ _ _ _ _ hr) (ih _ _ _ _ h)

/-- The value returned is never below the counter passed in. -/
theorem internal_mono (W H : Int) (cells : Int → Int → Int) (cutoff : Int) (fuel : Nat) :
    ∀ x y c v c1 v1,
      freeSpaceConnectedInternal W H cells cutoff fuel x y c v = some (c1, v1) → c ≤ c1 := by
  induction fuel with
  | zero => intro x y c v c1 v1 h; simp [freeSpaceConnectedInternal] at h
  | succ fuel ih =>
    intro x y c v c1 v1 h
    unfold freeSpaceConnectedInternal at h
    split_ifs at h
    · simp only [Option.some.injEq, Prod.mk.injEq] at h; omega
    · simp only [Option.some.injEq, Prod.mk.injEq] at h; omega
    · simp only [Option.some.injEq, Prod.mk.injEq] at h; omega
    · simp only [Option.some.injEq, Prod.mk.injEq] at h; omega
    · have := visitAll_mono _ ih _ _ _ _ _ h
      omega

/-- Above the cutoff a call returns at once. -/
theorem internal_saturated (W H : Int) (cells : Int → Int → Int) (k : Int) (hk : 0 ≤ k)
    (fuel : Nat) (x y c : Int) (v : Int → Bool) (hc : c > k) :
    freeSpaceConnectedInternal W H cells k (fuel + 1) x y c v = some (c, v) := by
  unfold freeSpaceConnectedInternal
  rw [if_pos ⟨by omega, hc⟩]

theorem visitAll_saturated
    (fu fc : Int → Int → Int → (Int → Bool) → Option (Int × (Int → Bool))) (k : Int)
    (hsat : ∀ x y c v c1 v1 c2 v2, fu x y c v = some (c1, v1) → c2 > k →
      fc x y c2 v2 = some (c2, v2))
    (roots : List (Int × Int)) :
    ∀ c v c1 v1 c2 v2, visitAll fu roots c v = some (c1, v1) → c2 > k →
      visitAll fc roots c2 v2 = some (c2, v2) := by
  induction roots with
  | nil => intro c v c1 v1 c2 v2 _ _; rfl
  | cons r rs ih =>
    intro c v c1 v1 c2 v2 h hc
    simp only [visitAll] at h ⊢
    cases hr : fu r.1 r.2 c v with
    | none => rw [hr] at h; simp at h
    | some res =>
      obtain ⟨ca, va⟩ := res
      rw [hr] at h
      rw [hsat _ _ _ _ _ _ c2 v2 hr hc]
      exact ih _ _ _ _ c2 v2 h hc

/-- A run of calls with the cutoff `k` against the same run without cutoff:
either the two runs agree and the counter has not passed `k`, or the run with
cutoff has stopped counting at `k + 1` and the run without has counted at
least as far. -/
theorem visitAll_sim
    (fu fc : Int → Int → Int → (Int → Bool) → Option (Int × (Int → Bool))) (k : Int)
    (hmono : ∀ x y c v c1 v1, fu x y c v = some (c1, v1) → c ≤ c1)
    (hsat : ∀ x y c v c1 v1 c2 v2, fu x y c v = some (c1, v1) → c2 > k →
      fc x y c2 v2 = some (c2, v2))
    (hsim : ∀ x y c v c1 v1, fu x y c v = some (c1, v1) → c ≤ k →
      ∃ c2 v2, fc x y c v = some (c2, v2) ∧
        ((c2 = c1 ∧ v2 = v1 ∧ c1 ≤ k) ∨ (c2 = k + 1 ∧ k + 1 ≤ c1)))
    (roots : List (Int × Int)) :
    ∀ c v c1 v1, visitAll fu roots c v = some (c1, v1) → c ≤ k →
      ∃ c2 v2, visitAll fc roots c v = some (c2, v2) ∧
        ((c2 = c1 ∧ v2 = v1 ∧ c1 ≤ k) ∨ (c2 = k + 1 ∧ k + 1 ≤ c1)) := by
  induction roots with
  | nil =>
    intro c v c1 v1 h hc
    simp only [visitAll, Option.some.injEq, Prod.mk.injEq] at h
    exact ⟨c, v, rfl, Or.inl ⟨h.1, h.2, by omega⟩⟩
  | cons r rs ih =>
    intro c v c1 v1 h hc
    simp only [visitAll] at h ⊢
    cases hr : fu r.1 r.2 c v with
    | none => rw [hr] at h; simp at h
    | some res =>
      obtain ⟨ca, va⟩ := res
      rw [hr] at h
      simp only at h
      obtain ⟨c2, v2, e2, hcase⟩ := hsim _ _ _ _ _ _ hr hc
      rw [e2]
      simp only
      rcases hcase with ⟨h1, h2, h3⟩ | ⟨h1, h2⟩
      · rw [h1, h2]
        exact ih _ _ _ _ h h3
      · refine ⟨c2, v2, visitAll_saturated fu fc k hsat rs _ _ _ _ c2 v2 h (by omega),
          Or.inr ⟨h1, ?_⟩⟩
        have := visitAll_mono fu hmono rs _ _ _ _ h
        omega

/-- One call with the cutoff `k` against the same call without cutoff. -/
theorem internal_sim (W H : Int) (cells : Int → Int → Int) (k : Int) (hk : 0 ≤ k)
    (fuel : Nat) :
    ∀ x y c v c1 v1,
      freeSpaceConnectedInternal W H cells (-1) fuel x y c v = some (c1, v1) → c ≤ k →
      ∃ c2 v2, freeSpaceConnectedInternal W H cells k fuel x y c v = some (c2, v2) ∧
        ((c2 = c1 ∧ v2 = v1 ∧ c1 ≤ k) ∨ (c2 = k + 1 ∧ k + 1 ≤ c1)) := by
  induction fuel with
  | zero => intro x y c v c1 v1 h; simp [freeSpaceConnectedInternal] at h
  | succ fuel ih =>
    intro x y c v c1 v1 h hc
    have hsat : ∀ x y c v c1 v1 c2 v2,
        freeSpaceConnectedInternal W H cells (-1) fuel x y c v = some (c1, v1) → c2 > k →
        freeSpaceConnectedInternal W H cells k fuel x y c2 v2 = some (c2, v2) := by
      intro x y c v c1 v1 c2 v2 h1 h2
      cases fuel with
      | zero => simp [freeSpaceConnectedInternal] at h1
      | succ f => exact internal_saturated W H cells k hk f x y c2 v2 h2
    unfold freeSpaceConnectedInternal at h ⊢
    rw [if_neg (by simp)] at h
    rw [if_neg (by omega)]
    split_ifs at h ⊢
    · simp only [Option.some.injEq, Prod.mk.injEq] at h
      exact ⟨c, v, rfl, Or.inl ⟨h.1, h.2, by omega⟩⟩
    · simp only [Option.some.injEq, Prod.mk.injEq] at h
      exact ⟨c, v, rfl, Or.inl ⟨h.1, h.2, by omega⟩⟩
    · simp only [Option.some.injEq, Prod.mk.injEq] at h
      exact ⟨c, _, rfl, Or.inl ⟨h.1, h.2, by omega⟩⟩
    · by_cases hck : c + 1 ≤ k
      · exact visitAll_sim _ _ k (internal_mono W H cells (-1) fuel) hsat ih _ _ _ _ _ h hck
      · refine ⟨c + 1, _, visitAll_saturated _ _ k hsat _ _ _ _ _ _ _ h (by omega),
          Or.inr ⟨by omega, ?_⟩⟩
        have := visitAll_mono _ (internal_mono W H cells (-1) fuel) _ _ _ _ _ h
        omega

/-- The cells counted by a run from an empty slice over the position and its
neighbours are the empty cells connected to them. -/
theorem floodSpec_connected (g : Game) (x y c1 : Int) (v1 : Int → Bool)
    (h : floodSpec g ((x, y) :: neighbours (x, y)) 0 (fun _ => false) c1 v1)
    (c : Int × Int) :
    (freeCell g c = true ∧ seen g.Width v1 c ∧ ¬ seen g.Width (fun _ => false) c) ↔
      connectedFree g x y c := by
  obtain ⟨_, _, d, f⟩ := h
  have hnot : ∀ a, ¬ seen g.Width (fun _ => false) a := fun a ha => by
    simp [seen] at ha
  constructor
  · rintro ⟨hf, hs, hn⟩
    exact (d c hf hs hn).1
  · rintro ⟨s, hs, hsf, hsr⟩
    refine ⟨?_, ?_, hnot c⟩
    · cases hsr.cases_tail with
      | inl h => rw [h]; exact hsf
      | inr h =>
        obtain ⟨b, _, hbc⟩ := h
        exact hbc.1
    · induction hsr with
      | refl => exact f s hs (freeCell_inGrid g s hsf)
      | tail hab hbc ih =>
        rename_i a b
        have hfa : freeCell g a = true := by
          cases hab.cases_tail with
          | inl h => rw [h]; exact hsf
          | inr h =>
            obtain ⟨b1, _, hb1⟩ := h
            exact hb1.1
        exact (d a hfa ih (hnot a)).2 b hbc.2 (freeCell_inGrid g b hbc.1)

theorem internal_saturated_of (W H : Int) (cells : Int → Int → Int) (k : Int) (hk : 0 ≤ k)
    (fuel : Nat) : ∀ x y c v c1 v1 c2 v2,
      freeSpaceConnectedInternal W H cells (-1) fuel x y c v = some (c1, v1) → c2 > k →
      freeSpaceConnectedInternal W H cells k fuel x y c2 v2 = some (c2, v2) := by
  intro x y c v c1 v1 c2 v2 h1 h2
  cases fuel with
  | zero => simp [freeSpaceConnectedInternal] at h1
  | succ f => exact internal_saturated W H cells k hk f x y c2 v2 h2

/-- The run of `freeSpaceConnected` without cutoff, with more fuel than the
grid has cells. -/
theorem freeSpace_run (g : Game) (x y : Int) (fuel : Nat)
    (hfuel : g.Width.toNat * g.Height.toNat < fuel) :
    ∃ c1 v1,
      visitAll (freeSpaceConnectedInternal g.Width g.Height g.Cells (-1) fuel)
        ((x, y) :: neighbours (x, y)) 0 (fun _ => false) = some (c1, v1) ∧
      floodSpec g ((x, y) :: neighbours (x, y)) 0 (fun _ => false) c1 v1 := by
  apply visitAll_spec g _ fuel (internal_spec g fuel)
  refine lt_of_le_of_lt ?_ hfuel
  unfold unseenCount
  have := List.countP_le_length (fun c : Int × Int => !(fun _ : Int => false) (c.2 * g.Width + c.1))
    (l := gridCells g.Width g.Height)
  rw [gridCells_length, Nat.mul_comm] at this
  exact this

/-- C34: for every game with a width and a height that are not negative and
every position `(x, y)` there is a list `L` without repetition that holds
exactly the empty cells 4-connected through empty cells to `(x, y)` or to one
of its four neighbours, and with more fuel than the grid has cells (the
recursion ends) `freeSpaceConnected(x, y, -1, g)` returns the length `N` of
`L` and `freeSpaceConnected(x, y, cutoff, g)` returns `min(N, cutoff+1)` for
every `cutoff >= 0`.  The function only reads the game. -/
theorem flood_fill_counts (g : Game) (hW : 0 ≤ g.Width) (hH : 0 ≤ g.Height) (x y : Int) :
    ∃ L : List (Int × Int), L.Nodup ∧ (∀ c, c ∈ L ↔ connectedFree g x y c) ∧
      ∀ fuel, g.Width.toNat * g.Height.toNat < fuel →
        JumpingLargestFreeAI.freeSpaceConnected fuel x y (-1) g = some (L.length : Int) ∧
        ∀ cutoff, 0 ≤ cutoff →
          JumpingLargestFreeAI.freeSpaceConnected fuel x y cutoff g =
            some (min (L.length : Int) (cutoff + 1)) := by
  obtain ⟨c0, v0, _, s0⟩ := freeSpace_run g x y (g.Width.toNat * g.Height.toNat + 1)
    (Nat.lt_succ_self _)
  obtain ⟨L0, nd0, mem0, _⟩ := s0.2.1
  have hmem0 : ∀ c, c ∈ L0 ↔ connectedFree g x y c := fun c => by
    rw [mem0, floodSpec_connected g x y c0 v0 s0]
  refine ⟨L0, nd0, hmem0, fun fuel hfuel => ?_⟩
  obtain ⟨c1, v1, e1, s1⟩ := freeSpace_run g x y fuel hfuel
  obtain ⟨L1, nd1, mem1, cnt1⟩ := s1.2.1
  have hlen : L1.length = L0.length := by
    apply List.Perm.length_eq
    apply (List.perm_ext_iff_of_nodup nd1 nd0).2
    intro c
    rw [mem1, floodSpec_connected g x y c1 v1 s1, hmem0]
  have hc1 : c1 = (L0.length : Int) := by rw [cnt1, hlen]; simp
  have hneg : ¬ g.Height * g.Width < 0 := not_lt.mpr (mul_nonneg hH hW)
  constructor
  · unfold JumpingLargestFreeAI.freeSpaceConnected
    rw [if_neg hneg, e1, ← hc1]
    rfl
  · intro k hk
    obtain ⟨c2, v2, e2, hcase⟩ := visitAll_sim
      (freeSpaceConnectedInternal g.Width g.Height g.Cells (-1) fuel)
      (freeSpaceConnectedInternal g.Width g.Height g.Cells k fuel) k
      (internal_mono _ _ _ _ fuel) (internal_saturated_of _ _ _ k hk fuel)
      (internal_sim _ _ _ k hk fuel) _ _ _ _ _ e1 hk
    unfold JumpingLargestFreeAI.freeSpaceConnected
    rw [if_neg hneg, e2, ← hc1]
    simp only [Option.map_some', Option.some.injEq]
    rcases hcase with ⟨h1, _, h3⟩ | ⟨h1, h2⟩
    · rw [h1]; omega
    · rw [h1]; omega

/-- In `wallGame` five empty cells lie on the side of the bot: from (0,0)
`freeSpaceConnected` counts 5 without cutoff, 3 with the cutoff 2 and 5 with
the cutoff 51 that `GetState` passes. -/
theorem flood_fill_counts_witness :
    (∃ L : List (Int × Int), L.Nodup ∧ (∀ c, c ∈ L ↔ connectedFree wallGame 0 0 c) ∧
      ∀ fuel, wallGame.Width.toNat * wallGame.Height.toNat < fuel →
        JumpingLargestFreeAI.freeSpaceConnected fuel 0 0 (-1) wallGame =
          some (L.length : Int) ∧
        ∀ cutoff, 0 ≤ cutoff →
          JumpingLargestFreeAI.freeSpaceConnected fuel 0 0 cutoff wallGame =
            some (min (L.length : Int) (cutoff + 1))) ∧
    JumpingLargestFreeAI.freeSpaceConnected 13 0 0 (-1) wallGame = some 5 ∧
    JumpingLargestFreeAI.freeSpaceConnected 13 0 0 2 wallGame = some 3 ∧
    JumpingLargestFreeAI.freeSpaceConnected 13 0 0 51 wallGame = some 5 :=
  ⟨flood_fill_counts wallGame (by decide) (by decide) 0 0, by decide!, by decide!, by decide!⟩

/-! ## The block for an own speed above 1: the check under "Check turn_left" -/

/-- The block is the same text in the two dispatchers: where it is reached,
`MetaAI.GetState` and `JumpingLargestFreeAI.GetState` send the action of
`speedBlock`.  `MetaAI` reaches it with no sub-policy selected,
`JumpingLargestFreeAI` when the recipient is active and the flood fill counts
at least `JumpingLargestFreeAIJumpAtLessThanFree` cells. -/
theorem speedBlock_shared (g : Game) (p : Player) (hp : g.Players g.You = some p)
    (hr : g.Running = true) (hs : p.Speed > 1) :
    MetaAI.GetState true false g = some (some (speedBlock g p)) ∧
    ∀ fuel free, p.Active = true →
      JumpingLargestFreeAI.freeSpaceConnected fuel p.X p.Y
        (JumpingLargestFreeAIJumpAtLessThanFree + 1) g = some free →
      ¬ free < JumpingLargestFreeAIJumpAtLessThanFree →
      JumpingLargestFreeAI.GetState true fuel g = some (some (speedBlock g p)) := by
  constructor
  · simp [MetaAI.GetState, hr, hp, hs]
  · intro fuel free ha hf hfree
    unfold JumpingLargestFreeAI.GetState
    simp [hr, hp, ha, hf, hfree, hs]

/-- C18 fails on the code: the check under the comment "Check turn_left"
walks the cells on the side the engine's `turn_right` leads to.  The game
`turnTrap` is shown to a `JumpingLargestFreeAI` whose player is active at
(5,5), facing up with speed 2, on a 40x41 grid: the flood fill with the cutoff
51 counts 52 cells, not less than 50, so the branch for a speed above 1 is
taken; the deceleration check fails (the cell (5,4) ahead is not empty), the
check for `turn_left` walks (6,5) and (7,5) and succeeds, and `GetState` sends
`turn_left`; the engine turns the bot to the left, its first step enters the
cell (4,5), which is not empty, and after the round the bot is inactive on
(3,5) and the cell (4,5) holds -1. -/
theorem override_turn_unsafe :
    turnTrap.Players turnTrap.You = some ⟨5, 5, .up, 2, true, 2, false⟩ ∧
    JumpingLargestFreeAI.freeSpaceConnected 1641 5 5 51 turnTrap = some 52 ∧
    JumpingLargestFreeAI.GetState true 1641 turnTrap = some (some ActionTurnLeft) ∧
    checkLoop turnTrap (dostep .up) 1 5 5 = false ∧
    checkLoop turnTrap (checkLeftStep .up) 2 5 5 = true ∧
    TurnLeft .up = .left ∧ dostep .left 5 5 = (4, 5) ∧ turnTrap.Cells 5 4 = 2 ∧
    (checkCrashes [1, 2] (doMovement [1, 2] (processActions [1, 2] turnTrapRound))).map
        (fun r => (r.Players 1, r.Cells 5 4)) =
      some (some ⟨3, 5, .left, 2, false, 3, false⟩, -1) := by
  refine ⟨?_, ?_, ?_, ?_, ?_, ?_, ?_, ?_, ?_⟩ <;> decide!

end SpeEd
